import Mathlib

/-!
# dazukofs: the multi-group access-arbitration engine

A shallow embedding of `src/event.c` (with the pieces of `src/ign_dev.c` and
`src/dev.h` it uses), of the open, release, read and write of the group devices
(`src/group_dev.c`) and of the read and write of the control device
(`src/ctrl_dev.c`), and theorems about them.

Modelling conventions.

* Kernel objects that the C code reaches through pointers live in explicit
  stores.  Events live in `State.events`; the address of an event is its index
  in that list.  `kmem_cache_zalloc` returns the next index, so an address is
  never handed out twice, and `kmem_cache_free` appends the address to
  `State.freed`.
* Intrusive `list_head` lists are Lean lists, head first.  `list_add_tail`
  appends, `list_add` conses, `list_for_each ... break` is `list_find`.
* Every exported function runs atomically (the locks are not modelled).  The
  two blocking calls are cut at their wait: `dazukofs_check_access` stops at
  `wait_event` and is continued by `dazukofs_check_access_resume`;
  `dazukofs_get_event` on an empty todo list reports `blocked`.
* `dazukofs_check_access` and `dazukofs_get_event` give up their locks inside
  the call.  As single steps they are the calls during which no other call
  runs; their lock regions are also given one by one (`check_access_allocate`,
  `check_access_assign`, `get_event_enter`, `get_event_round`,
  `get_event_leave`), so that a call of another process can be placed between
  two regions.
* Results of the environment (allocation success, the descriptor returned by
  `get_unused_fd`, the result of `dentry_open`, a pending signal) are explicit
  parameters.
* `int` fields are `Int`.  `last_event_id++` wraps at 32 bits (`int_wrap`) and
  its store into the `unsigned long event_id` is `ulong_of_int`.
* A pointer that is not in a store reads as a zero-filled object and a release
  through it does nothing.  In reachable states no linked container holds such
  a pointer (`reachable_cinv`).
* The buffer of a control write is a list of characters; a C string in it
  ends at the first NUL.  What lies behind the copied characters and their
  terminator is a parameter (`beyond`).
* The formats of `snprintf` are expanded by hand (`fmt_lu`, `fmt_d`); sizes and
  file positions are natural numbers or integers without wrap.  A device read
  returns, next to its return value, the characters it copied to the user.
-/

namespace Dazukofs

/-! ## Constants -/

/-- Constant `#define GROUP_COUNT 10` (src/dev.h:27). -/
def GROUP_COUNT : Int := 10

def EPERM : Int := 1
def ENOMEM : Int := 12
def EINVAL : Int := 22
def ERESTARTSYS : Int := 512

/-- Two's-complement wrap of a C `int`. -/
def int_wrap (x : Int) : Int := (x + 2147483648) % 4294967296 - 2147483648

/-- Conversion of a C `int` to `unsigned long` (64 bit). -/
def ulong_of_int (x : Int) : Nat := (x % 18446744073709551616).toNat

/-! ## Data model (src/event.c:36-96, src/event.h:26-30) -/

/-- Verdicts, `dazukofs_response_t`. -/
inductive dazukofs_response_t where
  | ALLOW
  | DENY
  | REPOST
  deriving DecidableEq, Repr

/-- The `struct dazukofs_proc` of src/event.c:36-40, which `open_file` keeps on
its stack and links into the recursion mask `proc_list`. -/
structure dazukofs_proc where
  proc_id : Nat
  within_list : Int
  deriving DecidableEq, Repr

/-- The arbitration object `struct dazukofs_event`; `mnt`, the wait queue and
the mutex are not modelled. -/
structure dazukofs_event where
  event_id : Nat
  dentry : Nat
  proc_id : Nat
  deny : Int
  deprecated : Int
  assigned : Int
  deriving DecidableEq, Repr

/-- A container, `struct dazukofs_event_container`: `event` is the address of
its event; `file` is not modelled. -/
structure dazukofs_event_container where
  event : Nat
  fd : Int
  deriving DecidableEq, Repr

/-- A group, `struct dazukofs_group`.  `name_length` is `name.length`. -/
structure dazukofs_group where
  name : String
  group_id : Nat
  todo_list : List dazukofs_event_container
  working_list : List dazukofs_event_container
  use_count : Int
  tracking : Int
  track_count : Int
  deprecated : Int
  deriving DecidableEq, Repr

/-- The global variables of `event.c` (`group_list`, `group_count`,
`last_event_id`, `proc_list`) and of `ign_dev.c` (`ign_list`, as the list of
the registered process ids), the stores of the events and of the `proc`
structures (`proc_list` holds addresses into `procs`), the addresses of the
freed events, and the events whose initiator is blocked in `wait_event`. -/
structure State where
  group_list : List dazukofs_group
  group_count : Int
  last_event_id : Int
  proc_list : List Nat
  ign_list : List Nat
  events : List dazukofs_event
  procs : List dazukofs_proc
  freed : List Nat
  waiters : List Nat

/-- The state after `dazukofs_init_events`. -/
def init : State :=
  { group_list := [], group_count := 0, last_event_id := 0, proc_list := [],
    ign_list := [], events := [], procs := [], freed := [], waiters := [] }

/-- A zero-filled event, as returned by `kmem_cache_zalloc`. -/
def zero_event : dazukofs_event :=
  { event_id := 0, dentry := 0, proc_id := 0, deny := 0, deprecated := 0, assigned := 0 }

/-- A zero-filled container.  Its `event` field is overwritten by
`assign_event_to_groups` before the container is linked anywhere. -/
def zero_container : dazukofs_event_container := { event := 0, fd := 0 }

/-- Dereference of an event pointer. -/
def evt_at (s : State) (e : Nat) : dazukofs_event := (s.events[e]?).getD zero_event

/-- Dereference of a pointer to a `proc` structure. -/
def proc_at (s : State) (a : Nat) : dazukofs_proc :=
  (s.procs[a]?).getD { proc_id := 0, within_list := 0 }

/-- The loop idiom `list_for_each(...) { if (p) { ...; break; } }`: the
nodes before the first hit, the hit, and the nodes after it. -/
def list_find {α : Type} (p : α → Bool) : List α → Option (List α × α × List α)
  | [] => none
  | x :: xs =>
    if p x then some ([], x, xs)
    else
      match list_find p xs with
      | none => none
      | some (pre, y, post) => some (x :: pre, y, post)

/-- The lookup shared by the group-facing calls:
`!grp->deprecated && grp->group_id == group_id`. -/
def is_group (group_id : Nat) (g : dazukofs_group) : Bool :=
  decide (g.deprecated = 0) && decide (g.group_id = group_id)

/-- The test of `dazukofs_remove_group`:
`!grp->deprecated && strcmp(name, grp->name) == 0`. -/
def is_named (name : String) (g : dazukofs_group) : Bool :=
  decide (g.deprecated = 0) && decide (name = g.name)

/-! ## release_event and group removal (src/event.c:177-260) -/

/-- The locked part of `release_event` (src/event.c:177-200): the updated
event and the local `free_event`. -/
def release_event (evt : dazukofs_event) (decrement_assigned deny : Int) :
    dazukofs_event × Int :=
  let evt1 := if deny ≠ 0 then { evt with deny := Int.lor evt.deny 1 } else evt
  if decrement_assigned ≠ 0 then
    let evt2 := { evt1 with assigned := evt1.assigned - 1 }
    if evt2.assigned = 0 then
      if evt2.deprecated = 0 then (evt2, 0) else (evt2, 1)
    else (evt2, 0)
  else
    if evt1.assigned = 0 then (evt1, 1)
    else ({ evt1 with deprecated := 1 }, 0)

/-- Function `release_event` on the event at address `e`, including the
`kmem_cache_free` of src/event.c:202-207. -/
def release_event_at (e : Nat) (decrement_assigned deny : Int) (s : State) : State :=
  if e < s.events.length then
    let r := release_event (evt_at s e) decrement_assigned deny
    { s with events := s.events.set e r.1,
             freed := if r.2 ≠ 0 then s.freed ++ [e] else s.freed }
  else s

/-- Function `__clear_group_event_list` (src/event.c:220-234): every container of the
list is unlinked and its event released with `decrement_assigned = 1,
deny = 0`.  The caller stores the empty list. -/
def __clear_group_event_list (event_list : List dazukofs_event_container) (s : State) :
    State :=
  event_list.foldl (fun st ec => release_event_at ec.event 1 0 st) s

/-- Function `__remove_group` (src/event.c:249-260): the group as it is left, and the
state (the caller writes the group back into `group_list`). -/
def __remove_group (grp : dazukofs_group) (s : State) : dazukofs_group × State :=
  let s1 := { s with group_count := s.group_count - 1 }
  let s2 := __clear_group_event_list grp.working_list s1
  let s3 := __clear_group_event_list grp.todo_list s2
  ({ grp with deprecated := 1, working_list := [], todo_list := [] }, s3)

/-! ## The group registry (src/event.c:323-501) -/

/-- The loop of `__check_for_group` (src/event.c:333-353): the list after the
reaping of unused deprecated groups, `*already_exists` and `id_available`. -/
def check_for_group_loop (name : String) (id : Nat) (track : Int) :
    List dazukofs_group → List dazukofs_group × Int × Int
  | [] => ([], 0, 1)
  | grp :: rest =>
    if grp.deprecated ≠ 0 then
      if grp.use_count = 0 then check_for_group_loop name id track rest
      else
        let r := check_for_group_loop name id track rest
        (grp :: r.1, r.2.1, r.2.2)
    else if name = grp.name then
      ((if track ≠ 0 then { grp with tracking := 1 } else grp) :: rest, 1, 1)
    else if grp.group_id = id then (grp :: rest, 0, 0)
    else
      let r := check_for_group_loop name id track rest
      (grp :: r.1, r.2.1, r.2.2)

/-- Function `__check_for_group` (src/event.c:323-364): the new group list,
`*already_exists` and the return value. -/
def __check_for_group (name : String) (id : Nat) (track : Int)
    (gl : List dazukofs_group) : List dazukofs_group × Int × Int :=
  let r := check_for_group_loop name id track gl
  if r.2.1 ≠ 0 then (r.1, r.2.1, 0)
  else if r.2.2 ≠ 0 then (r.1, r.2.1, 0)
  else (r.1, r.2.1, -1)

/-- Function `__create_group` (src/event.c:379-403); `none` is the `NULL` returned
when an allocation fails. -/
def __create_group (alloc_ok : Bool) (name : String) (id : Nat) (track : Int) :
    Option dazukofs_group :=
  if alloc_ok then
    some { name := name, group_id := id, todo_list := [], working_list := [],
           use_count := 0, tracking := if track ≠ 0 then 1 else 0, track_count := 0,
           deprecated := 0 }
  else none

/-- The `while` loop of `dazukofs_add_group` (src/event.c:430-434), bounded by
`fuel` iterations: the group list, `already_exists` and `available_id` when the
loop exits.  `available_id` is counted in `Nat`; the loop leaves after at most
one iteration per non-deprecated group, far below the range of `int`. -/
def add_group_loop (name : String) (track : Int) :
    Nat → Nat → List dazukofs_group → Option (List dazukofs_group × Int × Nat)
  | 0, _, _ => none
  | fuel + 1, available_id, gl =>
    let r := __check_for_group name available_id track gl
    if r.2.2 ≠ 0 then add_group_loop name track fuel (available_id + 1) r.1
    else some (r.1, r.2.1, available_id)

/-- Function `dazukofs_add_group` (src/event.c:420-462).  The search loop gets
`group_list.length + 1` iterations of fuel; `none` would mean that it did not
finish within them (`add_group_total` shows that this never happens). -/
def dazukofs_add_group (alloc_ok : Bool) (name : String) (track : Int) (s : State) :
    Option (State × Int) :=
  match add_group_loop name track (s.group_list.length + 1) 0 s.group_list with
  | none => none
  | some (gl, already_exists, available_id) =>
    let s1 := { s with group_list := gl }
    if already_exists ≠ 0 then some (s1, 0)
    else if s1.group_count = GROUP_COUNT then some (s1, -EPERM)
    else
      match __create_group alloc_ok name available_id track with
      | none => some (s1, -ENOMEM)
      | some grp =>
        some ({ s1 with group_list := s1.group_list ++ [grp],
                        group_count := s1.group_count + 1 }, 0)

/-- Function `dazukofs_remove_group` (src/event.c:477-501). -/
def dazukofs_remove_group (name : String) (s : State) : State × Int :=
  if s.group_count = 0 then (s, 0)
  else
    match list_find (is_named name) s.group_list with
    | none => (s, 0)
    | some (pre, grp, post) =>
      let r := __remove_group grp s
      ({ r.2 with group_list := pre ++ r.1 :: post }, 0)

/-! ## Recursion mask and ignore registry (src/event.c:572-596, 974-981, src/ign_dev.c:40-107) -/

/-- Function `check_recursion` (src/event.c:572-596) for the process `cur`: the first
entry of `proc_list` that belongs to `cur` is unlinked and its `within_list`
cleared.  Returns 0 when the call is a recursion. -/
def check_recursion (cur : Nat) (s : State) : State × Int :=
  match list_find (fun a => decide ((proc_at s a).proc_id = cur)) s.proc_list with
  | some (pre, a, post) =>
    let proc := { proc_at s a with within_list := 0 }
    ({ s with proc_list := pre ++ post, procs := s.procs.set a proc }, 0)
  | none => (s, 1)

/-- Function `mask_proc` (src/event.c:974-981) for the process `cur`: the state and the
address of the `proc` structure, which is a fresh one at every call. -/
def mask_proc (cur : Nat) (s : State) : State × Nat :=
  let a := s.procs.length
  ({ s with procs := s.procs ++ [{ proc_id := cur, within_list := 1 }],
            proc_list := a :: s.proc_list }, a)

/-- Function `dazukofs_check_ignore_process` (src/ign_dev.c:40-60): 0 when `cur` is in
the ignore list. -/
def dazukofs_check_ignore_process (cur : Nat) (s : State) : Int :=
  match list_find (fun p => decide (p = cur)) s.ign_list with
  | some _ => 0
  | none => 1

/-- Function `dazukofs_add_ign` (src/ign_dev.c:62-79) for the opening process `cur`. -/
def dazukofs_add_ign (alloc_ok : Bool) (cur : Nat) (s : State) : State × Int :=
  if alloc_ok then ({ s with ign_list := cur :: s.ign_list }, 0) else (s, -ENOMEM)

/-- Function `dazukofs_remove_ign` (src/ign_dev.c:81-107) for a file whose
`private_data` holds the process `pid`. -/
def dazukofs_remove_ign (pid : Nat) (s : State) : State :=
  match list_find (fun p => decide (p = pid)) s.ign_list with
  | some (pre, _, post) => { s with ign_list := pre ++ post }
  | none => s

/-! ## Fan-out (src/event.c:608-784) -/

/-- Function `event_assigned` (src/event.c:608-615). -/
def event_assigned (s : State) (e : Nat) : Int := (evt_at s e).assigned

/-- Function `check_access_precheck` (src/event.c:626-641) for the process `cur`. -/
def check_access_precheck (cur : Nat) (grp_count : Int) (s : State) : State × Int :=
  if grp_count = 0 then (s, -1)
  else
    let r := check_recursion cur s
    if r.2 = 0 then (r.1, -1)
    else if dazukofs_check_ignore_process cur r.1 = 0 then (r.1, -1)
    else (r.1, 0)

/-- The container loop of `allocate_event_and_containers`
(src/event.c:717-722), from index `i` for `n` more rounds; allocation number
`ec_fail` (if any) returns `NULL`.  `none` is the jump to `error_out`. -/
def alloc_containers (ec_fail : Option Nat) :
    Nat → Nat → Option (List dazukofs_event_container)
  | _, 0 => some []
  | i, n + 1 =>
    if ec_fail = some i then none
    else
      match alloc_containers ec_fail (i + 1) n with
      | none => none
      | some ecs => some (zero_container :: ecs)

/-- Function `allocate_event_and_containers` (src/event.c:703-734).  `evt_ok` tells
whether the event allocation succeeds.  On success: the address of the new
event and `ec_array`.  On the `error_out` path the event that was allocated is
freed again. -/
def allocate_event_and_containers (evt_ok : Bool) (ec_fail : Option Nat) (grp_count : Int)
    (s : State) : State × Option (Nat × List dazukofs_event_container) × Int :=
  if evt_ok then
    let e := s.events.length
    let s1 := { s with events := s.events ++ [zero_event] }
    match alloc_containers ec_fail 0 grp_count.toNat with
    | some ec_array => (s1, some (e, ec_array), 0)
    | none => ({ s1 with freed := s1.freed ++ [e] }, none, -1)
  else (s, none, -1)

/-- The loop of `assign_event_to_groups` (src/event.c:670-686) from index `i`:
the groups with the containers linked and the number of `evt->assigned++`
performed.  `none` is a read of `ec_array` beyond the containers that were
allocated. -/
def assign_loop (e : Nat) (ec_array : List dazukofs_event_container) :
    Nat → List dazukofs_group → Option (List dazukofs_group × Int)
  | _, [] => some ([], 0)
  | i, grp :: rest =>
    if grp.deprecated = 0 then
      match ec_array[i]? with
      | none => none
      | some ec =>
        match assign_loop e ec_array (i + 1) rest with
        | none => none
        | some (gl, n) =>
          some ({ grp with todo_list := grp.todo_list ++ [{ ec with event := e }] } :: gl,
                n + 1)
    else
      match assign_loop e ec_array i rest with
      | none => none
      | some (gl, n) => some (grp :: gl, n)

/-- Function `assign_event_to_groups` (src/event.c:653-690) for the event at `e`. -/
def assign_event_to_groups (e : Nat) (ec_array : List dazukofs_event_container)
    (s : State) : Option State :=
  let last := int_wrap (s.last_event_id + 1)
  match assign_loop e ec_array 0 s.group_list with
  | none => none
  | some (gl, n) =>
    let evt0 := evt_at s e
    let evt := { evt0 with event_id := ulong_of_int last, assigned := evt0.assigned + n }
    some { s with last_event_id := last, events := s.events.set e evt, group_list := gl }

/-- How a call of `dazukofs_check_access` leaves the model: with a return
value, blocked in `wait_event` on the event at the given address, or by a
read outside `ec_array`. -/
inductive Outcome where
  | returned (err : Int)
  | waiting (e : Nat)
  | fault
  deriving DecidableEq, Repr

/-- Function `dazukofs_check_access` (src/event.c:746-776) up to the `wait_event`, run
by process `cur` on the file `dentry`, as one step: no other call runs between
the allocation and the fan-out (`check_access_allocate` and
`check_access_assign` are the two parts on their own). -/
def dazukofs_check_access (evt_ok : Bool) (ec_fail : Option Nat) (cur dentry : Nat)
    (s : State) : State × Outcome :=
  let pre := check_access_precheck cur s.group_count s
  if pre.2 ≠ 0 then (pre.1, Outcome.returned 0)
  else
    let a := allocate_event_and_containers evt_ok ec_fail pre.1.group_count pre.1
    match a.2.1 with
    | none => (a.1, Outcome.returned (-ENOMEM))
    | some (e, ec_array) =>
      let s0 := a.1
      let evt := { evt_at s0 e with dentry := dentry, proc_id := cur }
      let s1 := { s0 with events := s0.events.set e evt }
      match assign_event_to_groups e ec_array s1 with
      | none => (s, Outcome.fault)
      | some s2 => ({ s2 with waiters := e :: s2.waiters }, Outcome.waiting e)

/-- The rest of `dazukofs_check_access` (src/event.c:776-784) for the
initiator blocked on the event at `e`: defined once the wait condition
`event_assigned(evt) == 0` holds; the state after `release_event(evt, 0, 0)`
and the return value. -/
def dazukofs_check_access_resume (e : Nat) (s : State) : Option (State × Int) :=
  if e ∈ s.waiters ∧ event_assigned s e = 0 then
    let err : Int := if (evt_at s e).deny ≠ 0 then -EPERM else 0
    let s1 := release_event_at e 0 0 s
    some ({ s1 with waiters := s1.waiters.erase e }, err)
  else none

/-! ## Tracking (src/event.c:800-849) -/

/-- Function `dazukofs_group_open_tracking` (src/event.c:800-820). -/
def dazukofs_group_open_tracking (group_id : Nat) (s : State) : State × Int :=
  match list_find (is_group group_id) s.group_list with
  | none => (s, 0)
  | some (pre, grp, post) =>
    if grp.tracking ≠ 0 then
      let grp1 := { grp with use_count := grp.use_count + 1,
                             track_count := grp.track_count + 1 }
      ({ s with group_list := pre ++ grp1 :: post }, 1)
    else (s, 0)

/-- Function `dazukofs_group_release_tracking` (src/event.c:830-849). -/
def dazukofs_group_release_tracking (group_id : Nat) (s : State) : State :=
  match list_find (is_group group_id) s.group_list with
  | none => s
  | some (pre, grp, post) =>
    if grp.tracking ≠ 0 then
      let grp1 := { grp with use_count := grp.use_count - 1,
                             track_count := grp.track_count - 1 }
      if grp1.track_count = 0 then
        let r := __remove_group grp1 s
        { r.2 with group_list := pre ++ r.1 :: post }
      else { s with group_list := pre ++ grp1 :: post }
    else s

/-! ## Group-facing operations (src/event.c:859-1177) -/

/-- The group at position `i` of `group_list` (a `grp` pointer held across
calls) updated by `f`. -/
def with_group (i : Nat) (f : dazukofs_group → dazukofs_group) (s : State) : State :=
  { s with group_list := s.group_list.modify f i }

/-- Function `unclaim_event` (src/event.c:859-871): `list_del` of the container and
`list_add` at the head of the todo list. -/
def unclaim_event (ec : dazukofs_event_container) (grp : dazukofs_group) : dazukofs_group :=
  { grp with working_list := grp.working_list.erase ec, todo_list := ec :: grp.todo_list }

/-- Function `claim_event` (src/event.c:948-963): the group and the claimed container
(`none` for `NULL`). -/
def claim_event (grp : dazukofs_group) : dazukofs_group × Option dazukofs_event_container :=
  match grp.todo_list with
  | [] => (grp, none)
  | ec :: rest =>
    ({ grp with todo_list := rest, working_list := ec :: grp.working_list }, some ec)

/-- Function `is_event_available` (src/event.c:1052-1062). -/
def is_event_available (grp : dazukofs_group) : Int :=
  if grp.todo_list ≠ [] then 1 else 0

/-- Function `dazukofs_return_event` (src/event.c:885-937). -/
def dazukofs_return_event (group_id event_id : Nat) (response : dazukofs_response_t)
    (s : State) : State × Int :=
  match list_find (is_group group_id) s.group_list with
  | none => (s, -EINVAL)
  | some (gpre, grp, gpost) =>
    let grp1 := { grp with use_count := grp.use_count + 1 }
    match list_find (fun ec => decide ((evt_at s ec.event).event_id = event_id))
        grp1.working_list with
    | none =>
      let grp2 := { grp1 with use_count := grp1.use_count - 1 }
      ({ s with group_list := gpre ++ grp2 :: gpost }, -EINVAL)
    | some (pre, ec, post) =>
      if response = dazukofs_response_t.REPOST then
        let grp2 := unclaim_event ec grp1
        let grp3 := { grp2 with use_count := grp2.use_count - 1 }
        ({ s with group_list := gpre ++ grp3 :: gpost }, 0)
      else
        let grp2 := { grp1 with working_list := pre ++ post }
        let s1 := { s with group_list := gpre ++ grp2 :: gpost }
        let s2 := release_event_at ec.event 1
          (if response = dazukofs_response_t.DENY then 1 else 0) s1
        let grp3 := { grp2 with use_count := grp2.use_count - 1 }
        ({ s2 with group_list := gpre ++ grp3 :: gpost }, 0)

/-- What the environment does during one `dazukofs_get_event`: whether a
signal ends a wait on an empty todo list, the result of `get_unused_fd`, the
error of `dentry_open` (0 for success), and whether `dentry_open` got as far as
`dazukofs_open`, which calls `dazukofs_check_access` (src/file.c:231). -/
structure OpenEnv where
  signal : Bool
  fd : Int
  open_err : Int
  nested : Bool

/-- The store `ec->fd = ...` on the container at the head of a working list
(the container that was just claimed). -/
def set_claimed_fd (fd : Int) (grp : dazukofs_group) : dazukofs_group :=
  match grp.working_list with
  | [] => grp
  | ec :: rest => { grp with working_list := { ec with fd := fd } :: rest }

/-- Function `open_file` (src/event.c:993-1041) run by process `cur` on the container
`ec` that heads the working list of the group at position `i`. -/
def open_file (env : OpenEnv) (cur : Nat) (i : Nat) (ec : dazukofs_event_container)
    (s : State) : State × Int :=
  let s0 := with_group i (set_claimed_fd env.fd) s
  if env.fd < 0 then (s0, env.fd)
  else
    let m := mask_proc cur s0
    let s2 :=
      if env.nested then
        (dazukofs_check_access true none cur (evt_at m.1 ec.event).dentry m.1).1
      else m.1
    let s3 := if (proc_at s2 m.2).within_list ≠ 0 then (check_recursion cur s2).1 else s2
    if env.open_err ≠ 0 then (s3, env.open_err) else (s3, 0)

/-- The result of `dazukofs_get_event`: an error return, a wait on an empty
todo list, or success with `*event_id`, `*fd` and `*pid`. -/
inductive GetResult where
  | error (ret : Int)
  | blocked
  | ok (event_id : Nat) (fd : Int) (pid : Nat)
  deriving DecidableEq, Repr

/-- Function `dazukofs_get_event` (src/event.c:1121-1177) run by process `cur`, as one
step: no other call runs between its lock regions (`get_event_enter`,
`get_event_round`, `open_file` and `get_event_leave` are the regions on their
own).  A call that would sleep on an empty todo list either is ended by a
signal or is reported as `blocked` with the state before the call; the
`use_count` that the sleeping call holds is in `get_event_enter`. -/
def dazukofs_get_event (env : OpenEnv) (cur group_id : Nat) (s : State) :
    State × GetResult :=
  match list_find (is_group group_id) s.group_list with
  | none => (s, GetResult.error (-EINVAL))
  | some (pre, grp, post) =>
    let grp1 := { grp with use_count := grp.use_count + 1 }
    if is_event_available grp1 = 0 then
      (s, if env.signal then GetResult.error (-ERESTARTSYS) else GetResult.blocked)
    else
      match claim_event grp1 with
      | (_, none) => (s, GetResult.blocked)
      | (grp2, some ec) =>
        let i := pre.length
        let s1 := { s with group_list := pre ++ grp2 :: post }
        let r := open_file env cur i ec s1
        let ec1 := { ec with fd := env.fd }
        if r.2 = 0 then
          let evt := evt_at r.1 ec1.event
          (with_group i (fun g => { g with use_count := g.use_count - 1 }) r.1,
           GetResult.ok evt.event_id ec1.fd evt.proc_id)
        else
          let s2 := with_group i (unclaim_event ec1) r.1
          (with_group i (fun g => { g with use_count := g.use_count - 1 }) s2,
           GetResult.error r.2)

def POLLERR : Nat := 8
def POLLIN : Nat := 1
def POLLRDNORM : Nat := 64

/-- Function `dazukofs_poll` (src/event.c:1077-1106). -/
def dazukofs_poll (group_id : Nat) (s : State) : State × Nat :=
  match list_find (is_group group_id) s.group_list with
  | none => (s, POLLERR)
  | some (pre, grp, post) =>
    let grp1 := { grp with use_count := grp.use_count + 1 }
    let mask := if is_event_available grp1 ≠ 0 then POLLIN ||| POLLRDNORM else 0
    let grp2 := { grp1 with use_count := grp1.use_count - 1 }
    ({ s with group_list := pre ++ grp2 :: post }, mask)

/-! ## The engine as a transition system -/

/-- One call into the engine, with the choices of the environment. -/
inductive Op where
  | add_group (alloc_ok : Bool) (name : String) (track : Int)
  | remove_group (name : String)
  | check_access (evt_ok : Bool) (ec_fail : Option Nat) (cur dentry : Nat)
  | check_access_resume (e : Nat)
  | get_event (env : OpenEnv) (cur group_id : Nat)
  | return_event (group_id event_id : Nat) (response : dazukofs_response_t)
  | poll (group_id : Nat)
  | open_tracking (group_id : Nat)
  | release_tracking (group_id : Nat)
  | add_ign (alloc_ok : Bool) (cur : Nat)
  | remove_ign (pid : Nat)

/-- The state after one call.  A `check_access_resume` whose wait condition
does not hold yet leaves the state as it is. -/
def step (s : State) : Op → State
  | Op.add_group alloc_ok name track =>
    match dazukofs_add_group alloc_ok name track s with
    | some r => r.1
    | none => s
  | Op.remove_group name => (dazukofs_remove_group name s).1
  | Op.check_access evt_ok ec_fail cur dentry =>
    (dazukofs_check_access evt_ok ec_fail cur dentry s).1
  | Op.check_access_resume e =>
    match dazukofs_check_access_resume e s with
    | some r => r.1
    | none => s
  | Op.get_event env cur group_id => (dazukofs_get_event env cur group_id s).1
  | Op.return_event group_id event_id response =>
    (dazukofs_return_event group_id event_id response s).1
  | Op.poll group_id => (dazukofs_poll group_id s).1
  | Op.open_tracking group_id => (dazukofs_group_open_tracking group_id s).1
  | Op.release_tracking group_id => dazukofs_group_release_tracking group_id s
  | Op.add_ign alloc_ok cur => (dazukofs_add_ign alloc_ok cur s).1
  | Op.remove_ign pid => dazukofs_remove_ign pid s

/-- The state after a sequence of calls. -/
def run (s : State) (ops : List Op) : State := ops.foldl step s

/-- The states the engine can be in: those reached from `init` by calls. -/
def Reachable (s : State) : Prop := ∃ ops : List Op, run init ops = s


/-! ## The group device (src/group_dev.c:31-47) -/

/-- Function `dazukofs_group_open` (src/group_dev.c:31-39) on the device of
`group_id`: the state, and whether `file->private_data` is set (the open
registered the process with a tracking group).  The function returns 0. -/
def dazukofs_group_open (group_id : Nat) (s : State) : State × Bool :=
  let r := dazukofs_group_open_tracking group_id s
  if r.2 ≠ 0 then (r.1, true) else (r.1, false)

/-- Function `dazukofs_group_release` (src/group_dev.c:41-47) on the device of
`group_id`, for a file whose `private_data` is set or not.  The function
returns 0. -/
def dazukofs_group_release (group_id : Nat) (private_data : Bool) (s : State) : State :=
  if private_data then dazukofs_group_release_tracking group_id s else s

/-! ## The control device (src/ctrl_dev.c:80-149)

A `char` is a `Char`; memory is a list of characters.  A C string is read up
to the first NUL. -/

def EFAULT : Int := 14

/-- The terminator of a C string. -/
def NUL : Char := Char.ofNat 0

/-- The C string that starts a piece of memory: the characters before the
first NUL. -/
def cstr (mem : List Char) : List Char := mem.takeWhile (fun c => decide (c ≠ NUL))

/-- The library function `strchr` on a string literal `lit`: the offset of the
first `c` in the literal followed by its terminating NUL, which is part of the
string for this search (so `strchr(lit, 0)` is not `NULL`). -/
def strchr (lit : List Char) (c : Char) : Option Nat :=
  if c ∈ lit ++ [NUL] then some ((lit ++ [NUL]).indexOf c) else none

/-- The search of `strstr` from offset `i`, on a string without terminator. -/
def strstr_from (key : List Char) : List Char → Nat → Option Nat
  | [], i => if key = [] then some i else none
  | c :: cs, i => if key.isPrefixOf (c :: cs) then some i else strstr_from key cs (i + 1)

/-- The library function `strstr`: the offset of the first occurrence of `key`
in the C string at the start of `buf`. -/
def strstr (buf key : List Char) : Option Nat := strstr_from key (cstr buf) 0

/-- The macro `DAZUKOFS_ALLOWED_GROUPCHARS` (src/ctrl_dev.c:80-81). -/
def DAZUKOFS_ALLOWED_GROUPCHARS : List Char :=
  "abcdefghijklmnopqrstuvwxyzABCDEFGHIJKLMNOPQRSTUVWXYZ0123456789_-".toList

/-- Function `is_valid_char` (src/ctrl_dev.c:82-87). -/
def is_valid_char (c : Char) : Int :=
  if (strchr DAZUKOFS_ALLOWED_GROUPCHARS c).isSome then 1 else 0

/-- Function `process_command` (src/ctrl_dev.c:89-112) on the memory `buf`:
the return value, the memory, `*retcode` and the state.  `func` is the command
with `arg2` applied.  The scan for the end of the name stops at the end of the
memory that is modelled; a store through `p2` outside of it is not modelled.
`none` is a `func` that does not return. -/
def process_command (buf key : List Char) (func : String → State → Option (State × Int))
    (retcode : Int) (s : State) : Option (Int × List Char × Int × State) :=
  match strstr buf key with
  | none => some (-1, buf, retcode, s)
  | some i =>
    let p := i + key.length
    let p2 := p + ((buf.drop p).takeWhile (fun c => decide (is_valid_char c ≠ 0))).length
    if p = p2 then some (0, buf, -EINVAL, s)
    else
      let buf1 := buf.set p2 NUL
      match func (String.mk (cstr (buf1.drop p))) s with
      | none => none
      | some (s1, r) => some (0, buf1.set p2 (Char.ofNat 32), r, s1)

/-- One of the three blocks of `dazukofs_ctrl_write`
(src/ctrl_dev.c:128-147):
`if (!match || (match && ret >= 0)) if (process_command(...) == 0) match = 1;`
on the memory `tmp` and the locals `match` and `ret`. -/
def ctrl_write_block (key : List Char) (func : String → State → Option (State × Int))
    (st : List Char × Int × Int × State) : Option (List Char × Int × Int × State) :=
  if st.2.1 = 0 ∨ (st.2.1 ≠ 0 ∧ 0 ≤ st.2.2.1) then
    match process_command st.1 key func st.2.2.1 st.2.2.2 with
    | none => none
    | some r => some (r.2.1, if r.1 = 0 then 1 else st.2.1, r.2.2.1, r.2.2.2)
  else some st

/-- Function `dazukofs_ctrl_write` (src/ctrl_dev.c:114-155) for a write of the
characters `buffer` (so `length` is `buffer.length`): the state and the return
value.  `copy_ok` tells whether `copy_from_user` succeeds, `alloc_add` and
`alloc_track` whether the allocations of the `add=` and of the `addtrack=`
command succeed, and `beyond` is what the memory holds after `tmp[cp_len]`
(the rest of the uninitialised `tmp` and the stack behind it).  `*pos` is not
modelled. -/
def dazukofs_ctrl_write (copy_ok alloc_add alloc_track : Bool) (beyond buffer : List Char)
    (s : State) : Option (State × Int) :=
  let length := buffer.length
  let cp_len := if length ≥ 32 then 32 - 1 else length
  if ¬ copy_ok then some (s, -EFAULT)
  else
    let tmp := buffer.take cp_len ++ [NUL] ++ beyond
    match ctrl_write_block "del=".toList (fun name st => some (dazukofs_remove_group name st))
        (tmp, 0, -EINVAL, s) with
    | none => none
    | some st1 =>
      match ctrl_write_block "add=".toList
          (fun name st => dazukofs_add_group alloc_add name 0 st) st1 with
      | none => none
      | some st2 =>
        match ctrl_write_block "addtrack=".toList
            (fun name st => dazukofs_add_group alloc_track name 1 st) st2 with
        | none => none
        | some st3 =>
          if 0 ≤ st3.2.2.1 then some (st3.2.2.2, int_wrap (length : Int))
          else some (st3.2.2.2, st3.2.2.1)

/-! ## Formatted output (library functions used by the devices)

The formats are expanded by hand: `%lu` and `%d` print decimal numerals,
`%s` a C string. -/

/-- The newline character. -/
def NL : Char := Char.ofNat 10

/-- The conversion `%lu`. -/
def fmt_lu (n : Nat) : List Char := Nat.toDigits 10 n

/-- The conversion `%d`. -/
def fmt_d (x : Int) : List Char :=
  if x < 0 then Char.ofNat 45 :: Nat.toDigits 10 x.natAbs else Nat.toDigits 10 x.toNat

/-- The kernel's `snprintf(buf + off, size, ...)` for a format that expands to
`text`: at most `size - 1` characters of the text are stored, followed by a
NUL; nothing is stored when `size` is 0.  The memory afterwards, and the return
value, which is the length of the whole text. -/
def snprintf (buf : List Char) (off size : Nat) (text : List Char) : List Char × Nat :=
  if size = 0 then (buf, text.length)
  else
    (buf.take off ++ (text.take (size - 1) ++ [NUL])
      ++ buf.drop (off + (text.take (size - 1) ++ [NUL]).length), text.length)

/-! ## The listing of the groups (src/event.c:515-555) -/

/-- The text of `"%lu:%s\n"` for a group. -/
def group_line (grp : dazukofs_group) : List Char :=
  fmt_lu grp.group_id ++ [Char.ofNat 58] ++ grp.name.toList ++ [NL]

/-- The first loop of `dazukofs_get_groups` (src/event.c:530-534): `buflen`. -/
def get_groups_buflen (gl : List dazukofs_group) : Nat :=
  gl.foldl (fun buflen grp => if grp.deprecated = 0 then buflen + (grp.name.length + 3)
    else buflen) 1

/-- The second loop of `dazukofs_get_groups` (src/event.c:536-544) from the
offset `tmp` (that is `tmp - *buf`): the memory at `*buf` and the offset
afterwards. -/
def get_groups_fill (allocsize : Nat) :
    List dazukofs_group → List Char → Nat → List Char × Nat
  | [], buf, tmp => (buf, tmp)
  | grp :: rest, buf, tmp =>
    if grp.deprecated = 0 then
      get_groups_fill allocsize rest
        (snprintf buf tmp ((allocsize - 1) - tmp) (group_line grp)).1
        (tmp + (grp.name.length + 3))
    else get_groups_fill allocsize rest buf tmp

/-- The retry loop of `dazukofs_get_groups` (label `tryagain`), bounded by
`fuel` rounds: `*buf` (`none` for `NULL`) and the return value.  `kzalloc_ok`
tells for which sizes `kzalloc` succeeds.  The sizes are counted in `Nat`:
`allocsize` stays below twice the length of the listing plus 256. -/
def get_groups_try (kzalloc_ok : Nat → Bool) (gl : List dazukofs_group) :
    Nat → Nat → Option (Option (List Char) × Int)
  | 0, _ => none
  | fuel + 1, allocsize =>
    if kzalloc_ok allocsize then
      if get_groups_buflen gl < allocsize then
        some (some (get_groups_fill allocsize gl (List.replicate allocsize NUL) 0).1, 0)
      else get_groups_try kzalloc_ok gl fuel (allocsize * 2)
    else some (none, -ENOMEM)

/-- Function `dazukofs_get_groups` (src/event.c:515-555).  The retry loop gets
`buflen + 1` rounds of fuel; `none` would mean that it did not finish within
them (`get_groups_total` shows that this never happens). -/
def dazukofs_get_groups (kzalloc_ok : Nat → Bool) (s : State) :
    Option (Option (List Char) × Int) :=
  get_groups_try kzalloc_ok s.group_list (get_groups_buflen s.group_list + 1) 256

/-! ## Reading the control device (src/ctrl_dev.c:30-78) -/

/-- An open file on the control device: `private_data`, the memory of the
listing once it was taken (`none` for `NULL`). -/
structure ctrl_file where
  private_data : Option (List Char)

/-- Function `dazukofs_ctrl_open` (src/ctrl_dev.c:30-34): the new file. -/
def dazukofs_ctrl_open : ctrl_file := { private_data := none }

/-- Function `dazukofs_ctrl_read` (src/ctrl_dev.c:51-78) with buffer length
`length` at the file position `pos` (a `loff_t` that is not negative): the
file, the return value, the characters copied to the user and the new
position.  `copy_ok` tells whether `copy_to_user` succeeds.  `none` is a
`dazukofs_get_groups` that does not return. -/
def dazukofs_ctrl_read (kzalloc_ok : Nat → Bool) (copy_ok : Bool) (length pos : Nat)
    (file : ctrl_file) (s : State) : Option (ctrl_file × Int × List Char × Nat) :=
  let got : Option (Except Int (ctrl_file × List Char)) :=
    match file.private_data with
    | some buf => some (Except.ok (file, buf))
    | none =>
      match dazukofs_get_groups kzalloc_ok s with
      | none => none
      | some (some buf, 0) => some (Except.ok ({ private_data := some buf }, buf))
      | some (_, err) => some (Except.error err)
  match got with
  | none => none
  | some (Except.error err) => some (file, err, [], pos)
  | some (Except.ok (file1, buf)) =>
    let buflen := (cstr buf).length
    if pos ≥ buflen then some (file1, 0, [], pos)
    else
      let length1 := if length > buflen - pos then buflen - pos else length
      if copy_ok then some (file1, (length1 : Int), (buf.drop pos).take length1, pos + length1)
      else some (file1, -EFAULT, [], pos)

/-! ## Reading and writing a group device (src/group_dev.c:49-143) -/

def EINTR : Int := 4
def EIO : Int := 5
def ENFILE : Int := 23

/-- The text of `"id=%lu\nfd=%d\npid=%d\n"`. -/
def event_record (event_id : Nat) (fd : Int) (pid : Int) : List Char :=
  "id=".toList ++ fmt_lu event_id ++ [NL] ++ "fd=".toList ++ fmt_d fd ++ [NL]
    ++ "pid=".toList ++ fmt_d pid ++ [NL]

/-- How a `dazukofs_group_read` ends: with a return value and the characters
copied to the user, or asleep on an empty todo list. -/
inductive ReadResult where
  | ret (r : Int) (bytes : List Char)
  | blocked
  deriving DecidableEq, Repr

/-- Function `dazukofs_group_read` (src/group_dev.c:49-94) by process `cur`
with buffer length `length` at the file position `pos`: the state, the result
and the new position.  `tmp` starts zero-filled (the characters copied out are
all stored by `snprintf`); `sys_close` is not modelled. -/
def dazukofs_group_read (env : OpenEnv) (copy_ok : Bool) (cur group_id length : Nat)
    (pos : Int) (s : State) : State × ReadResult × Int :=
  if pos > 0 then (s, ReadResult.ret 0 [], pos)
  else if length < 43 then (s, ReadResult.ret (-EINVAL) [], pos)
  else
    let r := dazukofs_get_event env cur group_id s
    match r.2 with
    | GetResult.error err =>
      if err = -ERESTARTSYS then (r.1, ReadResult.ret (-EINTR) [], pos)
      else if err = -ENFILE then (r.1, ReadResult.ret (- EIO) [], pos)
      else (r.1, ReadResult.ret err [], pos)
    | GetResult.blocked => (r.1, ReadResult.blocked, pos)
    | GetResult.ok event_id fd pid =>
      let p := snprintf (List.replicate 43 NUL) 0 (43 - 1) (event_record event_id fd pid)
      if p.2 ≥ 43 then
        ((dazukofs_return_event group_id event_id dazukofs_response_t.REPOST r.1).1,
         ReadResult.ret (-EINVAL) [], pos)
      else if copy_ok then (r.1, ReadResult.ret (p.2 : Int) (p.1.take p.2), (p.2 : Int))
      else
        ((dazukofs_return_event group_id event_id dazukofs_response_t.REPOST r.1).1,
         ReadResult.ret (-EFAULT) [], pos)

/-- The library function `isdigit`. -/
def isdigit (c : Char) : Bool := decide (48 ≤ c.toNat) && decide (c.toNat ≤ 57)

/-- The library function `isxdigit`. -/
def isxdigit (c : Char) : Bool :=
  isdigit c || (decide (97 ≤ c.toNat) && decide (c.toNat ≤ 102))
    || (decide (65 ≤ c.toNat) && decide (c.toNat ≤ 70))

/-- The loop of the kernel's `simple_strtoull` for the given base: the result
so far (an `unsigned long long`) and the number of characters consumed. -/
def simple_strtoul_loop (base : Nat) : List Char → Nat → Nat → Nat × Nat
  | [], result, n => (result, n)
  | c :: cs, result, n =>
    if isxdigit c then
      let value := if isdigit c then c.toNat - 48
        else (if c.toNat ≤ 70 then c.toNat + 32 else c.toNat) - 97 + 10
      if value ≥ base then (result, n)
      else simple_strtoul_loop base cs ((result * base + value) % 18446744073709551616) (n + 1)
    else (result, n)

/-- The library function `simple_strtoul(cp, &endp, 10)`: the value and the
offset of `endp` from `cp`. -/
def simple_strtoul (cp : List Char) : Nat × Nat := simple_strtoul_loop 10 cp 0 0

/-- Function `dazukofs_group_write` (src/group_dev.c:96-143) for a write of
the characters `buffer`: the state and the return value.  `*pos` is not
modelled. -/
def dazukofs_group_write (copy_ok : Bool) (group_id : Nat) (buffer : List Char)
    (s : State) : State × Int :=
  let length := if buffer.length ≥ 19 then 19 - 1 else buffer.length
  if copy_ok then
    let tmp := buffer.take length ++ [NUL]
    match strstr tmp "id=".toList with
    | none => (s, -EINVAL)
    | some i =>
      let num := simple_strtoul (tmp.drop (i + 3))
      let p2 := i + 3 + num.2
      match strstr (tmp.drop p2) "r=".toList with
      | none => (s, -EINVAL)
      | some j =>
        let response :=
          if ((tmp.getD (p2 + j + 2) NUL).toNat : Int) - 48 ≠ 0 then dazukofs_response_t.DENY
          else dazukofs_response_t.ALLOW
        let r := dazukofs_return_event group_id num.1 response s
        if r.2 = 0 then (r.1, (length : Int))
        else if r.2 = -ERESTARTSYS then (r.1, -EINTR)
        else r
  else (s, -EFAULT)

/-! ## The lock regions of the blocking calls (src/event.c:746-776, 1121-1177)

`dazukofs_check_access` holds `group_count_sem` for reading from the precheck
to the end of the fan-out.  That keeps `dazukofs_add_group` and
`dazukofs_remove_group` out, which take it for writing, but not
`dazukofs_group_release_tracking`, which takes `work_mutex` only.
`dazukofs_get_event` takes `work_mutex` for the lookup of the group, inside
`claim_event` and inside `unclaim_event`, and holds no lock in between.  A
pointer `grp` that is held across regions is the position of the group in the
list, and a pointer `ec` is the container itself. -/

/-- How the first part of `dazukofs_check_access` ends: the call returns, or
it holds the event at `e` and `ec_array` for the fan-out. -/
inductive AllocResult where
  | ret (err : Int)
  | ready (e : Nat) (ec_array : List dazukofs_event_container)
  deriving DecidableEq, Repr

/-- The first part of `dazukofs_check_access` (src/event.c:752-769): the
precheck, `allocate_event_and_containers` for the `group_count` of that moment,
and the stores of `dentry` and `proc_id`. -/
def check_access_allocate (evt_ok : Bool) (ec_fail : Option Nat) (cur dentry : Nat)
    (s : State) : State × AllocResult :=
  let pre := check_access_precheck cur s.group_count s
  if pre.2 ≠ 0 then (pre.1, AllocResult.ret 0)
  else
    let a := allocate_event_and_containers evt_ok ec_fail pre.1.group_count pre.1
    match a.2.1 with
    | none => (a.1, AllocResult.ret (-ENOMEM))
    | some (e, ec_array) =>
      let s0 := a.1
      let evt := { evt_at s0 e with dentry := dentry, proc_id := cur }
      ({ s0 with events := s0.events.set e evt }, AllocResult.ready e ec_array)

/-- The second part of `dazukofs_check_access` (src/event.c:771-776):
`assign_event_to_groups` on the group list of that moment, and the sleep in
`wait_event`. -/
def check_access_assign (e : Nat) (ec_array : List dazukofs_event_container) (s : State) :
    State × Outcome :=
  match assign_event_to_groups e ec_array s with
  | none => (s, Outcome.fault)
  | some s2 => ({ s2 with waiters := e :: s2.waiters }, Outcome.waiting e)

/-- The first lock region of `dazukofs_get_event` (src/event.c:1130-1142): the
lookup of the group and `atomic_inc(&grp->use_count)`.  The result is the
position of the group, `none` when there is no group (the call returns
-EINVAL). -/
def get_event_enter (group_id : Nat) (s : State) : State × Option Nat :=
  match list_find (is_group group_id) s.group_list with
  | none => (s, none)
  | some (pre, grp, post) =>
    ({ s with group_list := pre ++ { grp with use_count := grp.use_count + 1 } :: post },
     some pre.length)

/-- Dereference of a pointer to a group. -/
def group_at (s : State) (i : Nat) : dazukofs_group :=
  (s.group_list[i]?).getD
    { name := "", group_id := 0, todo_list := [], working_list := [], use_count := 0,
      tracking := 0, track_count := 0, deprecated := 0 }

/-- How a round of the loop of `dazukofs_get_event` goes on: the call returns
with an error, it sleeps on, or it holds a claimed container. -/
inductive ClaimResult where
  | ret (err : Int)
  | asleep
  | claimed (ec : dazukofs_event_container)
  deriving DecidableEq, Repr

/-- A round of the loop of `dazukofs_get_event` up to `claim_event`
(src/event.c:1144-1155) for the group at position `i`.  An exit with an error
includes the `atomic_dec` at the end of the call. -/
def get_event_round (env : OpenEnv) (i : Nat) (s : State) : State × ClaimResult :=
  let grp := group_at s i
  if is_event_available grp = 0 ∧ grp.deprecated = 0 then
    if env.signal then
      (with_group i (fun g => { g with use_count := g.use_count - 1 }) s,
       ClaimResult.ret (-ERESTARTSYS))
    else (s, ClaimResult.asleep)
  else if grp.deprecated ≠ 0 then
    (with_group i (fun g => { g with use_count := g.use_count - 1 }) s,
     ClaimResult.ret (-EINVAL))
  else
    match claim_event grp with
    | (_, none) => (s, ClaimResult.asleep)
    | (grp2, some ec) => (with_group i (fun _ => grp2) s, ClaimResult.claimed ec)

/-- The end of `dazukofs_get_event` (src/event.c:1157-1174) after `open_file`
returned `ret` for the container `ec` of the group at position `i`: the
results are read through `ec`, or `unclaim_event(grp, ec)` is called; then
`atomic_dec(&grp->use_count)`. -/
def get_event_leave (env : OpenEnv) (i : Nat) (ec : dazukofs_event_container) (ret : Int)
    (s : State) : State × GetResult :=
  let ec1 := { ec with fd := env.fd }
  if ret = 0 then
    let evt := evt_at s ec1.event
    (with_group i (fun g => { g with use_count := g.use_count - 1 }) s,
     GetResult.ok evt.event_id ec1.fd evt.proc_id)
  else
    let s2 := with_group i (unclaim_event ec1) s
    (with_group i (fun g => { g with use_count := g.use_count - 1 }) s2,
     GetResult.error ret)

/-- The regions of `dazukofs_get_event` one after the other, with no other
call in between.  A call that sleeps is reported with the state before the
call. -/
def get_event_regions (env : OpenEnv) (cur group_id : Nat) (s : State) : State × GetResult :=
  match get_event_enter group_id s with
  | (s1, none) => (s1, GetResult.error (-EINVAL))
  | (s1, some i) =>
    match get_event_round env i s1 with
    | (s2, ClaimResult.ret err) => (s2, GetResult.error err)
    | (_, ClaimResult.asleep) => (s, GetResult.blocked)
    | (s2, ClaimResult.claimed ec) =>
      get_event_leave env i ec (open_file env cur i ec s2).2 (open_file env cur i ec s2).1

/-- The two parts of `dazukofs_check_access` one after the other, with no
other call in between. -/
def check_access_regions (evt_ok : Bool) (ec_fail : Option Nat) (cur dentry : Nat)
    (s : State) : State × Outcome :=
  match check_access_allocate evt_ok ec_fail cur dentry s with
  | (s1, AllocResult.ret r) => (s1, Outcome.returned r)
  | (s1, AllocResult.ready e ec_array) =>
    match check_access_assign e ec_array s1 with
    | (_, Outcome.fault) => (s, Outcome.fault)
    | r => r

/-! ## Observers used to state the properties -/

/-- The `free_event` flags of a sequence of `release_event` calls on one
event, each call given as `(decrement_assigned, deny)`. -/
def release_seq : dazukofs_event → List (Int × Int) → List Int
  | _, [] => []
  | evt, c :: cs =>
    (release_event evt c.1 c.2).2 :: release_seq (release_event evt c.1 c.2).1 cs



/-- Whether process `cur` has an entry in the recursion mask. -/
def masked (cur : Nat) (s : State) : Prop :=
  ∃ a ∈ s.proc_list, (proc_at s a).proc_id = cur

/-- Equality of two states in everything but the recursion mask. -/
def same_but_mask (s t : State) : Prop :=
  t.group_list = s.group_list ∧ t.group_count = s.group_count ∧
  t.last_event_id = s.last_event_id ∧ t.ign_list = s.ign_list ∧ t.events = s.events ∧
  t.freed = s.freed ∧ t.waiters = s.waiters


/-! ### Example states -/

/-- A state with no group in which process 7 has an entry in the recursion mask. -/
def masked_no_group : State :=
  { init with procs := [{ proc_id := 7, within_list := 1 }], proc_list := [0] }

/-- A state with one group "av" (id 0) in which process 7 has an entry in the
recursion mask and process 9 is in the ignore registry. -/
def one_group : State :=
  { init with
      group_list := [{ name := "av", group_id := 0, todo_list := [], working_list := [],
                       use_count := 0, tracking := 0, track_count := 0, deprecated := 0 }],
      group_count := 1,
      procs := [{ proc_id := 7, within_list := 1 }], proc_list := [0], ign_list := [9] }


/-! ### The registry seen through its non-deprecated groups -/

/-- The non-deprecated groups, in list order. -/
def nondep (gl : List dazukofs_group) : List dazukofs_group :=
  gl.filter (fun g => decide (g.deprecated = 0))

/-- What the spec says an `add` of an existing name does: the first group
with that name is upgraded to tracking when `track` is set, nothing else
changes. -/
def mark_tracking (name : String) (track : Int) : List dazukofs_group → List dazukofs_group
  | [] => []
  | g :: rest =>
    if name = g.name then (if track ≠ 0 then { g with tracking := 1 } else g) :: rest
    else g :: mark_tracking name track rest

/-- The group that `dazukofs_add_group` creates. -/
def new_group (name : String) (id : Nat) (track : Int) : dazukofs_group :=
  { name := name, group_id := id, todo_list := [], working_list := [], use_count := 0,
    tracking := if track ≠ 0 then 1 else 0, track_count := 0, deprecated := 0 }

/-- What the registry knows of a group: whether it is deprecated, its name
and its id. -/
def reg_key (g : dazukofs_group) : Int × String × Nat := (g.deprecated, g.name, g.group_id)

/-- The registry invariant: `group_count` counts the non-deprecated groups,
there are at most `GROUP_COUNT` of them, and their names are pairwise
distinct. -/
def RInv (s : State) : Prop :=
  s.group_count = ((nondep s.group_list).length : Int) ∧ s.group_count ≤ GROUP_COUNT ∧
  ((nondep s.group_list).map (fun g => g.name)).Nodup

/-! ### Groups after a claim -/

/-- The group after a successful `dazukofs_get_event`: the head of the todo
list is on the working list, with its descriptor stored. -/
def group_claimed (fd : Int) (grp : dazukofs_group) (ec : dazukofs_event_container)
    (rest : List dazukofs_event_container) : dazukofs_group :=
  { grp with todo_list := rest, working_list := { ec with fd := fd } :: grp.working_list }

/-- The group after a `dazukofs_get_event` whose open failed: the container is
back at the head of the todo list, with the value that `get_unused_fd`
returned stored in it. -/
def group_unclaimed (fd : Int) (grp : dazukofs_group) (ec : dazukofs_event_container)
    (rest : List dazukofs_event_container) : dazukofs_group :=
  { grp with todo_list := { ec with fd := fd } :: rest }


/-! ### Fan-out -/

/-- What fan-out of the event at `e` does to one group: a new container for
`e` at the tail of the todo list of a non-deprecated group, nothing for a
deprecated one. -/
def fan (e : Nat) (g : dazukofs_group) : dazukofs_group :=
  if g.deprecated = 0 then { g with todo_list := g.todo_list ++ [{ event := e, fd := 0 }] }
  else g

/-- The event that a fan-out by process `cur` on `dentry` to `n` groups leaves
in the store. -/
def fanned_event (s : State) (cur dentry : Nat) (n : Nat) : dazukofs_event :=
  { event_id := ulong_of_int (int_wrap (s.last_event_id + 1)), dentry := dentry,
    proc_id := cur, deny := 0, deprecated := 0, assigned := n }

/-! ### Containers, verdicts and releases of one event -/

/-- The number of containers of a group (todo and working list) that point to
the event at `e`. -/
def refs_group (e : Nat) (g : dazukofs_group) : Nat :=
  g.todo_list.countP (fun c => decide (c.event = e)) +
  g.working_list.countP (fun c => decide (c.event = e))

/-- The number of containers pointing to the event at `e` that are linked in
the todo or working list of some group. -/
def refs (e : Nat) (gl : List dazukofs_group) : Nat := (gl.map (refs_group e)).sum

/-- The container that `dazukofs_return_event(group_id, event_id, ·)` picks in
state `s`, if it finds one. -/
def returned_container (group_id event_id : Nat) (s : State) :
    Option dazukofs_event_container :=
  match list_find (is_group group_id) s.group_list with
  | none => none
  | some (_, grp, _) =>
    match list_find (fun ec => decide ((evt_at s ec.event).event_id = event_id))
        grp.working_list with
    | none => none
    | some (_, ec, _) => some ec

/-- The verdict that a call delivers for the event at `e`: the response of a
`dazukofs_return_event` other than REPOST that picks a container of `e`. -/
def delivered (e : Nat) (s : State) : Op → Option dazukofs_response_t
  | Op.return_event group_id event_id response =>
    match returned_container group_id event_id s with
    | some ec =>
      if ec.event = e ∧ response ≠ dazukofs_response_t.REPOST then some response else none
    | none => none
  | _ => none

/-- The verdicts delivered for the event at `e` in a sequence of calls, in
order. -/
def verdicts (e : Nat) : State → List Op → List dazukofs_response_t
  | _, [] => []
  | s, op :: ops => (delivered e s op).toList ++ verdicts e (step s op) ops

/-- The group that a call removes (`__remove_group`), if it removes one. -/
def removed_group (s : State) : Op → Option dazukofs_group
  | Op.remove_group name =>
    if s.group_count = 0 then none
    else
      match list_find (is_named name) s.group_list with
      | some (_, grp, _) => some grp
      | none => none
  | Op.release_tracking group_id =>
    match list_find (is_group group_id) s.group_list with
    | some (_, grp, _) =>
      if grp.tracking ≠ 0 ∧ grp.track_count - 1 = 0 then some grp else none
    | none => none
  | _ => none

/-- The number of container releases of the event at `e` that a call makes:
one for a verdict delivered for `e`, and one for every container of `e` held by
a group that the call removes. -/
def releases (e : Nat) (s : State) (op : Op) : Nat :=
  (match delivered e s op with
   | some _ => 1
   | none => 0) +
  (match removed_group s op with
   | some grp => refs_group e grp
   | none => 0)

/-- The number of container releases of the event at `e` in a sequence of
calls. -/
def releases_in (e : Nat) : State → List Op → Nat
  | _, [] => 0
  | s, op :: ops => releases e s op + releases_in e (step s op) ops

/-- Deprecated groups hold no container. -/
def drained (gl : List dazukofs_group) : Prop :=
  ∀ g ∈ gl, g.deprecated ≠ 0 → g.todo_list = [] ∧ g.working_list = []

/-- The invariant on containers: `assigned` counts the linked containers of
every event, and a deprecated group holds no container. -/
def CInv (s : State) : Prop :=
  (∀ e, event_assigned s e = (refs e s.group_list : Int)) ∧ drained s.group_list

/-! ### Example runs -/

/-- An environment in which the open of `dazukofs_get_event` succeeds with
descriptor 3. -/
def env_ok : OpenEnv := { signal := false, fd := 3, open_err := 0, nested := true }

/-- The registry after `add=av` and `add=dlp`. -/
def two_groups : State :=
  run init [Op.add_group true "av" 0, Op.add_group true "dlp" 0]

/-- Both groups claim event 1 (at address 0); "av" denies, then "dlp" allows. -/
def deny_then_allow : List Op :=
  [Op.get_event env_ok 300 0, Op.get_event env_ok 301 1,
   Op.return_event 0 1 dazukofs_response_t.DENY,
   Op.return_event 1 1 dazukofs_response_t.ALLOW]

/-- The number of containers for the event at `e` that a call links: the
number of non-deprecated groups if the call is the fan-out that creates `e`,
else none. -/
def linked_by (e : Nat) (s : State) : Op → Nat
  | Op.check_access evt_ok ec_fail cur dentry =>
    match (dazukofs_check_access evt_ok ec_fail cur dentry s).2 with
    | Outcome.waiting e0 => if e = e0 then (nondep s.group_list).length else 0
    | _ => 0
  | _ => 0

/-- The conditions under which `dazukofs_check_access` fans out: there is a
group, the process is neither masked nor ignored, and none of the
`group_count` container allocations fails (the event allocation is taken to
succeed). -/
def fan_out_ok (ec_fail : Option Nat) (cur : Nat) (s : State) : Prop :=
  s.group_count ≠ 0 ∧ ¬ masked cur s ∧ cur ∉ s.ign_list ∧
  ∀ i : Nat, ec_fail = some i → s.group_count ≤ (i : Int)

/-- The fan-out as the spec describes it: the call blocks on a new event,
every group is changed by `fan` (one container for the event at the tail of
the todo list of each non-deprecated group, nothing for a deprecated group),
and the event's `assigned` is the number of non-deprecated groups. -/
def fans_out (ec_fail : Option Nat) (cur dentry : Nat) (s : State) : Prop :=
  (dazukofs_check_access true ec_fail cur dentry s).2 = Outcome.waiting s.events.length ∧
  (dazukofs_check_access true ec_fail cur dentry s).1.group_list
    = s.group_list.map (fan s.events.length) ∧
  event_assigned (dazukofs_check_access true ec_fail cur dentry s).1 s.events.length
    = ((nondep s.group_list).length : Int)

/-! ### The order of delivery to one group -/

/-- The events (addresses) waiting on the todo list of the group with id
`gid`, head first; empty if there is no such group. -/
def todo_of (gid : Nat) (gl : List dazukofs_group) : List Nat :=
  match gl.find? (is_group gid) with
  | some g => g.todo_list.map (fun c => c.event)
  | none => []

/-- The registry after ten `add` commands: `GROUP_COUNT` groups, ids 0 to 9. -/
def full_registry : State :=
  run init [Op.add_group true "g0" 0, Op.add_group true "g1" 0, Op.add_group true "g2" 0,
    Op.add_group true "g3" 0, Op.add_group true "g4" 1, Op.add_group true "g5" 0,
    Op.add_group true "g6" 0, Op.add_group true "g7" 0, Op.add_group true "g8" 0,
    Op.add_group true "g9" 0]

/-- Two groups and one access fanned out to both (event id 1, at address 0). -/
def one_pending : State := run two_groups [Op.check_access true none 100 7]

/-! ### Ids of the registry -/

/-- The ids of the non-deprecated groups, in list order. -/
def live_ids (gl : List dazukofs_group) : List Nat := (nondep gl).map (fun g => g.group_id)

/-- The invariant on ids: the non-deprecated groups have pairwise distinct ids,
all below `GROUP_COUNT`. -/
def IdInv (s : State) : Prop :=
  (live_ids s.group_list).Nodup ∧ ∀ i ∈ live_ids s.group_list, (i : Int) < GROUP_COUNT

/-- An environment in which `dentry_open` fails with `-EACCES` after
`get_unused_fd` returned descriptor 5. -/
def env_open_fails : OpenEnv := { signal := false, fd := 5, open_err := -13, nested := false }

/-! ### The event ids handed out -/

/-- The event id that a call hands out: the `event_id` of the new event, when
the call is a `dazukofs_check_access` that fans out. -/
def handed_id (s : State) : Op → List Nat
  | Op.check_access evt_ok ec_fail cur dentry =>
    match (dazukofs_check_access evt_ok ec_fail cur dentry s).2 with
    | Outcome.waiting e =>
      [(evt_at (dazukofs_check_access evt_ok ec_fail cur dentry s).1 e).event_id]
    | _ => []
  | _ => []

/-- The event ids handed out in a sequence of calls, in order. -/
def ids_of : State → List Op → List Nat
  | _, [] => []
  | s, op :: ops => handed_id s op ++ ids_of (step s op) ops

/-- The value of `last_event_id` is a C `int`. -/
def int_range (x : Int) : Prop := -2147483648 ≤ x ∧ x < 2147483648

/-! ### Group-device handles -/

/-- The registry after `addtrack=A`, an open of the device of group 0 (the
handle registers with A), `del=A` and `addtrack=B`: the new group B holds id 0
and no handle is registered with it; the handle opened on A is still open. -/
def stale_handle_state : State :=
  step (step (dazukofs_group_open 0 (step init (Op.add_group true "A" 1))).1
    (Op.remove_group "A")) (Op.add_group true "B" 1)

/-- What the tracking of a group looks like from outside: name, id, tracking
flag and `track_count` of the non-deprecated groups. -/
def tracking_view (s : State) : List (String × Nat × Int × Int) :=
  (nondep s.group_list).map (fun g => (g.name, g.group_id, g.tracking, g.track_count))

/-! ### Control writes -/

/-- The memory at `tmp` after the copy and the store of the terminator in
`dazukofs_ctrl_write`. -/
def ctrl_tmp (beyond buffer : List Char) : List Char :=
  buffer.take (if buffer.length ≥ 32 then 32 - 1 else buffer.length) ++ [NUL] ++ beyond

/-- The offset behind the key of the first command that `dazukofs_ctrl_write`
finds in `tmp`: it looks for `del=`, then `add=`, then `addtrack=`. -/
def first_command (tmp : List Char) : Option Nat :=
  match strstr tmp "del=".toList with
  | some i => some (i + 4)
  | none =>
    match strstr tmp "add=".toList with
    | some i => some (i + 4)
    | none =>
      match strstr tmp "addtrack=".toList with
      | some i => some (i + 9)
      | none => none

/-- The registry as the control device shows it: name, id and tracking flag of
the non-deprecated groups. -/
def registry_view (s : State) : List (String × Nat × Int) :=
  (nondep s.group_list).map (fun g => (g.name, g.group_id, g.tracking))

/-- The control writes that name no group: `tmp` holds no command, or the
key of its first command is directly followed by a character that is neither
an allowed name character nor the terminating NUL. -/
def no_name (tmp : List Char) : Bool :=
  match first_command tmp with
  | none => true
  | some p => decide (is_valid_char (tmp.getD p NUL) = 0)

/-- A write of 32 characters: `add=foo` and 25 blanks. -/
def long_write : List Char := "add=foo".toList ++ List.replicate 25 (Char.ofNat 32)

/-! ### A long run in which every access is resolved -/

/-- The group "av" (id 0) with empty queues. -/
def idle_group : dazukofs_group :=
  { name := "av", group_id := 0, todo_list := [], working_list := [], use_count := 0,
    tracking := 0, track_count := 0, deprecated := 0 }

/-- The access number `i` (from 0) of `resolved_accesses`: process 100 opens a
file and is fanned out (the event is at address `i`), process 300 of the group
claims the event and allows it, and process 100 is resumed. -/
def resolved_access (i : Nat) : List Op :=
  [Op.check_access true none 100 7, Op.get_event env_ok 300 0,
   Op.return_event 0 (ulong_of_int (int_wrap ((i : Int) + 1))) dazukofs_response_t.ALLOW,
   Op.check_access_resume i]

/-- The accesses number `i` to `i + n - 1`. -/
def resolved_run : Nat → Nat → List Op
  | _, 0 => []
  | i, n + 1 => resolved_access i ++ resolved_run (i + 1) n

/-- One group is added, then `n` accesses are made and resolved one after the
other. -/
def resolved_accesses (n : Nat) : List Op := Op.add_group true "av" 0 :: resolved_run 0 n

/-- The engine between two accesses of `resolved_accesses`, after `i` of them:
one group with empty queues, nobody waiting. -/
def idle_after (i : Nat) (s : State) : Prop :=
  s.group_list = [idle_group] ∧ s.group_count = 1 ∧ s.last_event_id = int_wrap i ∧
  s.proc_list = [] ∧ s.ign_list = [] ∧ s.events.length = i ∧ s.waiters = []

/-! ### The reads of ec_array -/

/-- The indices of `ec_array` that the loop of `assign_event_to_groups`
(src/event.c:670-686) reads, in order, when it starts at index `i`: one per
non-deprecated group. -/
def assign_reads : Nat → List dazukofs_group → List Nat
  | _, [] => []
  | i, grp :: rest =>
    if grp.deprecated = 0 then i :: assign_reads (i + 1) rest else assign_reads i rest

/-! ### Reaping of deprecated groups -/

/-- A group that the scan of `__check_for_group` frees when it visits it:
deprecated, with `use_count` 0. -/
def reapable (g : dazukofs_group) : Bool :=
  decide (g.deprecated ≠ 0) && decide (g.use_count = 0)

/-- What the registry shows of every linked group, deprecated or not: name,
deprecation flag and `use_count`. -/
def linked_view (s : State) : List (String × Int × Int) :=
  s.group_list.map (fun g => (g.name, g.deprecated, g.use_count))

/-- The group "dlp" is added and removed behind the group "av", then "av" is
added once more. -/
def add_held_name : List Op :=
  [Op.add_group true "av" 0, Op.add_group true "dlp" 0, Op.remove_group "dlp",
   Op.add_group true "av" 0]

/-- The group "dlp" is added and removed behind the group "av". -/
def removed_behind : State :=
  run init [Op.add_group true "av" 0, Op.add_group true "dlp" 0, Op.remove_group "dlp"]

/-- A policy process opens the device of the tracking group "av" while the
group is registered and closes it after the group was removed. -/
def close_after_removal : List Op :=
  [Op.add_group true "av" 1, Op.open_tracking 0, Op.remove_group "av",
   Op.release_tracking 0]

/-- One group "av"; process 100 opens a file and is fanned out (event id 1 at
address 0). -/
def one_group_pending : State :=
  run init [Op.add_group true "av" 0, Op.check_access true none 100 7]

/-- A policy process opens the device of group 0 in `one_group_pending`, reads
the event and closes the device without writing a verdict. -/
def closed_with_claim : State :=
  dazukofs_group_release 0 (dazukofs_group_open 0 one_group_pending).2
    (dazukofs_get_event env_ok 300 0 (dazukofs_group_open 0 one_group_pending).1).1

/-- The tracking group "av" has two registered handles; process 100 is fanned
out and process 300 has claimed the event. -/
def tracked_claim : State :=
  run init [Op.add_group true "av" 1, Op.open_tracking 0, Op.open_tracking 0,
    Op.check_access true none 100 7, Op.get_event env_ok 300 0]

/-- The todo and the working list of every linked group. -/
def queues_view (s : State) :
    List (List dazukofs_event_container × List dazukofs_event_container) :=
  s.group_list.map (fun g => (g.todo_list, g.working_list))

/-- An open that succeeds with the descriptor 12. -/
def env_fd12 : OpenEnv := { signal := false, fd := 12, open_err := 0, nested := true }

/-- One group; `2^31 - 1` accesses were made and resolved, then the process
with pid 1234567 opens a file and is fanned out: `last_event_id` wraps to
`-2^31` and the event gets the id `2^64 - 2^31`. -/
def wrapped_pending : State :=
  run init (resolved_accesses 2147483647 ++ [Op.check_access true none 1234567 7])

/-- The verdict a policy process writes: the text of `"id=%lu\nr=%d\n"` for the
event id `E` and the digit `r`. -/
def verdict_text (E r : Nat) : List Char :=
  "id=".toList ++ fmt_lu E ++ [NL] ++ "r=".toList ++ [Nat.digitChar r] ++ [NL]

/-- The copy of a write in `tmp` as `dazukofs_group_write` parses it: the
first 18 characters and the terminator. -/
def verdict_tmp (buffer : List Char) : List Char := buffer.take 18 ++ [NUL]

/-- The listing of the groups as the spec describes it: the lines `id:name`
of the non-deprecated groups, each with its newline, in list order. -/
def groups_listing (gl : List dazukofs_group) : List Char :=
  ((gl.filter (fun g => decide (g.deprecated = 0))).map
    (fun g => (Nat.repr g.group_id).toList ++ ":".toList ++ g.name.toList ++ "\n".toList)).flatten

/-- The length the spec gives for the listing: `name_length + 3` for each
non-deprecated group. -/
def listing_size (gl : List dazukofs_group) : Nat :=
  ((gl.filter (fun g => decide (g.deprecated = 0))).map (fun g => g.name.length + 3)).sum

/-- Successive reads of one open file of the control device, the i-th with the
buffer length and in the engine state given by the i-th pair: the characters
read in order, the final position and the file (`none` if a read does not
return). -/
def ctrl_reads (kzalloc_ok : Nat → Bool) :
    List (Nat × State) → Nat → ctrl_file → Option (List Char × Nat × ctrl_file)
  | [], pos, file => some ([], pos, file)
  | (n, s) :: rest, pos, file =>
    match dazukofs_ctrl_read kzalloc_ok true n pos file s with
    | none => none
    | some (file1, _, bytes, pos1) =>
      match ctrl_reads kzalloc_ok rest pos1 file1 with
      | none => none
      | some (out, p, f) => some (bytes ++ out, p, f)

/-! ### The tracking of one group through a run -/

/-- What the tracking of a group consists of: its name, whether it is a
tracking group, and its `track_count`. -/
def tracking_row (g : dazukofs_group) : String × Bool × Int :=
  (g.name, decide (g.tracking ≠ 0), g.track_count)

/-- The tracking row of the non-deprecated group with id `gid` (`none` if
there is no such group). -/
def tracked (gid : Nat) (s : State) : Option (String × Bool × Int) :=
  (s.group_list.find? (is_group gid)).map tracking_row

/-- What the tracking data of a group are taken from, position by position. -/
def tracking_key (g : dazukofs_group) : Int × Nat × String × Bool × Int :=
  (g.deprecated, g.group_id, tracking_row g)

/-- What a call does to the `track_count` `t` of the tracking group with the
id `gid` and the name `name`, as the spec describes it: an open on the id adds
one, a release on the id subtracts one and removes the group when the count
becomes 0, a removal of the name removes the group (`none`), and no other call
touches the count. -/
def track_step (gid : Nat) (name : String) (t : Int) : Op → Option Int
  | Op.open_tracking g => if g = gid then some (t + 1) else some t
  | Op.release_tracking g =>
    if g = gid then (if t - 1 = 0 then none else some (t - 1)) else some t
  | Op.remove_group n => if n = name then none else some t
  | _ => some t

/-- The count after a run, `none` once the group was removed. -/
def track_run (gid : Nat) (name : String) : Int → List Op → Option Int
  | t, [] => some t
  | t, op :: ops =>
    match track_step gid name t op with
    | none => none
    | some t2 => track_run gid name t2 ops

/-- The tracking group "av" with one registered handle. -/
def one_handle : State := run init [Op.add_group true "av" 1, Op.open_tracking 0]

/-! ### Calls of other processes between the lock regions -/

/-- The container of event 1 in `one_group_pending`. -/
def pending_container : dazukofs_event_container := { event := 0, fd := 0 }

/-- In `one_group_pending` the policy process 300 enters
`dazukofs_get_event`, claims the container of event 1 and `open_file` fails
with -EACCES (descriptor 5); before the call goes on, the group "av" is
removed. -/
def removed_during_open : State :=
  step
    (open_file env_open_fails 300 0 pending_container
      (get_event_round env_open_fails 0 (get_event_enter 0 one_group_pending).1).1).1
    (Op.remove_group "av")

/-- The policy process of `removed_during_open` goes on after the removal:
`open_file` had returned -13. -/
def unclaimed_after_removal : State :=
  (get_event_leave env_open_fails 0 pending_container (-13) removed_during_open).1

/-- The tracking group "av" with one registered handle and the group "dlp". -/
def tracked_and_plain : State :=
  run init [Op.add_group true "av" 1, Op.add_group true "dlp" 0, Op.open_tracking 0]

/-- In `tracked_and_plain` process 100 opens a file and has allocated its
event and containers; before the fan-out the handle on "av" is closed. -/
def released_before_assign : State :=
  dazukofs_group_release 0 true (check_access_allocate true none 100 7 tracked_and_plain).1

/-! ## Basic facts: list search, the event store -/

theorem list_find_some {α : Type} {p : α → Bool} :
    ∀ {l pre : List α} {x : α} {post : List α}, list_find p l = some (pre, x, post) →
      l = pre ++ x :: post ∧ p x = true ∧ ∀ y ∈ pre, p y = false := by
  intro l
  induction l with
  | nil => intro pre x post h; simp [list_find] at h
  | cons a l ih =>
    intro pre x post h
    unfold list_find at h
    by_cases ha : p a = true
    · simp only [ha, if_true, Option.some.injEq, Prod.mk.injEq] at h
      obtain ⟨rfl, rfl, rfl⟩ := h
      simp [ha]
    · simp only [ha] at h
      cases hrec : list_find p l with
      | none => simp [hrec] at h
      | some r =>
        obtain ⟨pre1, y, post1⟩ := r
        simp only [hrec, Bool.false_eq_true, if_false, Option.some.injEq, Prod.mk.injEq] at h
        obtain ⟨rfl, rfl, rfl⟩ := h
        obtain ⟨h1, h2, h3⟩ := ih hrec
        refine ⟨by simp [h1], h2, ?_⟩
        intro z hz
        rcases List.mem_cons.mp hz with rfl | hz
        · simpa using ha
        · exact h3 z hz

theorem list_find_none {α : Type} {p : α → Bool} :
    ∀ {l : List α}, list_find p l = none ↔ ∀ y ∈ l, p y = false := by
  intro l
  induction l with
  | nil => simp [list_find]
  | cons a l ih =>
    unfold list_find
    by_cases ha : p a = true
    · simp [ha]
    · cases hrec : list_find p l with
      | none =>
        have := ih.mp hrec
        simpa [ha] using this
      | some r =>
        obtain ⟨pre1, y, post1⟩ := r
        have h2 := (list_find_some hrec)
        constructor
        · intro h; simp [ha] at h
        · intro h
          have hy : y ∈ a :: l := by rw [h2.1]; simp
          have := h y hy
          rw [h2.2.1] at this
          exact absurd this (by simp)

theorem list_find_append {α : Type} {p : α → Bool} :
    ∀ {pre : List α} {x : α} {post : List α}, (∀ y ∈ pre, p y = false) → p x = true →
      list_find p (pre ++ x :: post) = some (pre, x, post) := by
  intro pre
  induction pre with
  | nil => intro x post _ hx; simp [list_find, hx]
  | cons a pre ih =>
    intro x post hpre hx
    have ha : p a = false := hpre a (List.mem_cons_self _ _)
    have := @ih x post (fun y hy => hpre y (List.mem_cons_of_mem _ hy)) hx
    simp [list_find, ha, this]

theorem list_find_find {α : Type} {p : α → Bool} (l : List α) :
    (list_find p l).map (fun r => r.2.1) = l.find? p := by
  induction l with
  | nil => simp [list_find]
  | cons a l ih =>
    unfold list_find
    by_cases ha : p a = true
    · simp [ha]
    · cases hrec : list_find p l with
      | none => rw [hrec] at ih; simp [ha, ← ih]
      | some r => rw [hrec] at ih; simp [ha, ← ih]

theorem modify_at_split {α : Type} (f : α → α) :
    ∀ (pre : List α) (x : α) (post : List α),
      List.modify f pre.length (pre ++ x :: post) = pre ++ f x :: post := by
  intro pre
  induction pre with
  | nil => intro x post; simp [List.modify]
  | cons a pre ih => intro x post; simp [List.modify_succ_cons, ih]

theorem lor_one_ne_zero (x : Int) : Int.lor x 1 ≠ 0 := by
  intro h
  have h1 := Int.testBit_lor x 1 0
  rw [h] at h1
  have h2 : Int.testBit 0 0 = false := by decide
  have h3 : Int.testBit 1 0 = true := by decide
  rw [h2, h3] at h1
  simp at h1

/-! ### The event store -/

theorem evt_at_of_set {s t : State} {e : Nat} {v : dazukofs_event}
    (h : t.events = s.events.set e v) (e2 : Nat) :
    evt_at t e2 = if e2 = e ∧ e < s.events.length then v else evt_at s e2 := by
  unfold evt_at
  rw [h]
  simp only [List.getElem?_set]
  by_cases h1 : e = e2
  · subst h1
    by_cases h2 : e < s.events.length
    · simp [h2]
    · simp [h2, List.getElem?_eq_none (Nat.le_of_not_lt h2)]
  · have : ¬ e2 = e := fun h3 => h1 h3.symm
    simp [h1, this]

theorem evt_at_of_events_eq {s t : State} (h : t.events = s.events) (e : Nat) :
    evt_at t e = evt_at s e := by
  unfold evt_at; rw [h]

theorem evt_at_ge {s : State} {e : Nat} (h : s.events.length ≤ e) : evt_at s e = zero_event := by
  unfold evt_at
  rw [List.getElem?_eq_none h]; rfl


/-! ## release_event: who frees the event -/

theorem release_event_assigned (evt : dazukofs_event) (d n : Int) :
    (release_event evt d n).1.assigned = if d ≠ 0 then evt.assigned - 1 else evt.assigned := by
  unfold release_event
  by_cases hn : n = 0 <;> by_cases hd : d = 0 <;> simp [hn, hd] <;> split_ifs <;> simp_all

theorem release_event_deprecated (evt : dazukofs_event) (d n : Int) :
    (release_event evt d n).1.deprecated
      = if d ≠ 0 then evt.deprecated else if evt.assigned = 0 then evt.deprecated else 1 := by
  unfold release_event
  by_cases hn : n = 0 <;> by_cases hd : d = 0 <;> simp [hn, hd] <;> split_ifs <;> simp_all

theorem release_event_free (evt : dazukofs_event) (d n : Int) :
    (release_event evt d n).2
      = if d ≠ 0 then (if evt.assigned - 1 = 0 ∧ evt.deprecated ≠ 0 then 1 else 0)
        else if evt.assigned = 0 then 1 else 0 := by
  unfold release_event
  by_cases hn : n = 0 <;> by_cases hd : d = 0 <;> simp [hn, hd] <;> split_ifs <;> simp_all

theorem release_seq_deprecated (calls : List (Int × Int)) :
    ∀ evt : dazukofs_event, evt.deprecated ≠ 0 → (∀ c ∈ calls, c.1 ≠ 0) →
      evt.assigned = calls.length → calls ≠ [] →
      release_seq evt calls = List.replicate (calls.length - 1) 0 ++ [1] := by
  induction calls with
  | nil => intro _ _ _ _ h; exact absurd rfl h
  | cons c cs ih =>
    intro evt hdep hall hlen _
    have hc : c.1 ≠ 0 := hall c (List.mem_cons_self _ _)
    have hlen' : evt.assigned - 1 = cs.length := by
      simp only [List.length_cons] at hlen; push_cast at hlen; omega
    simp only [release_seq, release_event_free, hc, ne_eq, not_false_eq_true, if_true]
    cases cs with
    | nil =>
      simp at hlen'
      simp [release_seq, hlen', hdep]
    | cons c2 cs2 =>
      have hne : ¬ (evt.assigned - 1 = 0) := by
        rw [hlen']; simp only [List.length_cons]; push_cast; omega
      rw [ih (release_event evt c.1 c.2).1
        (by rw [release_event_deprecated]; simpa [hc] using hdep)
        (fun x hx => hall x (List.mem_cons_of_mem _ hx))
        (by rw [release_event_assigned]; simpa [hc] using hlen')
        (by simp)]
      simp [hne, List.replicate_succ]

theorem release_seq_last_frees (calls : List (Int × Int)) :
    ∀ evt : dazukofs_event, evt.deprecated = 0 →
      calls.countP (fun c => decide (c.1 = 0)) = 1 →
      evt.assigned = (calls.countP (fun c => !decide (c.1 = 0)) : Nat) →
      release_seq evt calls = List.replicate (calls.length - 1) 0 ++ [1] := by
  induction calls with
  | nil => intro _ _ h _; simp at h
  | cons c cs ih =>
    intro evt hdep hinit hass
    obtain ⟨d, n⟩ := c
    by_cases hc : d = 0
    · -- the initiator's call: every remaining call decrements
      subst hc
      have hrest : cs.countP (fun c => decide (c.1 = 0)) = 0 := by
        simpa [List.countP_cons] using hinit
      have hall : ∀ x ∈ cs, x.1 ≠ 0 := by
        intro x hx
        have := List.countP_eq_zero.mp hrest x hx
        simpa using this
      have hfil : cs.countP (fun c => !decide (c.1 = 0)) = cs.length := by
        rw [List.countP_eq_length]; intro x hx; simpa using hall x hx
      have hass' : evt.assigned = (cs.length : Int) := by
        simpa [List.countP_cons, hfil] using hass
      cases cs with
      | nil =>
        simp at hass'
        simp [release_seq, release_event_free, hass']
      | cons c2 cs2 =>
        have hne : ¬ (evt.assigned = 0) := by
          rw [hass']; simp only [List.length_cons]; push_cast; omega
        have hrec := release_seq_deprecated (c2 :: cs2) (release_event evt 0 n).1
          (by rw [release_event_deprecated]; simp [hne])
          hall
          (by rw [release_event_assigned]; simpa using hass')
          (by simp)
        simp only [release_seq] at hrec ⊢
        rw [hrec]
        simp [release_event_free, hne, List.replicate_succ]
    · -- a container's call before the initiator released: no free
      have hinit' : cs.countP (fun c => decide (c.1 = 0)) = 1 := by
        simpa [List.countP_cons, hc] using hinit
      have hass' : evt.assigned - 1 = (cs.countP (fun c => !decide (c.1 = 0)) : Nat) := by
        simp only [List.countP_cons, hc, decide_False, Bool.not_false, if_true] at hass
        push_cast at hass; omega
      have hpos : 1 ≤ cs.length := by
        have := List.countP_le_length (fun c : Int × Int => decide (c.1 = 0)) (l := cs)
        omega
      have hrec := ih (release_event evt d n).1
        (by rw [release_event_deprecated]; simpa [hc] using hdep)
        hinit'
        (by rw [release_event_assigned]; simpa [hc] using hass')
      obtain ⟨k, hk⟩ : ∃ k, cs.length = k + 1 := ⟨cs.length - 1, by omega⟩
      simp only [release_seq]
      rw [hrec]
      simp [release_event_free, hc, hdep, hk, List.replicate_succ]


/-! ## The short-circuit and the allocation failure of dazukofs_check_access -/

theorem check_recursion_not_masked {cur : Nat} {s : State} (h : ¬ masked cur s) :
    check_recursion cur s = (s, 1) := by
  unfold check_recursion
  have : list_find (fun a => decide ((proc_at s a).proc_id = cur)) s.proc_list = none := by
    rw [list_find_none]
    intro a ha
    simp only [decide_eq_false_iff_not]
    intro hc
    exact h ⟨a, ha, hc⟩
  rw [this]

theorem check_recursion_masked {cur : Nat} {s : State} (h : masked cur s) :
    ∃ pre a post, s.proc_list = pre ++ a :: post ∧ (proc_at s a).proc_id = cur ∧
      (∀ b ∈ pre, (proc_at s b).proc_id ≠ cur) ∧
      check_recursion cur s
        = ({ s with proc_list := pre ++ post,
                    procs := s.procs.set a { proc_at s a with within_list := 0 } }, 0) := by
  unfold check_recursion
  cases hf : list_find (fun a => decide ((proc_at s a).proc_id = cur)) s.proc_list with
  | none =>
    rw [list_find_none] at hf
    obtain ⟨a, ha, hc⟩ := h
    have := hf a ha
    simp [hc] at this
  | some r =>
    obtain ⟨pre, a, post⟩ := r
    obtain ⟨h1, h2, h3⟩ := list_find_some hf
    refine ⟨pre, a, post, h1, by simpa using h2, ?_, rfl⟩
    intro b hb
    simpa using h3 b hb

theorem check_recursion_frame (cur : Nat) (s : State) :
    same_but_mask s (check_recursion cur s).1 := by
  unfold check_recursion same_but_mask
  split <;> simp

theorem check_ignore_eq (cur : Nat) (s : State) :
    dazukofs_check_ignore_process cur s = if cur ∈ s.ign_list then 0 else 1 := by
  unfold dazukofs_check_ignore_process
  cases hf : list_find (fun p => decide (p = cur)) s.ign_list with
  | none =>
    rw [list_find_none] at hf
    have : cur ∉ s.ign_list := fun hc => by simpa using hf cur hc
    simp [this]
  | some r =>
    obtain ⟨pre, a, post⟩ := r
    obtain ⟨h1, h2, _⟩ := list_find_some hf
    have ha : a = cur := by simpa using h2
    have : cur ∈ s.ign_list := by rw [h1, ← ha]; simp
    simp [this]

theorem precheck_frame (cur : Nat) (n : Int) (s : State) :
    same_but_mask s (check_access_precheck cur n s).1 := by
  have h := check_recursion_frame cur s
  have h0 : same_but_mask s s := by simp [same_but_mask]
  unfold check_access_precheck
  by_cases hn : n = 0
  · simpa [hn] using h0
  · by_cases hr : (check_recursion cur s).2 = 0
    · simpa [hn, hr] using h
    · by_cases hi : dazukofs_check_ignore_process cur (check_recursion cur s).1 = 0
      · simpa [hn, hr, hi] using h
      · simpa [hn, hr, hi] using h

theorem precheck_pass {cur : Nat} {s : State} (h0 : s.group_count ≠ 0)
    (hm : ¬ masked cur s) (hi : cur ∉ s.ign_list) :
    check_access_precheck cur s.group_count s = (s, 0) := by
  unfold check_access_precheck
  simp [h0, check_recursion_not_masked hm, check_ignore_eq, hi]

theorem alloc_containers_none (ec_fail : Option Nat) :
    ∀ n i, alloc_containers ec_fail i n = none ↔ ∃ j, ec_fail = some j ∧ i ≤ j ∧ j < i + n := by
  intro n
  induction n with
  | zero => intro i; simp [alloc_containers]
  | succ n ih =>
    intro i
    unfold alloc_containers
    by_cases h : ec_fail = some i
    · simp only [h, if_true, true_iff]
      exact ⟨i, rfl, le_refl _, by omega⟩
    · simp only [h, if_false]
      cases hrec : alloc_containers ec_fail (i + 1) n with
      | none =>
        obtain ⟨j, hj, h1, h2⟩ := (ih (i + 1)).mp hrec
        simp only [true_iff]
        exact ⟨j, hj, by omega, by omega⟩
      | some ecs =>
        simp only [reduceCtorEq, false_iff]
        rintro ⟨j, hj, h1, h2⟩
        have hne : j ≠ i := fun hji => h (hji ▸ hj)
        have : alloc_containers ec_fail (i + 1) n = none :=
          (ih (i + 1)).mpr ⟨j, hj, by omega, by omega⟩
        rw [hrec] at this
        exact absurd this (by simp)

theorem alloc_containers_some (ec_fail : Option Nat) :
    ∀ n i ecs, alloc_containers ec_fail i n = some ecs → ecs = List.replicate n zero_container := by
  intro n
  induction n with
  | zero => intro i ecs h; simp [alloc_containers] at h; simp [h]
  | succ n ih =>
    intro i ecs h
    unfold alloc_containers at h
    split_ifs at h
    cases hrec : alloc_containers ec_fail (i + 1) n with
    | none => simp [hrec] at h
    | some l =>
      simp only [hrec, Option.some.injEq] at h
      rw [← h, ih _ _ hrec, List.replicate_succ]
theorem check_access_of_precheck_ne {evt_ok : Bool} {ec_fail : Option Nat} {cur dentry : Nat}
    {s : State} (h : (check_access_precheck cur s.group_count s).2 ≠ 0) :
    dazukofs_check_access evt_ok ec_fail cur dentry s
      = ((check_access_precheck cur s.group_count s).1, Outcome.returned 0) := by
  unfold dazukofs_check_access
  simp [h]

theorem check_access_alloc_fail {evt_ok : Bool} {ec_fail : Option Nat} {cur dentry : Nat}
    {s : State} (hp : check_access_precheck cur s.group_count s = (s, 0))
    (hfail : evt_ok = false ∨ ∃ i : Nat, ec_fail = some i ∧ (i : Int) < s.group_count) :
    (dazukofs_check_access evt_ok ec_fail cur dentry s).2 = Outcome.returned (-ENOMEM) ∧
    same_but_mask s
      { (dazukofs_check_access evt_ok ec_fail cur dentry s).1 with
          events := s.events, freed := s.freed } ∧
    (dazukofs_check_access evt_ok ec_fail cur dentry s).1.proc_list = s.proc_list := by
  unfold dazukofs_check_access
  simp only [hp, ne_eq, not_true_eq_false, if_false]
  unfold allocate_event_and_containers
  rcases hfail with h | ⟨i, hi, hlt⟩
  · subst h
    simp [same_but_mask]
  · by_cases he : evt_ok = true
    · have hnone : alloc_containers ec_fail 0 s.group_count.toNat = none := by
        rw [alloc_containers_none]
        exact ⟨i, hi, Nat.zero_le _, by omega⟩
      simp [he, hnone, same_but_mask]
    · simp [he, same_but_mask]

/-! ## The group registry -/

theorem nondep_cons (g : dazukofs_group) (gl : List dazukofs_group) :
    nondep (g :: gl) = if g.deprecated = 0 then g :: nondep gl else nondep gl := by
  unfold nondep
  by_cases h : g.deprecated = 0 <;> simp [List.filter_cons, h]

/-- The three ways in which the loop of `__check_for_group` ends. -/
theorem check_for_group_loop_spec (name : String) (id : Nat) (track : Int) :
    ∀ gl : List dazukofs_group,
      ((check_for_group_loop name id track gl).2.1 = 1 ∧
        (check_for_group_loop name id track gl).2.2 = 1 ∧
        nondep (check_for_group_loop name id track gl).1
          = mark_tracking name track (nondep gl) ∧
        ∃ g ∈ nondep gl, g.name = name) ∨
      ((check_for_group_loop name id track gl).2.1 = 0 ∧
        (check_for_group_loop name id track gl).2.2 = 0 ∧
        nondep (check_for_group_loop name id track gl).1 = nondep gl ∧
        ∃ g ∈ nondep gl, g.group_id = id) ∨
      ((check_for_group_loop name id track gl).2.1 = 0 ∧
        (check_for_group_loop name id track gl).2.2 = 1 ∧
        nondep (check_for_group_loop name id track gl).1 = nondep gl ∧
        ∀ g ∈ nondep gl, g.name ≠ name ∧ g.group_id ≠ id) := by
  intro gl
  induction gl with
  | nil => right; right; simp [check_for_group_loop, nondep]
  | cons grp rest ih =>
    unfold check_for_group_loop
    by_cases hd : grp.deprecated = 0
    · simp only [hd, ne_eq, not_true_eq_false, if_false, nondep_cons, if_true]
      by_cases hn : name = grp.name
      · left
        simp only [hn, if_true, mark_tracking]
        refine ⟨trivial, trivial, ?_, grp, by simp, rfl⟩
        by_cases ht : track = 0 <;> simp [ht, nondep_cons, hd]
      · by_cases hi : grp.group_id = id
        · right; left
          simp only [hn, hi, if_false, if_true]
          exact ⟨trivial, trivial, by simp [nondep_cons, hd], grp, by simp, hi⟩
        · simp only [hn, hi, if_false, nondep_cons, hd, if_true, mark_tracking]
          rcases ih with ⟨h1, h2, h3, g, hg, hgn⟩ | ⟨h1, h2, h3, g, hg, hgi⟩ | ⟨h1, h2, h3, h4⟩
          · left
            exact ⟨h1, h2, by rw [h3], g, List.mem_cons_of_mem _ hg, hgn⟩
          · right; left
            exact ⟨h1, h2, by rw [h3], g, List.mem_cons_of_mem _ hg, hgi⟩
          · right; right
            refine ⟨h1, h2, by rw [h3], ?_⟩
            intro g hg
            rcases List.mem_cons.mp hg with rfl | hg
            · exact ⟨fun h => hn h.symm, hi⟩
            · exact h4 g hg
    · simp only [hd, ne_eq, not_false_eq_true, if_true, nondep_cons, if_false]
      by_cases hu : grp.use_count = 0
      · simpa [hu] using ih
      · simpa [hu, nondep_cons, hd] using ih

theorem countP_succ_le_lt (l : List dazukofs_group) (id : Nat)
    (h : ∃ g ∈ l, g.group_id = id) :
    l.countP (fun g => decide (id + 1 ≤ g.group_id))
      < l.countP (fun g => decide (id ≤ g.group_id)) := by
  induction l with
  | nil => obtain ⟨g, hg, _⟩ := h; simp at hg
  | cons a l ih =>
    have hmono : l.countP (fun g => decide (id + 1 ≤ g.group_id))
        ≤ l.countP (fun g => decide (id ≤ g.group_id)) := by
      apply List.countP_mono_left
      intro x _ hx
      simp only [decide_eq_true_eq] at hx ⊢
      omega
    obtain ⟨g, hg, hgi⟩ := h
    simp only [List.countP_cons, decide_eq_true_eq]
    rcases List.mem_cons.mp hg with rfl | hg
    · have h1 : ¬ (id + 1 ≤ g.group_id) := by omega
      have h2 : id ≤ g.group_id := by omega
      simp only [h1, h2, if_false, if_true]
      omega
    · have := ih ⟨g, hg, hgi⟩
      by_cases h1 : id + 1 ≤ a.group_id
      · have h2 : id ≤ a.group_id := by omega
        simp only [h1, h2, if_true]
        omega
      · by_cases h2 : id ≤ a.group_id
        · simp only [h1, h2, if_true, if_false]; omega
        · simp only [h1, h2, if_false]; omega

/-- The search loop of `dazukofs_add_group` ends within its fuel, at the
smallest id from `id` on that it may use. -/
theorem add_group_loop_spec (name : String) (track : Int) :
    ∀ (fuel id : Nat) (gl : List dazukofs_group),
      (nondep gl).countP (fun g => decide (id ≤ g.group_id)) < fuel →
      ∃ gl2 ae id2, add_group_loop name track fuel id gl = some (gl2, ae, id2) ∧
        id ≤ id2 ∧
        (∀ j, id ≤ j → j < id2 → ∃ g ∈ nondep gl, g.group_id = j) ∧
        ((ae = 1 ∧ nondep gl2 = mark_tracking name track (nondep gl) ∧
            ∃ g ∈ nondep gl, g.name = name) ∨
         (ae = 0 ∧ nondep gl2 = nondep gl ∧
            ∀ g ∈ nondep gl, g.name ≠ name ∧ g.group_id ≠ id2)) := by
  intro fuel
  induction fuel with
  | zero => intro id gl h; omega
  | succ fuel ih =>
    intro id gl hfuel
    unfold add_group_loop __check_for_group
    rcases check_for_group_loop_spec name id track gl with
      ⟨h1, h2, h3, h4⟩ | ⟨h1, h2, h3, h4⟩ | ⟨h1, h2, h3, h4⟩
    · refine ⟨(check_for_group_loop name id track gl).1, 1, id, ?_, le_refl _, ?_, ?_⟩
      · simp [h1]
      · intro j hj1 hj2; omega
      · left; exact ⟨rfl, h3, h4⟩
    · have hlt := countP_succ_le_lt (nondep gl) id h4
      obtain ⟨gl2, ae, id2, e1, e2, e3, e4⟩ :=
        ih (id + 1) (check_for_group_loop name id track gl).1 (by rw [h3]; omega)
      refine ⟨gl2, ae, id2, ?_, by omega, ?_, ?_⟩
      · simp [h1, h2, e1]
      · intro j hj1 hj2
        by_cases hj : j = id
        · subst hj; exact h4
        · have := e3 j (by omega) hj2
          rwa [h3] at this
      · rw [h3] at e4; exact e4
    · refine ⟨(check_for_group_loop name id track gl).1, 0, id, ?_, le_refl _, ?_, ?_⟩
      · simp [h1, h2]
      · intro j hj1 hj2; omega
      · right; exact ⟨rfl, h3, h4⟩

theorem add_group_fuel (gl : List dazukofs_group) :
    (nondep gl).countP (fun g => decide (0 ≤ g.group_id)) < gl.length + 1 := by
  have h1 := List.countP_le_length (fun g : dazukofs_group => decide (0 ≤ g.group_id))
    (l := nondep gl)
  have h2 : (nondep gl).length ≤ gl.length := List.length_filter_le _ _
  omega

/-- The function `dazukofs_add_group` always returns, and what it returns. -/
theorem add_group_spec (alloc_ok : Bool) (name : String) (track : Int) (s : State) :
    ∃ (gl2 : List dazukofs_group) (ae : Int) (id2 : Nat),
      (∀ j, j < id2 → ∃ g ∈ nondep s.group_list, g.group_id = j) ∧
      ((ae = 1 ∧ nondep gl2 = mark_tracking name track (nondep s.group_list) ∧
          ∃ g ∈ nondep s.group_list, g.name = name) ∨
       (ae = 0 ∧ nondep gl2 = nondep s.group_list ∧
          ∀ g ∈ nondep s.group_list, g.name ≠ name ∧ g.group_id ≠ id2)) ∧
      dazukofs_add_group alloc_ok name track s
        = some (if ae ≠ 0 then ({ s with group_list := gl2 }, 0)
                else if s.group_count = GROUP_COUNT then
                  ({ s with group_list := gl2 }, -EPERM)
                else if alloc_ok then
                  ({ s with group_list := gl2 ++ [new_group name id2 track],
                            group_count := s.group_count + 1 }, 0)
                else ({ s with group_list := gl2 }, -ENOMEM)) ∧
      add_group_loop name track (s.group_list.length + 1) 0 s.group_list
        = some (gl2, ae, id2) := by
  obtain ⟨gl2, ae, id2, e1, _, e3, e4⟩ :=
    add_group_loop_spec name track (s.group_list.length + 1) 0 s.group_list
      (add_group_fuel s.group_list)
  refine ⟨gl2, ae, id2, fun j hj => e3 j (Nat.zero_le _) hj, e4, ?_, e1⟩
  unfold dazukofs_add_group
  simp only [e1]
  by_cases hae : ae = 0
  · by_cases hc : s.group_count = GROUP_COUNT
    · simp [hae, hc]
    · by_cases ha : alloc_ok = true
      · simp [hae, hc, ha, __create_group, new_group]
      · simp [hae, hc, ha, __create_group]
  · simp [hae]

theorem add_group_total (alloc_ok : Bool) (name : String) (track : Int) (s : State) :
    ∃ r, dazukofs_add_group alloc_ok name track s = some r := by
  obtain ⟨gl2, ae, id2, _, _, h, _⟩ := add_group_spec alloc_ok name track s
  exact ⟨_, h⟩

theorem mark_tracking_length (name : String) (track : Int) (l : List dazukofs_group) :
    (mark_tracking name track l).length = l.length := by
  induction l with
  | nil => rfl
  | cons g l ih =>
    unfold mark_tracking
    by_cases h : name = g.name <;> simp [h, ih]

theorem mark_tracking_map_id_name (name : String) (track : Int) (l : List dazukofs_group) :
    (mark_tracking name track l).map (fun g => (g.group_id, g.name))
      = l.map (fun g => (g.group_id, g.name)) := by
  induction l with
  | nil => rfl
  | cons g l ih =>
    unfold mark_tracking
    by_cases h : name = g.name
    · by_cases ht : track = 0 <;> simp [h, ht]
    · simp [h, ih]

theorem mark_tracking_zero (name : String) (l : List dazukofs_group) :
    mark_tracking name 0 l = l := by
  induction l with
  | nil => rfl
  | cons g l ih =>
    unfold mark_tracking
    by_cases h : name = g.name <;> simp [h, ih]

/-- An `add` of a name that a non-deprecated group holds. -/
theorem add_group_existing (alloc_ok : Bool) (name : String) (track : Int) (s : State)
    (h : ∃ g ∈ nondep s.group_list, g.name = name) :
    ∃ s2, dazukofs_add_group alloc_ok name track s = some (s2, 0) ∧
      nondep s2.group_list = mark_tracking name track (nondep s.group_list) ∧
      s2.group_count = s.group_count ∧ s2.events = s.events ∧
      s2.last_event_id = s.last_event_id ∧ s2.proc_list = s.proc_list ∧
      s2.procs = s.procs ∧ s2.ign_list = s.ign_list ∧ s2.freed = s.freed ∧
      s2.waiters = s.waiters := by
  obtain ⟨gl2, ae, id2, _, h2, h3, _⟩ := add_group_spec alloc_ok name track s
  rcases h2 with ⟨hae, hnd, _⟩ | ⟨_, _, hno⟩
  · refine ⟨{ s with group_list := gl2 }, ?_, hnd, rfl, rfl, rfl, rfl, rfl, rfl, rfl, rfl⟩
    rw [h3]; simp [hae]
  · obtain ⟨g, hg, hgn⟩ := h
    exact absurd hgn (hno g hg).1

/-! ## open_file and the nested access check -/

theorem same_but_mask_refl (s : State) : same_but_mask s s := by
  simp [same_but_mask]

theorem same_but_mask_trans {s t u : State} (h1 : same_but_mask s t) (h2 : same_but_mask t u) :
    same_but_mask s u := by
  obtain ⟨a1, a2, a3, a4, a5, a6, a7⟩ := h1
  obtain ⟨b1, b2, b3, b4, b5, b6, b7⟩ := h2
  exact ⟨b1.trans a1, b2.trans a2, b3.trans a3, b4.trans a4, b5.trans a5, b6.trans a6,
    b7.trans a7⟩

theorem mask_proc_frame (cur : Nat) (s : State) : same_but_mask s (mask_proc cur s).1 := by
  simp [mask_proc, same_but_mask]

theorem proc_at_mask_proc (cur : Nat) (s : State) :
    proc_at (mask_proc cur s).1 (mask_proc cur s).2 = { proc_id := cur, within_list := 1 } := by
  simp [mask_proc, proc_at]

theorem masked_mask_proc (cur : Nat) (s : State) : masked cur (mask_proc cur s).1 := by
  refine ⟨(mask_proc cur s).2, ?_, ?_⟩
  · simp [mask_proc]
  · rw [proc_at_mask_proc]

/-- The access check that `dentry_open` triggers inside `open_file` never
fans out: it returns 0 at the precheck. -/
theorem nested_check_access (evt_ok : Bool) (ec_fail : Option Nat) (cur dentry : Nat)
    (s : State) :
    dazukofs_check_access evt_ok ec_fail cur dentry (mask_proc cur s).1
      = ((check_access_precheck cur (mask_proc cur s).1.group_count (mask_proc cur s).1).1,
         Outcome.returned 0) := by
  apply check_access_of_precheck_ne
  unfold check_access_precheck
  by_cases h0 : (mask_proc cur s).1.group_count = 0
  · simp [h0]
  · obtain ⟨pre, a, post, _, _, _, hc⟩ := check_recursion_masked (masked_mask_proc cur s)
    simp [h0, hc]

theorem open_file_frame (env : OpenEnv) (cur i : Nat) (ec : dazukofs_event_container)
    (s : State) :
    same_but_mask (with_group i (set_claimed_fd env.fd) s) (open_file env cur i ec s).1 := by
  unfold open_file
  by_cases hfd : env.fd < 0
  · simp only [hfd, if_true]
    exact same_but_mask_refl _
  · simp only [hfd, if_false]
    have h1 := mask_proc_frame cur (with_group i (set_claimed_fd env.fd) s)
    have h2 : same_but_mask (with_group i (set_claimed_fd env.fd) s)
        (if env.nested = true then
          (dazukofs_check_access true none cur
            (evt_at (mask_proc cur (with_group i (set_claimed_fd env.fd) s)).1 ec.event).dentry
            (mask_proc cur (with_group i (set_claimed_fd env.fd) s)).1).1
         else (mask_proc cur (with_group i (set_claimed_fd env.fd) s)).1) := by
      by_cases hn : env.nested = true
      · simp only [hn, if_true, nested_check_access]
        exact same_but_mask_trans h1 (precheck_frame _ _ _)
      · simp only [hn]
        exact h1
    have h3 : ∀ t, same_but_mask (with_group i (set_claimed_fd env.fd) s) t →
        same_but_mask (with_group i (set_claimed_fd env.fd) s)
          (if (proc_at t (mask_proc cur (with_group i (set_claimed_fd env.fd) s)).2).within_list
              ≠ 0 then (check_recursion cur t).1 else t) := by
      intro t ht
      split_ifs
      · exact same_but_mask_trans ht (check_recursion_frame cur t)
      · exact ht
    have h4 := h3 _ h2
    by_cases he : env.open_err = 0
    · simpa [he] using h4
    · simpa [he] using h4

theorem open_file_ret (env : OpenEnv) (cur i : Nat) (ec : dazukofs_event_container)
    (s : State) :
    (open_file env cur i ec s).2 = if env.fd < 0 then env.fd else env.open_err := by
  unfold open_file
  by_cases hfd : env.fd < 0
  · simp [hfd]
  · by_cases he : env.open_err = 0 <;> simp [hfd, he]

/-! ## What dazukofs_get_event does to the state -/

theorem get_event_not_found {env : OpenEnv} {cur gid : Nat} {s : State}
    (hf : list_find (is_group gid) s.group_list = none) :
    dazukofs_get_event env cur gid s = (s, GetResult.error (-EINVAL)) := by
  unfold dazukofs_get_event; rw [hf]

theorem get_event_empty {env : OpenEnv} {cur gid : Nat} {s : State}
    {pre post : List dazukofs_group} {grp : dazukofs_group}
    (hf : list_find (is_group gid) s.group_list = some (pre, grp, post))
    (ht : grp.todo_list = []) :
    dazukofs_get_event env cur gid s
      = (s, if env.signal then GetResult.error (-ERESTARTSYS) else GetResult.blocked) := by
  unfold dazukofs_get_event; rw [hf]
  simp [is_event_available, ht]

theorem get_event_claim {env : OpenEnv} {cur gid : Nat} {s : State}
    {pre post : List dazukofs_group} {grp : dazukofs_group}
    {ec : dazukofs_event_container} {rest : List dazukofs_event_container}
    (hf : list_find (is_group gid) s.group_list = some (pre, grp, post))
    (ht : grp.todo_list = ec :: rest) :
    (dazukofs_get_event env cur gid s).1.group_list
      = pre ++ (if env.fd < 0 ∨ env.open_err ≠ 0 then group_unclaimed env.fd grp ec rest
                else group_claimed env.fd grp ec rest) :: post ∧
    (dazukofs_get_event env cur gid s).1.group_count = s.group_count ∧
    (dazukofs_get_event env cur gid s).1.last_event_id = s.last_event_id ∧
    (dazukofs_get_event env cur gid s).1.ign_list = s.ign_list ∧
    (dazukofs_get_event env cur gid s).1.events = s.events ∧
    (dazukofs_get_event env cur gid s).1.freed = s.freed ∧
    (dazukofs_get_event env cur gid s).1.waiters = s.waiters ∧
    (dazukofs_get_event env cur gid s).2
      = (if env.fd < 0 then GetResult.error env.fd
         else if env.open_err ≠ 0 then GetResult.error env.open_err
         else GetResult.ok (evt_at s ec.event).event_id env.fd (evt_at s ec.event).proc_id) := by
  unfold dazukofs_get_event; rw [hf]
  simp only [is_event_available, ht, ne_eq, reduceCtorEq, not_false_eq_true, if_true,
    one_ne_zero, if_false, claim_event]
  generalize hs1 : ({ s with group_list := pre ++
      { name := grp.name, group_id := grp.group_id, todo_list := rest,
        working_list := ec :: grp.working_list, use_count := grp.use_count + 1,
        tracking := grp.tracking, track_count := grp.track_count,
        deprecated := grp.deprecated } :: post } : State) = s1
  have hfr := open_file_frame env cur pre.length ec s1
  have hret := open_file_ret env cur pre.length ec s1
  obtain ⟨f1, f2, f3, f4, f5, f6, f7⟩ := hfr
  have hgl : (open_file env cur pre.length ec s1).1.group_list
      = pre ++ { name := grp.name, group_id := grp.group_id, todo_list := rest,
                 working_list := { ec with fd := env.fd } :: grp.working_list,
                 use_count := grp.use_count + 1,
                 tracking := grp.tracking, track_count := grp.track_count,
                 deprecated := grp.deprecated } :: post := by
    rw [f1, ← hs1]
    simp [with_group, modify_at_split, set_claimed_fd]
  have hcore : ∀ f, (with_group pre.length f s1).group_count = s.group_count := by
    intro f; rw [← hs1]; rfl
  have hev : evt_at (open_file env cur pre.length ec s1).1 ec.event = evt_at s ec.event := by
    apply evt_at_of_events_eq; rw [f5, ← hs1]; rfl
  by_cases hfd : env.fd < 0
  · have hne : env.fd ≠ 0 := by omega
    simp only [hret, hfd, if_true, hne, if_false, true_or]
    refine ⟨?_, ?_, ?_, ?_, ?_, ?_, ?_, trivial⟩
    · simp [with_group, hgl, modify_at_split, unclaim_event, group_unclaimed]
    · simp only [with_group]; rw [f2, ← hs1]; rfl
    · simp only [with_group]; rw [f3, ← hs1]; rfl
    · simp only [with_group]; rw [f4, ← hs1]; rfl
    · simp only [with_group]; rw [f5, ← hs1]; rfl
    · simp only [with_group]; rw [f6, ← hs1]; rfl
    · simp only [with_group]; rw [f7, ← hs1]; rfl
  · by_cases he : env.open_err = 0
    · simp only [hret, hfd, he, if_false, if_true, false_or, ne_eq, not_true_eq_false]
      refine ⟨?_, ?_, ?_, ?_, ?_, ?_, ?_, ?_⟩
      · simp [with_group, hgl, modify_at_split, group_claimed]
      · simp only [with_group]; rw [f2, ← hs1]; rfl
      · simp only [with_group]; rw [f3, ← hs1]; rfl
      · simp only [with_group]; rw [f4, ← hs1]; rfl
      · simp only [with_group]; rw [f5, ← hs1]; rfl
      · simp only [with_group]; rw [f6, ← hs1]; rfl
      · simp only [with_group]; rw [f7, ← hs1]; rfl
      · rw [hev]
    · simp only [hret, hfd, he, if_false, false_or, ne_eq, not_false_eq_true, if_true]
      refine ⟨?_, ?_, ?_, ?_, ?_, ?_, ?_, trivial⟩
      · simp [with_group, hgl, modify_at_split, unclaim_event, group_unclaimed]
      · simp only [with_group]; rw [f2, ← hs1]; rfl
      · simp only [with_group]; rw [f3, ← hs1]; rfl
      · simp only [with_group]; rw [f4, ← hs1]; rfl
      · simp only [with_group]; rw [f5, ← hs1]; rfl
      · simp only [with_group]; rw [f6, ← hs1]; rfl
      · simp only [with_group]; rw [f7, ← hs1]; rfl

/-! ## release_event on the store, and dazukofs_return_event -/

@[simp] theorem release_event_at_group_list (e : Nat) (d n : Int) (s : State) :
    (release_event_at e d n s).group_list = s.group_list := by
  unfold release_event_at; split_ifs <;> rfl

@[simp] theorem release_event_at_group_count (e : Nat) (d n : Int) (s : State) :
    (release_event_at e d n s).group_count = s.group_count := by
  unfold release_event_at; split_ifs <;> rfl

@[simp] theorem release_event_at_last_event_id (e : Nat) (d n : Int) (s : State) :
    (release_event_at e d n s).last_event_id = s.last_event_id := by
  unfold release_event_at; split_ifs <;> rfl

@[simp] theorem release_event_at_proc_list (e : Nat) (d n : Int) (s : State) :
    (release_event_at e d n s).proc_list = s.proc_list := by
  unfold release_event_at; split_ifs <;> rfl

@[simp] theorem release_event_at_procs (e : Nat) (d n : Int) (s : State) :
    (release_event_at e d n s).procs = s.procs := by
  unfold release_event_at; split_ifs <;> rfl

@[simp] theorem release_event_at_ign_list (e : Nat) (d n : Int) (s : State) :
    (release_event_at e d n s).ign_list = s.ign_list := by
  unfold release_event_at; split_ifs <;> rfl

@[simp] theorem release_event_at_waiters (e : Nat) (d n : Int) (s : State) :
    (release_event_at e d n s).waiters = s.waiters := by
  unfold release_event_at; split_ifs <;> rfl

@[simp] theorem release_event_at_length (e : Nat) (d n : Int) (s : State) :
    (release_event_at e d n s).events.length = s.events.length := by
  unfold release_event_at; split_ifs <;> simp

theorem evt_at_release_event_at (e e2 : Nat) (d n : Int) (s : State) :
    evt_at (release_event_at e d n s) e2
      = if e2 = e ∧ e < s.events.length then (release_event (evt_at s e) d n).1
        else evt_at s e2 := by
  unfold release_event_at
  by_cases h : e < s.events.length
  · simp only [h, if_true]
    rw [evt_at_of_set (s := s) (e := e) (v := (release_event (evt_at s e) d n).1) rfl]
    simp [h]
  · simp [h]

theorem release_event_at_with_groups (e : Nat) (d n : Int) (s : State)
    (gl : List dazukofs_group) :
    release_event_at e d n { s with group_list := gl }
      = { release_event_at e d n s with group_list := gl } := by
  unfold release_event_at
  by_cases h : e < s.events.length
  · simp [h, evt_at]
  · simp [h]

theorem erase_of_find {α : Type} [DecidableEq α] {p : α → Bool} {l pre post : List α} {x : α}
    (h : list_find p l = some (pre, x, post)) : l.erase x = pre ++ post := by
  obtain ⟨h1, h2, h3⟩ := list_find_some h
  have hx : x ∉ pre := by
    intro hx
    have := h3 x hx
    rw [h2] at this
    exact absurd this (by simp)
  rw [h1, List.erase_append_right _ hx, List.erase_cons_head]

theorem return_event_no_group {gid id : Nat} {r : dazukofs_response_t} {s : State}
    (hf : list_find (is_group gid) s.group_list = none) :
    dazukofs_return_event gid id r s = (s, -EINVAL) := by
  unfold dazukofs_return_event; rw [hf]

theorem return_event_no_container {gid id : Nat} {r : dazukofs_response_t} {s : State}
    {gpre gpost : List dazukofs_group} {grp : dazukofs_group}
    (hf : list_find (is_group gid) s.group_list = some (gpre, grp, gpost))
    (hw : list_find (fun ec => decide ((evt_at s ec.event).event_id = id)) grp.working_list
      = none) :
    dazukofs_return_event gid id r s = (s, -EINVAL) := by
  unfold dazukofs_return_event; rw [hf]
  simp only [hw]
  have := (list_find_some hf).1
  simp [← this]

theorem return_event_repost {gid id : Nat} {s : State}
    {gpre gpost : List dazukofs_group} {grp : dazukofs_group}
    {pre post : List dazukofs_event_container} {ec : dazukofs_event_container}
    (hf : list_find (is_group gid) s.group_list = some (gpre, grp, gpost))
    (hw : list_find (fun ec => decide ((evt_at s ec.event).event_id = id)) grp.working_list
      = some (pre, ec, post)) :
    dazukofs_return_event gid id dazukofs_response_t.REPOST s
      = ({ s with group_list := gpre ++
            { grp with working_list := pre ++ post, todo_list := ec :: grp.todo_list }
              :: gpost }, 0) := by
  unfold dazukofs_return_event; rw [hf]
  simp only [hw, if_true, unclaim_event, erase_of_find hw]
  simp

theorem return_event_verdict {gid id : Nat} {r : dazukofs_response_t} {s : State}
    {gpre gpost : List dazukofs_group} {grp : dazukofs_group}
    {pre post : List dazukofs_event_container} {ec : dazukofs_event_container}
    (hr : r ≠ dazukofs_response_t.REPOST)
    (hf : list_find (is_group gid) s.group_list = some (gpre, grp, gpost))
    (hw : list_find (fun ec => decide ((evt_at s ec.event).event_id = id)) grp.working_list
      = some (pre, ec, post)) :
    dazukofs_return_event gid id r s
      = ({ release_event_at ec.event 1 (if r = dazukofs_response_t.DENY then 1 else 0) s with
            group_list := gpre ++ { grp with working_list := pre ++ post } :: gpost }, 0) := by
  unfold dazukofs_return_event; rw [hf]
  simp only [hw, hr, if_false, release_event_at_with_groups]
  simp

/-! ## Fan-out -/

theorem assign_loop_replicate (e m : Nat) :
    ∀ (gl : List dazukofs_group) (i : Nat),
      assign_loop e (List.replicate m zero_container) i gl
        = if nondep gl = [] ∨ i + (nondep gl).length ≤ m then
            some (gl.map (fan e), ((nondep gl).length : Int))
          else none := by
  intro gl
  induction gl with
  | nil => intro i; simp [assign_loop, nondep]
  | cons g gl ih =>
    intro i
    unfold assign_loop
    by_cases hd : g.deprecated = 0
    · simp only [hd, if_true, nondep_cons, List.length_cons]
      by_cases hi : i < m
      · have hget : (List.replicate m zero_container)[i]? = some zero_container := by
          simp [List.getElem?_replicate, hi]
        rw [hget, ih (i + 1)]
        by_cases hle : nondep gl = [] ∨ i + 1 + (nondep gl).length ≤ m
        · have hle2 : g :: nondep gl = [] ∨ i + ((nondep gl).length + 1) ≤ m := by
            right
            rcases hle with h | h
            · rw [h]; simp; omega
            · omega
          rw [if_pos hle, if_pos hle2]
          simp [fan, hd, zero_container]
        · have hle2 : ¬ (g :: nondep gl = [] ∨ i + ((nondep gl).length + 1) ≤ m) := by
            rintro (h | h)
            · simp at h
            · exact hle (Or.inr (by omega))
          rw [if_neg hle, if_neg hle2]
      · have hget : (List.replicate m zero_container)[i]? = none := by
          simp [List.getElem?_replicate, hi]
        have hle2 : ¬ (g :: nondep gl = [] ∨ i + ((nondep gl).length + 1) ≤ m) := by
          rintro (h | h)
          · simp at h
          · omega
        rw [hget, if_neg hle2]
    · simp only [hd, if_false, nondep_cons]
      rw [ih i]
      by_cases hle : nondep gl = [] ∨ i + (nondep gl).length ≤ m
      · rw [if_pos hle, if_pos hle]
        simp [fan, hd]
      · rw [if_neg hle, if_neg hle]

theorem set_length_append {α : Type} (l : List α) (a b : α) :
    (l ++ [a]).set l.length b = l ++ [b] := by
  induction l with
  | nil => rfl
  | cons x l ih => simp [ih]

theorem evt_at_append_new (s t : State) (v : dazukofs_event) (h : t.events = s.events ++ [v]) :
    evt_at t s.events.length = v := by
  unfold evt_at; rw [h]; simp

theorem evt_at_append_old {s t : State} {v : dazukofs_event} (h : t.events = s.events ++ [v])
    {e : Nat} (he : e < s.events.length) : evt_at t e = evt_at s e := by
  unfold evt_at; rw [h, List.getElem?_append_left he]

/-- The four ways in which `dazukofs_check_access` leaves the model. -/
theorem check_access_cases (evt_ok : Bool) (ec_fail : Option Nat) (cur dentry : Nat)
    (s : State) :
    ((dazukofs_check_access evt_ok ec_fail cur dentry s).2 = Outcome.returned 0 ∧
      (check_access_precheck cur s.group_count s).2 ≠ 0 ∧
      same_but_mask s (dazukofs_check_access evt_ok ec_fail cur dentry s).1) ∨
    ((dazukofs_check_access evt_ok ec_fail cur dentry s).2 = Outcome.returned (-ENOMEM) ∧
      same_but_mask s
        { (dazukofs_check_access evt_ok ec_fail cur dentry s).1 with
            events := s.events, freed := s.freed } ∧
      ((dazukofs_check_access evt_ok ec_fail cur dentry s).1.events = s.events ∨
       (dazukofs_check_access evt_ok ec_fail cur dentry s).1.events
          = s.events ++ [zero_event]) ∧
      (evt_ok = false ∨ ∃ i : Nat, ec_fail = some i ∧ (i : Int) < s.group_count)) ∨
    (dazukofs_check_access evt_ok ec_fail cur dentry s = (s, Outcome.fault) ∧
      ¬ ((nondep s.group_list).length ≤ s.group_count.toNat)) ∨
    ((dazukofs_check_access evt_ok ec_fail cur dentry s).2 = Outcome.waiting s.events.length ∧
      (check_access_precheck cur s.group_count s).2 = 0 ∧
      (dazukofs_check_access evt_ok ec_fail cur dentry s).1.group_list
        = s.group_list.map (fan s.events.length) ∧
      (dazukofs_check_access evt_ok ec_fail cur dentry s).1.events
        = s.events ++ [fanned_event s cur dentry (nondep s.group_list).length] ∧
      (dazukofs_check_access evt_ok ec_fail cur dentry s).1.group_count = s.group_count ∧
      (dazukofs_check_access evt_ok ec_fail cur dentry s).1.last_event_id
        = int_wrap (s.last_event_id + 1) ∧
      (dazukofs_check_access evt_ok ec_fail cur dentry s).1.ign_list = s.ign_list ∧
      (dazukofs_check_access evt_ok ec_fail cur dentry s).1.freed = s.freed ∧
      (dazukofs_check_access evt_ok ec_fail cur dentry s).1.waiters
        = s.events.length :: s.waiters) := by
  have hfr := precheck_frame cur s.group_count s
  obtain ⟨f1, f2, f3, f4, f5, f6, f7⟩ := hfr
  by_cases hp : (check_access_precheck cur s.group_count s).2 = 0
  · right
    unfold dazukofs_check_access
    simp only [hp, ne_eq, not_true_eq_false, if_false]
    unfold allocate_event_and_containers
    by_cases he : evt_ok = true
    · simp only [he, if_true]
      cases hal : alloc_containers ec_fail 0
          (check_access_precheck cur s.group_count s).1.group_count.toNat with
      | none =>
        left
        obtain ⟨j, hj, _, hj2⟩ := (alloc_containers_none _ _ _).mp hal
        rw [f2] at hj2
        refine ⟨?_, ?_, ?_, Or.inr ⟨j, hj, by omega⟩⟩
        · simp
        · simp [same_but_mask, f1, f2, f3, f4, f5, f7]
        · simp [f5]
      | some ecs =>
        right
        have hecs := alloc_containers_some _ _ _ _ hal
        subst hecs
        simp only [assign_event_to_groups, assign_loop_replicate, Nat.zero_add, f1, f2]
        by_cases hle : (nondep s.group_list).length ≤ s.group_count.toNat
        · right
          have hc : nondep s.group_list = [] ∨
              (nondep s.group_list).length ≤ s.group_count.toNat := Or.inr hle
          rw [if_pos hc]
          dsimp only
          rw [f5, f3, f4, f6, f7]
          refine ⟨rfl, trivial, rfl, ?_, rfl, rfl, rfl, rfl, rfl⟩
          simp only [List.set_set, set_length_append]
          congr 1
          simp [evt_at, fanned_event, zero_event]
        · left
          have hc : ¬ (nondep s.group_list = [] ∨
              (nondep s.group_list).length ≤ s.group_count.toNat) := by
            rintro (h | h)
            · rw [h] at hle; simp at hle
            · exact hle h
          rw [if_neg hc]
          exact ⟨rfl, hle⟩
    · left
      have he2 : evt_ok = false := by simpa using he
      refine ⟨?_, ?_, ?_, Or.inl he2⟩
      · simp [he]
      · simp [he, same_but_mask, f1, f2, f3, f4, f5, f6, f7]
      · simp [he, f5]
  · left
    rw [check_access_of_precheck_ne hp]
    exact ⟨rfl, hp, ⟨f1, f2, f3, f4, f5, f6, f7⟩⟩

/-! ## The effect of one call on one event -/

theorem release_event_deny (evt : dazukofs_event) (d n : Int) :
    (release_event evt d n).1.deny = if n ≠ 0 then Int.lor evt.deny 1 else evt.deny := by
  unfold release_event
  by_cases hn : n = 0 <;> by_cases hd : d = 0 <;> simp [hn, hd] <;> split_ifs <;> simp_all

theorem clear_frame (l : List dazukofs_event_container) :
    ∀ s : State,
      (__clear_group_event_list l s).group_list = s.group_list ∧
      (__clear_group_event_list l s).group_count = s.group_count ∧
      (__clear_group_event_list l s).last_event_id = s.last_event_id ∧
      (__clear_group_event_list l s).proc_list = s.proc_list ∧
      (__clear_group_event_list l s).procs = s.procs ∧
      (__clear_group_event_list l s).ign_list = s.ign_list ∧
      (__clear_group_event_list l s).waiters = s.waiters ∧
      (__clear_group_event_list l s).events.length = s.events.length := by
  induction l with
  | nil => intro s; simp [__clear_group_event_list]
  | cons c l ih =>
    intro s
    have h := ih (release_event_at c.event 1 0 s)
    simp only [__clear_group_event_list, List.foldl_cons] at h ⊢
    simpa using h

theorem clear_event (l : List dazukofs_event_container) (e : Nat) :
    ∀ s : State, e < s.events.length →
      event_assigned (__clear_group_event_list l s) e
        = event_assigned s e - (l.countP (fun c => decide (c.event = e)) : Nat) ∧
      (evt_at (__clear_group_event_list l s) e).deny = (evt_at s e).deny := by
  induction l with
  | nil => intro s _; simp [__clear_group_event_list]
  | cons c l ih =>
    intro s he
    have h := ih (release_event_at c.event 1 0 s) (by simpa using he)
    simp only [__clear_group_event_list, List.foldl_cons] at h ⊢
    rw [h.1, h.2]
    unfold event_assigned
    rw [evt_at_release_event_at]
    by_cases hc : c.event = e
    · subst hc
      simp only [he, and_self, if_true, release_event_assigned, release_event_deny,
        List.countP_cons, decide_True]
      simp only [ne_eq, one_ne_zero, not_false_eq_true, if_true, not_true_eq_false, if_false,
        and_true]
      push_cast; omega
    · have hc2 : ¬ (e = c.event) := fun h => hc h.symm
      simp [hc, hc2, List.countP_cons]

theorem remove_group_event (grp : dazukofs_group) (s : State) (e : Nat)
    (he : e < s.events.length) :
    event_assigned (__remove_group grp s).2 e = event_assigned s e - (refs_group e grp : Nat) ∧
    (evt_at (__remove_group grp s).2 e).deny = (evt_at s e).deny ∧
    (__remove_group grp s).2.events.length = s.events.length := by
  unfold __remove_group
  simp only
  have h1 := clear_event grp.working_list e { s with group_count := s.group_count - 1 } he
  have hl := (clear_frame grp.working_list { s with group_count := s.group_count - 1 }).2.2.2.2.2.2.2
  have h2 := clear_event grp.todo_list e
    (__clear_group_event_list grp.working_list { s with group_count := s.group_count - 1 })
    (by rw [hl]; exact he)
  have hl2 := (clear_frame grp.todo_list
    (__clear_group_event_list grp.working_list
      { s with group_count := s.group_count - 1 })).2.2.2.2.2.2.2
  refine ⟨?_, ?_, ?_⟩
  · rw [h2.1, h1.1]
    unfold refs_group event_assigned evt_at
    push_cast; omega
  · rw [h2.2, h1.2]
    rfl
  · rw [hl2, hl]

theorem remove_group_frame (grp : dazukofs_group) (s : State) :
    (__remove_group grp s).1
      = { grp with deprecated := 1, working_list := [], todo_list := [] } ∧
    (__remove_group grp s).2.group_list = s.group_list ∧
    (__remove_group grp s).2.group_count = s.group_count - 1 ∧
    (__remove_group grp s).2.last_event_id = s.last_event_id ∧
    (__remove_group grp s).2.proc_list = s.proc_list ∧
    (__remove_group grp s).2.procs = s.procs ∧
    (__remove_group grp s).2.ign_list = s.ign_list ∧
    (__remove_group grp s).2.waiters = s.waiters := by
  unfold __remove_group
  simp only
  obtain ⟨a1, a2, a3, a4, a5, a6, a7, _⟩ :=
    clear_frame grp.working_list { s with group_count := s.group_count - 1 }
  obtain ⟨b1, b2, b3, b4, b5, b6, b7, _⟩ := clear_frame grp.todo_list
    (__clear_group_event_list grp.working_list { s with group_count := s.group_count - 1 })
  exact ⟨trivial, by rw [b1, a1], by rw [b2, a2], by rw [b3, a3], by rw [b4, a4], by rw [b5, a5],
    by rw [b6, a6], by rw [b7, a7]⟩

theorem add_group_step_frame (alloc_ok : Bool) (name : String) (track : Int) (s : State) :
    (step s (Op.add_group alloc_ok name track)).events = s.events ∧
    (step s (Op.add_group alloc_ok name track)).last_event_id = s.last_event_id ∧
    (step s (Op.add_group alloc_ok name track)).proc_list = s.proc_list ∧
    (step s (Op.add_group alloc_ok name track)).procs = s.procs ∧
    (step s (Op.add_group alloc_ok name track)).ign_list = s.ign_list ∧
    (step s (Op.add_group alloc_ok name track)).freed = s.freed ∧
    (step s (Op.add_group alloc_ok name track)).waiters = s.waiters := by
  obtain ⟨gl2, ae, id2, _, _, h, _⟩ := add_group_spec alloc_ok name track s
  simp only [step, h]
  split_ifs <;> exact ⟨rfl, rfl, rfl, rfl, rfl, rfl, rfl⟩

theorem get_event_events (env : OpenEnv) (cur gid : Nat) (s : State) :
    (dazukofs_get_event env cur gid s).1.events = s.events := by
  cases hf : list_find (is_group gid) s.group_list with
  | none => rw [get_event_not_found hf]
  | some r =>
    obtain ⟨pre, grp, post⟩ := r
    cases ht : grp.todo_list with
    | nil => rw [get_event_empty hf ht]
    | cons ec rest => exact (get_event_claim hf ht).2.2.2.2.1

theorem poll_state (gid : Nat) (s : State) : (dazukofs_poll gid s).1 = s := by
  unfold dazukofs_poll
  cases hf : list_find (is_group gid) s.group_list with
  | none => rfl
  | some r =>
    obtain ⟨pre, grp, post⟩ := r
    have := (list_find_some hf).1
    simp [← this]

theorem resume_some {e : Nat} {s : State} (hc : e ∈ s.waiters ∧ event_assigned s e = 0) :
    dazukofs_check_access_resume e s
      = some ({ release_event_at e 0 0 s with
                  waiters := (release_event_at e 0 0 s).waiters.erase e },
              if (evt_at s e).deny ≠ 0 then -EPERM else 0) := by
  unfold dazukofs_check_access_resume
  rw [if_pos hc]

theorem resume_none {e : Nat} {s : State} (hc : ¬ (e ∈ s.waiters ∧ event_assigned s e = 0)) :
    dazukofs_check_access_resume e s = none := by
  unfold dazukofs_check_access_resume
  rw [if_neg hc]

theorem event_unchanged {s t : State} {op : Op} {e : Nat} (he : e < s.events.length)
    (h : t.events = s.events) (hdel : delivered e s op = none)
    (hrem : removed_group s op = none) :
    e < t.events.length ∧
    event_assigned t e = event_assigned s e - (releases e s op : Nat) ∧
    ((evt_at t e).deny ≠ 0 ↔
      (evt_at s e).deny ≠ 0 ∨ delivered e s op = some dazukofs_response_t.DENY) := by
  refine ⟨by rw [h]; exact he, ?_, ?_⟩
  · unfold event_assigned
    rw [evt_at_of_events_eq h]
    simp [releases, hdel, hrem]
  · rw [evt_at_of_events_eq h]
    simp [hdel]

/-- What one call does to an event that exists before the call: the event
stays in the store, `assigned` drops by the number of container releases the
call makes for it, and `deny` is set exactly if it was set or the call
delivers a DENY for it. -/
theorem step_event (s : State) (op : Op) (e : Nat) (he : e < s.events.length) :
    e < (step s op).events.length ∧
    event_assigned (step s op) e = event_assigned s e - (releases e s op : Nat) ∧
    ((evt_at (step s op) e).deny ≠ 0 ↔
      (evt_at s e).deny ≠ 0 ∨ delivered e s op = some dazukofs_response_t.DENY) := by
  cases op with
  | add_group alloc_ok name track =>
    exact event_unchanged he (add_group_step_frame alloc_ok name track s).1 rfl rfl
  | remove_group name =>
    simp only [step]
    unfold dazukofs_remove_group
    by_cases h0 : s.group_count = 0
    · simp only [h0, if_true]
      exact event_unchanged he rfl rfl (by simp [removed_group, h0])
    · simp only [h0, if_false]
      cases hf : list_find (is_named name) s.group_list with
      | none =>
        exact event_unchanged he rfl rfl (by simp [removed_group, h0, hf])
      | some r =>
        obtain ⟨pre, grp, post⟩ := r
        obtain ⟨h1, h2, h3⟩ := remove_group_event grp s e he
        have hrel : releases e s (Op.remove_group name) = refs_group e grp := by
          simp [releases, delivered, removed_group, h0, hf]
        refine ⟨?_, ?_, ?_⟩
        · show e < (__remove_group _ s).2.events.length
          rw [h3]; exact he
        · rw [hrel, ← h1]; rfl
        · simp only [delivered, reduceCtorEq, or_false]
          rw [← h2]; rfl
  | check_access evt_ok ec_fail cur dentry =>
    simp only [step]
    have hd : delivered e s (Op.check_access evt_ok ec_fail cur dentry) = none := rfl
    have hr : removed_group s (Op.check_access evt_ok ec_fail cur dentry) = none := rfl
    rcases check_access_cases evt_ok ec_fail cur dentry s with
      ⟨_, _, hs⟩ | ⟨_, hs, hev, _⟩ | ⟨hs, _⟩ | ⟨_, _, _, hev, _⟩
    · exact event_unchanged he hs.2.2.2.2.1 hd hr
    · rcases hev with hev | hev
      · exact event_unchanged he hev hd hr
      · refine ⟨by rw [hev]; simp; omega, ?_, ?_⟩
        · unfold event_assigned
          rw [evt_at_append_old hev he]
          simp [releases, hd, hr]
        · rw [evt_at_append_old hev he]
          simp [hd]
    · rw [hs]
      exact event_unchanged he rfl hd hr
    · refine ⟨by rw [hev]; simp; omega, ?_, ?_⟩
      · unfold event_assigned
        rw [evt_at_append_old hev he]
        simp [releases, hd, hr]
      · rw [evt_at_append_old hev he]
        simp [hd]
  | check_access_resume e2 =>
    simp only [step]
    have hd : delivered e s (Op.check_access_resume e2) = none := rfl
    have hr : removed_group s (Op.check_access_resume e2) = none := rfl
    by_cases hc : e2 ∈ s.waiters ∧ event_assigned s e2 = 0
    · rw [resume_some hc]
      refine ⟨by simpa using he, ?_, ?_⟩
      · unfold event_assigned
        simp only [releases, hd, hr, Nat.cast_zero, sub_zero, add_zero]
        have : evt_at { release_event_at e2 0 0 s with
            waiters := (release_event_at e2 0 0 s).waiters.erase e2 } e
            = evt_at (release_event_at e2 0 0 s) e := rfl
        rw [this, evt_at_release_event_at]
        split_ifs with h2
        · rw [release_event_assigned, h2.1]; simp
        · rfl
      · have : evt_at { release_event_at e2 0 0 s with
            waiters := (release_event_at e2 0 0 s).waiters.erase e2 } e
            = evt_at (release_event_at e2 0 0 s) e := rfl
        rw [this, evt_at_release_event_at]
        split_ifs with h2
        · rw [release_event_deny, h2.1]; simp [delivered]
        · simp [hd]
    · rw [resume_none hc]
      exact event_unchanged he rfl hd hr
  | get_event env cur gid =>
    exact event_unchanged he (get_event_events env cur gid s) rfl rfl
  | return_event gid id r =>
    simp only [step]
    have hr : removed_group s (Op.return_event gid id r) = none := rfl
    cases hf : list_find (is_group gid) s.group_list with
    | none =>
      rw [return_event_no_group hf]
      exact event_unchanged he rfl (by simp [delivered, returned_container, hf]) hr
    | some rr =>
      obtain ⟨gpre, grp, gpost⟩ := rr
      cases hw : list_find (fun ec => decide ((evt_at s ec.event).event_id = id))
          grp.working_list with
      | none =>
        rw [return_event_no_container hf hw]
        exact event_unchanged he rfl (by simp [delivered, returned_container, hf, hw]) hr
      | some ww =>
        obtain ⟨pre, ec, post⟩ := ww
        by_cases hrep : r = dazukofs_response_t.REPOST
        · subst hrep
          rw [return_event_repost hf hw]
          exact event_unchanged he rfl (by simp [delivered, returned_container, hf, hw]) hr
        · rw [return_event_verdict hrep hf hw]
          have hev : ∀ x, evt_at { release_event_at ec.event 1
                (if r = dazukofs_response_t.DENY then 1 else 0) s with
                group_list := gpre ++ { grp with working_list := pre ++ post } :: gpost } x
              = evt_at (release_event_at ec.event 1
                (if r = dazukofs_response_t.DENY then 1 else 0) s) x := fun _ => rfl
          have hdl : delivered e s (Op.return_event gid id r)
              = if ec.event = e then some r else none := by
            simp [delivered, returned_container, hf, hw, hrep]
          refine ⟨by simpa using he, ?_, ?_⟩
          · unfold event_assigned
            rw [hev, evt_at_release_event_at]
            simp only [releases, hdl, hr, add_zero]
            by_cases hce : ec.event = e
            · subst hce
              simp [he, release_event_assigned]
            · have : ¬ e = ec.event := fun h => hce h.symm
              simp [hce, this]
          · rw [hev, evt_at_release_event_at, hdl]
            by_cases hce : ec.event = e
            · subst hce
              simp only [he, and_self, if_true, release_event_deny, Option.some.injEq]
              by_cases hden : r = dazukofs_response_t.DENY
              · simp [hden, lor_one_ne_zero]
              · simp [hden]
            · have : ¬ e = ec.event := fun h => hce h.symm
              simp [hce, this]
  | poll gid =>
    simp only [step, poll_state]
    exact event_unchanged he rfl rfl rfl
  | open_tracking gid =>
    refine event_unchanged he ?_ rfl rfl
    simp only [step]
    unfold dazukofs_group_open_tracking
    split
    · rfl
    · split_ifs <;> rfl
  | release_tracking gid =>
    simp only [step]
    unfold dazukofs_group_release_tracking
    cases hf : list_find (is_group gid) s.group_list with
    | none => exact event_unchanged he rfl rfl (by simp [removed_group, hf])
    | some rr =>
      obtain ⟨pre, grp, post⟩ := rr
      by_cases ht : grp.tracking = 0
      · simp only [ht, ne_eq, not_true_eq_false, if_false]
        exact event_unchanged he rfl rfl (by simp [removed_group, hf, ht])
      · by_cases hz : grp.track_count - 1 = 0
        · simp only [ht, ne_eq, not_false_eq_true, if_true, hz]
          obtain ⟨h1, h2, h3⟩ := remove_group_event
            { grp with use_count := grp.use_count - 1, track_count := 0 } s e he
          have hrel : releases e s (Op.release_tracking gid) = refs_group e grp := by
            simp [releases, delivered, removed_group, hf, ht, hz]
          refine ⟨?_, ?_, ?_⟩
          · show e < (__remove_group _ s).2.events.length
            rw [h3]; exact he
          · rw [hrel]
            have : refs_group e grp = refs_group e
                { grp with use_count := grp.use_count - 1, track_count := 0 } := rfl
            rw [this, ← h1]; rfl
          · simp only [delivered, reduceCtorEq, or_false]
            rw [← h2]; rfl
        · simp only [ht, ne_eq, not_false_eq_true, if_true, hz, if_false]
          exact event_unchanged he rfl rfl (by simp [removed_group, hf, ht, hz])
  | add_ign alloc_ok cur =>
    refine event_unchanged he ?_ rfl rfl
    simp only [step, dazukofs_add_ign]
    split_ifs <;> rfl
  | remove_ign pid =>
    refine event_unchanged he ?_ rfl rfl
    simp only [step, dazukofs_remove_ign]
    split <;> rfl

/-- The effect of a sequence of calls on an event that exists before them. -/
theorem run_event (ops : List Op) :
    ∀ (s : State) (e : Nat), e < s.events.length →
      e < (run s ops).events.length ∧
      event_assigned (run s ops) e = event_assigned s e - (releases_in e s ops : Nat) ∧
      ((evt_at (run s ops) e).deny ≠ 0 ↔
        (evt_at s e).deny ≠ 0 ∨ dazukofs_response_t.DENY ∈ verdicts e s ops) := by
  induction ops with
  | nil => intro s e he; simp [run, releases_in, verdicts, he]
  | cons op ops ih =>
    intro s e he
    obtain ⟨h1, h2, h3⟩ := step_event s op e he
    obtain ⟨g1, g2, g3⟩ := ih (step s op) e h1
    have hrun : run s (op :: ops) = run (step s op) ops := rfl
    rw [hrun]
    refine ⟨g1, ?_, ?_⟩
    · rw [g2, h2]; simp only [releases_in]; push_cast; ring
    · rw [g3, h3]
      simp only [verdicts, List.mem_append, Option.mem_toList, Option.mem_def]
      tauto

/-- The state in which a fan-out leaves its event. -/
theorem fan_out_event {evt_ok : Bool} {ec_fail : Option Nat} {cur dentry : Nat}
    {s s1 : State} {e : Nat}
    (hfan : dazukofs_check_access evt_ok ec_fail cur dentry s = (s1, Outcome.waiting e)) :
    e = s.events.length ∧ e < s1.events.length ∧
    evt_at s1 e = fanned_event s cur dentry (nondep s.group_list).length ∧
    s1.group_list = s.group_list.map (fan e) := by
  rcases check_access_cases evt_ok ec_fail cur dentry s with
    ⟨h, _⟩ | ⟨h, _⟩ | ⟨h, _⟩ | ⟨h, _, hgl, hev, _⟩
  · rw [hfan] at h; simp at h
  · rw [hfan] at h; simp at h
  · rw [hfan] at h; simp at h
  · rw [hfan] at h hgl hev
    simp only [Outcome.waiting.injEq] at h
    subst h
    refine ⟨rfl, by rw [hev]; simp, evt_at_append_new s s1 _ hev, hgl⟩

/-! ## The container invariant -/

theorem refs_nil (e : Nat) : refs e [] = 0 := rfl

theorem refs_cons (e : Nat) (g : dazukofs_group) (gl : List dazukofs_group) :
    refs e (g :: gl) = refs_group e g + refs e gl := by
  simp [refs]

theorem refs_append (e : Nat) (a b : List dazukofs_group) :
    refs e (a ++ b) = refs e a + refs e b := by
  simp [refs, List.sum_append]

theorem refs_split (e : Nat) (pre post : List dazukofs_group) (g : dazukofs_group) :
    refs e (pre ++ g :: post) = refs e pre + refs_group e g + refs e post := by
  rw [refs_append, refs_cons]; omega

theorem drained_split {pre post : List dazukofs_group} {g g2 : dazukofs_group}
    (h : drained (pre ++ g :: post))
    (h2 : g2.deprecated ≠ 0 → g2.todo_list = [] ∧ g2.working_list = []) :
    drained (pre ++ g2 :: post) := by
  intro x hx
  simp only [List.mem_append, List.mem_cons] at hx
  rcases hx with hx | rfl | hx
  · exact h x (by simp [hx])
  · exact h2
  · exact h x (by simp [hx])

theorem refs_group_of_empty {e : Nat} {g : dazukofs_group}
    (h : g.todo_list = [] ∧ g.working_list = []) : refs_group e g = 0 := by
  simp [refs_group, h.1, h.2]

theorem check_for_group_loop_refs (name : String) (id : Nat) (track : Int) :
    ∀ gl : List dazukofs_group, drained gl →
      drained (check_for_group_loop name id track gl).1 ∧
      ∀ e, refs e (check_for_group_loop name id track gl).1 = refs e gl := by
  intro gl
  induction gl with
  | nil => intro h; simp [check_for_group_loop, drained]
  | cons grp rest ih =>
    intro h
    have hrest : drained rest := fun x hx => h x (List.mem_cons_of_mem _ hx)
    have hgrp := h grp (List.mem_cons_self _ _)
    obtain ⟨i1, i2⟩ := ih hrest
    unfold check_for_group_loop
    by_cases hd : grp.deprecated = 0
    · simp only [hd, ne_eq, not_true_eq_false, if_false]
      by_cases hn : name = grp.name
      · simp only [hn, if_true]
        constructor
        · intro x hx
          rcases List.mem_cons.mp hx with rfl | hx
          · intro hdep; exfalso; apply hdep
            by_cases ht : track = 0 <;> simp [ht, hd]
          · exact hrest x hx
        · intro e
          rw [refs_cons, refs_cons]
          by_cases ht : track = 0 <;> simp [ht, refs_group]
      · by_cases hi : grp.group_id = id
        · simp only [hn, hi, if_false, if_true]
          exact ⟨h, fun _ => trivial⟩
        · simp only [hn, hi, if_false]
          constructor
          · intro x hx
            rcases List.mem_cons.mp hx with rfl | hx
            · exact hgrp
            · exact i1 x hx
          · intro e; rw [refs_cons, refs_cons, i2]
    · simp only [hd, ne_eq, not_false_eq_true, if_true]
      by_cases hu : grp.use_count = 0
      · simp only [hu, if_true]
        refine ⟨i1, fun e => ?_⟩
        rw [i2, refs_cons, refs_group_of_empty (hgrp hd)]; omega
      · simp only [hu, if_false]
        constructor
        · intro x hx
          rcases List.mem_cons.mp hx with rfl | hx
          · exact hgrp
          · exact i1 x hx
        · intro e; rw [refs_cons, refs_cons, i2]

theorem add_group_loop_refs (name : String) (track : Int) :
    ∀ (fuel id : Nat) (gl gl2 : List dazukofs_group) (ae : Int) (id2 : Nat),
      add_group_loop name track fuel id gl = some (gl2, ae, id2) → drained gl →
      drained gl2 ∧ ∀ e, refs e gl2 = refs e gl := by
  intro fuel
  induction fuel with
  | zero => intro id gl gl2 ae id2 h; simp [add_group_loop] at h
  | succ fuel ih =>
    intro id gl gl2 ae id2 h hdr
    obtain ⟨c1, c2⟩ := check_for_group_loop_refs name id track gl hdr
    unfold add_group_loop __check_for_group at h
    by_cases h1 : (check_for_group_loop name id track gl).2.1 = 0
    · by_cases h2 : (check_for_group_loop name id track gl).2.2 = 0
      · simp only [h1, h2, ne_eq, not_true_eq_false, if_false, if_true] at h
        simp only [Int.neg_eq_zero, one_ne_zero, not_false_eq_true, if_true] at h
        obtain ⟨r1, r2⟩ := ih _ _ _ _ _ h c1
        exact ⟨r1, fun e => by rw [r2, c2]⟩
      · simp only [h1, h2, ne_eq, not_true_eq_false, if_false, not_false_eq_true, if_true,
          Option.some.injEq, Prod.mk.injEq] at h
        obtain ⟨rfl, _, _⟩ := h
        exact ⟨c1, c2⟩
    · simp only [h1, ne_eq, not_false_eq_true, if_true, not_true_eq_false, if_false,
        Option.some.injEq, Prod.mk.injEq] at h
      obtain ⟨rfl, _, _⟩ := h
      exact ⟨c1, c2⟩

theorem refs_map_fan (e e0 : Nat) (gl : List dazukofs_group) :
    refs e (gl.map (fan e0)) = refs e gl + if e = e0 then (nondep gl).length else 0 := by
  induction gl with
  | nil => simp [refs, nondep]
  | cons g gl ih =>
    rw [List.map_cons, refs_cons, refs_cons, ih, nondep_cons]
    by_cases hd : g.deprecated = 0
    · by_cases he : e = e0
      · subst he
        simp [fan, hd, refs_group, List.countP_append]
        omega
      · have he2 : ¬ e0 = e := fun h => he h.symm
        simp [fan, hd, refs_group, List.countP_append, he, he2]
    · simp [fan, hd, Nat.add_assoc]

theorem drained_map_fan (e0 : Nat) {gl : List dazukofs_group} (h : drained gl) :
    drained (gl.map (fan e0)) := by
  intro x hx
  obtain ⟨g, hg, rfl⟩ := List.mem_map.mp hx
  by_cases hd : g.deprecated = 0
  · intro hdep; exfalso; apply hdep; simp [fan, hd]
  · simpa [fan, hd] using h g hg

theorem is_group_nondep {gid : Nat} {g : dazukofs_group} (h : is_group gid g = true) :
    g.deprecated = 0 := by
  simp [is_group] at h; exact h.1

theorem is_named_nondep {name : String} {g : dazukofs_group} (h : is_named name g = true) :
    g.deprecated = 0 := by
  simp [is_named] at h; exact h.1

/-- What one call does to the containers linked in the groups. -/
theorem step_refs (s : State) (op : Op) (hdr : drained s.group_list) :
    drained (step s op).group_list ∧
    ∀ e, refs e (step s op).group_list + releases e s op
      = refs e s.group_list + linked_by e s op := by
  cases op with
  | add_group alloc_ok name track =>
    obtain ⟨gl2, ae, id2, _, _, hres, e1⟩ := add_group_spec alloc_ok name track s
    obtain ⟨r1, r2⟩ := add_group_loop_refs name track _ _ _ _ _ _ e1 hdr
    have hrel : ∀ e, releases e s (Op.add_group alloc_ok name track) = 0 := fun _ => rfl
    have hlnk : ∀ e, linked_by e s (Op.add_group alloc_ok name track) = 0 := fun _ => rfl
    have hnew : drained (gl2 ++ [new_group name id2 track]) := by
      intro x hx
      rcases List.mem_append.mp hx with hx | hx
      · exact r1 x hx
      · simp only [List.mem_singleton] at hx
        subst hx; intro hdep; exact absurd rfl hdep
    have hsame : drained gl2 ∧ ∀ e, refs e gl2 + releases e s (Op.add_group alloc_ok name track)
        = refs e s.group_list + linked_by e s (Op.add_group alloc_ok name track) :=
      ⟨r1, fun e => by rw [hrel, hlnk, r2]⟩
    simp only [step, hres]
    split_ifs
    · exact hsame
    · exact hsame
    · refine ⟨hnew, fun e => ?_⟩
      rw [hrel, hlnk]
      show refs e (gl2 ++ [new_group name id2 track]) + 0 = refs e s.group_list + 0
      rw [refs_append, r2]
      simp [refs, refs_group, new_group]
    · exact hsame
  | remove_group name =>
    simp only [step]
    unfold dazukofs_remove_group
    by_cases h0 : s.group_count = 0
    · simp only [h0, if_true]
      exact ⟨hdr, fun e => by simp [releases, delivered, removed_group, h0, linked_by]⟩
    · simp only [h0, if_false]
      cases hf : list_find (is_named name) s.group_list with
      | none =>
        exact ⟨hdr, fun e => by simp [releases, delivered, removed_group, h0, hf, linked_by]⟩
      | some r =>
        obtain ⟨pre, grp, post⟩ := r
        obtain ⟨hsplit, _, _⟩ := list_find_some hf
        obtain ⟨g1, _⟩ := remove_group_frame grp s
        simp only [g1]
        constructor
        · rw [hsplit] at hdr
          exact drained_split hdr (fun _ => ⟨rfl, rfl⟩)
        · intro e
          have hrel : releases e s (Op.remove_group name) = refs_group e grp := by
            simp [releases, delivered, removed_group, h0, hf]
          rw [hrel, hsplit, refs_split, refs_split]
          simp [refs_group, linked_by]
          omega
  | check_access evt_ok ec_fail cur dentry =>
    simp only [step]
    have hrel : ∀ e, releases e s (Op.check_access evt_ok ec_fail cur dentry) = 0 :=
      fun _ => rfl
    rcases check_access_cases evt_ok ec_fail cur dentry s with
      ⟨ho, _, hs⟩ | ⟨ho, hs, _⟩ | ⟨hs, _⟩ | ⟨ho, _, hgl, _⟩
    · rw [hs.1]
      exact ⟨hdr, fun e => by simp [hrel, linked_by, ho]⟩
    · have : (dazukofs_check_access evt_ok ec_fail cur dentry s).1.group_list
          = s.group_list := hs.1
      rw [this]
      exact ⟨hdr, fun e => by simp [hrel, linked_by, ho]⟩
    · rw [hs]
      exact ⟨hdr, fun e => by simp [hrel, linked_by, hs]⟩
    · rw [hgl]
      refine ⟨drained_map_fan _ hdr, fun e => ?_⟩
      rw [hrel, refs_map_fan]
      simp [linked_by, ho]
  | check_access_resume e2 =>
    simp only [step]
    have hrel : ∀ e, releases e s (Op.check_access_resume e2) = 0 := fun _ => rfl
    by_cases hc : e2 ∈ s.waiters ∧ event_assigned s e2 = 0
    · rw [resume_some hc]
      simp only [release_event_at_group_list]
      exact ⟨hdr, fun e => by simp [hrel, linked_by]⟩
    · rw [resume_none hc]
      exact ⟨hdr, fun e => by simp [hrel, linked_by]⟩
  | get_event env cur gid =>
    simp only [step]
    have hrel : ∀ e, releases e s (Op.get_event env cur gid) = 0 := fun _ => rfl
    cases hf : list_find (is_group gid) s.group_list with
    | none =>
      rw [get_event_not_found hf]
      exact ⟨hdr, fun e => by simp [hrel, linked_by]⟩
    | some r =>
      obtain ⟨pre, grp, post⟩ := r
      obtain ⟨hsplit, hp, _⟩ := list_find_some hf
      have hnd := is_group_nondep hp
      cases ht : grp.todo_list with
      | nil =>
        rw [get_event_empty hf ht]
        exact ⟨hdr, fun e => by simp [hrel, linked_by]⟩
      | cons ec rest =>
        rw [(get_event_claim hf ht).1]
        constructor
        · rw [hsplit] at hdr
          apply drained_split hdr
          intro hdep; exfalso; apply hdep
          split_ifs <;> simp [group_unclaimed, group_claimed, hnd]
        · intro e
          rw [hrel, hsplit, refs_split, refs_split]
          have : refs_group e (if env.fd < 0 ∨ env.open_err ≠ 0 then
              group_unclaimed env.fd grp ec rest else group_claimed env.fd grp ec rest)
              = refs_group e grp := by
            split_ifs
            · simp [group_unclaimed, refs_group, ht, List.countP_cons]
            · simp [group_claimed, refs_group, ht, List.countP_cons]; omega
          rw [this]; simp [linked_by]
  | return_event gid id r =>
    simp only [step]
    cases hf : list_find (is_group gid) s.group_list with
    | none =>
      rw [return_event_no_group hf]
      exact ⟨hdr, fun e => by
        simp [releases, delivered, returned_container, removed_group, hf, linked_by]⟩
    | some rr =>
      obtain ⟨gpre, grp, gpost⟩ := rr
      obtain ⟨hsplit, hp, _⟩ := list_find_some hf
      have hnd := is_group_nondep hp
      cases hw : list_find (fun ec => decide ((evt_at s ec.event).event_id = id))
          grp.working_list with
      | none =>
        rw [return_event_no_container hf hw]
        exact ⟨hdr, fun e => by
          simp [releases, delivered, returned_container, removed_group, hf, hw, linked_by]⟩
      | some ww =>
        obtain ⟨pre, ec, post⟩ := ww
        obtain ⟨hwsplit, _, _⟩ := list_find_some hw
        by_cases hrep : r = dazukofs_response_t.REPOST
        · subst hrep
          rw [return_event_repost hf hw]
          constructor
          · rw [hsplit] at hdr
            apply drained_split hdr
            intro hdep; exact absurd hnd hdep
          · intro e
            have hrel : releases e s (Op.return_event gid id dazukofs_response_t.REPOST)
                = 0 := by
              simp [releases, delivered, returned_container, removed_group, hf, hw]
            simp only [hrel, add_zero]
            rw [hsplit, refs_split, refs_split]
            simp [refs_group, hwsplit, List.countP_append, List.countP_cons, linked_by]
            omega
        · rw [return_event_verdict hrep hf hw]
          constructor
          · rw [hsplit] at hdr
            apply drained_split hdr
            intro hdep; exact absurd hnd hdep
          · intro e
            have hrel : releases e s (Op.return_event gid id r)
                = if ec.event = e then 1 else 0 := by
              simp only [releases, delivered, returned_container, removed_group, hf, hw, hrep,
                ne_eq, not_false_eq_true, and_true, add_zero]
              split_ifs <;> rfl
            simp only [hrel]
            rw [hsplit, refs_split, refs_split]
            simp [refs_group, hwsplit, List.countP_append, List.countP_cons, linked_by]
            omega
  | poll gid =>
    simp only [step, poll_state]
    exact ⟨hdr, fun e => by simp [releases, delivered, removed_group, linked_by]⟩
  | open_tracking gid =>
    simp only [step]
    unfold dazukofs_group_open_tracking
    have hrel : ∀ e, releases e s (Op.open_tracking gid) = 0 := fun _ => rfl
    cases hf : list_find (is_group gid) s.group_list with
    | none => exact ⟨hdr, fun e => by simp [hrel, linked_by]⟩
    | some rr =>
      obtain ⟨pre, grp, post⟩ := rr
      obtain ⟨hsplit, hp, _⟩ := list_find_some hf
      have hnd := is_group_nondep hp
      by_cases ht : grp.tracking = 0
      · simp only [ht, ne_eq, not_true_eq_false, if_false]
        exact ⟨hdr, fun e => by simp [hrel, linked_by]⟩
      · simp only [ht, ne_eq, not_false_eq_true, if_true]
        constructor
        · rw [hsplit] at hdr
          apply drained_split hdr
          intro hdep; exact absurd hnd hdep
        · intro e
          rw [hrel, hsplit, refs_split, refs_split]
          simp [refs_group, linked_by]
  | release_tracking gid =>
    simp only [step]
    unfold dazukofs_group_release_tracking
    cases hf : list_find (is_group gid) s.group_list with
    | none =>
      exact ⟨hdr, fun e => by simp [releases, delivered, removed_group, hf, linked_by]⟩
    | some rr =>
      obtain ⟨pre, grp, post⟩ := rr
      obtain ⟨hsplit, hp, _⟩ := list_find_some hf
      have hnd := is_group_nondep hp
      by_cases ht : grp.tracking = 0
      · simp only [ht, ne_eq, not_true_eq_false, if_false]
        exact ⟨hdr, fun e => by simp [releases, delivered, removed_group, hf, ht, linked_by]⟩
      · by_cases hz : grp.track_count - 1 = 0
        · simp only [ht, ne_eq, not_false_eq_true, if_true, hz]
          obtain ⟨g1, _⟩ := remove_group_frame
            { grp with use_count := grp.use_count - 1, track_count := 0 } s
          simp only [g1]
          constructor
          · rw [hsplit] at hdr
            exact drained_split hdr (fun _ => ⟨rfl, rfl⟩)
          · intro e
            have hrel : releases e s (Op.release_tracking gid) = refs_group e grp := by
              simp [releases, delivered, removed_group, hf, ht, hz]
            rw [hrel, hsplit, refs_split, refs_split]
            simp [refs_group, linked_by]
            omega
        · simp only [ht, ne_eq, not_false_eq_true, if_true, hz, if_false]
          constructor
          · rw [hsplit] at hdr
            apply drained_split hdr
            intro hdep; exact absurd hnd hdep
          · intro e
            have hrel : releases e s (Op.release_tracking gid) = 0 := by
              simp [releases, delivered, removed_group, hf, ht, hz]
            rw [hrel, hsplit, refs_split, refs_split]
            simp [refs_group, linked_by]
  | add_ign alloc_ok cur =>
    simp only [step, dazukofs_add_ign]
    have hrel : ∀ e, releases e s (Op.add_ign alloc_ok cur) = 0 := fun _ => rfl
    split_ifs <;> exact ⟨hdr, fun e => by simp [hrel, linked_by]⟩
  | remove_ign pid =>
    simp only [step, dazukofs_remove_ign]
    have hrel : ∀ e, releases e s (Op.remove_ign pid) = 0 := fun _ => rfl
    split <;> exact ⟨hdr, fun e => by simp [hrel, linked_by]⟩

theorem remove_group_length (grp : dazukofs_group) (s : State) :
    (__remove_group grp s).2.events.length = s.events.length := by
  unfold __remove_group
  simp only
  rw [(clear_frame grp.todo_list _).2.2.2.2.2.2.2, (clear_frame grp.working_list _).2.2.2.2.2.2.2]

theorem assigned_zero_of_length {s t : State} {e : Nat}
    (h : t.events.length = s.events.length) (he : s.events.length ≤ e) :
    event_assigned t e = 0 := by
  unfold event_assigned
  rw [evt_at_ge (by rw [h]; exact he)]; rfl

/-- What one call leaves at an address that is not in use before the call:
the event of a fan-out, with `assigned` equal to the number of containers
linked for it, or nothing. -/
theorem step_new_event (s : State) (op : Op) (e : Nat) (he : s.events.length ≤ e) :
    event_assigned (step s op) e = (linked_by e s op : Nat) := by
  cases op with
  | add_group alloc_ok name track =>
    have := (add_group_step_frame alloc_ok name track s).1
    exact (assigned_zero_of_length (s := s) (by rw [this]) he).trans rfl
  | remove_group name =>
    simp only [step]
    unfold dazukofs_remove_group
    by_cases h0 : s.group_count = 0
    · simp only [h0, if_true]
      exact (assigned_zero_of_length (s := s) rfl he).trans rfl
    · simp only [h0, if_false]
      cases hf : list_find (is_named name) s.group_list with
      | none => exact (assigned_zero_of_length (s := s) rfl he).trans rfl
      | some r =>
        obtain ⟨pre, grp, post⟩ := r
        exact (assigned_zero_of_length (s := s) (remove_group_length grp s) he).trans rfl
  | check_access evt_ok ec_fail cur dentry =>
    simp only [step]
    rcases check_access_cases evt_ok ec_fail cur dentry s with
      ⟨ho, _, hs⟩ | ⟨ho, _, hev, _⟩ | ⟨hs, _⟩ | ⟨ho, _, _, hev, _⟩
    · rw [assigned_zero_of_length (by rw [hs.2.2.2.2.1]) he]
      simp [linked_by, ho]
    · rcases hev with hev | hev
      · rw [assigned_zero_of_length (by rw [hev]) he]
        simp [linked_by, ho]
      · simp only [linked_by, ho, Nat.cast_zero]
        unfold event_assigned evt_at
        rw [hev]
        by_cases h : e = s.events.length
        · subst h; simp [zero_event]
        · rw [List.getElem?_eq_none (by simp; omega)]; rfl
    · rw [hs, assigned_zero_of_length rfl he]
      simp [linked_by, hs]
    · simp only [linked_by, ho]
      unfold event_assigned evt_at
      rw [hev]
      by_cases h : e = s.events.length
      · subst h; simp [fanned_event]
      · rw [List.getElem?_eq_none (by simp; omega)]
        simp [h, zero_event]
  | check_access_resume e2 =>
    simp only [step]
    by_cases hc : e2 ∈ s.waiters ∧ event_assigned s e2 = 0
    · rw [resume_some hc]
      exact (assigned_zero_of_length (s := s)
        (release_event_at_length e2 0 0 s) he).trans rfl
    · rw [resume_none hc]
      exact (assigned_zero_of_length (s := s) rfl he).trans rfl
  | get_event env cur gid =>
    exact (assigned_zero_of_length (s := s)
      (by simp only [step]; rw [get_event_events]) he).trans rfl
  | return_event gid id r =>
    simp only [step]
    cases hf : list_find (is_group gid) s.group_list with
    | none =>
      rw [return_event_no_group hf]
      exact (assigned_zero_of_length (s := s) rfl he).trans rfl
    | some rr =>
      obtain ⟨gpre, grp, gpost⟩ := rr
      cases hw : list_find (fun ec => decide ((evt_at s ec.event).event_id = id))
          grp.working_list with
      | none =>
        rw [return_event_no_container hf hw]
        exact (assigned_zero_of_length (s := s) rfl he).trans rfl
      | some ww =>
        obtain ⟨pre, ec, post⟩ := ww
        by_cases hrep : r = dazukofs_response_t.REPOST
        · subst hrep
          rw [return_event_repost hf hw]
          exact (assigned_zero_of_length (s := s) rfl he).trans rfl
        · rw [return_event_verdict hrep hf hw]
          exact (assigned_zero_of_length (s := s)
            (release_event_at_length _ _ _ s) he).trans rfl
  | poll gid =>
    simp only [step, poll_state]
    exact (assigned_zero_of_length (s := s) rfl he).trans rfl
  | open_tracking gid =>
    have : (step s (Op.open_tracking gid)).events = s.events := by
      simp only [step]
      unfold dazukofs_group_open_tracking
      split
      · rfl
      · split_ifs <;> rfl
    exact (assigned_zero_of_length (s := s) (by rw [this]) he).trans rfl
  | release_tracking gid =>
    have : (step s (Op.release_tracking gid)).events.length = s.events.length := by
      simp only [step]
      unfold dazukofs_group_release_tracking
      cases hf : list_find (is_group gid) s.group_list with
      | none => rfl
      | some rr =>
        obtain ⟨pre, grp, post⟩ := rr
        by_cases ht : grp.tracking = 0
        · simp [ht]
        · by_cases hz : grp.track_count - 1 = 0
          · simp only [ht, ne_eq, not_false_eq_true, if_true, hz]
            exact remove_group_length _ s
          · simp [ht, hz]
    exact (assigned_zero_of_length (s := s) this he).trans rfl
  | add_ign alloc_ok cur =>
    have : (step s (Op.add_ign alloc_ok cur)).events = s.events := by
      simp only [step, dazukofs_add_ign]
      split_ifs <;> rfl
    exact (assigned_zero_of_length (s := s) (by rw [this]) he).trans rfl
  | remove_ign pid =>
    have : (step s (Op.remove_ign pid)).events = s.events := by
      simp only [step, dazukofs_remove_ign]
      split <;> rfl
    exact (assigned_zero_of_length (s := s) (by rw [this]) he).trans rfl

theorem refs_group_le_refs {e : Nat} {gl pre post : List dazukofs_group} {g : dazukofs_group}
    (h : gl = pre ++ g :: post) : refs_group e g ≤ refs e gl := by
  rw [h, refs_split]; omega

/-- A call releases only containers that are linked. -/
theorem releases_le_refs (s : State) (op : Op) (e : Nat) :
    releases e s op ≤ refs e s.group_list := by
  cases op with
  | remove_group name =>
    simp only [releases, delivered, removed_group, Nat.zero_add]
    by_cases h0 : s.group_count = 0
    · simp [h0]
    · cases hf : list_find (is_named name) s.group_list with
      | none => simp [h0]
      | some r =>
        obtain ⟨pre, grp, post⟩ := r
        simp only [h0, if_false]
        exact refs_group_le_refs (list_find_some hf).1
  | release_tracking gid =>
    simp only [releases, delivered, removed_group, Nat.zero_add]
    cases hf : list_find (is_group gid) s.group_list with
    | none => simp
    | some r =>
      obtain ⟨pre, grp, post⟩ := r
      simp only
      split_ifs
      · exact refs_group_le_refs (list_find_some hf).1
      · simp
  | return_event gid id r =>
    simp only [releases, delivered, removed_group, returned_container, Nat.add_zero]
    cases hf : list_find (is_group gid) s.group_list with
    | none => simp
    | some rr =>
      obtain ⟨gpre, grp, gpost⟩ := rr
      cases hw : list_find (fun ec => decide ((evt_at s ec.event).event_id = id))
          grp.working_list with
      | none => simp [hw]
      | some ww =>
        obtain ⟨pre, ec, post⟩ := ww
        simp only [hw]
        split_ifs with hc
        · have h1 : 1 ≤ refs_group e grp := by
            unfold refs_group
            rw [(list_find_some hw).1]
            simp only [List.countP_append, List.countP_cons, hc.1, decide_True, if_true]
            omega
          exact le_trans h1 (refs_group_le_refs (list_find_some hf).1)
        · simp
  | add_group _ _ _ => simp [releases, delivered, removed_group]
  | check_access _ _ _ _ => simp [releases, delivered, removed_group]
  | check_access_resume _ => simp [releases, delivered, removed_group]
  | get_event _ _ _ => simp [releases, delivered, removed_group]
  | poll _ => simp [releases, delivered, removed_group]
  | open_tracking _ => simp [releases, delivered, removed_group]
  | add_ign _ _ => simp [releases, delivered, removed_group]
  | remove_ign _ => simp [releases, delivered, removed_group]

theorem linked_by_old (s : State) (op : Op) (e : Nat) (he : e < s.events.length) :
    linked_by e s op = 0 := by
  cases op with
  | check_access evt_ok ec_fail cur dentry =>
    simp only [linked_by]
    rcases check_access_cases evt_ok ec_fail cur dentry s with
      ⟨ho, _⟩ | ⟨ho, _⟩ | ⟨hs, _⟩ | ⟨ho, _⟩
    · simp [ho]
    · simp [ho]
    · simp [hs]
    · simp only [ho]
      have : ¬ e = s.events.length := by omega
      simp [this]
  | _ => rfl

/-- Every call preserves the container invariant. -/
theorem step_cinv (s : State) (op : Op) (h : CInv s) : CInv (step s op) := by
  obtain ⟨h1, h2⟩ := h
  obtain ⟨g1, g2⟩ := step_refs s op h2
  refine ⟨fun e => ?_, g1⟩
  have hr := g2 e
  by_cases he : e < s.events.length
  · rw [(step_event s op e he).2.1, h1 e]
    have := linked_by_old s op e he
    omega
  · have he2 : s.events.length ≤ e := Nat.le_of_not_lt he
    rw [step_new_event s op e he2]
    have h0 : event_assigned s e = 0 := assigned_zero_of_length rfl he2
    have := h1 e
    have := releases_le_refs s op e
    omega

theorem cinv_init : CInv init := by
  refine ⟨fun e => ?_, ?_⟩
  · simp [event_assigned, evt_at, init, refs, zero_event]
  · intro g hg; simp [init] at hg

theorem run_cinv (ops : List Op) : ∀ s, CInv s → CInv (run s ops) := by
  induction ops with
  | nil => intro s h; exact h
  | cons op ops ih => intro s h; exact ih _ (step_cinv s op h)

theorem reachable_cinv {s : State} (h : Reachable s) : CInv s := by
  obtain ⟨ops, rfl⟩ := h
  exact run_cinv ops init cinv_init

/-! ## The registry invariant -/

theorem nondep_append (a b : List dazukofs_group) : nondep (a ++ b) = nondep a ++ nondep b := by
  simp [nondep]

theorem nondep_names_of_keys :
    ∀ (a b : List dazukofs_group), a.map reg_key = b.map reg_key →
      (nondep a).map (fun g => g.name) = (nondep b).map (fun g => g.name) ∧
      (nondep a).length = (nondep b).length := by
  intro a
  induction a with
  | nil =>
    intro b h
    cases b with
    | nil => simp
    | cons y b => simp at h
  | cons x a ih =>
    intro b h
    cases b with
    | nil => simp at h
    | cons y b =>
      simp only [List.map_cons, List.cons.injEq] at h
      obtain ⟨hk, ht⟩ := h
      obtain ⟨i1, i2⟩ := ih b ht
      simp only [reg_key, Prod.mk.injEq] at hk
      obtain ⟨k1, k2, _⟩ := hk
      rw [nondep_cons, nondep_cons, k1]
      by_cases hd : y.deprecated = 0
      · simp [hd, i1, i2, k2]
      · simp [hd, i1, i2]

theorem rinv_of_keys {s t : State} (h : RInv s)
    (hk : t.group_list.map reg_key = s.group_list.map reg_key)
    (hc : t.group_count = s.group_count) : RInv t := by
  obtain ⟨h1, h2, h3⟩ := h
  obtain ⟨n1, n2⟩ := nondep_names_of_keys _ _ hk
  exact ⟨by rw [hc, h1, n2], by rw [hc]; exact h2, by rw [n1]; exact h3⟩

theorem keys_split {pre post : List dazukofs_group} {g g2 : dazukofs_group}
    (h : reg_key g2 = reg_key g) :
    (pre ++ g2 :: post).map reg_key = (pre ++ g :: post).map reg_key := by
  simp [h]

theorem keys_map_fan (e : Nat) (gl : List dazukofs_group) :
    (gl.map (fan e)).map reg_key = gl.map reg_key := by
  rw [List.map_map]
  apply List.map_congr_left
  intro g _
  simp only [Function.comp, fan, reg_key]
  split_ifs <;> rfl

/-- The calls other than `dazukofs_add_group`, `dazukofs_remove_group` and
`dazukofs_group_release_tracking` leave the registry as it is: the same groups
in the same order, with their names, ids and deprecation flags, and the same
`group_count`. -/
theorem step_keys (s : State) (op : Op)
    (hop : match op with
      | Op.add_group _ _ _ => False
      | Op.remove_group _ => False
      | Op.release_tracking _ => False
      | _ => True) :
    (step s op).group_list.map reg_key = s.group_list.map reg_key ∧
    (step s op).group_count = s.group_count := by
  cases op with
  | add_group _ _ _ => exact absurd hop id
  | remove_group _ => exact absurd hop id
  | release_tracking _ => exact absurd hop id
  | check_access evt_ok ec_fail cur dentry =>
    simp only [step]
    rcases check_access_cases evt_ok ec_fail cur dentry s with
      ⟨_, _, hs⟩ | ⟨_, hs, _⟩ | ⟨hs, _⟩ | ⟨_, _, hgl, _, hgc, _⟩
    · exact ⟨by rw [hs.1], hs.2.1⟩
    · exact ⟨by rw [show _ = s.group_list from hs.1], hs.2.1⟩
    · rw [hs]; exact ⟨rfl, rfl⟩
    · exact ⟨by rw [hgl, keys_map_fan], hgc⟩
  | check_access_resume e2 =>
    simp only [step]
    by_cases hc : e2 ∈ s.waiters ∧ event_assigned s e2 = 0
    · rw [resume_some hc]; simp
    · rw [resume_none hc]; exact ⟨rfl, rfl⟩
  | get_event env cur gid =>
    simp only [step]
    cases hf : list_find (is_group gid) s.group_list with
    | none => rw [get_event_not_found hf]; exact ⟨rfl, rfl⟩
    | some r =>
      obtain ⟨pre, grp, post⟩ := r
      cases ht : grp.todo_list with
      | nil => rw [get_event_empty hf ht]; exact ⟨rfl, rfl⟩
      | cons ec rest =>
        obtain ⟨h1, h2, _⟩ := @get_event_claim env cur _ _ _ _ _ _ _ hf ht
        refine ⟨?_, h2⟩
        rw [h1, (list_find_some hf).1]
        apply keys_split
        split_ifs <;> rfl
  | return_event gid id r =>
    simp only [step]
    cases hf : list_find (is_group gid) s.group_list with
    | none => rw [return_event_no_group hf]; exact ⟨rfl, rfl⟩
    | some rr =>
      obtain ⟨gpre, grp, gpost⟩ := rr
      cases hw : list_find (fun ec => decide ((evt_at s ec.event).event_id = id))
          grp.working_list with
      | none => rw [return_event_no_container hf hw]; exact ⟨rfl, rfl⟩
      | some ww =>
        obtain ⟨pre, ec, post⟩ := ww
        by_cases hrep : r = dazukofs_response_t.REPOST
        · subst hrep
          rw [return_event_repost hf hw]
          refine ⟨?_, rfl⟩
          simp only
          rw [(list_find_some hf).1]
          exact keys_split rfl
        · rw [return_event_verdict hrep hf hw]
          refine ⟨?_, by simp⟩
          simp only
          rw [(list_find_some hf).1]
          exact keys_split rfl
  | poll gid => simp only [step, poll_state]; exact ⟨trivial, trivial⟩
  | open_tracking gid =>
    simp only [step]
    unfold dazukofs_group_open_tracking
    cases hf : list_find (is_group gid) s.group_list with
    | none => exact ⟨rfl, rfl⟩
    | some rr =>
      obtain ⟨pre, grp, post⟩ := rr
      by_cases ht : grp.tracking = 0
      · simp [ht]
      · simp only [ht, ne_eq, not_false_eq_true, if_true]
        refine ⟨?_, trivial⟩
        rw [(list_find_some hf).1]
        exact keys_split rfl
  | add_ign alloc_ok cur =>
    simp only [step, dazukofs_add_ign]
    split_ifs <;> exact ⟨rfl, rfl⟩
  | remove_ign pid =>
    simp only [step, dazukofs_remove_ign]
    split <;> exact ⟨rfl, rfl⟩

theorem mark_tracking_names (name : String) (track : Int) (l : List dazukofs_group) :
    (mark_tracking name track l).map (fun g => g.name) = l.map (fun g => g.name) := by
  have h := congrArg (List.map Prod.snd) (mark_tracking_map_id_name name track l)
  simpa [List.map_map, Function.comp] using h

theorem rinv_remove {s : State} {pre post : List dazukofs_group} {grp g2 : dazukofs_group}
    (h : RInv s) (hsplit : s.group_list = pre ++ grp :: post) (hnd : grp.deprecated = 0)
    (hdep : g2.deprecated ≠ 0) (t : State) (hgl : t.group_list = pre ++ g2 :: post)
    (hgc : t.group_count = s.group_count - 1) : RInv t := by
  obtain ⟨h1, h2, h3⟩ := h
  have hs : nondep s.group_list = nondep pre ++ grp :: nondep post := by
    rw [hsplit, nondep_append, nondep_cons]; simp [hnd]
  have ht : nondep t.group_list = nondep pre ++ nondep post := by
    rw [hgl, nondep_append, nondep_cons]; simp [hdep]
  refine ⟨?_, ?_, ?_⟩
  · rw [hgc, h1, hs, ht]; simp only [List.length_append, List.length_cons]; push_cast; ring
  · rw [hgc]; omega
  · rw [ht]
    rw [hs] at h3
    simp only [List.map_append, List.map_cons] at h3 ⊢
    exact List.Nodup.sublist (List.Sublist.append_left (List.sublist_cons_self _ _) _) h3

theorem step_rinv (s : State) (op : Op) (h : RInv s) : RInv (step s op) := by
  cases op with
  | add_group alloc_ok name track =>
    obtain ⟨h1, h2, h3⟩ := h
    obtain ⟨gl2, ae, id2, _, hcase, hres, _⟩ := add_group_spec alloc_ok name track s
    simp only [step, hres]
    rcases hcase with ⟨hae, hnd, _⟩ | ⟨hae, hnd, hno⟩
    · have hne : ae ≠ 0 := by rw [hae]; decide
      simp only [hne, ne_eq, not_false_eq_true, if_true]
      refine ⟨?_, h2, ?_⟩
      · simp only [hnd, mark_tracking_length]; exact h1
      · simp only [hnd, mark_tracking_names]; exact h3
    · have hsame : RInv { s with group_list := gl2 } :=
        ⟨by simp only [hnd]; exact h1, h2, by simp only [hnd]; exact h3⟩
      simp only [hae, ne_eq, not_true_eq_false, if_false]
      split_ifs with hc ha
      · exact hsame
      · have hnew : nondep (gl2 ++ [new_group name id2 track])
            = nondep s.group_list ++ [new_group name id2 track] := by
          rw [nondep_append, hnd]; simp [nondep, new_group]
        refine ⟨?_, ?_, ?_⟩
        · simp only [hnew, List.length_append, List.length_singleton]; push_cast; omega
        · simp only; unfold GROUP_COUNT at *; omega
        · simp only [hnew, List.map_append, List.map_cons, List.map_nil]
          rw [List.nodup_append]
          refine ⟨h3, List.nodup_singleton _, ?_⟩
          intro a ha1 ha2
          simp only [List.mem_singleton] at ha2
          obtain ⟨g, hg, hgn⟩ := List.mem_map.mp ha1
          exact (hno g hg).1 (by rw [hgn, ha2]; rfl)
      · exact hsame
  | remove_group name =>
    simp only [step]
    unfold dazukofs_remove_group
    by_cases h0 : s.group_count = 0
    · simpa [h0] using h
    · simp only [h0, if_false]
      cases hf : list_find (is_named name) s.group_list with
      | none => exact h
      | some r =>
        obtain ⟨pre, grp, post⟩ := r
        obtain ⟨hsplit, hp, _⟩ := list_find_some hf
        obtain ⟨g1, _, g3, _⟩ := remove_group_frame grp s
        exact @rinv_remove _ _ _ _ (__remove_group grp s).1 h hsplit (is_named_nondep hp)
          (by rw [g1]; exact one_ne_zero) _ rfl g3
  | release_tracking gid =>
    simp only [step]
    unfold dazukofs_group_release_tracking
    cases hf : list_find (is_group gid) s.group_list with
    | none => exact h
    | some rr =>
      obtain ⟨pre, grp, post⟩ := rr
      obtain ⟨hsplit, hp, _⟩ := list_find_some hf
      by_cases ht : grp.tracking = 0
      · simpa [ht] using h
      · by_cases hz : grp.track_count - 1 = 0
        · simp only [ht, ne_eq, not_false_eq_true, if_true, hz]
          obtain ⟨g1, _, g3, _⟩ := remove_group_frame
            { grp with use_count := grp.use_count - 1, track_count := 0 } s
          exact @rinv_remove _ _ _ _
            (__remove_group { grp with use_count := grp.use_count - 1, track_count := 0 } s).1
            h hsplit (is_group_nondep hp) (by rw [g1]; exact one_ne_zero) _ rfl g3
        · simp only [ht, ne_eq, not_false_eq_true, if_true, hz, if_false]
          refine rinv_of_keys h ?_ rfl
          simp only
          rw [hsplit]
          exact keys_split rfl
  | check_access evt_ok ec_fail cur dentry =>
    obtain ⟨k1, k2⟩ := step_keys s (Op.check_access evt_ok ec_fail cur dentry) trivial
    exact rinv_of_keys h k1 k2
  | check_access_resume e2 =>
    obtain ⟨k1, k2⟩ := step_keys s (Op.check_access_resume e2) trivial
    exact rinv_of_keys h k1 k2
  | get_event env cur gid =>
    obtain ⟨k1, k2⟩ := step_keys s (Op.get_event env cur gid) trivial
    exact rinv_of_keys h k1 k2
  | return_event gid id r =>
    obtain ⟨k1, k2⟩ := step_keys s (Op.return_event gid id r) trivial
    exact rinv_of_keys h k1 k2
  | poll gid =>
    obtain ⟨k1, k2⟩ := step_keys s (Op.poll gid) trivial
    exact rinv_of_keys h k1 k2
  | open_tracking gid =>
    obtain ⟨k1, k2⟩ := step_keys s (Op.open_tracking gid) trivial
    exact rinv_of_keys h k1 k2
  | add_ign alloc_ok cur =>
    obtain ⟨k1, k2⟩ := step_keys s (Op.add_ign alloc_ok cur) trivial
    exact rinv_of_keys h k1 k2
  | remove_ign pid =>
    obtain ⟨k1, k2⟩ := step_keys s (Op.remove_ign pid) trivial
    exact rinv_of_keys h k1 k2

theorem rinv_init : RInv init := by
  refine ⟨?_, ?_, ?_⟩ <;> simp [init, nondep, GROUP_COUNT]

theorem run_rinv (ops : List Op) : ∀ s, RInv s → RInv (run s ops) := by
  induction ops with
  | nil => intro s h; exact h
  | cons op ops ih => intro s h; exact ih _ (step_rinv s op h)

theorem reachable_rinv {s : State} (h : Reachable s) : RInv s := by
  obtain ⟨ops, rfl⟩ := h
  exact run_rinv ops init rinv_init

theorem reachable_step {s : State} (h : Reachable s) (op : Op) : Reachable (step s op) := by
  obtain ⟨ops, rfl⟩ := h
  exact ⟨ops ++ [op], by simp [run]⟩

/-! ## Adding a group -/

theorem count_name_of_nodup {l : List dazukofs_group} {name : String}
    (hn : (l.map (fun g => g.name)).Nodup) (h : ∃ g ∈ l, g.name = name) :
    (l.map (fun g => g.name)).count name = 1 := by
  obtain ⟨g, hg, hgn⟩ := h
  apply List.count_eq_one_of_mem hn
  rw [← hgn]
  exact List.mem_map_of_mem _ hg

/-- An `add` of a name that no non-deprecated group holds, when there is
room and the allocation succeeds. -/
theorem add_group_new {s : State} (hr : RInv s) (name : String) (track : Int)
    (hname : ∀ g ∈ nondep s.group_list, g.name ≠ name)
    (hroom : ((nondep s.group_list).length : Int) < GROUP_COUNT) :
    ∃ s2 id, dazukofs_add_group true name track s = some (s2, 0) ∧
      nondep s2.group_list = nondep s.group_list ++ [new_group name id track] ∧
      (∀ g ∈ nondep s.group_list, g.group_id ≠ id) ∧
      (∀ j, j < id → ∃ g ∈ nondep s.group_list, g.group_id = j) ∧
      s2.group_count = s.group_count + 1 := by
  obtain ⟨r1, _, _⟩ := hr
  obtain ⟨gl2, ae, id2, hsmall, hcase, hres, _⟩ := add_group_spec true name track s
  rcases hcase with ⟨_, _, g, hg, hgn⟩ | ⟨hae, hnd, hno⟩
  · exact absurd hgn (hname g hg)
  · have hc : ¬ s.group_count = GROUP_COUNT := by rw [r1]; omega
    refine ⟨{ s with group_list := gl2 ++ [new_group name id2 track],
                     group_count := s.group_count + 1 }, id2, ?_, ?_,
      fun g hg => (hno g hg).2, hsmall, rfl⟩
    · rw [hres]; simp [hae, hc]
    · simp only [nondep_append, hnd]
      simp [nondep, new_group]

theorem smallest_unique {l : List dazukofs_group} {a b : Nat}
    (ha1 : ∀ g ∈ l, g.group_id ≠ a) (ha2 : ∀ j, j < a → ∃ g ∈ l, g.group_id = j)
    (hb1 : ∀ g ∈ l, g.group_id ≠ b) (hb2 : ∀ j, j < b → ∃ g ∈ l, g.group_id = j) :
    a = b := by
  rcases Nat.lt_trichotomy a b with h | h | h
  · obtain ⟨g, hg, hgi⟩ := hb2 a h
    exact absurd hgi (ha1 g hg)
  · exact h
  · obtain ⟨g, hg, hgi⟩ := ha2 b h
    exact absurd hgi (hb1 g hg)

theorem fan_out_of_rinv {ec_fail : Option Nat} {cur dentry : Nat} {s : State}
    (hr : RInv s) (hok : fan_out_ok ec_fail cur s) : fans_out ec_fail cur dentry s := by
  obtain ⟨h0, hm, hi, hal⟩ := hok
  obtain ⟨r1, _, _⟩ := hr
  have hp := precheck_pass h0 hm hi
  rcases check_access_cases true ec_fail cur dentry s with
    ⟨_, hne, _⟩ | ⟨_, _, _, hfail⟩ | ⟨_, hf⟩ | ⟨ho, _, hgl, hev, _⟩
  · rw [hp] at hne; exact absurd rfl hne
  · rcases hfail with h | ⟨i, hi1, hi2⟩
    · exact absurd h (by decide)
    · have := hal i hi1; omega
  · exfalso; apply hf; rw [r1]; simp
  · refine ⟨ho, hgl, ?_⟩
    unfold event_assigned
    rw [evt_at_append_new s _ _ hev]; rfl

theorem remove_group_nondep {s : State} (hr : RInv s) (name : String) :
    nondep (dazukofs_remove_group name s).1.group_list
      = (nondep s.group_list).filter (fun g => decide (g.name ≠ name)) := by
  obtain ⟨r1, _, r3⟩ := hr
  unfold dazukofs_remove_group
  by_cases h0 : s.group_count = 0
  · have : nondep s.group_list = [] := by
      rw [h0] at r1
      exact List.length_eq_zero.mp (by exact_mod_cast r1.symm)
    simp [h0, this]
  · simp only [h0, if_false]
    cases hf : list_find (is_named name) s.group_list with
    | none =>
      rw [list_find_none] at hf
      symm
      simp only
      rw [List.filter_eq_self]
      intro g hg
      have hg2 := List.mem_filter.mp hg
      have := hf g hg2.1
      simp only [is_named, Bool.and_eq_false_imp, decide_eq_true_eq,
        decide_eq_false_iff_not] at this
      have hd : g.deprecated = 0 := by simpa using hg2.2
      have := this hd
      simp only [ne_eq, decide_not, Bool.not_eq_true', decide_eq_false_iff_not]
      exact fun h => this h.symm
    | some r =>
      obtain ⟨pre, grp, post⟩ := r
      obtain ⟨hsplit, hp, _⟩ := list_find_some hf
      have hnd := is_named_nondep hp
      have hname : grp.name = name := by
        simp [is_named] at hp; exact hp.2.symm
      obtain ⟨g1, _⟩ := remove_group_frame grp s
      simp only [g1]
      rw [hsplit, nondep_append, nondep_cons] at r3
      rw [hsplit, nondep_append, nondep_append, nondep_cons, nondep_cons]
      simp only [hnd, if_true, one_ne_zero, if_false, List.map_append, List.map_cons] at r3 ⊢
      rw [List.filter_append, List.filter_cons]
      have hpre : ∀ g ∈ nondep pre, g.name ≠ name := by
        intro g hg hgn
        have h1 := (List.nodup_append.mp r3).2.2
        exact h1 (List.mem_map_of_mem _ hg) (by rw [hgn, ← hname]; simp)
      have hpost : ∀ g ∈ nondep post, g.name ≠ name := by
        intro g hg hgn
        have h1 := (List.nodup_cons.mp (List.nodup_append.mp r3).2.1).1
        apply h1
        rw [hname, ← hgn]
        exact List.mem_map_of_mem _ hg
      have f1 : (nondep pre).filter (fun g => decide (g.name ≠ name)) = nondep pre := by
        rw [List.filter_eq_self]; intro g hg; simpa using hpre g hg
      have f2 : (nondep post).filter (fun g => decide (g.name ≠ name)) = nondep post := by
        rw [List.filter_eq_self]; intro g hg; simpa using hpost g hg
      rw [f1, f2]
      simp [hname]


/-! ## First in, first out -/

theorem todo_of_none {gid : Nat} {gl : List dazukofs_group}
    (hf : list_find (is_group gid) gl = none) : todo_of gid gl = [] := by
  unfold todo_of
  have : gl.find? (is_group gid) = none := by
    rw [List.find?_eq_none]; intro x hx; simp [list_find_none.mp hf x hx]
  rw [this]

theorem delivered_not_repost (e : Nat) (s : State) (op : Op) :
    delivered e s op ≠ some dazukofs_response_t.REPOST := by
  cases op with
  | return_event gid id r =>
    simp only [delivered]
    split
    · split_ifs with h
      · intro hc
        simp only [Option.some.injEq] at hc
        exact h.2 hc
      · simp
    · simp
  | _ => simp [delivered]

theorem verdicts_not_repost (e : Nat) (ops : List Op) :
    ∀ s : State, ∀ v ∈ verdicts e s ops, v ≠ dazukofs_response_t.REPOST := by
  induction ops with
  | nil => intro s v hv; simp [verdicts] at hv
  | cons op ops ih =>
    intro s v hv
    simp only [verdicts, List.mem_append, Option.mem_toList, Option.mem_def] at hv
    rcases hv with hv | hv
    · intro hc; rw [hc] at hv; exact delivered_not_repost e s op hv
    · exact ih _ v hv

theorem verdicts_le_releases (e : Nat) (ops : List Op) :
    ∀ s : State, (verdicts e s ops).length ≤ releases_in e s ops := by
  induction ops with
  | nil => intro s; simp [verdicts, releases_in]
  | cons op ops ih =>
    intro s
    have := ih (step s op)
    simp only [verdicts, releases_in, releases, List.length_append]
    cases delivered e s op with
    | none => simp; omega
    | some v => simp; omega

/-- In a run from a reachable state, no more containers of an event are
released than the fan-out linked. -/
theorem releases_in_le {evt_ok : Bool} {ec_fail : Option Nat} {cur dentry : Nat}
    {s s1 : State} {e : Nat} (hr : Reachable s)
    (hfan : dazukofs_check_access evt_ok ec_fail cur dentry s = (s1, Outcome.waiting e))
    (ops : List Op) : releases_in e s1 ops ≤ (nondep s.group_list).length := by
  obtain ⟨_, he, hev, _⟩ := fan_out_event hfan
  obtain ⟨_, hass, _⟩ := run_event ops s1 e he
  have hs1 : s1 = step s (Op.check_access evt_ok ec_fail cur dentry) := by
    simp [step, hfan]
  have hr1 : Reachable s1 := hs1 ▸ reachable_step hr _
  have hc := (run_cinv ops s1 (reachable_cinv hr1)).1 e
  have h0 : event_assigned s1 e = ((nondep s.group_list).length : Int) := by
    unfold event_assigned; rw [hev]; rfl
  rw [hass, h0] at hc
  omega

/-! ## Error returns of dazukofs_return_event, and group removal -/

theorem release_event_event_id (evt : dazukofs_event) (d n : Int) :
    (release_event evt d n).1.event_id = evt.event_id := by
  unfold release_event
  by_cases h1 : n = 0 <;> by_cases h2 : d = 0 <;> simp only [h1, h2, ne_eq, not_true_eq_false,
    not_false_eq_true, if_true, if_false] <;> split_ifs <;> rfl

/-- The error path of `dazukofs_return_event`. -/
theorem return_event_einval {gid id : Nat} {r : dazukofs_response_t} {s : State}
    (h : ∀ g ∈ s.group_list, g.deprecated = 0 → g.group_id = gid →
      ∀ ec ∈ g.working_list, (evt_at s ec.event).event_id ≠ id) :
    dazukofs_return_event gid id r s = (s, -EINVAL) := by
  cases hf : list_find (is_group gid) s.group_list with
  | none => exact return_event_no_group hf
  | some rr =>
    obtain ⟨gpre, grp, gpost⟩ := rr
    obtain ⟨hsplit, hp, _⟩ := list_find_some hf
    have hmem : grp ∈ s.group_list := by rw [hsplit]; simp
    have hp2 : grp.deprecated = 0 ∧ grp.group_id = gid := by simpa [is_group] using hp
    apply return_event_no_container hf
    rw [list_find_none]
    intro ec hec
    simpa using h grp hmem hp2.1 hp2.2 ec hec

/-- A second return of an event that the group already returned. -/
theorem return_event_twice {gid id : Nat} {r r2 : dazukofs_response_t} {s : State}
    {gpre gpost : List dazukofs_group} {grp : dazukofs_group}
    {pre post : List dazukofs_event_container} {ec : dazukofs_event_container}
    (hr : r ≠ dazukofs_response_t.REPOST)
    (hf : list_find (is_group gid) s.group_list = some (gpre, grp, gpost))
    (hw : list_find (fun ec => decide ((evt_at s ec.event).event_id = id)) grp.working_list
      = some (pre, ec, post))
    (hpost : ∀ c ∈ post, (evt_at s c.event).event_id ≠ id) :
    dazukofs_return_event gid id r2 (dazukofs_return_event gid id r s).1
      = ((dazukofs_return_event gid id r s).1, -EINVAL) := by
  rw [return_event_verdict hr hf hw]
  obtain ⟨hsplit, hp, hpre⟩ := list_find_some hf
  obtain ⟨_, _, hwpre⟩ := list_find_some hw
  have hf2 : list_find (is_group gid)
      (gpre ++ { grp with working_list := pre ++ post } :: gpost)
      = some (gpre, { grp with working_list := pre ++ post }, gpost) :=
    list_find_append hpre (by simpa [is_group] using hp)
  refine @return_event_no_container gid id r2 _ gpre gpost _ hf2 ?_
  · rw [list_find_none]
    intro c hc
    have hid : ∀ e2, (evt_at { release_event_at ec.event 1
        (if r = dazukofs_response_t.DENY then 1 else 0) s with
          group_list := gpre ++ { grp with working_list := pre ++ post } :: gpost } e2).event_id
        = (evt_at s e2).event_id := by
      intro e2
      have : evt_at { release_event_at ec.event 1
        (if r = dazukofs_response_t.DENY then 1 else 0) s with
          group_list := gpre ++ { grp with working_list := pre ++ post } :: gpost } e2
          = evt_at (release_event_at ec.event 1
              (if r = dazukofs_response_t.DENY then 1 else 0) s) e2 := rfl
      rw [this, evt_at_release_event_at]
      by_cases hc2 : e2 = ec.event ∧ ec.event < s.events.length
      · rw [if_pos hc2, hc2.1]; exact release_event_event_id _ _ _
      · rw [if_neg hc2]
    simp only [hid, decide_eq_false_iff_not]
    rcases List.mem_append.mp hc with h1 | h1
    · simpa using hwpre c h1
    · exact hpost c h1
/-- In a state that satisfies the registry invariant, `dazukofs_remove_group`
finds the non-deprecated group of the given name. -/
theorem remove_group_found {s : State} (hr : RInv s) {grp : dazukofs_group} {name : String}
    (hg : grp ∈ nondep s.group_list) (hn : grp.name = name) :
    ∃ pre post, s.group_list = pre ++ grp :: post ∧
      list_find (is_named name) s.group_list = some (pre, grp, post) ∧
      dazukofs_remove_group name s
        = ({ (__remove_group grp s).2 with
              group_list := pre ++ { grp with deprecated := 1, working_list := [],
                                              todo_list := [] } :: post }, 0) := by
  obtain ⟨r1, _, r3⟩ := hr
  have hg2 := List.mem_filter.mp hg
  have hd : grp.deprecated = 0 := by simpa using hg2.2
  have h0 : s.group_count ≠ 0 := by
    rw [r1]
    have := List.length_pos_of_mem hg
    omega
  cases hf : list_find (is_named name) s.group_list with
  | none =>
    rw [list_find_none] at hf
    have := hf grp hg2.1
    simp [is_named, hd, hn] at this
  | some r =>
    obtain ⟨pre, g, post⟩ := r
    obtain ⟨hsplit, hp, _⟩ := list_find_some hf
    have hgd := is_named_nondep hp
    have hgn : g.name = name := by simp [is_named] at hp; exact hp.2.symm
    have hgm : g ∈ nondep s.group_list := by
      apply List.mem_filter.mpr
      refine ⟨by rw [hsplit]; simp, by simpa using hgd⟩
    have heq : g = grp := List.inj_on_of_nodup_map r3 hgm hg (by rw [hgn, hn])
    subst heq
    refine ⟨pre, post, hsplit, rfl, ?_⟩
    unfold dazukofs_remove_group
    rw [if_neg h0]
    simp only [hf]
    rw [(remove_group_frame g s).1]

theorem remove_group_absent {s : State} {name : String}
    (h : ∀ g ∈ nondep s.group_list, g.name ≠ name) : dazukofs_remove_group name s = (s, 0) := by
  unfold dazukofs_remove_group
  by_cases h0 : s.group_count = 0
  · rw [if_pos h0]
  · rw [if_neg h0]
    have hf : list_find (is_named name) s.group_list = none := by
      rw [list_find_none]
      intro g hg
      by_cases hd : g.deprecated = 0
      · have := h g (List.mem_filter.mpr ⟨hg, by simpa using hd⟩)
        simp only [is_named, hd, decide_True, Bool.true_and, decide_eq_false_iff_not]
        exact fun hh => this hh.symm
      · simp [is_named, hd]
    simp only [hf]

/-- What the removal of a group does to every event, in a state that satisfies
the container invariant. -/
theorem remove_group_events {s : State} (hc : CInv s) {grp : dazukofs_group}
    {pre post : List dazukofs_group} (hsplit : s.group_list = pre ++ grp :: post) (e : Nat) :
    event_assigned (__remove_group grp s).2 e = event_assigned s e - (refs_group e grp : Nat) ∧
    (evt_at (__remove_group grp s).2 e).deny = (evt_at s e).deny := by
  by_cases he : e < s.events.length
  · obtain ⟨h1, h2, _⟩ := remove_group_event grp s e he
    exact ⟨h1, h2⟩
  · have hle : s.events.length ≤ e := by omega
    have hz : event_assigned s e = 0 := assigned_zero_of_length (s := s) rfl hle
    have hrefs : refs_group e grp = 0 := by
      have h1 := hc.1 e
      have h2 := @refs_group_le_refs e _ _ _ _ hsplit
      rw [hz] at h1
      omega
    refine ⟨?_, ?_⟩
    · rw [assigned_zero_of_length (s := s) (remove_group_length grp s) hle, hz, hrefs]; simp
    · rw [evt_at_ge (by rw [remove_group_length]; exact hle), evt_at_ge hle]

/-! ## The invariant on ids -/

theorem live_ids_of_keys :
    ∀ (a b : List dazukofs_group), a.map reg_key = b.map reg_key → live_ids a = live_ids b := by
  intro a
  induction a with
  | nil =>
    intro b h
    cases b with
    | nil => rfl
    | cons y b => simp at h
  | cons x a ih =>
    intro b h
    cases b with
    | nil => simp at h
    | cons y b =>
      simp only [List.map_cons, List.cons.injEq] at h
      obtain ⟨hk, ht⟩ := h
      have i1 := ih b ht
      simp only [reg_key, Prod.mk.injEq] at hk
      obtain ⟨k1, _, k3⟩ := hk
      unfold live_ids at i1 ⊢
      rw [nondep_cons, nondep_cons, k1]
      by_cases hd : y.deprecated = 0
      · simp [hd, i1, k3]
      · simp [hd, i1]

theorem idinv_of_keys {s t : State} (h : IdInv s)
    (hk : t.group_list.map reg_key = s.group_list.map reg_key) : IdInv t := by
  unfold IdInv
  rw [live_ids_of_keys _ _ hk]
  exact h

theorem live_ids_split (pre post : List dazukofs_group) (g : dazukofs_group) :
    live_ids (pre ++ g :: post)
      = live_ids pre ++ (if g.deprecated = 0 then [g.group_id] else []) ++ live_ids post := by
  unfold live_ids
  rw [nondep_append, nondep_cons]
  by_cases hd : g.deprecated = 0 <;> simp [hd]

theorem idinv_remove {s : State} {pre post : List dazukofs_group} {grp g2 : dazukofs_group}
    (h : IdInv s) (hsplit : s.group_list = pre ++ grp :: post)
    (hdep : g2.deprecated ≠ 0) (t : State) (hgl : t.group_list = pre ++ g2 :: post) :
    IdInv t := by
  obtain ⟨h1, h2⟩ := h
  have hsub : (live_ids t.group_list).Sublist (live_ids s.group_list) := by
    rw [hgl, hsplit, live_ids_split, live_ids_split]
    simp only [hdep, if_false, List.append_nil]
    rw [List.append_assoc]
    exact List.Sublist.append_left (List.sublist_append_right _ _) _
  exact ⟨h1.sublist hsub, fun i hi => h2 i (hsub.subset hi)⟩

/-- The smallest id that no group holds is at most the number of groups. -/
theorem smallest_free_le {ids : List Nat} {id : Nat}
    (h : ∀ j, j < id → j ∈ ids) : id ≤ ids.length := by
  have hsub : List.range id ⊆ ids := fun j hj => h j (List.mem_range.mp hj)
  have := (List.subperm_of_subset (List.nodup_range id) hsub).length_le
  simpa using this

theorem step_idinv (s : State) (op : Op) (hr : RInv s) (h : IdInv s) : IdInv (step s op) := by
  cases op with
  | add_group alloc_ok name track =>
    obtain ⟨r1, r2, _⟩ := hr
    obtain ⟨h1, h2⟩ := h
    obtain ⟨gl2, ae, id2, hsmall, hcase, hres, _⟩ := add_group_spec alloc_ok name track s
    simp only [step, hres]
    rcases hcase with ⟨hae, hnd, _⟩ | ⟨hae, hnd, hno⟩
    · have hne : ae ≠ 0 := by rw [hae]; decide
      simp only [hne, ne_eq, not_false_eq_true, if_true]
      have hids : live_ids gl2 = live_ids s.group_list := by
        unfold live_ids
        rw [hnd]
        have := congrArg (List.map Prod.fst)
          (mark_tracking_map_id_name name track (nondep s.group_list))
        simpa [List.map_map, Function.comp] using this
      unfold IdInv
      simp only [hids]
      exact ⟨h1, h2⟩
    · have hids : live_ids gl2 = live_ids s.group_list := by unfold live_ids; rw [hnd]
      have hsame : IdInv { s with group_list := gl2 } := by
        unfold IdInv; simp only [hids]; exact ⟨h1, h2⟩
      simp only [hae, ne_eq, not_true_eq_false, if_false]
      split_ifs with hc ha
      · exact hsame
      · have hnew : live_ids (gl2 ++ [new_group name id2 track])
            = live_ids s.group_list ++ [id2] := by
          unfold live_ids at hids ⊢
          rw [nondep_append, List.map_append, hids]; simp [nondep, new_group]
        have hnot : id2 ∉ live_ids s.group_list := by
          intro hm
          obtain ⟨g, hg, hgi⟩ := List.mem_map.mp hm
          exact (hno g hg).2 hgi
        have hle : id2 ≤ (live_ids s.group_list).length := by
          apply smallest_free_le
          intro j hj
          obtain ⟨g, hg, hgi⟩ := hsmall j hj
          exact List.mem_map.mpr ⟨g, hg, hgi⟩
        have hlen : (live_ids s.group_list).length = (nondep s.group_list).length := by
          unfold live_ids; simp
        unfold IdInv
        simp only [hnew]
        refine ⟨?_, ?_⟩
        · rw [List.nodup_append]
          refine ⟨h1, List.nodup_singleton _, ?_⟩
          intro a ha1 ha2
          simp only [List.mem_singleton] at ha2
          subst ha2
          exact hnot ha1
        · intro i hi
          rcases List.mem_append.mp hi with hi | hi
          · exact h2 i hi
          · simp only [List.mem_singleton] at hi
            subst hi
            unfold GROUP_COUNT at *
            omega
      · exact hsame
  | remove_group name =>
    simp only [step]
    unfold dazukofs_remove_group
    by_cases h0 : s.group_count = 0
    · simpa [h0] using h
    · simp only [h0, if_false]
      cases hf : list_find (is_named name) s.group_list with
      | none => exact h
      | some r =>
        obtain ⟨pre, grp, post⟩ := r
        obtain ⟨hsplit, hp, _⟩ := list_find_some hf
        obtain ⟨g1, _⟩ := remove_group_frame grp s
        exact @idinv_remove _ _ _ _ (__remove_group grp s).1 h hsplit
          (by rw [g1]; exact one_ne_zero) _ rfl
  | release_tracking gid =>
    simp only [step]
    unfold dazukofs_group_release_tracking
    cases hf : list_find (is_group gid) s.group_list with
    | none => exact h
    | some rr =>
      obtain ⟨pre, grp, post⟩ := rr
      obtain ⟨hsplit, hp, _⟩ := list_find_some hf
      by_cases ht : grp.tracking = 0
      · simpa [ht] using h
      · by_cases hz : grp.track_count - 1 = 0
        · simp only [ht, ne_eq, not_false_eq_true, if_true, hz]
          obtain ⟨g1, _⟩ := remove_group_frame
            { grp with use_count := grp.use_count - 1, track_count := 0 } s
          exact @idinv_remove _ _ _ _
            (__remove_group { grp with use_count := grp.use_count - 1, track_count := 0 } s).1
            h hsplit (by rw [g1]; exact one_ne_zero) _ rfl
        · simp only [ht, ne_eq, not_false_eq_true, if_true, hz, if_false]
          refine idinv_of_keys h ?_
          simp only
          rw [hsplit]
          exact keys_split rfl
  | check_access evt_ok ec_fail cur dentry =>
    exact idinv_of_keys h (step_keys s (Op.check_access evt_ok ec_fail cur dentry) trivial).1
  | check_access_resume e2 =>
    exact idinv_of_keys h (step_keys s (Op.check_access_resume e2) trivial).1
  | get_event env cur gid =>
    exact idinv_of_keys h (step_keys s (Op.get_event env cur gid) trivial).1
  | return_event gid id r =>
    exact idinv_of_keys h (step_keys s (Op.return_event gid id r) trivial).1
  | poll gid => exact idinv_of_keys h (step_keys s (Op.poll gid) trivial).1
  | open_tracking gid => exact idinv_of_keys h (step_keys s (Op.open_tracking gid) trivial).1
  | add_ign alloc_ok cur =>
    exact idinv_of_keys h (step_keys s (Op.add_ign alloc_ok cur) trivial).1
  | remove_ign pid => exact idinv_of_keys h (step_keys s (Op.remove_ign pid) trivial).1

theorem idinv_init : IdInv init := by
  refine ⟨?_, ?_⟩ <;> simp [init, live_ids, nondep]

theorem run_idinv (ops : List Op) : ∀ s, RInv s → IdInv s → IdInv (run s ops) := by
  induction ops with
  | nil => intro s _ h; exact h
  | cons op ops ih => intro s hr h; exact ih _ (step_rinv s op hr) (step_idinv s op hr h)

theorem reachable_idinv {s : State} (h : Reachable s) : IdInv s := by
  obtain ⟨ops, rfl⟩ := h
  exact run_idinv ops init rinv_init idinv_init

/-! ## A return after the removal of the group -/

/-- After the removal of a group no event can be returned under its id. -/
theorem return_event_after_removal {s : State} (hr : Reachable s) {grp : dazukofs_group}
    {name : String} (hg : grp ∈ nondep s.group_list) (hn : grp.name = name)
    (id : Nat) (r : dazukofs_response_t) :
    dazukofs_return_event grp.group_id id r (dazukofs_remove_group name s).1
      = ((dazukofs_remove_group name s).1, -EINVAL) := by
  obtain ⟨pre, post, hsplit, _, hres⟩ := remove_group_found (reachable_rinv hr) hg hn
  obtain ⟨i1, _⟩ := reachable_idinv hr
  have hd : grp.deprecated = 0 := by simpa using (List.mem_filter.mp hg).2
  rw [hsplit, live_ids_split] at i1
  simp only [hd, if_true] at i1
  have hpre : grp.group_id ∉ live_ids pre := by
    intro hm
    have := (List.nodup_append.mp (List.nodup_append.mp i1).1).2.2
    exact this hm (by simp)
  have hpost : grp.group_id ∉ live_ids post := by
    intro hm
    have := (List.nodup_append.mp i1).2.2
    exact this (by simp) hm
  apply return_event_einval
  intro g hgm hgd hgi
  rw [hres] at hgm
  simp only [List.mem_append, List.mem_cons] at hgm
  have hlive : ∀ l : List dazukofs_group, g ∈ l → g.group_id ∈ live_ids l := by
    intro l hl
    exact List.mem_map.mpr ⟨g, List.mem_filter.mpr ⟨hl, by simpa using hgd⟩, rfl⟩
  rcases hgm with h | h | h
  · exact absurd (hgi ▸ hlive pre h) hpre
  · rw [h] at hgd; simp at hgd
  · exact absurd (hgi ▸ hlive post h) hpost

/-! ## Claim and give-back -/

/-- The lookup by id finds a group again after its queues or counters changed. -/
theorem find_group_replace {gid : Nat} {gl pre post : List dazukofs_group}
    {grp g2 : dazukofs_group}
    (hf : list_find (is_group gid) gl = some (pre, grp, post))
    (hd : g2.deprecated = grp.deprecated) (hi : g2.group_id = grp.group_id) :
    list_find (is_group gid) (pre ++ g2 :: post) = some (pre, g2, post) := by
  obtain ⟨_, hp, hpre⟩ := list_find_some hf
  apply list_find_append hpre
  simp only [is_group, hd, hi]
  simpa [is_group] using hp

/-- A claim whose open fails puts the container back at the head of the todo
list; the next successful claim delivers the same event. -/
theorem get_event_failed_open {env env2 : OpenEnv} {cur cur2 gid : Nat} {s : State}
    {pre post : List dazukofs_group} {grp : dazukofs_group}
    {ec : dazukofs_event_container} {rest : List dazukofs_event_container}
    (hf : list_find (is_group gid) s.group_list = some (pre, grp, post))
    (ht : grp.todo_list = ec :: rest)
    (hfail : env.fd < 0 ∨ env.open_err ≠ 0)
    (hok2 : ¬ env2.fd < 0 ∧ env2.open_err = 0) :
    (dazukofs_get_event env cur gid s).1.group_list
      = pre ++ group_unclaimed env.fd grp ec rest :: post ∧
    (dazukofs_get_event env cur gid s).1.events = s.events ∧
    (dazukofs_get_event env2 cur2 gid (dazukofs_get_event env cur gid s).1).2
      = GetResult.ok (evt_at s ec.event).event_id env2.fd (evt_at s ec.event).proc_id := by
  obtain ⟨h1, _, _, _, h5, _, _, _⟩ := @get_event_claim env cur _ _ _ _ _ _ _ hf ht
  rw [if_pos hfail] at h1
  refine ⟨h1, h5, ?_⟩
  have hf2 : list_find (is_group gid) (dazukofs_get_event env cur gid s).1.group_list
      = some (pre, group_unclaimed env.fd grp ec rest, post) := by
    rw [h1]; exact find_group_replace hf rfl rfl
  obtain ⟨_, _, _, _, _, _, _, h8⟩ := @get_event_claim env2 cur2 _ _ _ _ _
    { ec with fd := env.fd } rest hf2 rfl
  rw [h8, if_neg hok2.1, if_neg (by simp [hok2.2])]
  simp only [evt_at_of_events_eq h5]

/-- A successful claim followed by a REPOST of the claimed event puts the
container back at the head of the todo list; the next successful claim
delivers the same event. -/
theorem get_event_then_repost {env env2 : OpenEnv} {cur cur2 gid : Nat} {s : State}
    {pre post : List dazukofs_group} {grp : dazukofs_group}
    {ec : dazukofs_event_container} {rest : List dazukofs_event_container}
    (hf : list_find (is_group gid) s.group_list = some (pre, grp, post))
    (ht : grp.todo_list = ec :: rest)
    (hok : ¬ env.fd < 0 ∧ env.open_err = 0)
    (hok2 : ¬ env2.fd < 0 ∧ env2.open_err = 0) :
    (dazukofs_get_event env cur gid s).2
      = GetResult.ok (evt_at s ec.event).event_id env.fd (evt_at s ec.event).proc_id ∧
    (dazukofs_return_event gid (evt_at s ec.event).event_id dazukofs_response_t.REPOST
        (dazukofs_get_event env cur gid s).1).2 = 0 ∧
    (dazukofs_return_event gid (evt_at s ec.event).event_id dazukofs_response_t.REPOST
        (dazukofs_get_event env cur gid s).1).1.group_list
      = pre ++ group_unclaimed env.fd grp ec rest :: post ∧
    (dazukofs_return_event gid (evt_at s ec.event).event_id dazukofs_response_t.REPOST
        (dazukofs_get_event env cur gid s).1).1.events = s.events ∧
    (dazukofs_get_event env2 cur2 gid
        (dazukofs_return_event gid (evt_at s ec.event).event_id dazukofs_response_t.REPOST
          (dazukofs_get_event env cur gid s).1).1).2
      = GetResult.ok (evt_at s ec.event).event_id env2.fd (evt_at s ec.event).proc_id := by
  obtain ⟨h1, _, _, _, h5, _, _, h8⟩ := @get_event_claim env cur _ _ _ _ _ _ _ hf ht
  have hnf : ¬ (env.fd < 0 ∨ env.open_err ≠ 0) := by
    rintro (h | h)
    · exact hok.1 h
    · exact h hok.2
  rw [if_neg hnf] at h1
  rw [if_neg hok.1, if_neg (by simp [hok.2])] at h8
  have hf1 : list_find (is_group gid) (dazukofs_get_event env cur gid s).1.group_list
      = some (pre, group_claimed env.fd grp ec rest, post) := by
    rw [h1]; exact find_group_replace hf rfl rfl
  have hw : list_find (fun c => decide ((evt_at (dazukofs_get_event env cur gid s).1
        c.event).event_id = (evt_at s ec.event).event_id))
      (group_claimed env.fd grp ec rest).working_list
      = some ([], { ec with fd := env.fd }, grp.working_list) := by
    simp [group_claimed, list_find, evt_at_of_events_eq h5]
  have hrep := return_event_repost hf1 hw
  have hgl : (dazukofs_return_event gid (evt_at s ec.event).event_id
      dazukofs_response_t.REPOST (dazukofs_get_event env cur gid s).1).1.group_list
      = pre ++ group_unclaimed env.fd grp ec rest :: post := by
    rw [hrep]; simp [group_claimed, group_unclaimed]
  have hev : (dazukofs_return_event gid (evt_at s ec.event).event_id
      dazukofs_response_t.REPOST (dazukofs_get_event env cur gid s).1).1.events
      = s.events := by
    rw [hrep]; exact h5
  refine ⟨h8, by rw [hrep], hgl, hev, ?_⟩
  have hf2 : list_find (is_group gid) (dazukofs_return_event gid (evt_at s ec.event).event_id
      dazukofs_response_t.REPOST (dazukofs_get_event env cur gid s).1).1.group_list
      = some (pre, group_unclaimed env.fd grp ec rest, post) := by
    rw [hgl]; exact find_group_replace hf rfl rfl
  obtain ⟨_, _, _, _, _, _, _, g8⟩ := @get_event_claim env2 cur2 _ _ _ _ _
    { ec with fd := env.fd } rest hf2 rfl
  rw [g8, if_neg hok2.1, if_neg (by simp [hok2.2])]
  simp only [evt_at_of_events_eq hev]

/-! ## Event ids -/

theorem int_wrap_of_range {x : Int} (h : int_range x) : int_wrap x = x := by
  unfold int_range at h
  unfold int_wrap
  omega

theorem int_wrap_range (x : Int) : int_range (int_wrap x) := by
  unfold int_range int_wrap
  omega

theorem int_wrap_succ (x : Int) : int_wrap (int_wrap x + 1) = int_wrap (x + 1) := by
  unfold int_wrap
  omega

/-- Every call other than a fan-out leaves `last_event_id` as it is and hands out no id; a
fan-out increments it (with wrap-around) and hands out the new value, converted
to `unsigned long`. -/
theorem step_last_event_id (s : State) (op : Op) :
    (handed_id s op = [] ∧ (step s op).last_event_id = s.last_event_id) ∨
    (handed_id s op = [ulong_of_int (int_wrap (s.last_event_id + 1))] ∧
      (step s op).last_event_id = int_wrap (s.last_event_id + 1)) := by
  cases op with
  | add_group alloc_ok name track =>
    left; exact ⟨rfl, (add_group_step_frame alloc_ok name track s).2.1⟩
  | remove_group name =>
    left; refine ⟨rfl, ?_⟩
    simp only [step]
    unfold dazukofs_remove_group
    split_ifs
    · rfl
    · split
      · rfl
      · exact (remove_group_frame _ s).2.2.2.1
  | check_access evt_ok ec_fail cur dentry =>
    simp only [step, handed_id]
    rcases check_access_cases evt_ok ec_fail cur dentry s with
      ⟨ho, _, hs⟩ | ⟨ho, hs, _⟩ | ⟨hs, _⟩ | ⟨ho, _, _, hev, _, hl, _⟩
    · left; rw [ho]; exact ⟨rfl, hs.2.2.1⟩
    · left; rw [ho]; exact ⟨rfl, hs.2.2.1⟩
    · left; rw [hs]; exact ⟨rfl, rfl⟩
    · right; rw [ho]
      refine ⟨?_, hl⟩
      simp only
      rw [evt_at_append_new s _ _ hev]
      rfl
  | check_access_resume e2 =>
    left; refine ⟨rfl, ?_⟩
    simp only [step]
    by_cases hc : e2 ∈ s.waiters ∧ event_assigned s e2 = 0
    · rw [resume_some hc]; simp
    · rw [resume_none hc]
  | get_event env cur gid =>
    left; refine ⟨rfl, ?_⟩
    simp only [step]
    cases hf : list_find (is_group gid) s.group_list with
    | none => rw [get_event_not_found hf]
    | some r =>
      obtain ⟨pre, grp, post⟩ := r
      cases ht : grp.todo_list with
      | nil => rw [get_event_empty hf ht]
      | cons ec rest => exact (@get_event_claim env cur _ _ _ _ _ _ _ hf ht).2.2.1
  | return_event gid id r =>
    left; refine ⟨rfl, ?_⟩
    simp only [step]
    cases hf : list_find (is_group gid) s.group_list with
    | none => rw [return_event_no_group hf]
    | some rr =>
      obtain ⟨gpre, grp, gpost⟩ := rr
      cases hw : list_find (fun ec => decide ((evt_at s ec.event).event_id = id))
          grp.working_list with
      | none => rw [return_event_no_container hf hw]
      | some ww =>
        obtain ⟨pre, ec, post⟩ := ww
        by_cases hrep : r = dazukofs_response_t.REPOST
        · subst hrep; rw [return_event_repost hf hw]
        · rw [return_event_verdict hrep hf hw]; simp
  | poll gid => left; simp only [step, poll_state]; exact ⟨rfl, trivial⟩
  | open_tracking gid =>
    left; refine ⟨rfl, ?_⟩
    simp only [step]
    unfold dazukofs_group_open_tracking
    split
    · rfl
    · split_ifs <;> rfl
  | release_tracking gid =>
    left; refine ⟨rfl, ?_⟩
    simp only [step]
    unfold dazukofs_group_release_tracking
    cases hf : list_find (is_group gid) s.group_list with
    | none => rfl
    | some rr =>
      obtain ⟨pre, grp, post⟩ := rr
      by_cases ht : grp.tracking = 0
      · simp [ht]
      · by_cases hz : grp.track_count - 1 = 0
        · simp only [ht, ne_eq, not_false_eq_true, if_true, hz]
          exact (remove_group_frame _ s).2.2.2.1
        · simp [ht, hz]
  | add_ign alloc_ok cur =>
    left; simp only [step, dazukofs_add_ign]
    split_ifs <;> exact ⟨rfl, rfl⟩
  | remove_ign pid =>
    left; simp only [step, dazukofs_remove_ign]
    split <;> exact ⟨rfl, rfl⟩

/-- The ids handed out in a run are the successive values of `last_event_id`,
wrapped to an `int` and converted to `unsigned long`. -/
theorem run_ids (ops : List Op) :
    ∀ s : State, int_range s.last_event_id →
      ids_of s ops = (List.range (ids_of s ops).length).map
          (fun i : Nat => ulong_of_int (int_wrap (s.last_event_id + 1 + (i : Int)))) ∧
      (run s ops).last_event_id = int_wrap (s.last_event_id + ((ids_of s ops).length : Int)) := by
  induction ops with
  | nil =>
    intro s hr
    simp [ids_of, run, int_wrap_of_range hr]
  | cons op ops ih =>
    intro s hr
    rcases step_last_event_id s op with ⟨h1, h2⟩ | ⟨h1, h2⟩
    · have := ih (step s op) (by rw [h2]; exact hr)
      simp only [ids_of, h1, List.nil_append, run, List.foldl_cons]
      rw [h2] at this
      exact this
    · obtain ⟨i1, i2⟩ := ih (step s op) (by rw [h2]; exact int_wrap_range _)
      simp only [ids_of, h1, run, List.foldl_cons, List.singleton_append, List.length_cons]
      constructor
      · rw [List.range_succ_eq_map, List.map_cons, List.map_map]
        congr 1
        · simp
        · conv_lhs => rw [i1]
          apply List.map_congr_left
          intro i _
          simp only [Function.comp, h2]
          congr 1
          have := int_wrap_succ (s.last_event_id + 1 + i)
          unfold int_wrap at *
          push_cast
          omega
      · have i2b : (run (step s op) ops).last_event_id = _ := i2
        simp only [run] at i2b
        rw [i2b, h2]
        unfold int_wrap
        push_cast
        omega
theorem fan_out_proc_list {ec_fail : Option Nat} {cur dentry : Nat} {s : State}
    (hok : fan_out_ok ec_fail cur s) :
    (dazukofs_check_access true ec_fail cur dentry s).1.proc_list = s.proc_list := by
  obtain ⟨h0, hm, hi, _⟩ := hok
  unfold dazukofs_check_access
  rw [precheck_pass h0 hm hi]
  simp only [ne_eq, not_true_eq_false, if_false]
  unfold allocate_event_and_containers
  simp only [if_true]
  cases alloc_containers ec_fail 0 s.group_count.toNat with
  | none => rfl
  | some ec_array =>
    simp only
    unfold assign_event_to_groups
    simp only
    split
    · rfl
    · rename_i hh
      split at hh
      · simp at hh
      · simp only [Option.some.injEq] at hh
        rw [← hh]

/-- Ids of a run that stays below `INT_MAX`. -/
theorem ids_bounded (ops : List Op) (s : State) (h0 : 0 ≤ s.last_event_id)
    (hb : s.last_event_id + ((ids_of s ops).length : Int) < 2147483648) :
    ids_of s ops = (List.range (ids_of s ops).length).map
      (fun i : Nat => s.last_event_id.toNat + 1 + i) ∧
    (run s ops).last_event_id = s.last_event_id + ((ids_of s ops).length : Int) := by
  obtain ⟨h1, h2⟩ := run_ids ops s (by unfold int_range; omega)
  constructor
  · conv_lhs => rw [h1]
    apply List.map_congr_left
    intro i hi
    have hi2 := List.mem_range.mp hi
    unfold ulong_of_int int_wrap
    omega
  · rw [h2]
    unfold int_wrap
    omega

theorem reachable_int_range {s : State} (h : Reachable s) : int_range s.last_event_id := by
  obtain ⟨ops, rfl⟩ := h
  rw [(run_ids ops init (by unfold int_range init; simp)).2]
  exact int_wrap_range _

theorem map_add_pairwise (a n : Nat) :
    ((List.range n).map (fun i : Nat => a + 1 + i)).Pairwise (fun x y => x < y) := by
  rw [List.pairwise_map]
  exact (List.pairwise_lt_range n).imp (fun h => by omega)

/-! ## Tracking -/

theorem open_tracking_found {gid : Nat} {s : State} {pre post : List dazukofs_group}
    {grp : dazukofs_group}
    (hf : list_find (is_group gid) s.group_list = some (pre, grp, post))
    (ht : grp.tracking ≠ 0) :
    dazukofs_group_open_tracking gid s
      = ({ s with group_list := pre ++ { grp with use_count := grp.use_count + 1,
                                                  track_count := grp.track_count + 1 } :: post },
         1) := by
  unfold dazukofs_group_open_tracking
  rw [hf]
  simp only [ht, ne_eq, not_false_eq_true, if_true]

theorem open_tracking_none {gid : Nat} {s : State}
    (h : ∀ g ∈ s.group_list, g.deprecated = 0 → g.group_id = gid → g.tracking = 0) :
    dazukofs_group_open_tracking gid s = (s, 0) := by
  unfold dazukofs_group_open_tracking
  cases hf : list_find (is_group gid) s.group_list with
  | none => rfl
  | some rr =>
    obtain ⟨pre, grp, post⟩ := rr
    obtain ⟨hsplit, hp, _⟩ := list_find_some hf
    have hp2 : grp.deprecated = 0 ∧ grp.group_id = gid := by simpa [is_group] using hp
    have := h grp (by rw [hsplit]; simp) hp2.1 hp2.2
    simp [this]

theorem release_tracking_found {gid : Nat} {s : State} {pre post : List dazukofs_group}
    {grp : dazukofs_group}
    (hf : list_find (is_group gid) s.group_list = some (pre, grp, post))
    (ht : grp.tracking ≠ 0) (hc : grp.track_count - 1 ≠ 0) :
    dazukofs_group_release_tracking gid s
      = { s with group_list := pre ++ { grp with use_count := grp.use_count - 1,
                                                 track_count := grp.track_count - 1 } :: post } := by
  unfold dazukofs_group_release_tracking
  rw [hf]
  simp only [ht, ne_eq, not_false_eq_true, if_true, hc, if_false]

theorem release_tracking_last {gid : Nat} {s : State} {pre post : List dazukofs_group}
    {grp : dazukofs_group}
    (hf : list_find (is_group gid) s.group_list = some (pre, grp, post))
    (ht : grp.tracking ≠ 0) (hc : grp.track_count - 1 = 0) :
    dazukofs_group_release_tracking gid s
      = { (__remove_group { grp with use_count := grp.use_count - 1, track_count := 0 } s).2 with
            group_list := pre ++ { grp with use_count := grp.use_count - 1, track_count := 0,
                                            deprecated := 1, working_list := [],
                                            todo_list := [] } :: post } := by
  unfold dazukofs_group_release_tracking
  rw [hf]
  simp only [ht, ne_eq, not_false_eq_true, if_true, hc]
  rw [(remove_group_frame _ s).1]

theorem run_append (s : State) (a b : List Op) : run s (a ++ b) = run (run s a) b := by
  simp [run, List.foldl_append]

theorem run_opens (gid : Nat) (pre post : List dazukofs_group) (k : Nat) :
    ∀ (s : State) (grp : dazukofs_group),
      list_find (is_group gid) s.group_list = some (pre, grp, post) → grp.tracking ≠ 0 →
      run s (List.replicate k (Op.open_tracking gid))
        = { s with group_list := pre ++ { grp with use_count := grp.use_count + k,
                                                   track_count := grp.track_count + k } :: post } := by
  induction k with
  | zero =>
    intro s grp hf _
    have := (list_find_some hf).1
    simp [run, ← this]
  | succ k ih =>
    intro s grp hf ht
    simp only [List.replicate_succ, run, List.foldl_cons, step]
    rw [open_tracking_found hf ht]
    have hg : ∃ g1 : dazukofs_group, g1 = dazukofs_group.mk grp.name grp.group_id
        grp.todo_list grp.working_list (grp.use_count + 1) grp.tracking (grp.track_count + 1)
        grp.deprecated := ⟨_, rfl⟩
    obtain ⟨g1, hg1⟩ := hg
    have hf2 := @find_group_replace gid s.group_list pre post grp g1 hf (by rw [hg1])
      (by rw [hg1])
    have := ih { s with group_list := pre ++ g1 :: post } g1 hf2 (by rw [hg1]; exact ht)
    simp only [run] at this
    rw [← hg1, this, hg1]
    simp only [Nat.cast_add, Nat.cast_one]
    congr 4 <;> ring

theorem run_releases (gid : Nat) (pre post : List dazukofs_group) (j : Nat) :
    ∀ (s : State) (grp : dazukofs_group),
      list_find (is_group gid) s.group_list = some (pre, grp, post) → grp.tracking ≠ 0 →
      (j : Int) < grp.track_count →
      run s (List.replicate j (Op.release_tracking gid))
        = { s with group_list := pre ++ { grp with use_count := grp.use_count - j,
                                                   track_count := grp.track_count - j } :: post } := by
  induction j with
  | zero =>
    intro s grp hf _ _
    have := (list_find_some hf).1
    simp [run, ← this]
  | succ j ih =>
    intro s grp hf ht hlt
    simp only [List.replicate_succ, run, List.foldl_cons, step]
    rw [release_tracking_found hf ht (by push_cast at hlt; omega)]
    have hg : ∃ g1 : dazukofs_group, g1 = dazukofs_group.mk grp.name grp.group_id
        grp.todo_list grp.working_list (grp.use_count - 1) grp.tracking (grp.track_count - 1)
        grp.deprecated := ⟨_, rfl⟩
    obtain ⟨g1, hg1⟩ := hg
    have hf2 := @find_group_replace gid s.group_list pre post grp g1 hf (by rw [hg1])
      (by rw [hg1])
    have := ih { s with group_list := pre ++ g1 :: post } g1 hf2 (by rw [hg1]; exact ht)
      (by rw [hg1]; push_cast at hlt ⊢; omega)
    simp only [run] at this
    rw [← hg1, this, hg1]
    simp only [Nat.cast_add, Nat.cast_one]
    congr 4 <;> ring

/-! ## The tracking of one group through a run -/

theorem tracked_of_keys : ∀ (a b : List dazukofs_group) (gid : Nat),
    a.map tracking_key = b.map tracking_key →
    (a.find? (is_group gid)).map tracking_row = (b.find? (is_group gid)).map tracking_row := by
  intro a
  induction a with
  | nil =>
    intro b gid h
    cases b with
    | nil => rfl
    | cons y b => simp at h
  | cons x a ih =>
    intro b gid h
    cases b with
    | nil => simp at h
    | cons y b =>
      simp only [List.map_cons, List.cons.injEq] at h
      obtain ⟨hk, ht⟩ := h
      have hk2 := hk
      simp only [tracking_key, Prod.mk.injEq] at hk2
      have hp : is_group gid x = is_group gid y := by simp [is_group, hk2.1, hk2.2.1]
      rw [List.find?_cons, List.find?_cons, hp]
      cases is_group gid y with
      | true => simp only [Option.map_some', hk2.2.2]
      | false => exact ih b gid ht

theorem tkeys_split {pre post : List dazukofs_group} {g g2 : dazukofs_group}
    (h : tracking_key g2 = tracking_key g) :
    (pre ++ g2 :: post).map tracking_key = (pre ++ g :: post).map tracking_key := by
  simp [h]

theorem tkeys_map_fan (e : Nat) (gl : List dazukofs_group) :
    (gl.map (fan e)).map tracking_key = gl.map tracking_key := by
  rw [List.map_map]
  apply List.map_congr_left
  intro g _
  simp only [Function.comp, fan, tracking_key, tracking_row]
  split_ifs <;> rfl

/-- The calls that are not about the registry or the tracking leave the
tracking data of every group as they are. -/
theorem step_tkeys (s : State) (op : Op)
    (hop : match op with
      | Op.add_group _ _ _ => False
      | Op.remove_group _ => False
      | Op.release_tracking _ => False
      | Op.open_tracking _ => False
      | _ => True) :
    (step s op).group_list.map tracking_key = s.group_list.map tracking_key := by
  cases op with
  | add_group _ _ _ => exact absurd hop id
  | remove_group _ => exact absurd hop id
  | release_tracking _ => exact absurd hop id
  | open_tracking _ => exact absurd hop id
  | check_access evt_ok ec_fail cur dentry =>
    simp only [step]
    rcases check_access_cases evt_ok ec_fail cur dentry s with
      ⟨_, _, hs⟩ | ⟨_, hs, _⟩ | ⟨hs, _⟩ | ⟨_, _, hgl, _, hgc, _⟩
    · rw [hs.1]
    · rw [show _ = s.group_list from hs.1]
    · rw [hs]
    · rw [hgl, tkeys_map_fan]
  | check_access_resume e2 =>
    simp only [step]
    by_cases hc : e2 ∈ s.waiters ∧ event_assigned s e2 = 0
    · rw [resume_some hc]; simp
    · rw [resume_none hc]
  | get_event env cur gid =>
    simp only [step]
    cases hf : list_find (is_group gid) s.group_list with
    | none => rw [get_event_not_found hf]
    | some r =>
      obtain ⟨pre, grp, post⟩ := r
      cases ht : grp.todo_list with
      | nil => rw [get_event_empty hf ht]
      | cons ec rest =>
        obtain ⟨h1, _⟩ := @get_event_claim env cur _ _ _ _ _ _ _ hf ht
        rw [h1, (list_find_some hf).1]
        apply tkeys_split
        split_ifs <;> rfl
  | return_event gid id r =>
    simp only [step]
    cases hf : list_find (is_group gid) s.group_list with
    | none => rw [return_event_no_group hf]
    | some rr =>
      obtain ⟨gpre, grp, gpost⟩ := rr
      cases hw : list_find (fun ec => decide ((evt_at s ec.event).event_id = id))
          grp.working_list with
      | none => rw [return_event_no_container hf hw]
      | some ww =>
        obtain ⟨pre, ec, post⟩ := ww
        by_cases hrep : r = dazukofs_response_t.REPOST
        · subst hrep
          rw [return_event_repost hf hw]
          simp only
          rw [(list_find_some hf).1]
          exact tkeys_split rfl
        · rw [return_event_verdict hrep hf hw]
          simp only
          rw [(list_find_some hf).1]
          exact tkeys_split rfl
  | poll gid => simp only [step, poll_state]
  | add_ign alloc_ok cur =>
    simp only [step, dazukofs_add_ign]
    split_ifs <;> rfl
  | remove_ign pid =>
    simp only [step, dazukofs_remove_ign]
    split <;> rfl

/-- The row of the group that the lookup by id finds. -/
theorem tracked_found {gid : Nat} {s : State} {pre post : List dazukofs_group}
    {grp : dazukofs_group}
    (hf : list_find (is_group gid) s.group_list = some (pre, grp, post)) :
    tracked gid s = some (tracking_row grp) := by
  unfold tracked
  rw [← list_find_find, hf]
  rfl

theorem tracked_none {gid : Nat} {s : State}
    (hf : list_find (is_group gid) s.group_list = none) : tracked gid s = none := by
  unfold tracked
  rw [← list_find_find, hf]
  rfl

/-- A tracked group is found by the lookup. -/
theorem tracked_some {gid : Nat} {s : State} {r : String × Bool × Int}
    (h : tracked gid s = some r) :
    ∃ pre grp post, list_find (is_group gid) s.group_list = some (pre, grp, post) ∧
      tracking_row grp = r := by
  cases hf : list_find (is_group gid) s.group_list with
  | none => rw [tracked_none hf] at h; exact absurd h (by simp)
  | some rr =>
    obtain ⟨pre, grp, post⟩ := rr
    rw [tracked_found hf] at h
    exact ⟨pre, grp, post, rfl, Option.some.inj h⟩

/-- The lookup by id in a list where one group was replaced. -/
theorem find_replace (gid : Nat) (pre post : List dazukofs_group) (g g2 : dazukofs_group)
    (hp : is_group gid g2 = is_group gid g)
    (ht : is_group gid g = true → tracking_row g2 = tracking_row g) :
    ((pre ++ g2 :: post).find? (is_group gid)).map tracking_row
      = ((pre ++ g :: post).find? (is_group gid)).map tracking_row := by
  rw [List.find?_append, List.find?_append, List.find?_cons, List.find?_cons, hp]
  cases pre.find? (is_group gid) with
  | some x => rfl
  | none =>
    cases hg : is_group gid g with
    | true => simp only [Option.none_or, Option.map_some', ht hg]
    | false => rfl

/-- In a state with pairwise distinct ids, the group found by the lookup is
the only non-deprecated group with the id. -/
theorem only_group {gid : Nat} {s : State} (hi : IdInv s) {pre post : List dazukofs_group}
    {g : dazukofs_group} (hsplit : s.group_list = pre ++ g :: post)
    (hg : is_group gid g = true) :
    ∀ x ∈ pre ++ post, is_group gid x = false := by
  obtain ⟨hnd, _⟩ := hi
  rw [hsplit, live_ids_split] at hnd
  have hd : g.deprecated = 0 := is_group_nondep hg
  have hid : g.group_id = gid := by
    simp only [is_group, Bool.and_eq_true, decide_eq_true_eq] at hg; exact hg.2
  simp only [hd, if_true] at hnd
  intro x hx
  by_contra hc
  have hxg : is_group gid x = true := by simpa using hc
  have hxd : x.deprecated = 0 := is_group_nondep hxg
  have hxid : x.group_id = gid := by
    simp only [is_group, Bool.and_eq_true, decide_eq_true_eq] at hxg; exact hxg.2
  have hmem : ∀ l : List dazukofs_group, x ∈ l → gid ∈ live_ids l := by
    intro l hl
    unfold live_ids
    exact List.mem_map.mpr ⟨x, List.mem_filter.mpr ⟨hl, by simpa using hxd⟩, hxid⟩
  rw [hid] at hnd
  rcases List.mem_append.mp hx with h | h
  · have h1 := hmem pre h
    have := (List.nodup_append.mp (List.nodup_append.mp hnd).1).2.2
    exact this h1 (List.mem_singleton_self gid)
  · have h1 := hmem post h
    have := (List.nodup_append.mp hnd).2.2
    exact this (List.mem_append_right _ (List.mem_singleton_self gid)) h1

/-- After the only group with the id was deprecated, the lookup finds none. -/
theorem find_removed {gid : Nat} {pre post : List dazukofs_group} {g2 : dazukofs_group}
    (hno : ∀ x ∈ pre ++ post, is_group gid x = false) (hdep : g2.deprecated ≠ 0) :
    (pre ++ g2 :: post).find? (is_group gid) = none := by
  rw [List.find?_eq_none]
  intro x hx
  simp only [List.mem_append, List.mem_cons] at hx
  rcases hx with h | h | h
  · simp [hno x (List.mem_append_left _ h)]
  · rw [h]; simp [is_group, hdep]
  · simp [hno x (List.mem_append_right _ h)]

/-- The lookup by id sees the non-deprecated groups only. -/
theorem find_nondep (gid : Nat) (gl : List dazukofs_group) :
    gl.find? (is_group gid) = (nondep gl).find? (is_group gid) := by
  induction gl with
  | nil => rfl
  | cons g gl ih =>
    rw [nondep_cons]
    by_cases hd : g.deprecated = 0
    · rw [if_pos hd, List.find?_cons, List.find?_cons, ih]
    · rw [if_neg hd, List.find?_cons, ← ih]
      simp [is_group, hd]

/-- The upgrade of a group to tracking by an `add` leaves the row of a
tracking group as it is. -/
theorem find_mark_tracking (gid : Nat) (n : String) (track : Int) (r : String × Int) :
    ∀ l : List dazukofs_group,
      (l.find? (is_group gid)).map tracking_row = some (r.1, true, r.2) →
      ((mark_tracking n track l).find? (is_group gid)).map tracking_row
        = some (r.1, true, r.2) := by
  intro l
  induction l with
  | nil => intro h; exact h
  | cons g l ih =>
    intro h
    unfold mark_tracking
    by_cases hn : n = g.name
    · rw [if_pos hn]
      by_cases ht : track ≠ 0
      · rw [if_pos ht]
        rw [List.find?_cons] at h ⊢
        have hp : is_group gid { g with tracking := 1 } = is_group gid g := rfl
        rw [hp]
        cases hg : is_group gid g with
        | true =>
          rw [hg] at h
          simp only [Option.map_some', Option.some.injEq, tracking_row, Prod.mk.injEq] at h ⊢
          exact ⟨h.1, by simp, h.2.2⟩
        | false => rw [hg] at h; exact h
      · rw [if_neg ht]; exact h
    · rw [if_neg hn]
      rw [List.find?_cons] at h ⊢
      cases hg : is_group gid g with
      | true => rw [hg] at h; exact h
      | false => rw [hg] at h; exact ih h

/-- What one call does to the tracking of a tracking group: the law of
`track_step`. -/
theorem step_tracked {s : State} (hr : Reachable s) (gid : Nat) (name : String) (t : Int)
    (h : tracked gid s = some (name, true, t)) (op : Op) :
    tracked gid (step s op) = (track_step gid name t op).map (fun t2 => (name, true, t2)) := by
  obtain ⟨pre, grp, post, hf, hrow⟩ := tracked_some h
  have hsplit := (list_find_some hf).1
  have hgrp : is_group gid grp = true := (list_find_some hf).2.1
  have hi := reachable_idinv hr
  have hri := reachable_rinv hr
  simp only [tracking_row, Prod.mk.injEq, decide_eq_true_eq] at hrow
  obtain ⟨hname, htrk, hcnt⟩ := hrow
  have hneutral : ∀ op2 : Op,
      (match op2 with
        | Op.add_group _ _ _ => False
        | Op.remove_group _ => False
        | Op.release_tracking _ => False
        | Op.open_tracking _ => False
        | _ => True) → tracked gid (step s op2) = some (name, true, t) := by
    intro op2 hop
    unfold tracked
    rw [tracked_of_keys _ _ gid (step_tkeys s op2 hop)]
    exact h
  have hother : ∀ (g : Nat) (g2 : dazukofs_group), g ≠ gid → g2.group_id = g →
      is_group gid g2 = false := by
    intro g g2 hg hid
    simp only [is_group, hid, Bool.and_eq_false_iff, decide_eq_false_iff_not]
    exact Or.inr hg
  cases op with
  | check_access evt_ok ec_fail cur dentry => exact hneutral _ trivial
  | check_access_resume e2 => exact hneutral _ trivial
  | get_event env cur g => exact hneutral _ trivial
  | return_event g id r => exact hneutral _ trivial
  | poll g => exact hneutral _ trivial
  | add_ign alloc_ok cur => exact hneutral _ trivial
  | remove_ign pid => exact hneutral _ trivial
  | open_tracking g =>
    by_cases hg : g = gid
    · subst hg
      simp only [track_step, if_true, Option.map_some', step]
      rw [open_tracking_found hf htrk]
      have hf2 := @find_group_replace g s.group_list pre post grp
        (dazukofs_group.mk grp.name grp.group_id grp.todo_list grp.working_list
          (grp.use_count + 1) grp.tracking (grp.track_count + 1) grp.deprecated) hf rfl rfl
      rw [@tracked_found g _ pre post _ (by exact hf2)]
      simp [tracking_row, hname, htrk, hcnt]
    · simp only [track_step, if_neg hg, Option.map_some', step]
      unfold dazukofs_group_open_tracking
      cases hf2 : list_find (is_group g) s.group_list with
      | none => exact h
      | some rr =>
        obtain ⟨pre2, grp2, post2⟩ := rr
        have hid2 : grp2.group_id = g := by
          have := (list_find_some hf2).2.1
          simp only [is_group, Bool.and_eq_true, decide_eq_true_eq] at this
          exact this.2
        by_cases ht2 : grp2.tracking = 0
        · simp only [ht2, ne_eq, not_true_eq_false, if_false]; exact h
        · simp only [ht2, ne_eq, not_false_eq_true, if_true]
          unfold tracked
          simp only
          rw [find_replace gid pre2 post2 grp2 _
            (by rw [hother g grp2 hg hid2]; exact hother g _ hg hid2)
            (by intro hh; rw [hother g grp2 hg hid2] at hh; exact absurd hh (by decide)),
            ← (list_find_some hf2).1]
          exact h
  | release_tracking g =>
    by_cases hg : g = gid
    · subst hg
      simp only [track_step, if_true, step]
      by_cases hz : grp.track_count - 1 = 0
      · rw [release_tracking_last hf htrk hz, if_pos (by rw [← hcnt]; exact hz)]
        unfold tracked
        simp only
        rw [find_removed (only_group hi hsplit hgrp) (by simp)]
        rfl
      · rw [release_tracking_found hf htrk hz, if_neg (by rw [← hcnt]; exact hz)]
        have hf2 := @find_group_replace g s.group_list pre post grp
          (dazukofs_group.mk grp.name grp.group_id grp.todo_list grp.working_list
            (grp.use_count - 1) grp.tracking (grp.track_count - 1) grp.deprecated) hf rfl rfl
        rw [@tracked_found g _ pre post _ (by exact hf2)]
        simp [tracking_row, hname, htrk, hcnt]
    · simp only [track_step, if_neg hg, Option.map_some', step]
      cases hf2 : list_find (is_group g) s.group_list with
      | none =>
        unfold dazukofs_group_release_tracking
        rw [hf2]
        exact h
      | some rr =>
        obtain ⟨pre2, grp2, post2⟩ := rr
        have hid2 : grp2.group_id = g := by
          have := (list_find_some hf2).2.1
          simp only [is_group, Bool.and_eq_true, decide_eq_true_eq] at this
          exact this.2
        by_cases ht2 : grp2.tracking = 0
        · unfold dazukofs_group_release_tracking
          rw [hf2]
          simp only [ht2, ne_eq, not_true_eq_false, if_false]
          exact h
        · by_cases hz : grp2.track_count - 1 = 0
          · rw [release_tracking_last hf2 ht2 hz]
            unfold tracked
            simp only
            rw [find_replace gid pre2 post2 grp2 _
              (by rw [hother g grp2 hg hid2]; exact hother g _ hg hid2)
              (by intro hh; rw [hother g grp2 hg hid2] at hh; exact absurd hh (by decide)),
              ← (list_find_some hf2).1]
            exact h
          · rw [release_tracking_found hf2 ht2 hz]
            unfold tracked
            simp only
            rw [find_replace gid pre2 post2 grp2 _
              (by rw [hother g grp2 hg hid2]; exact hother g _ hg hid2)
              (by intro hh; rw [hother g grp2 hg hid2] at hh; exact absurd hh (by decide)),
              ← (list_find_some hf2).1]
            exact h
  | remove_group n =>
    have hmem : grp ∈ nondep s.group_list := by
      rw [hsplit]
      exact List.mem_filter.mpr ⟨by simp, by simpa using is_group_nondep hgrp⟩
    by_cases hn : n = name
    · subst hn
      simp only [track_step, if_true, Option.map_none', step]
      obtain ⟨pre2, post2, hsplit2, _, hrem⟩ := @remove_group_found s hri grp n hmem hname
      rw [hrem]
      unfold tracked
      simp only
      rw [find_removed (only_group hi hsplit2 hgrp) (by simp)]
      rfl
    · simp only [track_step, if_neg hn, Option.map_some', step]
      by_cases hex : ∃ g2 ∈ nondep s.group_list, g2.name = n
      · obtain ⟨g2, hg2, hg2n⟩ := hex
        obtain ⟨pre2, post2, hsplit2, _, hrem⟩ := @remove_group_found s hri g2 n hg2 hg2n
        have hno : is_group gid g2 = false := by
          by_contra hc
          have hg2t : is_group gid g2 = true := by simpa using hc
          have hnone := only_group hi hsplit2 hg2t
          have hfind : s.group_list.find? (is_group gid) = some g2 := by
            rw [hsplit2, List.find?_append]
            have hp : pre2.find? (is_group gid) = none := by
              rw [List.find?_eq_none]
              intro x hx
              simp [hnone x (List.mem_append_left _ hx)]
            rw [hp, List.find?_cons, hg2t]
            rfl
          have h2 := h
          unfold tracked at h2
          rw [hfind] at h2
          simp only [Option.map_some', Option.some.injEq, tracking_row, Prod.mk.injEq] at h2
          exact hn (hg2n.symm.trans h2.1)
        rw [hrem]
        unfold tracked
        simp only
        rw [find_replace gid pre2 post2 g2 _
          (by rw [hno]; simp [is_group])
          (by intro hh; rw [hno] at hh; exact absurd hh (by decide)),
          ← hsplit2]
        exact h
      · rw [remove_group_absent (by
          intro g2 hg2 hg2n
          exact hex ⟨g2, hg2, hg2n⟩)]
        exact h
  | add_group alloc_ok name2 track =>
    have hN : ((nondep s.group_list).find? (is_group gid)).map tracking_row
        = some (name, true, t) := by
      rw [← find_nondep]; exact h
    obtain ⟨gl2, ae, id2, _, hcase, hres, _⟩ := add_group_spec alloc_ok name2 track s
    simp only [step, hres, track_step, Option.map_some']
    have hgl2 : ((nondep gl2).find? (is_group gid)).map tracking_row
        = some (name, true, t) := by
      rcases hcase with ⟨_, hnd, _⟩ | ⟨_, hnd, _⟩
      · rw [hnd]
        exact find_mark_tracking gid name2 track (name, t) _ hN
      · rw [hnd]; exact hN
    have hsame : ∀ s2 : State, s2.group_list = gl2 → tracked gid s2 = some (name, true, t) := by
      intro s2 hs2
      unfold tracked
      rw [hs2, find_nondep]; exact hgl2
    have hnew : ∀ s2 : State, s2.group_list = gl2 ++ [new_group name2 id2 track] →
        tracked gid s2 = some (name, true, t) := by
      intro s2 hs2
      unfold tracked
      rw [hs2, find_nondep, nondep_append, List.find?_append]
      cases hx : (nondep gl2).find? (is_group gid) with
      | none => rw [hx] at hgl2; exact absurd hgl2 (by simp)
      | some x => rw [hx] at hgl2; exact hgl2
    split_ifs
    · exact hsame _ rfl
    · exact hsame _ rfl
    · exact hnew _ rfl
    · exact hsame _ rfl

/-- The law of `track_run`: while no call removes the group, it stays the
non-deprecated tracking group of its id, with the count that the opens and
releases on the id give. -/
theorem run_tracked (gid : Nat) (name : String) (ops : List Op) :
    ∀ (s : State) (t t2 : Int), Reachable s → tracked gid s = some (name, true, t) →
      track_run gid name t ops = some t2 →
      tracked gid (run s ops) = some (name, true, t2) := by
  induction ops with
  | nil =>
    intro s t t2 _ h hrun
    simp only [track_run, Option.some.injEq] at hrun
    rw [← hrun]; exact h
  | cons op ops ih =>
    intro s t t2 hr h hrun
    have hs := step_tracked hr gid name t h op
    unfold track_run at hrun
    cases hstep : track_step gid name t op with
    | none => rw [hstep] at hrun; exact absurd hrun (by simp)
    | some t1 =>
      rw [hstep] at hrun hs
      exact ih (step s op) t1 t2 (reachable_step hr op) hs hrun

/-- Every open on the id of a tracking group returns 1. -/
theorem opens_return_one {gid : Nat} {s : State} {pre post : List dazukofs_group}
    {grp : dazukofs_group}
    (hf : list_find (is_group gid) s.group_list = some (pre, grp, post))
    (ht : grp.tracking ≠ 0) (i : Nat) :
    (dazukofs_group_open_tracking gid (run s (List.replicate i (Op.open_tracking gid)))).2
      = 1 := by
  rw [run_opens gid pre post i s grp hf ht]
  have hfi := @find_group_replace gid s.group_list pre post grp
    (dazukofs_group.mk grp.name grp.group_id grp.todo_list grp.working_list
      (grp.use_count + i) grp.tracking (grp.track_count + i) grp.deprecated) hf rfl rfl
  rw [open_tracking_found hfi (by exact ht)]

/-- After `k` opens and `j` releases that leave a count above 0, the group is
in place with its queues and the counts say so. -/
theorem opens_then_releases_live {gid : Nat} {s : State} {pre post : List dazukofs_group}
    {grp : dazukofs_group}
    (hf : list_find (is_group gid) s.group_list = some (pre, grp, post))
    (ht : grp.tracking ≠ 0) (k j : Nat) (hlt : (j : Int) < grp.track_count + k) :
    run s (List.replicate k (Op.open_tracking gid)
        ++ List.replicate j (Op.release_tracking gid))
      = { s with group_list := (pre ++ dazukofs_group.mk grp.name grp.group_id
            grp.todo_list grp.working_list (grp.use_count + k - j) grp.tracking
            (grp.track_count + k - j) grp.deprecated :: post) } := by
  have hg : ∃ gk : dazukofs_group, gk = dazukofs_group.mk grp.name grp.group_id
      grp.todo_list grp.working_list (grp.use_count + k) grp.tracking (grp.track_count + k)
      grp.deprecated := ⟨_, rfl⟩
  obtain ⟨gk, hgk⟩ := hg
  have hopen := run_opens gid pre post k s grp hf ht
  have hfk : list_find (is_group gid) (run s (List.replicate k (Op.open_tracking gid))).group_list
      = some (pre, gk, post) := by
    rw [hopen, ← hgk]
    exact @find_group_replace gid s.group_list pre post grp gk hf (by rw [hgk]) (by rw [hgk])
  rw [run_append, run_releases gid pre post j _ gk hfk (by rw [hgk]; exact ht)
    (by rw [hgk]; exact hlt), hopen, hgk]

/-- The release that brings the count of a tracking group to 0. -/
theorem release_at_zero {gid : Nat} {s : State} {pre post : List dazukofs_group}
    {grp : dazukofs_group}
    (hf : list_find (is_group gid) s.group_list = some (pre, grp, post))
    (ht : grp.tracking ≠ 0) (hz : grp.track_count - 1 = 0) :
    (dazukofs_group_release_tracking gid s).group_list
      = pre ++ { grp with use_count := grp.use_count - 1, track_count := 0, deprecated := 1,
                          working_list := [], todo_list := [] } :: post ∧
    (dazukofs_group_release_tracking gid s).group_count = s.group_count - 1 := by
  rw [release_tracking_last hf ht hz]
  refine ⟨rfl, ?_⟩
  simp only
  rw [(remove_group_frame _ _).2.2.1]

/-! ## A run in which every access is resolved -/

theorem check_recursion_single (cur : Nat) (s : State) (hp : s.proc_list = []) :
    (check_recursion cur (mask_proc cur s).1).1.proc_list = [] ∧
    (proc_at (check_recursion cur (mask_proc cur s).1).1 (mask_proc cur s).2).within_list = 0 := by
  have hfind : list_find (fun a => decide ((proc_at (mask_proc cur s).1 a).proc_id = cur))
      (mask_proc cur s).1.proc_list = some ([], s.procs.length, []) := by
    have h1 : (mask_proc cur s).1.proc_list = [s.procs.length] := by simp [mask_proc, hp]
    have h2 := proc_at_mask_proc cur s
    have h3 : (mask_proc cur s).2 = s.procs.length := rfl
    rw [h3] at h2
    rw [h1]
    simp [list_find, h2]
  unfold check_recursion
  rw [hfind]
  constructor
  · rfl
  · simp [proc_at, mask_proc]

theorem open_file_proc_list_nil (env : OpenEnv) (cur i : Nat) (ec : dazukofs_event_container)
    (s : State) (hp : s.proc_list = []) : (open_file env cur i ec s).1.proc_list = [] := by
  have hp0 : (with_group i (set_claimed_fd env.fd) s).proc_list = [] := hp
  obtain ⟨c1, c2⟩ := check_recursion_single cur _ hp0
  unfold open_file
  by_cases hfd : env.fd < 0
  · simp only [hfd, if_true]; exact hp
  · simp only [hfd, if_false]
    have hfin : ∀ (t : State) (r1 r2 : Int), (if env.open_err ≠ 0 then (t, r1) else (t, r2)).1 = t := by
      intro t r1 r2; split_ifs <;> rfl
    rw [hfin]
    by_cases hn : env.nested = true
    · simp only [hn, if_true, nested_check_access]
      unfold check_access_precheck
      by_cases h0 : (mask_proc cur (with_group i (set_claimed_fd env.fd) s)).1.group_count = 0
      · simp only [h0, if_true]
        rw [proc_at_mask_proc]
        simp only [ne_eq, one_ne_zero, not_false_eq_true, if_true]
        exact c1
      · simp only [h0, if_false]
        obtain ⟨pre, a, post, _, _, _, hc⟩ := check_recursion_masked
          (masked_mask_proc cur (with_group i (set_claimed_fd env.fd) s))
        have hr : (check_recursion cur
            (mask_proc cur (with_group i (set_claimed_fd env.fd) s)).1).2 = 0 := by rw [hc]
        simp only [hr, if_true]
        rw [c2]
        simp only [ne_eq, not_true_eq_false, if_false]
        exact c1
    · simp only [hn, Bool.false_eq_true, if_false]
      rw [proc_at_mask_proc]
      simp only [ne_eq, one_ne_zero, not_false_eq_true, if_true]
      exact c1

theorem get_event_proc_list_nil (env : OpenEnv) (cur gid : Nat) (s : State)
    (hp : s.proc_list = []) : (dazukofs_get_event env cur gid s).1.proc_list = [] := by
  cases hf : list_find (is_group gid) s.group_list with
  | none => rw [get_event_not_found hf]; exact hp
  | some r =>
    obtain ⟨pre, grp, post⟩ := r
    cases ht : grp.todo_list with
    | nil => rw [get_event_empty hf ht]; exact hp
    | cons ec rest =>
      unfold dazukofs_get_event; rw [hf]
      simp only [is_event_available, ht, ne_eq, reduceCtorEq, not_false_eq_true, if_true,
        one_ne_zero, if_false, claim_event]
      split_ifs <;> (simp only [with_group]; exact open_file_proc_list_nil _ _ _ _ _ hp)
/-- The state after a fan-out. -/
theorem fan_out_state {ec_fail : Option Nat} {cur dentry : Nat} {s : State}
    (hr : RInv s) (hok : fan_out_ok ec_fail cur s) :
    (dazukofs_check_access true ec_fail cur dentry s).2 = Outcome.waiting s.events.length ∧
    (dazukofs_check_access true ec_fail cur dentry s).1.group_list
      = s.group_list.map (fan s.events.length) ∧
    (dazukofs_check_access true ec_fail cur dentry s).1.events
      = s.events ++ [fanned_event s cur dentry (nondep s.group_list).length] ∧
    (dazukofs_check_access true ec_fail cur dentry s).1.group_count = s.group_count ∧
    (dazukofs_check_access true ec_fail cur dentry s).1.last_event_id
      = int_wrap (s.last_event_id + 1) ∧
    (dazukofs_check_access true ec_fail cur dentry s).1.ign_list = s.ign_list ∧
    (dazukofs_check_access true ec_fail cur dentry s).1.waiters
      = s.events.length :: s.waiters ∧
    (dazukofs_check_access true ec_fail cur dentry s).1.proc_list = s.proc_list := by
  obtain ⟨ho, _, _⟩ := @fan_out_of_rinv ec_fail cur dentry s hr hok
  rcases check_access_cases true ec_fail cur dentry s with
    ⟨ho2, _, _⟩ | ⟨ho2, _, _⟩ | ⟨hs, _⟩ | ⟨_, _, h3, h4, h5, h6, h7, _, h9⟩
  · rw [ho] at ho2; simp at ho2
  · rw [ho] at ho2; simp at ho2
  · rw [hs] at ho; simp at ho
  · exact ⟨ho, h3, h4, h5, h6, h7, h9, fan_out_proc_list hok⟩

theorem idle_rinv {i : Nat} {s : State} (h : idle_after i s) : RInv s := by
  obtain ⟨h1, h2, _⟩ := h
  unfold RInv
  rw [h1, h2]
  simp [nondep, idle_group, GROUP_COUNT]

/-- One resolved access: its fan-out hands out the next id, and the engine is
idle again afterwards. -/
theorem resolved_access_step {i : Nat} {s : State} (h : idle_after i s) :
    ids_of s (resolved_access i) = [ulong_of_int (int_wrap ((i : Int) + 1))] ∧
    idle_after (i + 1) (run s (resolved_access i)) := by
  have hr := idle_rinv h
  obtain ⟨hgl, hgc, hlast, hpl, hil, hlen, hw⟩ := h
  have hok : fan_out_ok none 100 s :=
    ⟨by rw [hgc]; decide, by rintro ⟨a, ha, _⟩; rw [hpl] at ha; simp at ha,
     by rw [hil]; simp, by intro j hj; simp at hj⟩
  obtain ⟨a1, a2, a3, a4, a5, a6, a7, a8⟩ := @fan_out_state none 100 7 s hr hok
  have hid : ulong_of_int (int_wrap (s.last_event_id + 1))
      = ulong_of_int (int_wrap ((i : Int) + 1)) := by
    rw [hlast, int_wrap_succ]
  -- the state after the fan-out
  generalize hs1 : (dazukofs_check_access true none 100 7 s).1 = s1 at a1 a2 a3 a4 a5 a6 a7 a8
  have hnd : (nondep s.group_list).length = 1 := by rw [hgl]; simp [nondep, idle_group]
  rw [hnd] at a3
  rw [hgl] at a2
  rw [hlen] at a1 a2 a7
  have he1 : evt_at s1 i = fanned_event s 100 7 1 := by
    have := evt_at_append_new s s1 _ a3
    rwa [hlen] at this
  have hfind1 : list_find (is_group 0) s1.group_list
      = some ([], fan i idle_group, []) := by
    rw [a2]; simp [list_find, is_group, fan, idle_group]
  -- the claim
  obtain ⟨b1, b2, b3, b4, b5, _, b7, _⟩ := @get_event_claim env_ok 300 0 s1 [] []
    (fan i idle_group) { event := i, fd := 0 } [] hfind1 (by simp [fan, idle_group])
  have b8 := get_event_proc_list_nil env_ok 300 0 s1 (by rw [a8, hpl])
  generalize hs2 : (dazukofs_get_event env_ok 300 0 s1).1 = s2 at b1 b2 b3 b4 b5 b7 b8
  have hb1 : s2.group_list = [group_claimed 3 (fan i idle_group) { event := i, fd := 0 } []] := by
    rw [b1]; simp [env_ok]
  have he2 : evt_at s2 i = fanned_event s 100 7 1 := by
    rw [evt_at_of_events_eq b5]; exact he1
  have hfind2 : list_find (is_group 0) s2.group_list
      = some ([], group_claimed 3 (fan i idle_group) { event := i, fd := 0 } [], []) := by
    rw [hb1]; simp [list_find, is_group, fan, idle_group, group_claimed]
  have hw2 : list_find (fun ec => decide ((evt_at s2 ec.event).event_id
        = ulong_of_int (int_wrap ((i : Int) + 1))))
      (group_claimed 3 (fan i idle_group) { event := i, fd := 0 } []).working_list
      = some ([], { event := i, fd := 3 }, []) := by
    simp [group_claimed, fan, idle_group, list_find, he2, fanned_event, hid]
  -- the verdict
  have hret := @return_event_verdict 0 (ulong_of_int (int_wrap ((i : Int) + 1)))
    dazukofs_response_t.ALLOW s2 [] [] _ [] [] _ (by decide) hfind2 hw2
  have hgrp : { group_claimed 3 (fan i idle_group) { event := i, fd := 0 } [] with
      working_list := [] ++ [] } = idle_group := by
    simp [group_claimed, fan, idle_group]
  rw [hgrp] at hret
  simp only [reduceCtorEq, if_false, List.nil_append] at hret
  have hlen2 : s2.events.length = i + 1 := by rw [b5, a3]; simp [hlen]
  have he3 : evt_at (release_event_at i 1 0 s2) i
      = (release_event (fanned_event s 100 7 1) 1 0).1 := by
    rw [evt_at_release_event_at, if_pos ⟨rfl, by omega⟩, he2]
  have hz : event_assigned { release_event_at i 1 0 s2 with group_list := [idle_group] } i
      = 0 := by
    show (evt_at (release_event_at i 1 0 s2) i).assigned = 0
    rw [he3, release_event_assigned]
    simp [fanned_event]
  have hwait : i ∈ ({ release_event_at i 1 0 s2 with group_list := [idle_group] } : State).waiters := by
    show i ∈ (release_event_at i 1 0 s2).waiters
    rw [release_event_at_waiters, b7, a7, hw]; simp
  have hres := resume_some ⟨hwait, hz⟩
  constructor
  · simp only [resolved_access, ids_of, handed_id, a1, hs1, List.append_nil]
    rw [he1]
    simp only [fanned_event, hid]
  · simp only [resolved_access, run, List.foldl_cons, List.foldl_nil, step, hs1, hs2, hret,
      hres]
    unfold idle_after
    simp only [release_event_at_group_list, release_event_at_group_count,
      release_event_at_last_event_id, release_event_at_proc_list, release_event_at_ign_list,
      release_event_at_length, release_event_at_waiters]
    refine ⟨trivial, ?_, ?_, b8, ?_, hlen2, ?_⟩
    · rw [b2, a4, hgc]
    · rw [b3, a5, hlast, int_wrap_succ]
      push_cast; rfl
    · rw [b4, a6, hil]
    · rw [b7, a7, hw]; simp
theorem ids_of_append (a : List Op) : ∀ (s : State) (b : List Op),
    ids_of s (a ++ b) = ids_of s a ++ ids_of (run s a) b := by
  induction a with
  | nil => intro s b; rfl
  | cons op a ih =>
    intro s b
    have h := ih (step s op) b
    show handed_id s op ++ ids_of (step s op) (a ++ b)
      = (handed_id s op ++ ids_of (step s op) a) ++ ids_of (run (step s op) a) b
    rw [h, List.append_assoc]

theorem resolved_run_ids (n : Nat) : ∀ (i : Nat) (s : State), idle_after i s →
    (ids_of s (resolved_run i n)).length = n ∧
    idle_after (i + n) (run s (resolved_run i n)) := by
  induction n with
  | zero => intro i s h; exact ⟨rfl, h⟩
  | succ n ih =>
    intro i s h
    obtain ⟨h1, h2⟩ := resolved_access_step h
    obtain ⟨h3, h4⟩ := ih (i + 1) _ h2
    simp only [resolved_run, ids_of_append, run_append, List.length_append, h1, h3,
      List.length_singleton]
    refine ⟨by omega, ?_⟩
    have : i + (n + 1) = i + 1 + n := by omega
    rw [this]
    exact h4

/-- The ids handed out by the run `resolved_accesses n`, and the state it ends
in. -/
theorem resolved_accesses_ids (n : Nat) :
    ids_of init (resolved_accesses n)
      = (List.range n).map (fun i : Nat => ulong_of_int (int_wrap (1 + (i : Int)))) ∧
    idle_after n (run init (resolved_accesses n)) := by
  have h0 : idle_after 0 (step init (Op.add_group true "av" 0)) := by
    refine ⟨by decide, by decide, by decide, by decide, by decide, by decide, by decide⟩
  obtain ⟨hlen, hidle⟩ := resolved_run_ids n 0 _ h0
  have hs : (step init (Op.add_group true "av" 0)).last_event_id = 0 :=
    (add_group_step_frame true "av" 0 init).2.1
  have h := (run_ids (resolved_run 0 n) (step init (Op.add_group true "av" 0))
    (by rw [hs]; unfold int_range; omega)).1
  rw [hlen, hs] at h
  constructor
  · simp only [resolved_accesses, ids_of, handed_id, List.nil_append]
    rw [h]
    simp
  · simp only [resolved_accesses, run, List.foldl_cons]
    simpa [run] using hidle

/-! ## The control device -/

theorem process_command_no_key {buf key : List Char}
    {func : String → State → Option (State × Int)} {rc : Int} {s : State}
    (h : strstr buf key = none) :
    process_command buf key func rc s = some (-1, buf, rc, s) := by
  unfold process_command; rw [h]

theorem takeWhile_drop_nil {buf : List Char} {p : Nat}
    (h : is_valid_char (buf.getD p NUL) = 0) :
    (buf.drop p).takeWhile (fun c => decide (is_valid_char c ≠ 0)) = [] := by
  cases hd : buf.drop p with
  | nil => rfl
  | cons c rest =>
    have hc : buf[p]? = some c := by
      have := List.head?_drop buf p
      rw [hd] at this
      simpa using this.symm
    have : buf.getD p NUL = c := by simp [List.getD, hc]
    rw [this] at h
    simp [List.takeWhile, h]

theorem process_command_empty {buf key : List Char}
    {func : String → State → Option (State × Int)} {rc : Int} {s : State} {i : Nat}
    (hk : strstr buf key = some i)
    (h : is_valid_char (buf.getD (i + key.length) NUL) = 0) :
    process_command buf key func rc s = some (0, buf, -EINVAL, s) := by
  unfold process_command; rw [hk]
  simp only
  rw [takeWhile_drop_nil h]
  simp

theorem block_no_key {tmp key : List Char} {func : String → State → Option (State × Int)}
    {rc : Int} {s : State} (h : strstr tmp key = none) :
    ctrl_write_block key func (tmp, 0, rc, s) = some (tmp, 0, rc, s) := by
  unfold ctrl_write_block
  simp only [true_or, if_true, process_command_no_key h]
  simp

theorem block_empty {tmp key : List Char} {func : String → State → Option (State × Int)}
    {rc : Int} {s : State} {i : Nat} (hk : strstr tmp key = some i)
    (h : is_valid_char (tmp.getD (i + key.length) NUL) = 0) :
    ctrl_write_block key func (tmp, 0, rc, s) = some (tmp, 1, -EINVAL, s) := by
  unfold ctrl_write_block
  simp only [true_or, if_true, process_command_empty hk h]

theorem block_skip (tmp key : List Char) (func : String → State → Option (State × Int))
    (rc : Int) (s : State) (h : rc < 0) :
    ctrl_write_block key func (tmp, 1, rc, s) = some (tmp, 1, rc, s) := by
  unfold ctrl_write_block
  have : ¬ ((1 : Int) = 0 ∨ ((1 : Int) ≠ 0 ∧ 0 ≤ rc)) := by omega
  simp only [this, if_false]

/-- A control write without a command, or whose first command has a
character that is no name character (and not the terminator) right behind its
key, is refused and changes nothing. -/
theorem ctrl_write_rejects (alloc_add alloc_track : Bool) (beyond buffer : List Char)
    (s : State)
    (h : no_name (ctrl_tmp beyond buffer) = true) :
    dazukofs_ctrl_write true alloc_add alloc_track beyond buffer s = some (s, -EINVAL) := by
  have hneg : -EINVAL < 0 := by decide
  unfold dazukofs_ctrl_write
  simp only [Bool.not_eq_true, Bool.true_eq_false, if_false, not_true_eq_false]
  change (match ctrl_write_block "del=".toList _ (ctrl_tmp beyond buffer, 0, -EINVAL, s) with
    | none => none
    | some st1 => _) = _
  generalize ctrl_tmp beyond buffer = tmp at h ⊢
  unfold no_name first_command at h
  cases h1 : strstr tmp "del=".toList with
  | some i =>
    simp only [h1] at h
    rw [block_empty h1 (of_decide_eq_true h)]
    simp only
    rw [block_skip _ _ _ _ _ hneg]
    simp only
    rw [block_skip _ _ _ _ _ hneg]
    simp [EINVAL]
  | none =>
    simp only [h1] at h
    rw [block_no_key h1]
    simp only
    cases h2 : strstr tmp "add=".toList with
    | some i =>
      simp only [h2] at h
      rw [block_empty h2 (of_decide_eq_true h)]
      simp only
      rw [block_skip _ _ _ _ _ hneg]
      simp [EINVAL]
    | none =>
      simp only [h2] at h
      rw [block_no_key h2]
      simp only
      cases h3 : strstr tmp "addtrack=".toList with
      | some i =>
        simp only [h3] at h
        rw [block_empty h3 (of_decide_eq_true h)]
        simp [EINVAL]
      | none =>
        rw [block_no_key h3]
        simp [EINVAL]
theorem allowed_ne_nul {c : Char} (h : c ∈ DAZUKOFS_ALLOWED_GROUPCHARS) : c ≠ NUL := by
  intro hc
  rw [hc] at h
  revert h
  decide

theorem is_valid_char_ne_zero (c : Char) :
    is_valid_char c ≠ 0 ↔ c ∈ DAZUKOFS_ALLOWED_GROUPCHARS ∨ c = NUL := by
  unfold is_valid_char strchr
  by_cases h : c ∈ DAZUKOFS_ALLOWED_GROUPCHARS ++ [NUL]
  · simp only [h, if_true, Option.isSome_some, ne_eq, one_ne_zero, not_false_eq_true, true_iff]
    simpa using h
  · simp only [h, if_false, Option.isSome_none, Bool.false_eq_true, ne_eq, not_true_eq_false,
      false_iff]
    simpa using h

theorem takeWhile_takeWhile {α : Type} (p q : α → Bool) (l : List α) :
    (l.takeWhile q).takeWhile p = l.takeWhile (fun a => p a && q a) := by
  induction l with
  | nil => rfl
  | cons a l ih =>
    by_cases hq : q a = true
    · by_cases hp : p a = true
      · simp [List.takeWhile, hq, hp, ih]
      · simp [List.takeWhile, hq, hp]
    · simp [List.takeWhile, hq]

theorem takeWhile_append_stop {α : Type} (p : α → Bool) (x : α) (hx : p x = false) :
    ∀ (v t : List α), (v ++ x :: t).takeWhile p = v.takeWhile p := by
  intro v
  induction v with
  | nil => intro t; simp [List.takeWhile, hx]
  | cons a v ih =>
    intro t
    by_cases ha : p a = true
    · simp [List.takeWhile, ha, ih]
    · simp [List.takeWhile, ha]

/-- The C string left at `p` after the store of a NUL at `p2`, where `p2` is
the end of the run of characters that `is_valid_char` accepts: the run of
allowed characters at `p`. -/
theorem name_of_scan (l : List Char) :
    cstr (l.set (l.takeWhile (fun c => decide (is_valid_char c ≠ 0))).length NUL)
      = l.takeWhile (fun c => decide (c ∈ DAZUKOFS_ALLOWED_GROUPCHARS)) := by
  have hsplit := List.takeWhile_append_dropWhile (fun c => decide (is_valid_char c ≠ 0)) l
  generalize hv : l.takeWhile (fun c => decide (is_valid_char c ≠ 0)) = v at hsplit
  generalize hd : l.dropWhile (fun c => decide (is_valid_char c ≠ 0)) = d at hsplit
  have hall : l.takeWhile (fun c => decide (c ∈ DAZUKOFS_ALLOWED_GROUPCHARS))
      = v.takeWhile (fun c => decide (c ≠ NUL)) := by
    rw [← hv, takeWhile_takeWhile]
    congr 1
    funext c
    have h1 := is_valid_char_ne_zero c
    by_cases ha : c ∈ DAZUKOFS_ALLOWED_GROUPCHARS
    · have := allowed_ne_nul ha
      simp [ha, this, h1]
    · by_cases hn : c = NUL
      · subst hn; simp [ha]
      · simp [ha, hn, h1]
  rw [hall]
  conv_lhs => rw [← hsplit]
  rw [List.set_append]
  simp only [lt_self_iff_false, if_false, Nat.sub_self]
  unfold cstr
  cases d with
  | nil => simp
  | cons x d =>
    simp only [List.set_cons_zero]
    exact takeWhile_append_stop _ NUL (by simp) v d

theorem drop_set_add {α : Type} (a : α) :
    ∀ (l : List α) (p n : Nat), (l.set (p + n) a).drop p = (l.drop p).set n a := by
  intro l
  induction l with
  | nil => intro p n; simp
  | cons x l ih =>
    intro p n
    cases p with
    | zero => simp
    | succ p =>
      have : p + 1 + n = (p + n) + 1 := by omega
      rw [this]
      simp [ih]

/-- What `process_command` does when it finds its key: if the character
behind the key is neither an allowed character nor NUL, `*retcode` is
`-EINVAL` and nothing else happens; else `func` is called with the run of
allowed characters behind the key, and a blank is stored at the end of the
scan. -/
theorem process_command_spec {buf key : List Char}
    {func : String → State → Option (State × Int)} {rc : Int} {s : State} {i : Nat}
    (hk : strstr buf key = some i) (hp : i + key.length < buf.length) :
    process_command buf key func rc s
      = if is_valid_char (buf.getD (i + key.length) NUL) = 0 then some (0, buf, -EINVAL, s)
        else
          (func (String.mk ((buf.drop (i + key.length)).takeWhile
              (fun c => decide (c ∈ DAZUKOFS_ALLOWED_GROUPCHARS)))) s).map
            (fun r => (0,
              buf.set (i + key.length + ((buf.drop (i + key.length)).takeWhile
                (fun c => decide (is_valid_char c ≠ 0))).length) (Char.ofNat 32),
              r.2, r.1)) := by
  by_cases h : is_valid_char (buf.getD (i + key.length) NUL) = 0
  · rw [if_pos h]; exact process_command_empty hk h
  · rw [if_neg h]
    unfold process_command
    rw [hk]
    simp only
    have hne : (buf.drop (i + key.length)).takeWhile (fun c => decide (is_valid_char c ≠ 0))
        ≠ [] := by
      cases hd : buf.drop (i + key.length) with
      | nil =>
        have := List.drop_eq_nil_iff.mp hd
        omega
      | cons c rest =>
        have hc : buf[i + key.length]? = some c := by
          have := List.head?_drop buf (i + key.length)
          rw [hd] at this
          simpa using this.symm
        have : buf.getD (i + key.length) NUL = c := by simp [List.getD, hc]
        rw [this] at h
        simp [List.takeWhile, h]
    have hlen : ¬ (i + key.length = i + key.length +
        ((buf.drop (i + key.length)).takeWhile
          (fun c => decide (is_valid_char c ≠ 0))).length) := by
      have := List.length_pos.mpr hne
      omega
    rw [if_neg hlen, drop_set_add, name_of_scan]
    cases func (String.mk ((buf.drop (i + key.length)).takeWhile
        (fun c => decide (c ∈ DAZUKOFS_ALLOWED_GROUPCHARS)))) s with
    | none => rfl
    | some r => simp [List.set_set]

/-- A control write of 32 characters or more is handled as the write of its
first 31 characters, except that the full length is returned on success. -/
theorem ctrl_write_long (copy_ok alloc_add alloc_track : Bool) (beyond buffer : List Char)
    (s : State) (h : 32 ≤ buffer.length) :
    dazukofs_ctrl_write copy_ok alloc_add alloc_track beyond buffer s
      = (dazukofs_ctrl_write copy_ok alloc_add alloc_track beyond (buffer.take 31) s).map
          (fun r => (r.1, if 0 ≤ r.2 then int_wrap (buffer.length : Int) else r.2)) := by
  have hl : (buffer.take 31).length = 31 := by simp; omega
  unfold dazukofs_ctrl_write
  rw [hl]
  have h1 : buffer.length ≥ 32 := h
  simp only [h1, if_true, ge_iff_le, Nat.reduceLeDiff, if_false, Nat.reduceSub,
    List.take_take, min_self]
  by_cases hc : copy_ok = true
  · simp only [hc, not_true_eq_false, if_false]
    split
    · rfl
    · split
      · rfl
      · split
        · rfl
        · rename_i st3 _
          by_cases hr : 0 ≤ st3.2.2.1
          · simp [hr, int_wrap]
          · simp [hr]
  · simp [hc, EFAULT]

/-! ## The recursion mask around open_file -/

/-- The function `check_recursion` right after `mask_proc` in the same process: the new
entry is the first one of the process, so it is the one that is unlinked. -/
theorem check_recursion_after_mask (cur : Nat) (s : State) :
    check_recursion cur (mask_proc cur s).1
      = ({ (mask_proc cur s).1 with
            proc_list := s.proc_list,
            procs := (mask_proc cur s).1.procs.set s.procs.length
              { proc_id := cur, within_list := 0 } }, 0) := by
  have hfind : list_find (fun a => decide ((proc_at (mask_proc cur s).1 a).proc_id = cur))
      (mask_proc cur s).1.proc_list = some ([], s.procs.length, s.proc_list) := by
    have h1 : (mask_proc cur s).1.proc_list = s.procs.length :: s.proc_list := rfl
    have h2 := proc_at_mask_proc cur s
    have h3 : (mask_proc cur s).2 = s.procs.length := rfl
    rw [h3] at h2
    rw [h1]
    simp [list_find, h2]
  unfold check_recursion
  rw [hfind]
  have h2 := proc_at_mask_proc cur s
  have h3 : (mask_proc cur s).2 = s.procs.length := rfl
  rw [h3] at h2
  simp [h2]

theorem proc_at_after_mask (cur : Nat) (s : State) (b : Nat) :
    proc_at (check_recursion cur (mask_proc cur s).1).1 b
      = if b = s.procs.length then { proc_id := cur, within_list := 0 } else proc_at s b := by
  rw [check_recursion_after_mask]
  simp only [proc_at, mask_proc]
  by_cases hb : b = s.procs.length
  · subst hb; simp
  · rw [if_neg hb]
    rw [List.getElem?_set_ne (Ne.symm hb)]
    by_cases hlt : b < s.procs.length
    · rw [List.getElem?_append_left hlt]
    · have h1 : (s.procs ++ [{ proc_id := cur, within_list := 1 }])[b]? = none := by
        apply List.getElem?_eq_none
        simp; omega
      have h2 : s.procs[b]? = none := List.getElem?_eq_none (by omega)
      rw [h1, h2]

/-- A second `check_recursion` finds nothing, if the process had no entry
before and the mask holds no dangling pointer. -/
theorem check_recursion_twice (cur : Nat) (s : State) (hm : ¬ masked cur s)
    (hwf : ∀ b ∈ s.proc_list, b < s.procs.length) :
    check_recursion cur (check_recursion cur (mask_proc cur s).1).1
      = ((check_recursion cur (mask_proc cur s).1).1, 1) := by
  apply check_recursion_not_masked
  rintro ⟨b, hb, hbc⟩
  rw [proc_at_after_mask] at hbc
  have hb2 : b ∈ s.proc_list := by
    rw [check_recursion_after_mask] at hb; exact hb
  have hne : b ≠ s.procs.length := by have := hwf b hb2; omega
  rw [if_neg hne] at hbc
  exact hm ⟨b, hb2, hbc⟩

/-- The recursion mask after `open_file` is the mask before it. -/
theorem open_file_proc_list (env : OpenEnv) (cur i : Nat) (ec : dazukofs_event_container)
    (s : State) : (open_file env cur i ec s).1.proc_list = s.proc_list := by
  have hp0 : (with_group i (set_claimed_fd env.fd) s).proc_list = s.proc_list := rfl
  have hc := check_recursion_after_mask cur (with_group i (set_claimed_fd env.fd) s)
  have c1 : (check_recursion cur
      (mask_proc cur (with_group i (set_claimed_fd env.fd) s)).1).1.proc_list
      = s.proc_list := by rw [hc]; rfl
  have c2 : (proc_at (check_recursion cur
      (mask_proc cur (with_group i (set_claimed_fd env.fd) s)).1).1
      (mask_proc cur (with_group i (set_claimed_fd env.fd) s)).2).within_list = 0 := by
    rw [proc_at_after_mask]
    have : (mask_proc cur (with_group i (set_claimed_fd env.fd) s)).2
        = (with_group i (set_claimed_fd env.fd) s).procs.length := rfl
    rw [this, if_pos rfl]
  unfold open_file
  by_cases hfd : env.fd < 0
  · simp only [hfd, if_true]; rfl
  · simp only [hfd, if_false]
    have hfin : ∀ (t : State) (r1 r2 : Int),
        (if env.open_err ≠ 0 then (t, r1) else (t, r2)).1 = t := by
      intro t r1 r2; split_ifs <;> rfl
    rw [hfin]
    by_cases hn : env.nested = true
    · simp only [hn, if_true, nested_check_access]
      unfold check_access_precheck
      by_cases h0 : (mask_proc cur (with_group i (set_claimed_fd env.fd) s)).1.group_count = 0
      · simp only [h0, if_true]
        rw [proc_at_mask_proc]
        simp only [ne_eq, one_ne_zero, not_false_eq_true, if_true]
        exact c1
      · simp only [h0, if_false]
        have hr : (check_recursion cur
            (mask_proc cur (with_group i (set_claimed_fd env.fd) s)).1).2 = 0 := by rw [hc]
        simp only [hr, if_true]
        rw [c2]
        simp only [ne_eq, not_true_eq_false, if_false]
        exact c1
    · simp only [hn, Bool.false_eq_true, if_false]
      rw [proc_at_mask_proc]
      simp only [ne_eq, one_ne_zero, not_false_eq_true, if_true]
      exact c1

/-! ## group_count and the reads of ec_array -/

theorem assign_reads_eq (gl : List dazukofs_group) :
    ∀ i, assign_reads i gl = List.range' i (nondep gl).length := by
  induction gl with
  | nil => intro i; simp [assign_reads, nondep]
  | cons g gl ih =>
    intro i
    unfold assign_reads
    rw [nondep_cons]
    by_cases hd : g.deprecated = 0
    · simp [hd, ih, List.range'_succ]
    · simp [hd, ih]

theorem check_access_no_fault {s : State} (hr : RInv s) (evt_ok : Bool)
    (ec_fail : Option Nat) (cur dentry : Nat) :
    (dazukofs_check_access evt_ok ec_fail cur dentry s).2 ≠ Outcome.fault := by
  rcases check_access_cases evt_ok ec_fail cur dentry s with
    ⟨ho, _⟩ | ⟨ho, _⟩ | ⟨_, hf⟩ | ⟨ho, _⟩
  · rw [ho]; simp
  · rw [ho]; simp
  · exfalso; apply hf; rw [hr.1]; simp
  · rw [ho]; simp

/-- When every call runs as one step: after every call from a reachable state (in particular after
`dazukofs_add_group`, `dazukofs_remove_group` and
`dazukofs_group_release_tracking`), `group_count` is the number of
non-deprecated groups in the group list and lies between 0 and `GROUP_COUNT`.
Hence a `dazukofs_check_access` in that state never reads `ec_array` outside the
containers it allocated: it allocates `group_count` containers, the loop of
`assign_event_to_groups` reads the indices 0 to `group_count - 1`, one per
group it visits, and every index is below `group_count` and below
`GROUP_COUNT`. -/
theorem atomic_check_access_in_bounds (s : State) (hr : Reachable s) (op : Op) :
    (step s op).group_count = ((nondep (step s op).group_list).length : Int) ∧
    0 ≤ (step s op).group_count ∧ (step s op).group_count ≤ GROUP_COUNT ∧
    (∀ (ec_fail : Option Nat) (ecs : List dazukofs_event_container),
      alloc_containers ec_fail 0 (step s op).group_count.toNat = some ecs →
      ecs.length = (assign_reads 0 (step s op).group_list).length) ∧
    assign_reads 0 (step s op).group_list = List.range (step s op).group_count.toNat ∧
    (∀ j ∈ assign_reads 0 (step s op).group_list,
      (j : Int) < (step s op).group_count ∧ (j : Int) < GROUP_COUNT) ∧
    (∀ (evt_ok : Bool) (ec_fail : Option Nat) (cur dentry : Nat),
      (dazukofs_check_access evt_ok ec_fail cur dentry (step s op)).2 ≠ Outcome.fault) := by
  have hri := reachable_rinv (reachable_step hr op)
  obtain ⟨r1, r2, _⟩ := hri
  have hlen : (step s op).group_count.toNat = (nondep (step s op).group_list).length := by
    rw [r1]; simp
  have hreads : assign_reads 0 (step s op).group_list
      = List.range (step s op).group_count.toNat := by
    rw [assign_reads_eq, hlen, List.range_eq_range']
  refine ⟨r1, by rw [r1]; exact Int.natCast_nonneg _, r2, ?_, hreads, ?_, ?_⟩
  · intro ec_fail ecs h
    rw [alloc_containers_some ec_fail _ _ _ h, hreads]
    simp
  · intro j hj
    rw [hreads] at hj
    have hj2 := List.mem_range.mp hj
    have : (j : Int) < (step s op).group_count := by omega
    exact ⟨this, by omega⟩
  · intro evt_ok ec_fail cur dentry
    exact check_access_no_fault (reachable_rinv (reachable_step hr op)) evt_ok ec_fail cur
      dentry

/-! ## Reaping of deprecated groups by dazukofs_add_group -/

/-- A scan of `__check_for_group` that does not find the name reaps a prefix
of the list; a scan that also finds the id free reaps the whole list. -/
theorem check_for_group_loop_reaps (name : String) (id : Nat) (track : Int) :
    ∀ gl : List dazukofs_group,
      (check_for_group_loop name id track gl).2.1 = 0 →
      ((check_for_group_loop name id track gl).1.filter (fun g => !reapable g)
          = gl.filter (fun g => !reapable g)) ∧
      ((check_for_group_loop name id track gl).2.2 = 1 →
        (check_for_group_loop name id track gl).1 = gl.filter (fun g => !reapable g)) := by
  intro gl
  induction gl with
  | nil => intro _; simp [check_for_group_loop]
  | cons grp rest ih =>
    unfold check_for_group_loop
    by_cases hd : grp.deprecated = 0
    · have hk : reapable grp = false := by simp [reapable, hd]
      simp only [hd, ne_eq, not_true_eq_false, if_false]
      by_cases hn : name = grp.name
      · simp [hn]
      · by_cases hi : grp.group_id = id
        · simp [hn, hi]
        · simp only [hn, hi, if_false]
          intro h0
          obtain ⟨i1, i2⟩ := ih h0
          constructor
          · simp [List.filter_cons, hk, i1]
          · intro h1
            simp [List.filter_cons, hk, ← i2 h1]
    · simp only [hd, ne_eq, not_false_eq_true, if_true]
      by_cases hu : grp.use_count = 0
      · have hk : reapable grp = true := by simp [reapable, hd, hu]
        simp only [hu, if_true]
        intro h0
        obtain ⟨i1, i2⟩ := ih h0
        exact ⟨by simp [List.filter_cons, hk, i1], fun h1 => by
          simp [List.filter_cons, hk, ← i2 h1]⟩
      · have hk : reapable grp = false := by simp [reapable, hu]
        simp only [hu, if_false]
        intro h0
        obtain ⟨i1, i2⟩ := ih h0
        exact ⟨by simp [List.filter_cons, hk, i1], fun h1 => by
          simp [List.filter_cons, hk, ← i2 h1]⟩

/-- The search loop of `dazukofs_add_group`, when it does not find the name,
leaves the list without the reapable groups. -/
theorem add_group_loop_reaps (name : String) (track : Int) :
    ∀ (fuel id : Nat) (gl gl2 : List dazukofs_group) (id2 : Nat),
      add_group_loop name track fuel id gl = some (gl2, 0, id2) →
      gl2 = gl.filter (fun g => !reapable g) := by
  intro fuel
  induction fuel with
  | zero => intro id gl gl2 id2 h; simp [add_group_loop] at h
  | succ fuel ih =>
    intro id gl gl2 id2 h
    unfold add_group_loop __check_for_group at h
    rcases check_for_group_loop_spec name id track gl with
      ⟨h1, h2, _⟩ | ⟨h1, h2, _⟩ | ⟨h1, h2, _⟩
    · simp [h1] at h
    · simp only [h1, h2, ne_eq, not_true_eq_false, if_false, Int.reduceNeg, Int.neg_eq_zero,
        one_ne_zero, not_false_eq_true, if_true] at h
      have := ih _ _ _ _ h
      rw [this, (check_for_group_loop_reaps name id track gl h1).1]
    · simp only [h1, h2, ne_eq, not_true_eq_false, if_false, one_ne_zero, not_false_eq_true,
        if_true, Option.some.injEq, Prod.mk.injEq] at h
      rw [← h.1]
      exact (check_for_group_loop_reaps name id track gl h1).2 h2

/-- An `add` of a name that no non-deprecated group holds leaves no reapable
group linked. -/
theorem add_group_reaps (alloc_ok : Bool) (name : String) (track : Int) (s : State)
    (hname : ∀ g ∈ nondep s.group_list, g.name ≠ name) :
    ∃ s2 r id, dazukofs_add_group alloc_ok name track s = some (s2, r) ∧
      (s2.group_list = s.group_list.filter (fun g => !reapable g) ∨
       s2.group_list = s.group_list.filter (fun g => !reapable g) ++ [new_group name id track]) ∧
      ∀ g ∈ s2.group_list, reapable g = false := by
  obtain ⟨gl2, ae, id2, _, hcase, hres, hloop⟩ := add_group_spec alloc_ok name track s
  rcases hcase with ⟨_, _, g, hg, hgn⟩ | ⟨hae, _, _⟩
  · exact absurd hgn (hname g hg)
  · subst hae
    have hgl := add_group_loop_reaps name track _ _ _ _ _ hloop
    have hno : ∀ g ∈ gl2, reapable g = false := by
      intro g hg
      rw [hgl] at hg
      simpa using (List.mem_filter.mp hg).2
    rw [hres]
    simp only [ne_eq, not_true_eq_false, if_false]
    split_ifs
    · exact ⟨_, _, id2, rfl, Or.inl hgl, hno⟩
    · refine ⟨_, _, id2, rfl, Or.inr (by simp only [hgl]), ?_⟩
      intro g hg
      simp only [List.mem_append, List.mem_singleton] at hg
      rcases hg with hg | rfl
      · exact hno g hg
      · simp [reapable, new_group]
    · exact ⟨_, _, id2, rfl, Or.inl hgl, hno⟩
/-- An `add` of a free name with room and a successful allocation: the list
afterwards. -/
theorem add_group_new_list {s : State} (hr : RInv s) (name : String) (track : Int)
    (hname : ∀ g ∈ nondep s.group_list, g.name ≠ name)
    (hroom : ((nondep s.group_list).length : Int) < GROUP_COUNT) :
    ∃ s2 id, dazukofs_add_group true name track s = some (s2, 0) ∧
      s2.group_list = s.group_list.filter (fun g => !reapable g) ++ [new_group name id track] ∧
      nondep s2.group_list = nondep s.group_list ++ [new_group name id track] := by
  obtain ⟨r1, _, _⟩ := hr
  obtain ⟨gl2, ae, id2, _, hcase, hres, hloop⟩ := add_group_spec true name track s
  rcases hcase with ⟨_, _, g, hg, hgn⟩ | ⟨hae, hnd, _⟩
  · exact absurd hgn (hname g hg)
  · subst hae
    have hgl := add_group_loop_reaps name track _ _ _ _ _ hloop
    have hc : ¬ s.group_count = GROUP_COUNT := by rw [r1]; omega
    refine ⟨{ s with group_list := gl2 ++ [new_group name id2 track],
                     group_count := s.group_count + 1 }, id2, ?_, by simp only [hgl], ?_⟩
    · rw [hres]; simp [hc]
    · simp only [nondep_append, hnd]
      simp [nondep, new_group]

/-- The sequence add, remove, add of one name, when no group of that name has
a holder: one group of that name is linked afterwards, the fresh one. -/
theorem add_remove_add {s : State} (hr : Reachable s) (name : String) (track track2 : Int)
    (hname : ∀ g ∈ nondep s.group_list, g.name ≠ name)
    (hroom : ((nondep s.group_list).length : Int) < GROUP_COUNT)
    (hhold : ∀ g ∈ s.group_list, g.name = name → g.use_count = 0) :
    ∃ s1 s3 id, dazukofs_add_group true name track s = some (s1, 0) ∧
      dazukofs_add_group true name track2 (dazukofs_remove_group name s1).1 = some (s3, 0) ∧
      s3.group_list.filter (fun g => decide (g.name = name)) = [new_group name id track2] ∧
      ∀ g ∈ s3.group_list, reapable g = false := by
  obtain ⟨s1, id1, h1, hl1, hn1⟩ := add_group_new_list (reachable_rinv hr) name track hname hroom
  have hs1 : s1 = step s (Op.add_group true name track) := by simp [step, h1]
  have hr1 : Reachable s1 := hs1 ▸ reachable_step hr _
  have hr2 : Reachable (dazukofs_remove_group name s1).1 :=
    reachable_step hr1 (Op.remove_group name)
  have hnd2 : nondep (dazukofs_remove_group name s1).1.group_list = nondep s.group_list := by
    rw [remove_group_nondep (reachable_rinv hr1), hn1, List.filter_append]
    have : (nondep s.group_list).filter (fun g => decide (g.name ≠ name))
        = nondep s.group_list := by
      rw [List.filter_eq_self]; intro g hg; simpa using hname g hg
    rw [this]
    simp [new_group]
  have hmem1 : new_group name id1 track ∈ nondep s1.group_list := by rw [hn1]; simp
  obtain ⟨pre, post, hsplit, _, hrem⟩ :=
    @remove_group_found s1 (reachable_rinv hr1) _ name hmem1 rfl
  obtain ⟨s3, id3, h3, hl3, _⟩ := add_group_new_list (reachable_rinv hr2) name track2
    (by rw [hnd2]; exact hname) (by rw [hnd2]; exact hroom)
  have hold : ∀ g ∈ (dazukofs_remove_group name s1).1.group_list, reapable g = false →
      g.name ≠ name := by
    intro g hg hk hgn
    by_cases hd : g.deprecated = 0
    · have : g ∈ nondep s.group_list := by
        rw [← hnd2]; exact List.mem_filter.mpr ⟨hg, by simpa using hd⟩
      exact hname g this hgn
    · have hu : g.use_count ≠ 0 := by
        intro hu; simp [reapable, hd, hu] at hk
      rw [hrem] at hg
      simp only [List.mem_append, List.mem_cons] at hg
      have hin1 : g ∈ pre ∨ g ∈ post → False := by
        intro hpp
        have hg1 : g ∈ s1.group_list := by
          rw [hsplit]
          rcases hpp with h | h
          · exact List.mem_append_left _ h
          · exact List.mem_append_right _ (List.mem_cons_of_mem _ h)
        rw [hl1] at hg1
        rcases List.mem_append.mp hg1 with h | h
        · exact hu (hhold g (List.mem_filter.mp h).1 hgn)
        · simp only [List.mem_singleton] at h
          rw [h] at hd
          simp [new_group] at hd
      rcases hg with h | h | h
      · exact hin1 (Or.inl h)
      · rw [h] at hu; simp [new_group] at hu
      · exact hin1 (Or.inr h)
  refine ⟨s1, s3, id3, h1, h3, ?_, ?_⟩
  · rw [hl3, List.filter_append]
    have hnone : ((dazukofs_remove_group name s1).1.group_list.filter
        (fun g => !reapable g)).filter (fun g => decide (g.name = name)) = [] := by
      rw [List.filter_eq_nil_iff]
      intro g hg
      have := List.mem_filter.mp hg
      simpa using hold g this.1 (by simpa using this.2)
    rw [hnone]
    simp [new_group]
  · intro g hg
    rw [hl3] at hg
    rcases List.mem_append.mp hg with h | h
    · simpa using (List.mem_filter.mp h).2
    · simp only [List.mem_singleton] at h
      rw [h]; simp [reapable, new_group]

/-! ## Closing a group device while an event is claimed -/

/-- A close that does not remove the group changes at most the counters of the
group. -/
theorem group_release_keeps {gid : Nat} {s : State} {pre post : List dazukofs_group}
    {grp : dazukofs_group} (private_data : Bool)
    (hf : list_find (is_group gid) s.group_list = some (pre, grp, post))
    (hkeep : private_data = false ∨ grp.tracking = 0 ∨ grp.track_count - 1 ≠ 0) :
    ∃ g2 : dazukofs_group,
      dazukofs_group_release gid private_data s = { s with group_list := pre ++ g2 :: post } ∧
      g2.todo_list = grp.todo_list ∧ g2.working_list = grp.working_list ∧
      g2.deprecated = grp.deprecated ∧ g2.group_id = grp.group_id ∧ g2.name = grp.name := by
  have hsplit := (list_find_some hf).1
  have hsame : s = { s with group_list := pre ++ grp :: post } := by
    rw [← hsplit]
  unfold dazukofs_group_release
  by_cases hp : private_data = true
  · rw [if_pos hp]
    by_cases ht : grp.tracking = 0
    · refine ⟨grp, ?_, rfl, rfl, rfl, rfl, rfl⟩
      unfold dazukofs_group_release_tracking
      rw [hf]
      simp only [ht, ne_eq, not_true_eq_false, if_false]
      exact hsame
    · have hc : grp.track_count - 1 ≠ 0 := by
        rcases hkeep with h | h | h
        · rw [h] at hp; exact absurd hp (by decide)
        · exact absurd h ht
        · exact h
      exact ⟨_, release_tracking_found hf ht hc, rfl, rfl, rfl, rfl, rfl⟩
  · rw [if_neg hp]
    exact ⟨grp, hsame, rfl, rfl, rfl, rfl, rfl⟩

/-- The result of `dazukofs_get_event` is read off the todo list of the group
and the events. -/
theorem get_event_result_of_todo {env : OpenEnv} {cur gid : Nat} {s s2 : State}
    {pre post pre2 post2 : List dazukofs_group} {grp g2 : dazukofs_group}
    (hf : list_find (is_group gid) s.group_list = some (pre, grp, post))
    (hf2 : list_find (is_group gid) s2.group_list = some (pre2, g2, post2))
    (ht : g2.todo_list = grp.todo_list) (he : s2.events = s.events) :
    (dazukofs_get_event env cur gid s2).2 = (dazukofs_get_event env cur gid s).2 := by
  cases hl : grp.todo_list with
  | nil =>
    rw [get_event_empty hf hl, get_event_empty hf2 (ht.trans hl)]
  | cons ec rest =>
    rw [(get_event_claim hf hl).2.2.2.2.2.2.2, (get_event_claim hf2 (ht.trans hl)).2.2.2.2.2.2.2]
    simp only [evt_at, he]

/-- The result of `dazukofs_return_event` is read off the working list of the
group and the events. -/
theorem return_event_result_of_working {gid id : Nat} {r : dazukofs_response_t} {s s2 : State}
    {pre post pre2 post2 : List dazukofs_group} {grp g2 : dazukofs_group}
    (hf : list_find (is_group gid) s.group_list = some (pre, grp, post))
    (hf2 : list_find (is_group gid) s2.group_list = some (pre2, g2, post2))
    (hw : g2.working_list = grp.working_list) (he : s2.events = s.events) :
    (dazukofs_return_event gid id r s2).2 = (dazukofs_return_event gid id r s).2 := by
  unfold dazukofs_return_event
  rw [hf, hf2]
  simp only [hw, evt_at, he]
  cases list_find (fun ec => decide (((s.events[ec.event]?).getD zero_event).event_id = id))
      grp.working_list with
  | none => rfl
  | some rr =>
    obtain ⟨a, b, c⟩ := rr
    by_cases hr : r = dazukofs_response_t.REPOST
    · simp only [hr, if_true]
    · simp only [hr, if_false]

/-- Whether and with what value a blocked `dazukofs_check_access` goes on is
read off the waiters and the events. -/
theorem resume_result_of_events (e : Nat) (s : State) (gl : List dazukofs_group) :
    (dazukofs_check_access_resume e { s with group_list := gl }).map Prod.snd
      = (dazukofs_check_access_resume e s).map Prod.snd := by
  unfold dazukofs_check_access_resume
  simp only [event_assigned, evt_at]
  split_ifs <;> rfl

/-! ## Reading a group device -/

/-- The read at a positive position, and the read with a short buffer. -/
theorem group_read_rejects (env : OpenEnv) (copy_ok : Bool) (cur gid length : Nat) (pos : Int)
    (s : State) :
    (0 < pos → dazukofs_group_read env copy_ok cur gid length pos s
      = (s, ReadResult.ret 0 [], pos)) ∧
    (pos ≤ 0 → length < 43 → dazukofs_group_read env copy_ok cur gid length pos s
      = (s, ReadResult.ret (-EINVAL) [], pos)) := by
  constructor
  · intro hp
    unfold dazukofs_group_read
    rw [if_pos hp]
  · intro hp hl
    unfold dazukofs_group_read
    rw [if_neg (by omega), if_pos hl]

/-- A read that claims an event: what it returns. -/
theorem group_read_claimed {env : OpenEnv} {cur gid length : Nat} {pos : Int} {s : State}
    {id : Nat} {fd : Int} {pid : Nat}
    (hp : pos ≤ 0) (hl : 43 ≤ length)
    (hg : (dazukofs_get_event env cur gid s).2 = GetResult.ok id fd pid) :
    (dazukofs_group_read env true cur gid length pos s).2
      = (if (event_record id fd pid).length ≥ 43 then (ReadResult.ret (-EINVAL) [], pos)
         else (ReadResult.ret ((event_record id fd pid).length : Int)
                ((snprintf (List.replicate 43 NUL) 0 42 (event_record id fd pid)).1.take
                  (event_record id fd pid).length),
               ((event_record id fd pid).length : Int))) := by
  unfold dazukofs_group_read
  rw [if_neg (by omega), if_neg (by omega)]
  simp only [hg]
  have hs : (snprintf (List.replicate 43 NUL) 0 (43 - 1) (event_record id fd pid)).2
      = (event_record id fd pid).length := by
    simp [snprintf]
  rw [hs]
  split_ifs <;> rfl

/-- A run followed by one more call. -/
theorem run_snoc (s : State) (ops : List Op) (op : Op) :
    run s (ops ++ [op]) = step (run s ops) op := by
  simp [run, List.foldl_append]

/-- The id handed out when `last_event_id` is `2^31 - 1`. -/
theorem wrapped_id : ulong_of_int (int_wrap (int_wrap (2147483647 : Nat) + 1))
    = 18446744071562067968 := by
  norm_num [ulong_of_int, int_wrap]
  exact Int.toNat_ofNat 18446744071562067968

/-- After `2^31 - 1` resolved accesses, the event of the next access by
process `cur`. -/
theorem event_after_wrap {s : State} (hidle : idle_after 2147483647 s) (env : OpenEnv)
    (cur cur2 : Nat) (hfd : ¬ env.fd < 0) (ho : env.open_err = 0) :
    (dazukofs_get_event env cur2 0 (step s (Op.check_access true none cur 7))).2
      = GetResult.ok 18446744071562067968 env.fd cur := by
  have hr := idle_rinv hidle
  obtain ⟨hgl, hgc, hlast, hpl, hil, hlen, hw⟩ := hidle
  have hok : fan_out_ok none cur s :=
    ⟨by rw [hgc]; decide, by rintro ⟨a, ha, _⟩; rw [hpl] at ha; simp at ha,
     by rw [hil]; simp, by intro j hj; simp at hj⟩
  obtain ⟨a1, a2, a3, a4, a5, a6, a7, a8⟩ := @fan_out_state none cur 7 s hr hok
  have hwp : step s (Op.check_access true none cur 7)
      = (dazukofs_check_access true none cur 7 s).1 := rfl
  have hf : list_find (is_group 0) (step s (Op.check_access true none cur 7)).group_list
      = some ([], fan 2147483647 idle_group, []) := by
    rw [hwp, a2, hgl, hlen]
    decide
  have ht : (fan 2147483647 idle_group).todo_list = [{ event := 2147483647, fd := 0 }] := by
    decide
  rw [(get_event_claim hf ht).2.2.2.2.2.2.2, if_neg hfd, if_neg (by simp [ho])]
  have he : evt_at (step s (Op.check_access true none cur 7)) 2147483647
      = fanned_event s cur 7 1 := by
    unfold evt_at
    rw [hwp, a3, hgl]
    have : (nondep [idle_group]).length = 1 := by decide
    rw [this, ← hlen, List.getElem?_append_right (le_refl _)]
    simp
  have hev : ({ event := 2147483647, fd := 0 } : dazukofs_event_container).event
      = 2147483647 := rfl
  rw [hev, he]
  simp only [fanned_event, hlast]
  rw [wrapped_id]

/-- The event that waits in `wrapped_pending`. -/
theorem wrapped_pending_event (env : OpenEnv) (cur : Nat) (hfd : ¬ env.fd < 0)
    (ho : env.open_err = 0) :
    (dazukofs_get_event env cur 0 wrapped_pending).2
      = GetResult.ok 18446744071562067968 env.fd 1234567 := by
  unfold wrapped_pending
  rw [run_snoc]
  exact event_after_wrap (resolved_accesses_ids 2147483647).2 env 1234567 cur hfd ho

/-! ## Writing a verdict to a group device -/

/-- A decimal digit as printed by `%lu` is a digit for `isdigit`, with its
value. -/
theorem digitChar_isdigit (k : Nat) (hk : k < 10) :
    isdigit (Nat.digitChar k) = true ∧ (Nat.digitChar k).toNat - 48 = k ∧
    Nat.digitChar k ≠ NUL := by
  interval_cases k <;> decide

/-- The digits that `%lu` prints, read back by the loop of `simple_strtoul`. -/
theorem toDigitsCore_spec : ∀ (fuel n : Nat) (ds : List Char), n < fuel →
    ∃ D : List Char, Nat.toDigitsCore 10 fuel n ds = D ++ ds ∧ D ≠ [] ∧
      (∀ c ∈ D, isdigit c = true) ∧
      ∀ acc : Nat,
        D.foldl (fun a c => (a * 10 + (c.toNat - 48)) % 18446744073709551616) acc
          = (acc * 10 ^ D.length + n) % 18446744073709551616 := by
  intro fuel
  induction fuel with
  | zero => intro n ds h; omega
  | succ fuel ih =>
    intro n ds h
    obtain ⟨d1, d2, _⟩ := digitChar_isdigit (n % 10) (Nat.mod_lt _ (by decide))
    unfold Nat.toDigitsCore
    by_cases h0 : n / 10 = 0
    · simp only [h0, if_true]
      refine ⟨[Nat.digitChar (n % 10)], rfl, by simp, ?_, ?_⟩
      · intro c hc
        simp only [List.mem_singleton] at hc
        rw [hc]; exact d1
      · intro acc
        simp only [List.foldl_cons, List.foldl_nil, List.length_singleton, pow_one, d2]
        have : n % 10 = n := by omega
        rw [this]
    · simp only [h0, if_false]
      obtain ⟨D, e1, _, e3, e4⟩ := ih (n / 10) (Nat.digitChar (n % 10) :: ds) (by omega)
      refine ⟨D ++ [Nat.digitChar (n % 10)], by rw [e1]; simp, by simp, ?_, ?_⟩
      · intro c hc
        rcases List.mem_append.mp hc with hc | hc
        · exact e3 c hc
        · simp only [List.mem_singleton] at hc
          rw [hc]; exact d1
      · intro acc
        rw [List.foldl_append, e4]
        simp only [List.foldl_cons, List.foldl_nil, d2, List.length_append,
          List.length_singleton, pow_succ]
        have hm : acc * (10 ^ D.length * 10) = acc * 10 ^ D.length * 10 := by ring
        rw [hm]
        generalize acc * 10 ^ D.length = q
        omega

/-- The conversion `%lu`: digits, and their value. -/
theorem fmt_lu_spec (n : Nat) :
    fmt_lu n ≠ [] ∧ (∀ c ∈ fmt_lu n, isdigit c = true) ∧
    (fmt_lu n).foldl (fun a c => (a * 10 + (c.toNat - 48)) % 18446744073709551616) 0
      = n % 18446744073709551616 := by
  obtain ⟨D, e1, e2, e3, e4⟩ := toDigitsCore_spec (n + 1) n [] (by omega)
  have : fmt_lu n = D := by
    unfold fmt_lu Nat.toDigits
    rw [e1]; simp
  rw [this]
  refine ⟨e2, e3, ?_⟩
  rw [e4 0]; simp

/-- The loop of `simple_strtoul` runs through a run of decimal digits. -/
theorem strtoul_loop_digits : ∀ (D rest : List Char) (acc k : Nat),
    (∀ c ∈ D, isdigit c = true) →
    simple_strtoul_loop 10 (D ++ rest) acc k
      = simple_strtoul_loop 10 rest
          (D.foldl (fun a c => (a * 10 + (c.toNat - 48)) % 18446744073709551616) acc)
          (k + D.length) := by
  intro D
  induction D with
  | nil => intro rest acc k _; rfl
  | cons c D ih =>
    intro rest acc k h
    have hc : isdigit c = true := h c (by simp)
    have hv : c.toNat - 48 < 10 := by
      simp only [isdigit, Bool.and_eq_true, decide_eq_true_eq] at hc
      omega
    show simple_strtoul_loop 10 (c :: (D ++ rest)) acc k = _
    simp only [simple_strtoul_loop, isxdigit, hc, Bool.true_or, if_true, ge_iff_le,
      if_neg (Nat.not_le.mpr hv)]
    rw [ih rest _ _ (fun x hx => h x (by simp [hx]))]
    simp only [List.foldl_cons, List.length_cons]
    congr 1
    omega

/-- Function `simple_strtoul` on a printed number that is followed by a
newline. -/
theorem strtoul_fmt_lu (n : Nat) (rest : List Char) :
    simple_strtoul (fmt_lu n ++ NL :: rest) = (n % 18446744073709551616, (fmt_lu n).length) := by
  obtain ⟨_, h2, h3⟩ := fmt_lu_spec n
  unfold simple_strtoul
  rw [strtoul_loop_digits _ _ _ _ h2, h3]
  have : isxdigit NL = false := by decide
  simp [simple_strtoul_loop, this]
/-- The key `id=` at the start of the memory is found there. -/
theorem strstr_id (X : List Char) : strstr ("id=".toList ++ X) "id=".toList = some 0 := by
  have h1 : decide ('i' ≠ NUL) = true := by decide
  have h2 : decide ('d' ≠ NUL) = true := by decide
  have h3 : decide ('=' ≠ NUL) = true := by decide
  have hl : "id=".toList = ['i', 'd', '='] := by decide
  rw [hl]
  simp only [strstr, cstr, List.cons_append, List.nil_append, List.takeWhile, h1, h2, h3,
    strstr_from, List.isPrefixOf, Bool.and_self, decide_True, if_true, BEq.refl]

/-- The key `r=` behind a newline is found at offset 1. -/
theorem strstr_r (Y : List Char) :
    strstr (NL :: 'r' :: '=' :: Y) "r=".toList = some 1 := by
  have h1 : decide (NL ≠ NUL) = true := by decide
  have h2 : decide ('r' ≠ NUL) = true := by decide
  have h3 : decide ('=' ≠ NUL) = true := by decide
  have h4 : (NL == 'r') = false := by decide
  have hl : "r=".toList = ['r', '='] := by decide
  rw [hl]
  simp only [strstr, cstr, List.takeWhile, h1, h2, h3, strstr_from, List.isPrefixOf]
  simp [h4]

/-- A write whose copy in `tmp` is `id=`, a printed id, a newline, `r=` and one
more character: the verdict that is returned. -/
theorem group_write_parsed (gid E : Nat) (R : Char) (tail buffer : List Char) (s : State)
    (hE : E < 18446744073709551616)
    (htmp : buffer.take (if buffer.length ≥ 19 then 19 - 1 else buffer.length) ++ [NUL]
      = "id=".toList ++ (fmt_lu E ++ NL :: 'r' :: '=' :: R :: tail)) :
    dazukofs_group_write true gid buffer s
      = (if (dazukofs_return_event gid E
              (if (R.toNat : Int) - 48 ≠ 0 then dazukofs_response_t.DENY
               else dazukofs_response_t.ALLOW) s).2 = 0 then
           ((dazukofs_return_event gid E
              (if (R.toNat : Int) - 48 ≠ 0 then dazukofs_response_t.DENY
               else dazukofs_response_t.ALLOW) s).1,
            ((if buffer.length ≥ 19 then 19 - 1 else buffer.length : Nat) : Int))
         else if (dazukofs_return_event gid E
              (if (R.toNat : Int) - 48 ≠ 0 then dazukofs_response_t.DENY
               else dazukofs_response_t.ALLOW) s).2 = -ERESTARTSYS then
           ((dazukofs_return_event gid E
              (if (R.toNat : Int) - 48 ≠ 0 then dazukofs_response_t.DENY
               else dazukofs_response_t.ALLOW) s).1, -EINTR)
         else dazukofs_return_event gid E
              (if (R.toNat : Int) - 48 ≠ 0 then dazukofs_response_t.DENY
               else dazukofs_response_t.ALLOW) s) := by
  have hl3 : "id=".toList.length = 3 := by decide
  have hd1 : ("id=".toList ++ (fmt_lu E ++ NL :: 'r' :: '=' :: R :: tail)).drop (0 + 3)
      = fmt_lu E ++ NL :: 'r' :: '=' :: R :: tail := by
    rw [Nat.zero_add, ← hl3, List.drop_left]
  have hd2 : ("id=".toList ++ (fmt_lu E ++ NL :: 'r' :: '=' :: R :: tail)).drop
      (0 + 3 + (fmt_lu E).length) = NL :: 'r' :: '=' :: R :: tail := by
    rw [← List.drop_drop, Nat.add_comm, hd1, List.drop_left]
  have hg : ("id=".toList ++ (fmt_lu E ++ NL :: 'r' :: '=' :: R :: tail)).getD
      (0 + 3 + (fmt_lu E).length + 1 + 2) NUL = R := by
    have : 0 + 3 + (fmt_lu E).length + 1 + 2 = 0 + 3 + (fmt_lu E).length + 3 := by omega
    rw [this, List.getD_eq_getElem?_getD, ← List.getElem?_drop, hd2]
    simp
  unfold dazukofs_group_write
  simp only [if_true]
  rw [htmp, strstr_id]
  simp only [hd1, strtoul_fmt_lu, Nat.mod_eq_of_lt hE, hd2, strstr_r, hg]

/-- The characters of a write that reach `tmp`. -/
theorem write_length_take (buffer : List Char) :
    buffer.take (if buffer.length ≥ 19 then 19 - 1 else buffer.length) = buffer.take 18 := by
  by_cases h : buffer.length ≥ 19
  · rw [if_pos h]
  · rw [if_neg h, List.take_of_length_le (le_refl _), List.take_of_length_le (by omega)]

/-- A write without the key `id=`, or without the key `r=` behind the id, is
refused and the state is unchanged. -/
theorem group_write_rejects (gid : Nat) (buffer : List Char) (s : State) :
    (strstr (verdict_tmp buffer) "id=".toList = none →
      dazukofs_group_write true gid buffer s = (s, -EINVAL)) ∧
    (∀ i : Nat, strstr (verdict_tmp buffer) "id=".toList = some i →
      strstr ((verdict_tmp buffer).drop
        (i + 3 + (simple_strtoul ((verdict_tmp buffer).drop (i + 3))).2)) "r=".toList = none →
      dazukofs_group_write true gid buffer s = (s, -EINVAL)) := by
  constructor
  · intro h
    unfold dazukofs_group_write
    simp only [if_true, write_length_take]
    unfold verdict_tmp at h
    rw [h]
  · intro i h1 h2
    unfold dazukofs_group_write
    simp only [if_true, write_length_take]
    unfold verdict_tmp at h1 h2
    rw [h1]
    simp only [h2]

/-- The verdict text of an id of at most 11 digits: what `dazukofs_group_write`
does with it. -/
theorem group_write_verdict (gid E r : Nat) (s : State) (hE : E < 100000000000)
    (hr : r < 10) :
    dazukofs_group_write true gid (verdict_text E r) s
      = (if (dazukofs_return_event gid E
              (if r = 0 then dazukofs_response_t.ALLOW else dazukofs_response_t.DENY) s).2 = 0
         then
           ((dazukofs_return_event gid E
              (if r = 0 then dazukofs_response_t.ALLOW else dazukofs_response_t.DENY) s).1,
            ((min (verdict_text E r).length 18 : Nat) : Int))
         else if (dazukofs_return_event gid E
              (if r = 0 then dazukofs_response_t.ALLOW else dazukofs_response_t.DENY) s).2
              = -ERESTARTSYS then
           ((dazukofs_return_event gid E
              (if r = 0 then dazukofs_response_t.ALLOW else dazukofs_response_t.DENY) s).1,
            -EINTR)
         else dazukofs_return_event gid E
              (if r = 0 then dazukofs_response_t.ALLOW else dazukofs_response_t.DENY) s) := by
  obtain ⟨d1, d2, _⟩ := digitChar_isdigit r hr
  have hL : (fmt_lu E).length ≤ 11 :=
    Nat.toDigitsCore_length 10 (by decide) (E + 1) E 11 (by simpa using hE) (by decide)
  have hshape : verdict_text E r
      = "id=".toList ++ (fmt_lu E ++ NL :: 'r' :: '=' :: Nat.digitChar r :: [NL]) := by
    have hl : "r=".toList = ['r', '='] := by decide
    simp [verdict_text, hl]
  have hlen : (verdict_text E r).length = (fmt_lu E).length + 8 := by
    rw [hshape]
    have hl3 : "id=".toList.length = 3 := by decide
    simp only [List.length_append, List.length_cons, List.length_nil, hl3]
    omega
  have hresp : (if ((Nat.digitChar r).toNat : Int) - 48 ≠ 0 then dazukofs_response_t.DENY
      else dazukofs_response_t.ALLOW)
      = (if r = 0 then dazukofs_response_t.ALLOW else dazukofs_response_t.DENY) := by
    have h48 : 48 ≤ (Nat.digitChar r).toNat := by
      simp only [isdigit, Bool.and_eq_true, decide_eq_true_eq] at d1
      exact d1.1
    by_cases h0 : r = 0
    · have : ((Nat.digitChar r).toNat : Int) - 48 = 0 := by omega
      rw [if_neg (not_not.mpr this), if_pos h0]
    · have : ((Nat.digitChar r).toNat : Int) - 48 ≠ 0 := by omega
      rw [if_pos this, if_neg h0]
  have hmin : (if (verdict_text E r).length ≥ 19 then 19 - 1 else (verdict_text E r).length)
      = min (verdict_text E r).length 18 := by
    split_ifs <;> omega
  by_cases h11 : (fmt_lu E).length = 11
  · have htmp : (verdict_text E r).take
          (if (verdict_text E r).length ≥ 19 then 19 - 1 else (verdict_text E r).length) ++ [NUL]
        = "id=".toList ++ (fmt_lu E ++ NL :: 'r' :: '=' :: Nat.digitChar r :: [NUL]) := by
      rw [write_length_take]
      have hs2 : verdict_text E r
          = ("id=".toList ++ (fmt_lu E ++ [NL, 'r', '=', Nat.digitChar r])) ++ [NL] := by
        rw [hshape]; simp
      have hl18 : ("id=".toList ++ (fmt_lu E ++ [NL, 'r', '=', Nat.digitChar r])).length
          = 18 := by
        have hl3 : "id=".toList.length = 3 := by decide
        simp only [List.length_append, List.length_cons, List.length_nil, hl3, h11]
      rw [hs2, ← hl18, List.take_left]
      simp
    rw [group_write_parsed gid E _ _ _ s (by omega) htmp, hresp, hmin]
  · have htmp : (verdict_text E r).take
          (if (verdict_text E r).length ≥ 19 then 19 - 1 else (verdict_text E r).length) ++ [NUL]
        = "id=".toList ++ (fmt_lu E ++ NL :: 'r' :: '=' :: Nat.digitChar r :: [NL, NUL]) := by
      rw [write_length_take, List.take_of_length_le (by omega), hshape]
      simp
    rw [group_write_parsed gid E _ _ _ s (by omega) htmp, hresp, hmin]

/-- A verdict for an id of 20 digits: only `id=` and fifteen digits reach
`tmp`, and the write is refused. -/
theorem group_write_long_id (gid : Nat) (s : State) :
    dazukofs_group_write true gid (verdict_text 18446744071562067968 0) s = (s, -EINVAL) := by
  rfl

/-! ## The listing of the groups -/

/-- The first loop of `dazukofs_get_groups` adds up the sizes of the lines. -/
theorem get_groups_buflen_eq : ∀ (gl : List dazukofs_group) (b : Nat),
    gl.foldl (fun buflen grp => if grp.deprecated = 0 then buflen + (grp.name.length + 3)
      else buflen) b = b + listing_size gl := by
  intro gl
  induction gl with
  | nil => intro b; simp [listing_size]
  | cons g rest ih =>
    intro b
    rw [List.foldl_cons, ih]
    by_cases hd : g.deprecated = 0
    · simp [listing_size, hd]; omega
    · simp [listing_size, hd]

/-- The line of a group with a one-digit id. -/
theorem group_line_eq (g : dazukofs_group) :
    group_line g
      = (Nat.repr g.group_id).toList ++ ":".toList ++ g.name.toList ++ "\n".toList := by
  have h1 : ":".toList = [Char.ofNat 58] := by decide
  have h2 : "\n".toList = [NL] := by decide
  rw [h1, h2]
  rfl

theorem group_line_length (g : dazukofs_group) (hid : g.group_id < 10) :
    (group_line g).length = g.name.length + 3 := by
  have h : (fmt_lu g.group_id).length = 1 := by
    have : ∀ k : Nat, k < 10 → (fmt_lu k).length = 1 := by
      intro k hk
      interval_cases k <;> rfl
    exact this _ hid
  have hn : g.name.toList.length = g.name.length := rfl
  simp only [group_line, List.length_append, h, List.length_singleton, hn]
  omega

/-- The listing of the spec, group by group. -/
theorem groups_listing_cons (g : dazukofs_group) (rest : List dazukofs_group) :
    groups_listing (g :: rest)
      = if g.deprecated = 0 then group_line g ++ groups_listing rest
        else groups_listing rest := by
  by_cases hd : g.deprecated = 0
  · simp [groups_listing, hd, group_line_eq]
  · simp [groups_listing, hd]

theorem listing_size_cons (g : dazukofs_group) (rest : List dazukofs_group) :
    listing_size (g :: rest)
      = if g.deprecated = 0 then g.name.length + 3 + listing_size rest
        else listing_size rest := by
  by_cases hd : g.deprecated = 0
  · simp [listing_size, hd]
  · simp [listing_size, hd]

/-- The length of the listing when the ids have one digit. -/
theorem groups_listing_length : ∀ gl : List dazukofs_group,
    (∀ g ∈ nondep gl, g.group_id < 10) →
    (groups_listing gl).length = listing_size gl := by
  intro gl
  induction gl with
  | nil => intro _; rfl
  | cons g rest ih =>
    intro h
    rw [groups_listing_cons, listing_size_cons]
    by_cases hd : g.deprecated = 0
    · have hg : g ∈ nondep (g :: rest) := by simp [nondep, hd]
      have hrest : ∀ x ∈ nondep rest, x.group_id < 10 := by
        intro x hx
        apply h
        simp only [nondep, List.mem_filter, List.mem_cons] at hx ⊢
        exact ⟨Or.inr hx.1, hx.2⟩
      rw [if_pos hd, if_pos hd, List.length_append, group_line_length g (h g hg), ih hrest]
    · have hrest : ∀ x ∈ nondep rest, x.group_id < 10 := by
        intro x hx
        apply h
        simp only [nondep, List.mem_filter, List.mem_cons] at hx ⊢
        exact ⟨Or.inr hx.1, hx.2⟩
      rw [if_neg hd, if_neg hd, ih hrest]

/-- A `snprintf` of a text that fits, at the end of what was written into
zero-filled memory. -/
theorem snprintf_fits (written text : List Char) (allocsize size : Nat)
    (hfit : text.length < size) (hroom : written.length + size ≤ allocsize) :
    (snprintf (written ++ List.replicate (allocsize - written.length) NUL) written.length size
        text).1
      = (written ++ text)
          ++ List.replicate (allocsize - (written ++ text).length) NUL := by
  unfold snprintf
  rw [if_neg (by omega)]
  simp only []
  rw [List.take_left, List.take_of_length_le (by omega)]
  have hdrop : (written ++ List.replicate (allocsize - written.length) NUL).drop
      (written.length + (text ++ [NUL]).length)
      = List.replicate (allocsize - written.length - (text.length + 1)) NUL := by
    have : written.length + (text ++ [NUL]).length
        = written.length + (text.length + 1) := by simp
    rw [this, ← List.drop_drop, List.drop_left, List.drop_replicate]
  rw [hdrop]
  have hk : allocsize - (written ++ text).length
      = (allocsize - written.length - (text.length + 1)) + 1 := by
    simp only [List.length_append]; omega
  rw [hk, List.replicate_succ]
  simp

/-- The second loop of `dazukofs_get_groups` writes the listing. -/
theorem get_groups_fill_spec (allocsize : Nat) : ∀ (gl : List dazukofs_group)
    (written : List Char),
    (∀ g ∈ nondep gl, g.group_id < 10) →
    written.length + listing_size gl + 2 ≤ allocsize →
    get_groups_fill allocsize gl
        (written ++ List.replicate (allocsize - written.length) NUL) written.length
      = ((written ++ groups_listing gl)
          ++ List.replicate (allocsize - (written ++ groups_listing gl).length) NUL,
         written.length + listing_size gl) := by
  intro gl
  induction gl with
  | nil =>
    intro written _ _
    simp [get_groups_fill, groups_listing, listing_size]
  | cons g rest ih =>
    intro written h hsz
    have hrest : ∀ x ∈ nondep rest, x.group_id < 10 := by
      intro x hx
      apply h
      simp only [nondep, List.mem_filter, List.mem_cons] at hx ⊢
      exact ⟨Or.inr hx.1, hx.2⟩
    rw [listing_size_cons] at hsz
    unfold get_groups_fill
    rw [groups_listing_cons, listing_size_cons]
    by_cases hd : g.deprecated = 0
    · have hg : g ∈ nondep (g :: rest) := by simp [nondep, hd]
      have hl := group_line_length g (h g hg)
      rw [if_pos hd] at hsz
      rw [if_pos hd, if_pos hd, if_pos hd,
        snprintf_fits written (group_line g) allocsize _ (by omega) (by omega)]
      have hlen : (written ++ group_line g).length = written.length + (g.name.length + 3) := by
        rw [List.length_append, hl]
      rw [← hlen, ih (written ++ group_line g) hrest (by rw [hlen]; omega), hlen]
      simp only [List.append_assoc, Prod.mk.injEq, true_and]
      omega
    · rw [if_neg hd] at hsz
      rw [if_neg hd, if_neg hd, if_neg hd]
      exact ih written hrest hsz

/-- The retry loop of `dazukofs_get_groups` ends: with -ENOMEM when an
allocation fails, and otherwise with a buffer that is longer than `buflen`. -/
theorem get_groups_try_spec (kzalloc_ok : Nat → Bool) (gl : List dazukofs_group) :
    ∀ fuel allocsize : Nat, 1 ≤ allocsize → 1 ≤ fuel →
      get_groups_buflen gl + 2 ≤ allocsize + fuel →
      ((∃ a : Nat, kzalloc_ok a = false) ∧
        get_groups_try kzalloc_ok gl fuel allocsize = some (none, -ENOMEM)) ∨
      ∃ a : Nat, get_groups_buflen gl < a ∧ kzalloc_ok a = true ∧
        get_groups_try kzalloc_ok gl fuel allocsize
          = some (some (get_groups_fill a gl (List.replicate a NUL) 0).1, 0) := by
  intro fuel
  induction fuel with
  | zero => intro a _ h _; omega
  | succ fuel ih =>
    intro a ha _ hb
    unfold get_groups_try
    by_cases hk : kzalloc_ok a = true
    · rw [if_pos hk]
      by_cases hlt : get_groups_buflen gl < a
      · rw [if_pos hlt]
        exact Or.inr ⟨a, hlt, hk, rfl⟩
      · rw [if_neg hlt]
        exact ih (a * 2) (by omega) (by omega) (by omega)
    · rw [if_neg hk]
      exact Or.inl ⟨⟨a, by simpa using hk⟩, rfl⟩

/-- Function `dazukofs_get_groups` always returns; when the ids have one
digit and no allocation fails, the buffer holds the listing and is zero behind
it. -/
theorem get_groups_total (kzalloc_ok : Nat → Bool) (s : State)
    (hid : ∀ g ∈ nondep s.group_list, g.group_id < 10) :
    ((∃ a : Nat, kzalloc_ok a = false) ∧
      dazukofs_get_groups kzalloc_ok s = some (none, -ENOMEM)) ∨
    ∃ k : Nat, 0 < k ∧
      dazukofs_get_groups kzalloc_ok s
        = some (some (groups_listing s.group_list ++ List.replicate k NUL), 0) := by
  unfold dazukofs_get_groups
  rcases get_groups_try_spec kzalloc_ok s.group_list (get_groups_buflen s.group_list + 1) 256
      (by omega) (by omega) (by omega) with h | ⟨a, ha, _, h⟩
  · exact Or.inl h
  · right
    have hb : get_groups_buflen s.group_list = 1 + listing_size s.group_list :=
      get_groups_buflen_eq s.group_list 1
    have hfill := get_groups_fill_spec a s.group_list [] hid (by simp; omega)
    simp only [List.nil_append, List.length_nil, Nat.sub_zero, Nat.zero_add] at hfill
    refine ⟨a - (groups_listing s.group_list).length, ?_, ?_⟩
    · rw [groups_listing_length s.group_list hid]; omega
    · rw [h, hfill]

/-- A C string followed by zeros reads back as itself. -/
theorem cstr_append_nul (text : List Char) (k : Nat) (hk : 0 < k) (h : NUL ∉ text) :
    cstr (text ++ List.replicate k NUL) = text := by
  unfold cstr
  obtain ⟨j, rfl⟩ : ∃ j, k = j + 1 := ⟨k - 1, by omega⟩
  rw [List.replicate_succ, List.takeWhile_append_of_pos]
  · simp [List.takeWhile]
  · intro c hc
    simp only [decide_eq_true_eq]
    intro hcn
    exact h (hcn ▸ hc)

/-- When no allocation fails, `dazukofs_get_groups` returns the listing. -/
theorem get_groups_all_ok (kzalloc_ok : Nat → Bool) (s : State)
    (hid : ∀ g ∈ nondep s.group_list, g.group_id < 10) (hk : ∀ n, kzalloc_ok n = true) :
    ∃ k : Nat, 0 < k ∧
      dazukofs_get_groups kzalloc_ok s
        = some (some (groups_listing s.group_list ++ List.replicate k NUL), 0) := by
  rcases get_groups_total kzalloc_ok s hid with ⟨⟨a, ha⟩, _⟩ | h
  · rw [hk a] at ha
    exact absurd ha (by decide)
  · exact h

/-- The listing holds no NUL when the names hold none. -/
theorem groups_listing_no_nul : ∀ gl : List dazukofs_group,
    (∀ g ∈ nondep gl, NUL ∉ g.name.toList) → NUL ∉ groups_listing gl := by
  intro gl
  induction gl with
  | nil => intro _; simp [groups_listing]
  | cons g rest ih =>
    intro h
    have hrest : ∀ x ∈ nondep rest, NUL ∉ x.name.toList := by
      intro x hx
      apply h
      simp only [nondep, List.mem_filter, List.mem_cons] at hx ⊢
      exact ⟨Or.inr hx.1, hx.2⟩
    rw [groups_listing_cons]
    by_cases hd : g.deprecated = 0
    · have hg : g ∈ nondep (g :: rest) := by simp [nondep, hd]
      rw [if_pos hd]
      intro hm
      rcases List.mem_append.mp hm with hm | hm
      · simp only [group_line, List.mem_append, List.mem_singleton] at hm
        rcases hm with ((hm | hm) | hm) | hm
        · have := (fmt_lu_spec g.group_id).2.1 NUL hm
          exact absurd this (by decide)
        · exact absurd hm (by decide)
        · exact h g hg hm
        · exact absurd hm (by decide)
      · exact ih hrest hm
    · rw [if_neg hd]
      exact ih hrest

/-! ## Reading the control device -/

/-- A read on a file that holds its listing: the characters from the
position on, at most as many as the buffer takes. -/
theorem ctrl_read_snapshot (kzalloc_ok : Nat → Bool) (n pos : Nat) (buf : List Char)
    (s : State) :
    dazukofs_ctrl_read kzalloc_ok true n pos { private_data := some buf } s
      = some ({ private_data := some buf }, ((min n ((cstr buf).length - pos) : Nat) : Int),
          ((cstr buf).drop pos).take n, pos + min n ((cstr buf).length - pos)) := by
  have hpre : ∃ rest, buf = cstr buf ++ rest :=
    ⟨buf.dropWhile (fun c => decide (c ≠ NUL)), (List.takeWhile_append_dropWhile _ buf).symm⟩
  obtain ⟨rest, hrest⟩ := hpre
  unfold dazukofs_ctrl_read
  simp only [if_true]
  by_cases hp : pos ≥ (cstr buf).length
  · rw [if_pos hp]
    have h0 : (cstr buf).length - pos = 0 := by omega
    rw [h0, List.drop_of_length_le hp]
    simp
  · rw [if_neg hp]
    have hmin : (if n > (cstr buf).length - pos then (cstr buf).length - pos else n)
        = min n ((cstr buf).length - pos) := by
      split_ifs <;> omega
    rw [hmin]
    have hbytes : (buf.drop pos).take (min n ((cstr buf).length - pos))
        = ((cstr buf).drop pos).take n := by
      generalize hc : cstr buf = c at hrest hp ⊢
      rw [hrest, List.drop_append_of_le_length (by omega),
        List.take_append_of_le_length (by rw [List.length_drop]; omega)]
      rw [List.take_eq_take]
      rw [List.length_drop]
      omega
    rw [hbytes]

/-- The first read on a file takes the listing. -/
theorem ctrl_read_first (kzalloc_ok : Nat → Bool) (n pos : Nat) (buf : List Char) (s : State)
    (hget : dazukofs_get_groups kzalloc_ok s = some (some buf, 0)) :
    dazukofs_ctrl_read kzalloc_ok true n pos dazukofs_ctrl_open s
      = dazukofs_ctrl_read kzalloc_ok true n pos { private_data := some buf } s := by
  unfold dazukofs_ctrl_read dazukofs_ctrl_open
  simp only [hget]

/-- Successive reads on a file that holds its listing. -/
theorem ctrl_reads_snapshot (kzalloc_ok : Nat → Bool) (buf : List Char) :
    ∀ (reads : List (Nat × State)) (pos : Nat), pos ≤ (cstr buf).length →
      ctrl_reads kzalloc_ok reads pos { private_data := some buf }
        = some (((cstr buf).drop pos).take (reads.map Prod.fst).sum,
                min (pos + (reads.map Prod.fst).sum) (cstr buf).length,
                { private_data := some buf }) := by
  intro reads
  induction reads with
  | nil => intro pos hp; simp [ctrl_reads]; omega
  | cons r rest ih =>
    intro pos hp
    obtain ⟨n, s⟩ := r
    unfold ctrl_reads
    rw [ctrl_read_snapshot]
    simp only []
    rw [ih _ (by omega)]
    simp only [List.map_cons, List.sum_cons, Option.some.injEq, Prod.mk.injEq, and_true]
    constructor
    · rw [List.take_add]
      congr 1
      rw [List.drop_drop]
      by_cases hn : n ≤ (cstr buf).length - pos
      · rw [Nat.min_eq_left hn]
      · rw [Nat.min_eq_right (by omega)]
        rw [List.drop_of_length_le (by omega), List.drop_of_length_le (by omega)]
    · omega

/-! ## The lock regions of the blocking calls -/

/-- The pointer that `get_event_enter` returns points to the group it found. -/
theorem group_at_split (s : State) (pre post : List dazukofs_group) (g : dazukofs_group)
    (h : s.group_list = pre ++ g :: post) : group_at s pre.length = g := by
  unfold group_at
  rw [h, List.getElem?_append_right (le_refl _)]
  simp

theorem with_group_split (s : State) (pre post : List dazukofs_group) (g : dazukofs_group)
    (f : dazukofs_group → dazukofs_group) (h : s.group_list = pre ++ g :: post) :
    with_group pre.length f s = { s with group_list := pre ++ f g :: post } := by
  unfold with_group
  rw [h, modify_at_split]

/-- The call `dazukofs_get_event` as one step is its lock regions run one
after the other. -/
theorem get_event_regions_eq (env : OpenEnv) (cur gid : Nat) (s : State) :
    dazukofs_get_event env cur gid s = get_event_regions env cur gid s := by
  unfold get_event_regions get_event_enter
  cases hf : list_find (is_group gid) s.group_list with
  | none => rw [get_event_not_found hf]
  | some r =>
    obtain ⟨pre, grp, post⟩ := r
    have hsplit := (list_find_some hf).1
    have hd : grp.deprecated = 0 := is_group_nondep (list_find_some hf).2.1
    have hg : ∃ g1 : dazukofs_group, g1 = dazukofs_group.mk grp.name grp.group_id
        grp.todo_list grp.working_list (grp.use_count + 1) grp.tracking grp.track_count
        grp.deprecated := ⟨_, rfl⟩
    obtain ⟨g1, hg1⟩ := hg
    have hs1 : ∃ s1 : State, s1 = { s with group_list := pre ++ g1 :: post } := ⟨_, rfl⟩
    obtain ⟨s1, hs1e⟩ := hs1
    have hs1l : s1.group_list = pre ++ g1 :: post := by rw [hs1e]
    have hback : dazukofs_group.mk g1.name g1.group_id g1.todo_list g1.working_list
        (g1.use_count - 1) g1.tracking g1.track_count g1.deprecated = grp := by
      rw [hg1]
      cases grp
      simp
    simp only
    rw [← hg1, ← hs1e]
    unfold get_event_round
    rw [group_at_split s1 pre post g1 hs1l]
    cases ht : grp.todo_list with
    | nil =>
      have ha : is_event_available g1 = 0 := by simp [is_event_available, hg1, ht]
      have hd1 : g1.deprecated = 0 := by rw [hg1]; exact hd
      rw [get_event_empty hf ht]
      simp only [ha, hd1, and_self, if_true]
      by_cases hsig : env.signal = true
      · simp only [hsig, if_true]
        rw [with_group_split s1 pre post g1 _ hs1l, hback, hs1e]
        simp only [← hsplit]
      · simp only [hsig, if_false]
        rfl
    | cons ec rest =>
      have ha : is_event_available g1 ≠ 0 := by simp [is_event_available, hg1, ht]
      have hd1 : g1.deprecated = 0 := by rw [hg1]; exact hd
      have hc : claim_event g1
          = ({ g1 with todo_list := rest, working_list := ec :: g1.working_list }, some ec) := by
        simp [claim_event, hg1, ht]
      simp only [ha, false_and, if_false, hd1, ne_eq, not_true_eq_false, hc]
      rw [with_group_split s1 pre post g1 _ hs1l]
      unfold dazukofs_get_event get_event_leave
      rw [hf]
      simp only [is_event_available, ht, ne_eq, reduceCtorEq, not_false_eq_true, if_true,
        one_ne_zero, if_false, claim_event]
      rw [hs1e, hg1]
      simp only [hd]

/-- The call `dazukofs_check_access` as one step is its two parts run one
after the other. -/
theorem check_access_regions_eq (evt_ok : Bool) (ec_fail : Option Nat) (cur dentry : Nat)
    (s : State) :
    dazukofs_check_access evt_ok ec_fail cur dentry s
      = check_access_regions evt_ok ec_fail cur dentry s := by
  unfold dazukofs_check_access check_access_regions check_access_allocate check_access_assign
  by_cases hp : (check_access_precheck cur s.group_count s).2 ≠ 0
  · simp only [hp, ne_eq, not_false_eq_true, if_true]
  · simp only [hp, if_false]
    cases ha : (allocate_event_and_containers evt_ok ec_fail
        (check_access_precheck cur s.group_count s).1.group_count
        (check_access_precheck cur s.group_count s).1).2.1 with
    | none => rfl
    | some r =>
      obtain ⟨e, ec_array⟩ := r
      simp only
      split <;> rfl

/-! ## The claims -/

/-- C1.  Let `dazukofs_check_access` fan an event out to the `N`
non-deprecated groups (it is then blocked in `wait_event` on the event at
`e`), and let any sequence of calls follow in which the initiator does not
return.  The verdicts delivered for the event by `dazukofs_return_event` are
ALLOW or DENY.  If the wait condition `event_assigned(evt) == 0` holds
afterwards, or (from a reachable state) `N` verdicts were delivered for the
event, `dazukofs_check_access` returns, with `-EPERM` if one of the verdicts
was DENY and with 0 if all were ALLOW, whatever their order: a later ALLOW
does not clear an earlier DENY. -/
theorem C1_deny_is_sticky (evt_ok : Bool) (ec_fail : Option Nat) (cur dentry : Nat)
    (s s1 : State) (e : Nat) (ops : List Op)
    (hfan : dazukofs_check_access evt_ok ec_fail cur dentry s = (s1, Outcome.waiting e))
    (hwait : e ∈ (run s1 ops).waiters)
    (hdone : event_assigned (run s1 ops) e = 0 ∨
      (Reachable s ∧ (verdicts e s1 ops).length = (nondep s.group_list).length)) :
    (∀ v ∈ verdicts e s1 ops,
      v = dazukofs_response_t.ALLOW ∨ v = dazukofs_response_t.DENY) ∧
    ∃ s3, dazukofs_check_access_resume e (run s1 ops)
      = some (s3, if dazukofs_response_t.DENY ∈ verdicts e s1 ops then -EPERM else 0) := by
  obtain ⟨_, he, hev, _⟩ := fan_out_event hfan
  obtain ⟨_, hass, hdeny⟩ := run_event ops s1 e he
  have h0 : (evt_at s1 e).deny = 0 := by rw [hev]; rfl
  have hzero : event_assigned (run s1 ops) e = 0 := by
    rcases hdone with h | ⟨hr, hn⟩
    · exact h
    · have h1 := verdicts_le_releases e ops s1
      have h2 := releases_in_le hr hfan ops
      have h3 : event_assigned s1 e = ((nondep s.group_list).length : Int) := by
        unfold event_assigned; rw [hev]; rfl
      rw [hass, h3]
      omega
  refine ⟨fun v hv => ?_, ?_⟩
  · have := verdicts_not_repost e ops s1 v hv
    cases v with
    | ALLOW => exact Or.inl rfl
    | DENY => exact Or.inr rfl
    | REPOST => exact absurd rfl this
  · have key : (if (evt_at (run s1 ops) e).deny ≠ 0 then -EPERM else 0)
        = (if dazukofs_response_t.DENY ∈ verdicts e s1 ops then -EPERM else (0 : Int)) := by
      by_cases hd : dazukofs_response_t.DENY ∈ verdicts e s1 ops
      · have : (evt_at (run s1 ops) e).deny ≠ 0 := hdeny.mpr (Or.inr hd)
        simp [hd, this]
      · have : ¬ (evt_at (run s1 ops) e).deny ≠ 0 := by
          rw [hdeny]; simp [h0, hd]
        simp only [ne_eq, not_not] at this
        simp [hd, this]
    rw [resume_some ⟨hwait, hzero⟩, key]
    exact ⟨_, rfl⟩

theorem C1_deny_is_sticky_witness :
    ∃ s3, dazukofs_check_access_resume 0
        (run (dazukofs_check_access true none 100 7 two_groups).1 deny_then_allow)
      = some (s3, if dazukofs_response_t.DENY ∈
            verdicts 0 (dazukofs_check_access true none 100 7 two_groups).1 deny_then_allow
          then -EPERM else 0) :=
  (C1_deny_is_sticky true none 100 7 two_groups
    (dazukofs_check_access true none 100 7 two_groups).1 0 deny_then_allow
    (Prod.ext rfl (by decide)) (by decide)
    (Or.inr ⟨⟨[Op.add_group true "av" 0, Op.add_group true "dlp" 0], rfl⟩, by decide⟩)).2

/-- C2 (the code departs from it).  One group "av" and one pending access:
the event at address 0 has `assigned` = 1 and one container on the todo list.
The policy process 300 enters `dazukofs_get_event`, claims the container, and
`open_file` fails with -EACCES.  While the process holds no lock the group is
removed: the working list is drained, `assigned` becomes 0 and no container is
linked.  The process then goes on with `unclaim_event(grp, ec)`, which puts
the container on the todo list of the removed group: `assigned` is 0 and one
linked container points to the event.  The initiator, whose wait ended with
the removal, then releases the event, and the container still points to it. -/
theorem C2_unclaim_after_removal :
    event_assigned one_group_pending 0 = 1 ∧ refs 0 one_group_pending.group_list = 1 ∧
    (get_event_enter 0 one_group_pending).2 = some 0 ∧
    (get_event_round env_open_fails 0 (get_event_enter 0 one_group_pending).1).2
      = ClaimResult.claimed pending_container ∧
    (open_file env_open_fails 300 0 pending_container
      (get_event_round env_open_fails 0 (get_event_enter 0 one_group_pending).1).1).2 = -13 ∧
    event_assigned removed_during_open 0 = 0 ∧ refs 0 removed_during_open.group_list = 0 ∧
    (get_event_leave env_open_fails 0 pending_container (-13) removed_during_open).2
      = GetResult.error (-13) ∧
    event_assigned unclaimed_after_removal 0 = 0 ∧
    refs 0 unclaimed_after_removal.group_list = 1 ∧
    queues_view unclaimed_after_removal = [([{ event := 0, fd := 5 }], [])] ∧
    (dazukofs_check_access_resume 0 unclaimed_after_removal).map
        (fun r => (r.2, r.1.freed, refs 0 r.1.group_list)) = some (0, [0], 1) := by
  decide

/-- C3.  After a fan-out to the `N` non-deprecated groups the event has
`assigned = N`, and after any sequence of calls `assigned` is `N` minus the
number of container releases made for the event, a release being a
`dazukofs_return_event` other than REPOST that picks a container of the event,
or a container of the event dropped by the removal of its group.  So the wait
condition `event_assigned(evt) == 0` holds exactly when `N` releases were
made: it is false after fewer, REPOST is not a release, and from a reachable
state there are never more than `N` releases. -/
theorem C3_wait_ends_after_N_releases (evt_ok : Bool) (ec_fail : Option Nat)
    (cur dentry : Nat) (s s1 : State) (e : Nat) (ops : List Op)
    (hfan : dazukofs_check_access evt_ok ec_fail cur dentry s = (s1, Outcome.waiting e)) :
    event_assigned s1 e = ((nondep s.group_list).length : Int) ∧
    event_assigned (run s1 ops) e
      = ((nondep s.group_list).length : Int) - (releases_in e s1 ops : Nat) ∧
    (event_assigned (run s1 ops) e = 0 ↔
      releases_in e s1 ops = (nondep s.group_list).length) ∧
    (Reachable s → releases_in e s1 ops ≤ (nondep s.group_list).length) := by
  obtain ⟨_, he, hev, _⟩ := fan_out_event hfan
  obtain ⟨_, hass, _⟩ := run_event ops s1 e he
  have h0 : event_assigned s1 e = ((nondep s.group_list).length : Int) := by
    unfold event_assigned; rw [hev]; rfl
  refine ⟨h0, by rw [hass, h0], ?_, fun hr => releases_in_le hr hfan ops⟩
  rw [hass, h0]
  constructor
  · intro h; omega
  · intro h; omega

theorem C3_wait_ends_after_N_releases_witness :
    event_assigned (run (dazukofs_check_access true none 100 7 two_groups).1 deny_then_allow) 0
        = 0 ↔
      releases_in 0 (dazukofs_check_access true none 100 7 two_groups).1 deny_then_allow
        = (nondep two_groups.group_list).length :=
  (C3_wait_ends_after_N_releases true none 100 7 two_groups
    (dazukofs_check_access true none 100 7 two_groups).1 0 deny_then_allow
    (Prod.ext rfl (by decide))).2.2.1

/-- C4.  Take an event that is not deprecated and any sequence of
`release_event` calls that contains exactly one initiator call
(`decrement_assigned = 0`) and as many container calls
(`decrement_assigned != 0`) as the event's `assigned`, in any order and with
any `deny` arguments.  Then the last call, and no earlier one, sets
`free_event`: the event is freed exactly once, by whichever call comes last. -/
theorem C4_release_event_frees_once (evt : dazukofs_event) (calls : List (Int × Int))
    (hdep : evt.deprecated = 0)
    (hinit : calls.countP (fun c => decide (c.1 = 0)) = 1)
    (hassigned : evt.assigned = (calls.countP (fun c => !decide (c.1 = 0)) : Nat)) :
    release_seq evt calls = List.replicate (calls.length - 1) 0 ++ [1] :=
  release_seq_last_frees calls evt hdep hinit hassigned

theorem C4_release_event_frees_once_witness :
    release_seq { zero_event with assigned := 2 } [(1, 0), (0, 0), (1, 1)] = [0, 0, 1] :=
  C4_release_event_frees_once { zero_event with assigned := 2 } [(1, 0), (0, 0), (1, 1)]
    (by decide) (by decide) (by decide)

/-- C5.  In a reachable state, when `dazukofs_check_access` fans out (a group
exists, the process is neither masked nor ignored, the allocations succeed),
it blocks on a new event, appends exactly one container for that event at the
tail of the todo list of every non-deprecated group, leaves the deprecated
groups as they are, and sets the event's `assigned` to the number of
non-deprecated groups.  After `dazukofs_remove_group(name)` the non-deprecated
groups are those of before without the group called `name`, and a fan-out
from that state reaches exactly them. -/
theorem C5_fan_out_reaches_live_groups (s : State) (hr : Reachable s)
    (ec_fail : Option Nat) (cur dentry : Nat) :
    (fan_out_ok ec_fail cur s → fans_out ec_fail cur dentry s) ∧
    ∀ name : String,
      nondep (dazukofs_remove_group name s).1.group_list
        = (nondep s.group_list).filter (fun g => decide (g.name ≠ name)) ∧
      (fan_out_ok ec_fail cur (dazukofs_remove_group name s).1 →
        fans_out ec_fail cur dentry (dazukofs_remove_group name s).1) := by
  refine ⟨fan_out_of_rinv (reachable_rinv hr), fun name => ?_⟩
  refine ⟨remove_group_nondep (reachable_rinv hr) name, ?_⟩
  exact fan_out_of_rinv (reachable_rinv (reachable_step hr (Op.remove_group name)))

theorem C5_fan_out_reaches_live_groups_witness :
    fans_out none 100 7 two_groups :=
  (C5_fan_out_reaches_live_groups two_groups
    ⟨[Op.add_group true "av" 0, Op.add_group true "dlp" 0], rfl⟩ none 100 7).1
    ⟨by decide,
     by rintro ⟨a, ha, _⟩
        rw [show two_groups.proc_list = [] from by decide] at ha
        exact absurd ha (List.not_mem_nil a),
     by decide, by simp⟩

/-- C6 (as amended).  `dazukofs_check_access` returns 0 without allocating an
event, without consuming an event id and without touching any group (the state
changes at most in the recursion mask) whenever `group_count` is 0 (in a
reachable state: whenever there is no non-deprecated group), or the current
process has an entry in the recursion mask, or it is in the ignore registry.
When at least one group is counted and the process has a mask entry, its first
entry is unlinked and its `within_list` cleared; when `group_count` is 0 or the
process has no entry, the state is left exactly as it was. -/
theorem C6_check_access_short_circuit (evt_ok : Bool) (ec_fail : Option Nat)
    (cur dentry : Nat) (s : State)
    (h : s.group_count = 0 ∨ (Reachable s ∧ nondep s.group_list = []) ∨ masked cur s ∨
      cur ∈ s.ign_list) :
    (dazukofs_check_access evt_ok ec_fail cur dentry s).2 = Outcome.returned 0 ∧
    same_but_mask s (dazukofs_check_access evt_ok ec_fail cur dentry s).1 ∧
    ((s.group_count = 0 ∨ ¬ masked cur s) →
      (dazukofs_check_access evt_ok ec_fail cur dentry s).1 = s) ∧
    (s.group_count ≠ 0 → masked cur s →
      ∃ pre a post, s.proc_list = pre ++ a :: post ∧ (proc_at s a).proc_id = cur ∧
        (∀ b ∈ pre, (proc_at s b).proc_id ≠ cur) ∧
        (dazukofs_check_access evt_ok ec_fail cur dentry s).1.proc_list = pre ++ post ∧
        (dazukofs_check_access evt_ok ec_fail cur dentry s).1.procs
          = s.procs.set a { proc_at s a with within_list := 0 }) := by
  have h2 : s.group_count = 0 ∨ masked cur s ∨ cur ∈ s.ign_list := by
    rcases h with h | ⟨hr, hn⟩ | h | h
    · exact Or.inl h
    · left
      have := (reachable_rinv hr).1
      rw [hn] at this
      simpa using this
    · exact Or.inr (Or.inl h)
    · exact Or.inr (Or.inr h)
  have hne : (check_access_precheck cur s.group_count s).2 ≠ 0 := by
    unfold check_access_precheck
    by_cases h0 : s.group_count = 0
    · simp [h0]
    · by_cases hm : masked cur s
      · obtain ⟨pre, a, post, _, _, _, hc⟩ := check_recursion_masked hm
        simp [h0, hc]
      · have hi : cur ∈ s.ign_list := by
          rcases h2 with h | h | h
          · exact absurd h h0
          · exact absurd h hm
          · exact h
        simp [h0, check_recursion_not_masked hm, check_ignore_eq, hi]
  rw [check_access_of_precheck_ne hne]
  refine ⟨rfl, precheck_frame _ _ _, ?_, ?_⟩
  · intro hc
    unfold check_access_precheck
    by_cases h0 : s.group_count = 0
    · simp [h0]
    · have hm : ¬ masked cur s := by
        rcases hc with hc | hc
        · exact absurd hc h0
        · exact hc
      simp only [h0, if_false, check_recursion_not_masked hm]
      split_ifs <;> rfl
  · intro h0 hm
    obtain ⟨pre, a, post, h1, h2, h3, hc⟩ := check_recursion_masked hm
    refine ⟨pre, a, post, h1, h2, h3, ?_, ?_⟩ <;>
    · unfold check_access_precheck
      simp [h0, hc]

theorem C6_check_access_short_circuit_witness :
    (dazukofs_check_access true none 7 0 one_group).2 = Outcome.returned 0 ∧
    (dazukofs_check_access true none 7 0 one_group).1.proc_list = [] :=
  ⟨(C6_check_access_short_circuit true none 7 0 one_group
      (Or.inr (Or.inr (Or.inl ⟨0, by decide, by decide⟩)))).1, by decide⟩

/-- C6, counterexample to the claim as stated: with no group, a process that
has an entry in the recursion mask gets 0, but its entry is not removed. -/
theorem C6_counterexample :
    masked 7 masked_no_group ∧
    (dazukofs_check_access true none 7 0 masked_no_group).2 = Outcome.returned 0 ∧
    (dazukofs_check_access true none 7 0 masked_no_group).1.proc_list = [0] ∧
    masked 7 (dazukofs_check_access true none 7 0 masked_no_group).1 :=
  ⟨⟨0, by decide, by decide⟩, by decide, by decide, ⟨0, by decide, by decide⟩⟩

/-- C7.  When the precheck lets the access through (there is a group, the
process is neither masked nor ignored) and the allocation of the event or of
one of the `group_count` containers fails, `dazukofs_check_access` returns
`-ENOMEM`, which is not 0, and leaves `last_event_id`, every group (so every
todo and working list), `group_count`, the recursion mask and the waiters as
they were. -/
theorem C7_check_access_enomem (evt_ok : Bool) (ec_fail : Option Nat) (cur dentry : Nat)
    (s : State) (h0 : s.group_count ≠ 0) (hm : ¬ masked cur s) (hi : cur ∉ s.ign_list)
    (hfail : evt_ok = false ∨ ∃ i : Nat, ec_fail = some i ∧ (i : Int) < s.group_count) :
    (dazukofs_check_access evt_ok ec_fail cur dentry s).2 = Outcome.returned (-ENOMEM) ∧
    Outcome.returned (-ENOMEM) ≠ Outcome.returned 0 ∧
    (dazukofs_check_access evt_ok ec_fail cur dentry s).1.last_event_id = s.last_event_id ∧
    (dazukofs_check_access evt_ok ec_fail cur dentry s).1.group_list = s.group_list ∧
    (dazukofs_check_access evt_ok ec_fail cur dentry s).1.group_count = s.group_count ∧
    (dazukofs_check_access evt_ok ec_fail cur dentry s).1.proc_list = s.proc_list ∧
    (dazukofs_check_access evt_ok ec_fail cur dentry s).1.waiters = s.waiters := by
  obtain ⟨h1, h2, h3⟩ := @check_access_alloc_fail _ _ _ dentry _ (precheck_pass h0 hm hi) hfail
  obtain ⟨g1, g2, g3, _, _, _, g7⟩ := h2
  exact ⟨h1, by decide, g3, g1, g2, h3, g7⟩

theorem C7_check_access_enomem_witness :
    (dazukofs_check_access true (some 0) 5 0 one_group).2 = Outcome.returned (-ENOMEM) :=
  (C7_check_access_enomem true (some 0) 5 0 one_group (by decide)
    (by rintro ⟨a, ha, hc⟩; simp [one_group, init] at ha; subst ha; revert hc; decide)
    (by decide) (Or.inr ⟨0, rfl, by decide⟩)).1

/-- C9.  For every state and every name held by a non-deprecated group,
`dazukofs_add_group(name, track)` returns 0 and creates no group: the
non-deprecated groups are the same, in the same order, with the same ids and
names, `group_count` is unchanged, and the only change is that the first group
of that name has `tracking = 1` when `track` is set (`mark_tracking`).  Hence,
from a reachable state, an add that returns 0 followed by a second add of the
same name leaves exactly one non-deprecated group of that name. -/
theorem C9_add_existing_is_idempotent (alloc_ok : Bool) (name : String) (track : Int)
    (s : State) :
    ((∃ g ∈ nondep s.group_list, g.name = name) →
      ∃ s2, dazukofs_add_group alloc_ok name track s = some (s2, 0) ∧
        nondep s2.group_list = mark_tracking name track (nondep s.group_list) ∧
        (nondep s2.group_list).length = (nondep s.group_list).length ∧
        (nondep s2.group_list).map (fun g => (g.group_id, g.name))
          = (nondep s.group_list).map (fun g => (g.group_id, g.name)) ∧
        s2.group_count = s.group_count ∧
        (track = 0 → nondep s2.group_list = nondep s.group_list)) ∧
    (Reachable s → ∀ s1, dazukofs_add_group alloc_ok name track s = some (s1, 0) →
      ∀ (alloc2 : Bool) (track2 : Int),
        ∃ s2, dazukofs_add_group alloc2 name track2 s1 = some (s2, 0) ∧
          ((nondep s2.group_list).map (fun g => g.name)).count name = 1) := by
  constructor
  · intro h
    obtain ⟨s2, h1, h2, h3, _⟩ := add_group_existing alloc_ok name track s h
    refine ⟨s2, h1, h2, ?_, ?_, h3, ?_⟩
    · rw [h2, mark_tracking_length]
    · rw [h2, mark_tracking_map_id_name]
    · intro ht; rw [h2, ht, mark_tracking_zero]
  · intro hr s1 hadd alloc2 track2
    have hr1 : RInv s1 := by
      have := step_rinv s (Op.add_group alloc_ok name track) (reachable_rinv hr)
      simpa [step, hadd] using this
    have hex : ∃ g ∈ nondep s1.group_list, g.name = name := by
      obtain ⟨gl2, ae, id2, _, hcase, hres, _⟩ := add_group_spec alloc_ok name track s
      rw [hres] at hadd
      rcases hcase with ⟨hae, hnd, g, hg, hgn⟩ | ⟨hae, hnd, _⟩
      · have hne : ae ≠ 0 := by rw [hae]; decide
        simp only [hne, ne_eq, not_false_eq_true, if_true, Option.some.injEq,
          Prod.mk.injEq, and_true] at hadd
        subst hadd
        have hmem : name ∈ (mark_tracking name track (nondep s.group_list)).map
            (fun g => g.name) := by
          rw [mark_tracking_names, ← hgn]; exact List.mem_map_of_mem _ hg
        obtain ⟨g2, hg2, hg2n⟩ := List.mem_map.mp hmem
        exact ⟨g2, by simpa [hnd] using hg2, hg2n⟩
      · simp only [hae, ne_eq, not_true_eq_false, if_false] at hadd
        split_ifs at hadd with hc ha
        · simp [EPERM] at hadd
        · simp only [Option.some.injEq, Prod.mk.injEq, and_true] at hadd
          subst hadd
          refine ⟨new_group name id2 track, ?_, rfl⟩
          simp [nondep_append, nondep, new_group]
        · simp [ENOMEM] at hadd
    obtain ⟨s2, h1, h2, _⟩ := add_group_existing alloc2 name track2 s1 hex
    refine ⟨s2, h1, ?_⟩
    rw [h2, mark_tracking_names]
    exact count_name_of_nodup hr1.2.2 hex

theorem C9_add_existing_is_idempotent_witness :
    ∃ s2, dazukofs_add_group true "av" 1 two_groups = some (s2, 0) ∧
      nondep s2.group_list = mark_tracking "av" 1 (nondep two_groups.group_list) ∧
      (nondep s2.group_list).length = (nondep two_groups.group_list).length ∧
      (nondep s2.group_list).map (fun g => (g.group_id, g.name))
        = (nondep two_groups.group_list).map (fun g => (g.group_id, g.name)) ∧
      s2.group_count = two_groups.group_count ∧
      ((1 : Int) = 0 → nondep s2.group_list = nondep two_groups.group_list) :=
  (C9_add_existing_is_idempotent true "av" 1 two_groups).1 (by decide)

/-- C10.  In a reachable state in which no non-deprecated group holds `name`
and fewer than `GROUP_COUNT` non-deprecated groups exist,
`dazukofs_add_group` (with a successful allocation) terminates, returns 0 and
adds one non-deprecated group, whose id is the smallest natural number that no
non-deprecated group holds.  A removal of that name followed by another add of
it then creates a group with that same smallest id. -/
theorem C10_add_new_takes_smallest_id (s : State) (hr : Reachable s) (name : String)
    (track track2 : Int)
    (hname : ∀ g ∈ nondep s.group_list, g.name ≠ name)
    (hroom : ((nondep s.group_list).length : Int) < GROUP_COUNT) :
    ∃ s2 id, dazukofs_add_group true name track s = some (s2, 0) ∧
      nondep s2.group_list = nondep s.group_list ++ [new_group name id track] ∧
      (∀ g ∈ nondep s.group_list, g.group_id ≠ id) ∧
      (∀ j, j < id → ∃ g ∈ nondep s.group_list, g.group_id = j) ∧
      ∃ s3, dazukofs_add_group true name track2 (dazukofs_remove_group name s2).1
          = some (s3, 0) ∧
        nondep s3.group_list = nondep s.group_list ++ [new_group name id track2] := by
  obtain ⟨s2, id, h1, h2, h3, h4, _⟩ := add_group_new (reachable_rinv hr) name track hname hroom
  have hs2 : s2 = step s (Op.add_group true name track) := by simp [step, h1]
  have hr2 : Reachable s2 := hs2 ▸ reachable_step hr _
  have hr3 : Reachable (dazukofs_remove_group name s2).1 :=
    reachable_step hr2 (Op.remove_group name)
  have hnd3 : nondep (dazukofs_remove_group name s2).1.group_list = nondep s.group_list := by
    rw [remove_group_nondep (reachable_rinv hr2), h2, List.filter_append]
    have : (nondep s.group_list).filter (fun g => decide (g.name ≠ name))
        = nondep s.group_list := by
      rw [List.filter_eq_self]; intro g hg; simpa using hname g hg
    rw [this]
    simp [new_group]
  obtain ⟨s3, id3, g1, g2, g3, g4, _⟩ := add_group_new (reachable_rinv hr3) name track2
    (by rw [hnd3]; exact hname) (by rw [hnd3]; exact hroom)
  rw [hnd3] at g2 g3 g4
  have hid : id3 = id := smallest_unique g3 g4 h3 h4
  rw [hid] at g2
  exact ⟨s2, id, h1, h2, h3, h4, s3, g1, g2⟩

theorem C10_add_new_takes_smallest_id_witness :
    ∃ s2 id, dazukofs_add_group true "x" 0 (run two_groups [Op.remove_group "av"])
        = some (s2, 0) ∧
      nondep s2.group_list
        = nondep (run two_groups [Op.remove_group "av"]).group_list ++ [new_group "x" id 0] ∧
      (∀ g ∈ nondep (run two_groups [Op.remove_group "av"]).group_list, g.group_id ≠ id) ∧
      (∀ j, j < id →
        ∃ g ∈ nondep (run two_groups [Op.remove_group "av"]).group_list, g.group_id = j) ∧
      ∃ s3, dazukofs_add_group true "x" 1 (dazukofs_remove_group "x" s2).1 = some (s3, 0) ∧
        nondep s3.group_list
          = nondep (run two_groups [Op.remove_group "av"]).group_list
              ++ [new_group "x" id 1] :=
  C10_add_new_takes_smallest_id (run two_groups [Op.remove_group "av"])
    ⟨[Op.add_group true "av" 0, Op.add_group true "dlp" 0, Op.remove_group "av"], rfl⟩
    "x" 0 1 (by decide) (by decide)
/-- C11.  In a reachable state with `GROUP_COUNT` (10) non-deprecated groups,
`dazukofs_add_group` with a name that none of them holds returns `-EPERM`
(whatever the allocator would do), and the non-deprecated groups are the same
afterwards, in the same order and with all their fields (names, ids, tracking
flags, queues); `group_count` and the events are unchanged as well. -/
theorem C11_add_when_full (alloc_ok : Bool) (name : String) (track : Int) (s : State)
    (hr : Reachable s)
    (hfull : ((nondep s.group_list).length : Int) = GROUP_COUNT)
    (hname : ∀ g ∈ nondep s.group_list, g.name ≠ name) :
    ∃ s2, dazukofs_add_group alloc_ok name track s = some (s2, -EPERM) ∧
      nondep s2.group_list = nondep s.group_list ∧ s2.group_count = s.group_count ∧
      s2.events = s.events := by
  obtain ⟨r1, _, _⟩ := reachable_rinv hr
  obtain ⟨gl2, ae, id2, _, hcase, hres, _⟩ := add_group_spec alloc_ok name track s
  rcases hcase with ⟨_, _, g, hg, hgn⟩ | ⟨hae, hnd, _⟩
  · exact absurd hgn (hname g hg)
  · refine ⟨{ s with group_list := gl2 }, ?_, hnd, rfl, rfl⟩
    rw [hres]
    have hc : s.group_count = GROUP_COUNT := by rw [r1]; exact hfull
    simp [hae, hc]

theorem C11_add_when_full_witness :
    ∃ s2, dazukofs_add_group true "late" 1 full_registry = some (s2, -EPERM) ∧
      nondep s2.group_list = nondep full_registry.group_list ∧
      s2.group_count = full_registry.group_count ∧ s2.events = full_registry.events :=
  C11_add_when_full true "late" 1 full_registry ⟨_, rfl⟩ (by decide) (by decide)

/-- C12.  In every state reachable from the initial empty registry by any
sequence of calls into the engine (among them `dazukofs_add_group`,
`dazukofs_remove_group`, `dazukofs_group_open_tracking` and
`dazukofs_group_release_tracking`), the non-deprecated groups have pairwise
distinct names and pairwise distinct ids, every id is below `GROUP_COUNT` (and
at least 0), and there are at most `GROUP_COUNT` of them. -/
theorem C12_registry_invariant (s : State) (hr : Reachable s) :
    ((nondep s.group_list).map (fun g => g.name)).Nodup ∧
    ((nondep s.group_list).map (fun g => g.group_id)).Nodup ∧
    (∀ g ∈ nondep s.group_list, 0 ≤ (g.group_id : Int) ∧ (g.group_id : Int) < GROUP_COUNT) ∧
    ((nondep s.group_list).length : Int) ≤ GROUP_COUNT := by
  obtain ⟨r1, r2, r3⟩ := reachable_rinv hr
  obtain ⟨i1, i2⟩ := reachable_idinv hr
  refine ⟨r3, i1, ?_, by rw [← r1]; exact r2⟩
  intro g hg
  exact ⟨Int.natCast_nonneg _, i2 _ (List.mem_map_of_mem _ hg)⟩

theorem C12_registry_invariant_witness :
    ((nondep full_registry.group_list).map (fun g => g.name)).Nodup ∧
    ((nondep full_registry.group_list).map (fun g => g.group_id)).Nodup ∧
    (∀ g ∈ nondep full_registry.group_list,
      0 ≤ (g.group_id : Int) ∧ (g.group_id : Int) < GROUP_COUNT) ∧
    ((nondep full_registry.group_list).length : Int) ≤ GROUP_COUNT :=
  C12_registry_invariant full_registry ⟨_, rfl⟩

/-- C13.  The function `dazukofs_remove_group` returns 0 in every state, and
leaves the state as it is when no non-deprecated group holds the name.  In a
reachable state in which the non-deprecated group `grp` holds the name, the
group is marked deprecated in place with empty todo and working lists, every
other group is unchanged, the `assigned` of every event drops by the number of
containers of that event which the group held, and no `deny` changes.  An
event whose initiator waits, whose linked containers all belong to that group
and for which no DENY was recorded, then satisfies the wait condition and the
initiator gets 0 (ALLOW). -/
theorem C13_remove_group_drains (name : String) (s : State) :
    (dazukofs_remove_group name s).2 = 0 ∧
    ((∀ g ∈ nondep s.group_list, g.name ≠ name) → (dazukofs_remove_group name s).1 = s) ∧
    (Reachable s → ∀ grp ∈ nondep s.group_list, grp.name = name →
      ∃ pre post, s.group_list = pre ++ grp :: post ∧
        (dazukofs_remove_group name s).1.group_list
          = pre ++ { grp with deprecated := 1, working_list := [], todo_list := [] } :: post ∧
        (∀ e, event_assigned (dazukofs_remove_group name s).1 e
            = event_assigned s e - (refs_group e grp : Nat)) ∧
        (∀ e, (evt_at (dazukofs_remove_group name s).1 e).deny = (evt_at s e).deny) ∧
        (∀ e ∈ s.waiters, refs e s.group_list = refs_group e grp → (evt_at s e).deny = 0 →
          ∃ t, dazukofs_check_access_resume e (dazukofs_remove_group name s).1
            = some (t, 0))) := by
  refine ⟨?_, ?_, ?_⟩
  · unfold dazukofs_remove_group
    split_ifs
    · rfl
    · split <;> rfl
  · intro h; rw [remove_group_absent h]
  · intro hr grp hg hn
    obtain ⟨pre, post, hsplit, _, hres⟩ := remove_group_found (reachable_rinv hr) hg hn
    have hc := reachable_cinv hr
    have ha : ∀ e, event_assigned (dazukofs_remove_group name s).1 e
        = event_assigned s e - (refs_group e grp : Nat) := by
      intro e; rw [hres]; exact (remove_group_events hc hsplit e).1
    have hd : ∀ e, (evt_at (dazukofs_remove_group name s).1 e).deny = (evt_at s e).deny := by
      intro e; rw [hres]; exact (remove_group_events hc hsplit e).2
    refine ⟨pre, post, hsplit, by rw [hres], ha, hd, ?_⟩
    intro e he hrefs hdeny
    have hw : e ∈ (dazukofs_remove_group name s).1.waiters := by
      rw [hres]; simp only; rw [(remove_group_frame grp s).2.2.2.2.2.2.2]; exact he
    have hz : event_assigned (dazukofs_remove_group name s).1 e = 0 := by
      rw [ha e, hc.1 e, hrefs]; simp
    rw [resume_some ⟨hw, hz⟩, hd e, hdeny]
    simp only [ne_eq, not_true_eq_false, if_false]
    exact ⟨_, rfl⟩

theorem C13_remove_group_drains_witness :
    ∃ pre post, (run init [Op.add_group true "av" 0, Op.check_access true none 100 7]).group_list
        = pre ++ { name := "av", group_id := 0, todo_list := [{ event := 0, fd := 0 }],
                   working_list := [], use_count := 0, tracking := 0, track_count := 0,
                   deprecated := 0 } :: post ∧
      (dazukofs_remove_group "av"
          (run init [Op.add_group true "av" 0, Op.check_access true none 100 7])).1.group_list
        = pre ++ { name := "av", group_id := 0, todo_list := [],
                   working_list := [], use_count := 0, tracking := 0, track_count := 0,
                   deprecated := 1 } :: post ∧
      ∃ t, dazukofs_check_access_resume 0
          (dazukofs_remove_group "av"
            (run init [Op.add_group true "av" 0, Op.check_access true none 100 7])).1
        = some (t, 0) := by
  obtain ⟨pre, post, h1, h2, _, _, h5⟩ :=
    (C13_remove_group_drains "av"
      (run init [Op.add_group true "av" 0, Op.check_access true none 100 7])).2.2
      ⟨_, rfl⟩
      { name := "av", group_id := 0, todo_list := [{ event := 0, fd := 0 }],
        working_list := [], use_count := 0, tracking := 0, track_count := 0, deprecated := 0 }
      (by decide) rfl
  exact ⟨pre, post, h1, h2, h5 0 (by decide) (by decide) (by decide)⟩

/-- C14.  The function `dazukofs_return_event` returns `-EINVAL` and leaves
the whole state as it was (every queue, every event with its `assigned` and
`deny`, every `use_count`) whenever no container on the working list of a
non-deprecated group with the given id carries the given event id.  That covers
the case that no non-deprecated group has the id and the case that the event
is still on the todo list.  It covers a second return as well: after a return
other than REPOST that took the only working-list container with that event
id, the same call returns `-EINVAL` and changes nothing.  And it covers a
drained group: from a reachable state, after `dazukofs_remove_group` removed
the group that held the id, every return under that id gets `-EINVAL` and
changes nothing. -/
theorem C14_return_event_einval (gid id : Nat) (r : dazukofs_response_t) (s : State) :
    ((∀ g ∈ s.group_list, g.deprecated = 0 → g.group_id = gid →
        ∀ ec ∈ g.working_list, (evt_at s ec.event).event_id ≠ id) →
      dazukofs_return_event gid id r s = (s, -EINVAL)) ∧
    (∀ (r1 : dazukofs_response_t) gpre grp gpost pre ec post,
      r1 ≠ dazukofs_response_t.REPOST →
      list_find (is_group gid) s.group_list = some (gpre, grp, gpost) →
      list_find (fun ec => decide ((evt_at s ec.event).event_id = id)) grp.working_list
        = some (pre, ec, post) →
      (∀ c ∈ post, (evt_at s c.event).event_id ≠ id) →
      dazukofs_return_event gid id r (dazukofs_return_event gid id r1 s).1
        = ((dazukofs_return_event gid id r1 s).1, -EINVAL)) ∧
    (Reachable s → ∀ grp ∈ nondep s.group_list, grp.group_id = gid →
      dazukofs_return_event gid id r (dazukofs_remove_group grp.name s).1
        = ((dazukofs_remove_group grp.name s).1, -EINVAL)) :=
  ⟨fun h => return_event_einval h,
   fun _ _ _ _ _ _ _ hr hf hw hpost => return_event_twice hr hf hw hpost,
   fun hr _ hg hgi => hgi ▸ return_event_after_removal hr hg rfl id r⟩

theorem C14_return_event_einval_witness :
    dazukofs_return_event 0 1 dazukofs_response_t.ALLOW one_pending
      = (one_pending, -EINVAL) :=
  (C14_return_event_einval 0 1 dazukofs_response_t.ALLOW one_pending).1 (by decide)
/-- C15.  Let the non-deprecated group with id `gid` have the container `ec`
at the head of its todo list.  If `dazukofs_get_event` claims it and the open
fails (no descriptor, or `dentry_open` fails), or if the claim succeeds and
`dazukofs_return_event` is then called with REPOST for the claimed event id
(which returns 0), the group is afterwards as it was before the claim: the
working list is the old working list, the todo list has the same containers in
the same order with `ec` at its head (the container's `fd` field holds the
value stored during the claim), all other groups are unchanged, and the
events (so `assigned` and `deny`) are unchanged.  In both cases the next
successful `dazukofs_get_event` on the group delivers the same event id. -/
theorem C15_give_back_restores (env env2 : OpenEnv) (cur cur2 gid : Nat) (s : State)
    (pre post : List dazukofs_group) (grp : dazukofs_group)
    (ec : dazukofs_event_container) (rest : List dazukofs_event_container)
    (hf : list_find (is_group gid) s.group_list = some (pre, grp, post))
    (ht : grp.todo_list = ec :: rest)
    (hok2 : ¬ env2.fd < 0 ∧ env2.open_err = 0) :
    ((env.fd < 0 ∨ env.open_err ≠ 0) →
      (dazukofs_get_event env cur gid s).1.group_list
        = pre ++ { grp with todo_list := { ec with fd := env.fd } :: rest } :: post ∧
      (dazukofs_get_event env cur gid s).1.events = s.events ∧
      (dazukofs_get_event env2 cur2 gid (dazukofs_get_event env cur gid s).1).2
        = GetResult.ok (evt_at s ec.event).event_id env2.fd (evt_at s ec.event).proc_id) ∧
    ((¬ env.fd < 0 ∧ env.open_err = 0) →
      (dazukofs_get_event env cur gid s).2
        = GetResult.ok (evt_at s ec.event).event_id env.fd (evt_at s ec.event).proc_id ∧
      (dazukofs_return_event gid (evt_at s ec.event).event_id dazukofs_response_t.REPOST
          (dazukofs_get_event env cur gid s).1).2 = 0 ∧
      (dazukofs_return_event gid (evt_at s ec.event).event_id dazukofs_response_t.REPOST
          (dazukofs_get_event env cur gid s).1).1.group_list
        = pre ++ { grp with todo_list := { ec with fd := env.fd } :: rest } :: post ∧
      (dazukofs_return_event gid (evt_at s ec.event).event_id dazukofs_response_t.REPOST
          (dazukofs_get_event env cur gid s).1).1.events = s.events ∧
      (dazukofs_get_event env2 cur2 gid
          (dazukofs_return_event gid (evt_at s ec.event).event_id dazukofs_response_t.REPOST
            (dazukofs_get_event env cur gid s).1).1).2
        = GetResult.ok (evt_at s ec.event).event_id env2.fd (evt_at s ec.event).proc_id) :=
  ⟨fun hfail => get_event_failed_open hf ht hfail hok2,
   fun hok => get_event_then_repost hf ht hok hok2⟩

theorem C15_give_back_restores_witness :
    (dazukofs_get_event env_open_fails 300 0 one_pending).1.group_list
      = [{ name := "av", group_id := 0, todo_list := [{ event := 0, fd := 5 }],
           working_list := [], use_count := 0, tracking := 0, track_count := 0,
           deprecated := 0 },
         { name := "dlp", group_id := 1, todo_list := [{ event := 0, fd := 0 }],
           working_list := [], use_count := 0, tracking := 0, track_count := 0,
           deprecated := 0 }] ∧
    (dazukofs_get_event env_ok 300 0
        (dazukofs_get_event env_open_fails 300 0 one_pending).1).2
      = GetResult.ok 1 3 100 := by
  have h := (C15_give_back_restores env_open_fails env_ok 300 300 0 one_pending []
    [{ name := "dlp", group_id := 1, todo_list := [{ event := 0, fd := 0 }],
       working_list := [], use_count := 0, tracking := 0, track_count := 0, deprecated := 0 }]
    { name := "av", group_id := 0, todo_list := [{ event := 0, fd := 0 }], working_list := [],
      use_count := 0, tracking := 0, track_count := 0, deprecated := 0 }
    { event := 0, fd := 0 } [] (by decide) rfl (by decide)).1 (by decide)
  exact ⟨h.1, h.2.2.trans (by decide)⟩
/-- C16 (amended).  From a reachable state, the event ids handed out by the
fan-outs of any run are the successive values of `last_event_id + 1`, each
wrapped to a 32-bit `int` and converted to `unsigned long`.  As long as
`last_event_id` is not negative and stays below `2^31` during the run, the
k-th id handed out is `last_event_id + k` without wrap, so the ids are
strictly increasing and pairwise distinct, and `last_event_id` has grown by the
number of fan-outs. -/
theorem C16_event_ids_increase (s : State) (ops : List Op) (hr : Reachable s) :
    ids_of s ops = (List.range (ids_of s ops).length).map
      (fun i : Nat => ulong_of_int (int_wrap (s.last_event_id + 1 + (i : Int)))) ∧
    (0 ≤ s.last_event_id →
      s.last_event_id + ((ids_of s ops).length : Int) < 2147483648 →
      ids_of s ops = (List.range (ids_of s ops).length).map
        (fun i : Nat => s.last_event_id.toNat + 1 + i) ∧
      (ids_of s ops).Pairwise (fun x y => x < y) ∧
      (ids_of s ops).Nodup ∧
      (run s ops).last_event_id = s.last_event_id + ((ids_of s ops).length : Int)) := by
  refine ⟨(run_ids ops s (reachable_int_range hr)).1, ?_⟩
  intro h0 hb
  obtain ⟨h1, h2⟩ := ids_bounded ops s h0 hb
  have hp : (ids_of s ops).Pairwise (fun x y => x < y) := by
    rw [h1]; exact map_add_pairwise _ _
  exact ⟨h1, hp, hp.imp (fun h => Nat.ne_of_lt h), h2⟩

theorem C16_event_ids_increase_witness :
    ids_of init (resolved_accesses 3) = [1, 2, 3] ∧
    (ids_of init (resolved_accesses 3)).Pairwise (fun x y => x < y) ∧
    (ids_of init (resolved_accesses 3)).Nodup ∧
    (run init (resolved_accesses 3)).last_event_id = 3 := by
  have h := (C16_event_ids_increase init (resolved_accesses 3) ⟨[], rfl⟩).2 (by decide)
    (by decide)
  exact ⟨h.1.trans (by decide), h.2.1, h.2.2.1, h.2.2.2.trans (by decide)⟩

/-- C16, counterexample.  In the run that adds one group and then makes
`2^32 + 1` accesses, each of them fanned out, claimed, allowed and resumed
before the next one, the access number `2^31` gets the id `2^64 - 2^31`
instead of `2^31`, the access number `2^32` gets the id 0, and the last access
gets the id 1 that the first one got: the ids are neither always the previous
`last_event_id + 1`, nor strictly increasing, nor pairwise distinct.  At the
end of the run nobody waits and the queues of the group are empty. -/
theorem C16_counterexample :
    (ids_of init (resolved_accesses 4294967297))[0]? = some 1 ∧
    (ids_of init (resolved_accesses 4294967297))[2147483646]? = some 2147483647 ∧
    (ids_of init (resolved_accesses 4294967297))[2147483647]? = some 18446744071562067968 ∧
    (ids_of init (resolved_accesses 4294967297))[4294967295]? = some 0 ∧
    (ids_of init (resolved_accesses 4294967297))[4294967296]? = some 1 ∧
    ¬ (ids_of init (resolved_accesses 4294967297)).Nodup ∧
    (run init (resolved_accesses 4294967297)).waiters = [] ∧
    (run init (resolved_accesses 4294967297)).group_list = [idle_group] := by
  have hids := (resolved_accesses_ids 4294967297).1
  obtain ⟨hgl, _, _, _, _, _, hw⟩ := (resolved_accesses_ids 4294967297).2
  have e0 : (ids_of init (resolved_accesses 4294967297))[0]? = some 1 := by
    rw [hids, List.getElem?_map, List.getElem?_range (by omega)]; rfl
  have e4 : (ids_of init (resolved_accesses 4294967297))[4294967296]? = some 1 := by
    rw [hids, List.getElem?_map, List.getElem?_range (by omega)]
    simp only [Option.map_some', Option.some.injEq]
    decide
  refine ⟨e0, ?_, ?_, ?_, e4, ?_, hw, hgl⟩
  · rw [hids, List.getElem?_map, List.getElem?_range (by omega)]
    simp only [Option.map_some', Option.some.injEq]
    decide
  · rw [hids, List.getElem?_map, List.getElem?_range (by omega)]
    simp only [Option.map_some', Option.some.injEq]
    decide
  · rw [hids, List.getElem?_map, List.getElem?_range (by omega)]
    simp only [Option.map_some', Option.some.injEq]
    decide
  · intro hnd
    have hlen : (ids_of init (resolved_accesses 4294967297)).length = 4294967297 := by
      rw [hids]; simp
    exact (List.nodup_iff_getElem?_ne_getElem?.mp hnd 0 4294967296 (by omega)
      (by rw [hlen]; omega)) (e0.trans e4.symm)

/-- C17 (amended).  Let the non-deprecated group with id `gid` be a tracking
group.  Every `dazukofs_group_open_tracking` on its id returns 1 and adds one
to `track_count`; every `dazukofs_group_release_tracking` on its id subtracts
one, and it deprecates and drains the group exactly when it brings
`track_count` to 0; no other call changes the tracking of the group, except a
removal of the group by name (the law of `track_step`, for every run from a
reachable state, whatever calls it holds; the release that finds
`track_count` = 1 is the one that removes the group).  So when no handle is
registered at the start
(`track_count` = 0), after `k >= 1` opens and `k` releases the group is
deprecated and drained at the k-th release and not before.  When handles are
registered at the start, the group is still registered after `k` opens and `k`
releases: the state is the one before them.  For an id whose non-deprecated
group is missing or is not a tracking group, `dazukofs_group_open_tracking`
returns 0 and leaves the whole state as it is. -/
theorem C17_tracking_lifecycle (gid : Nat) (s : State) (pre post : List dazukofs_group)
    (grp : dazukofs_group)
    (hf : list_find (is_group gid) s.group_list = some (pre, grp, post))
    (ht : grp.tracking ≠ 0) :
    dazukofs_group_open_tracking gid s
      = ({ s with group_list := pre ++ { grp with use_count := grp.use_count + 1,
                                                  track_count := grp.track_count + 1 } :: post },
         1) ∧
    (grp.track_count - 1 ≠ 0 →
      dazukofs_group_release_tracking gid s
        = { s with group_list := pre ++ { grp with use_count := grp.use_count - 1,
                                                   track_count := grp.track_count - 1 } :: post }) ∧
    (grp.track_count - 1 = 0 →
      (dazukofs_group_release_tracking gid s).group_list
        = pre ++ { grp with use_count := grp.use_count - 1, track_count := 0, deprecated := 1,
                            working_list := [], todo_list := [] } :: post ∧
      (dazukofs_group_release_tracking gid s).group_count = s.group_count - 1) ∧
    (Reachable s → ∀ op : Op,
      tracked gid (step s op)
        = (track_step gid grp.name grp.track_count op).map (fun t2 => (grp.name, true, t2))) ∧
    (Reachable s → ∀ (ops : List Op) (t2 : Int),
      track_run gid grp.name grp.track_count ops = some t2 →
      tracked gid (run s ops) = some (grp.name, true, t2)) ∧
    (Reachable s → ∀ ops : List Op,
      track_run gid grp.name grp.track_count ops = some 1 →
      tracked gid (run s (ops ++ [Op.release_tracking gid])) = none ∧
      ∃ pre2 grp2 post2,
        list_find (is_group gid) (run s ops).group_list = some (pre2, grp2, post2) ∧
        (run s (ops ++ [Op.release_tracking gid])).group_list
          = pre2 ++ { grp2 with use_count := grp2.use_count - 1, track_count := 0,
                                deprecated := 1, working_list := [],
                                todo_list := [] } :: post2) ∧
    (∀ i : Nat,
      (dazukofs_group_open_tracking gid
        (run s (List.replicate i (Op.open_tracking gid)))).2 = 1) ∧
    (∀ k j : Nat, (j : Int) < grp.track_count + k →
      (run s (List.replicate k (Op.open_tracking gid)
          ++ List.replicate j (Op.release_tracking gid))).group_list
        = pre ++ { grp with use_count := grp.use_count + k - j,
                            track_count := grp.track_count + k - j } :: post ∧
      (run s (List.replicate k (Op.open_tracking gid)
          ++ List.replicate j (Op.release_tracking gid))).group_count = s.group_count) ∧
    (∀ k : Nat, 1 ≤ k → grp.track_count = 0 →
      (run s (List.replicate k (Op.open_tracking gid)
          ++ List.replicate k (Op.release_tracking gid))).group_list
        = pre ++ { grp with track_count := 0, deprecated := 1, working_list := [],
                            todo_list := [] } :: post ∧
      (run s (List.replicate k (Op.open_tracking gid)
          ++ List.replicate k (Op.release_tracking gid))).group_count = s.group_count - 1) ∧
    (∀ k : Nat, 0 < grp.track_count →
      run s (List.replicate k (Op.open_tracking gid)
          ++ List.replicate k (Op.release_tracking gid)) = s) ∧
    (∀ s2 : State,
      (∀ g ∈ s2.group_list, g.deprecated = 0 → g.group_id = gid → g.tracking = 0) →
      dazukofs_group_open_tracking gid s2 = (s2, 0)) := by
  have hsplit := (list_find_some hf).1
  have hrow : tracked gid s = some (grp.name, true, grp.track_count) := by
    rw [tracked_found hf]
    simp [tracking_row, ht]
  refine ⟨open_tracking_found hf ht, fun hz => release_tracking_found hf ht hz,
    fun hz => release_at_zero hf ht hz,
    fun hr op => step_tracked hr gid grp.name grp.track_count hrow op,
    fun hr ops t2 h => run_tracked gid grp.name ops s grp.track_count t2 hr hrow h,
    ?_, fun i => opens_return_one hf ht i, ?_, ?_, ?_, fun s2 h => open_tracking_none h⟩
  · intro hr ops hrun
    have hlast := run_tracked gid grp.name ops s grp.track_count 1 hr hrow hrun
    have hreach : Reachable (run s ops) := by
      obtain ⟨ops0, h0⟩ := hr
      exact ⟨ops0 ++ ops, by rw [run_append, h0]⟩
    obtain ⟨pre2, grp2, post2, hf2, hrow2⟩ := tracked_some hlast
    simp only [tracking_row, Prod.mk.injEq, decide_eq_true_eq] at hrow2
    have hstep := step_tracked hreach gid grp.name 1 hlast (Op.release_tracking gid)
    have hrun2 : run s (ops ++ [Op.release_tracking gid])
        = step (run s ops) (Op.release_tracking gid) := run_snoc s ops _
    rw [hrun2]
    refine ⟨by rw [hstep]; simp [track_step], pre2, grp2, post2, hf2, ?_⟩
    exact (release_at_zero hf2 hrow2.2.1 (by rw [hrow2.2.2]; rfl)).1
  · intro k j hlt
    rw [opens_then_releases_live hf ht k j hlt]
    exact ⟨rfl, rfl⟩
  · intro k hk h0
    obtain ⟨k1, rfl⟩ : ∃ k1, k = k1 + 1 := ⟨k - 1, by omega⟩
    have hg : ∃ g1 : dazukofs_group, g1 = dazukofs_group.mk grp.name grp.group_id
        grp.todo_list grp.working_list (grp.use_count + (k1 + 1 : Nat) - k1) grp.tracking
        (grp.track_count + (k1 + 1 : Nat) - k1) grp.deprecated := ⟨_, rfl⟩
    obtain ⟨g1, hg1⟩ := hg
    have hlive := opens_then_releases_live hf ht (k1 + 1) k1 (by rw [h0]; push_cast; omega)
    rw [← hg1] at hlive
    have hfl : list_find (is_group gid)
        (run s (List.replicate (k1 + 1) (Op.open_tracking gid)
          ++ List.replicate k1 (Op.release_tracking gid))).group_list
        = some (pre, g1, post) := by
      rw [hlive]
      exact @find_group_replace gid s.group_list pre post grp g1 hf (by rw [hg1]) (by rw [hg1])
    have hz : g1.track_count - 1 = 0 := by
      rw [hg1, h0]; push_cast; simp
    have ht1 : g1.tracking ≠ 0 := by rw [hg1]; exact ht
    obtain ⟨e1, e2⟩ := release_at_zero hfl ht1 hz
    rw [List.replicate_succ' k1 (Op.release_tracking gid), ← List.append_assoc, run_append]
    simp only [run, List.foldl_cons, List.foldl_nil, step]
    simp only [run] at e1 e2 hlive
    rw [e1, e2, hlive]
    refine ⟨?_, rfl⟩
    rw [hg1]
    simp only [List.append_cancel_left_eq, List.cons.injEq, and_true, dazukofs_group.mk.injEq,
      true_and]
    push_cast
    omega
  · intro k hpos
    rw [opens_then_releases_live hf ht k k (by omega)]
    have hg : dazukofs_group.mk grp.name grp.group_id grp.todo_list grp.working_list
        (grp.use_count + k - k) grp.tracking (grp.track_count + k - k) grp.deprecated
        = grp := by
      cases grp
      simp
    rw [hg, ← hsplit]

theorem C17_tracking_lifecycle_witness :
    run one_handle [Op.open_tracking 0, Op.release_tracking 0] = one_handle ∧
    tracked 0 (run one_handle [Op.open_tracking 0, Op.check_access true none 100 7,
      Op.get_event env_ok 300 0, Op.release_tracking 0]) = some ("av", true, 1) := by
  have h := C17_tracking_lifecycle 0 one_handle [] []
    { name := "av", group_id := 0, todo_list := [], working_list := [], use_count := 1,
      tracking := 1, track_count := 1, deprecated := 0 } (by decide) (by decide)
  exact ⟨h.2.2.2.2.2.2.2.2.2.1 1 (by decide),
    h.2.2.2.2.1 ⟨[Op.add_group true "av" 1, Op.open_tracking 0], rfl⟩ _ 1 (by decide)⟩

/-- C17 (as stated) fails: the tracking group "av" has one registered handle
(`track_count` = 1).  With `k` = 1, one more open on its id returns 1 and one
release follows: after this k-th release the group is not deprecated, it is
registered with `track_count` = 1. -/
theorem C17_counterexample :
    tracking_view one_handle = [("av", 0, 1, 1)] ∧
    (dazukofs_group_open_tracking 0 one_handle).2 = 1 ∧
    tracking_view (run one_handle [Op.open_tracking 0]) = [("av", 0, 1, 2)] ∧
    tracking_view (run one_handle [Op.open_tracking 0, Op.release_tracking 0])
      = [("av", 0, 1, 1)] := by
  decide

/-- C18 (the code at the failing input).  After `addtrack=A`, an open of the
device of group 0 (which registers with A), `del=A` and `addtrack=B`, the new
group B holds id 0 with `track_count = 0`.  The close of the handle that was
opened on A calls `dazukofs_group_release_tracking(0)`, which finds B: B is
left with `track_count = -1` although no handle is registered with it.  If a
handle registers with B first (`track_count = 1`), the close of the stale
handle brings `track_count` to 0 and removes B while that handle is still
registered. -/
theorem C18_stale_handle_underflows :
    (dazukofs_group_open 0 (step init (Op.add_group true "A" 1))).2 = true ∧
    tracking_view stale_handle_state = [("B", 0, 1, 0)] ∧
    tracking_view (dazukofs_group_release 0 true stale_handle_state) = [("B", 0, 1, -1)] ∧
    (dazukofs_group_open 0 stale_handle_state).2 = true ∧
    tracking_view (dazukofs_group_open 0 stale_handle_state).1 = [("B", 0, 1, 1)] ∧
    tracking_view (dazukofs_group_release 0 true (dazukofs_group_open 0 stale_handle_state).1)
      = [] := by
  decide

/-- C19 (amended).  A control write in which no command key occurs, or in
which the key of the first command found (in the order `del=`, `add=`,
`addtrack=`) is directly followed by a character that is neither an allowed
name character nor the terminating NUL, returns `-EINVAL` and leaves the whole
state as it is.  A character outside the allowed set does not invalidate a
name, it ends it: when the character behind the key is allowed,
`process_command` calls the command with the longest run of allowed
characters behind the key. -/
theorem C19_ctrl_write_without_name (alloc_add alloc_track : Bool)
    (beyond buffer : List Char) (s : State) :
    (no_name (ctrl_tmp beyond buffer) = true →
      dazukofs_ctrl_write true alloc_add alloc_track beyond buffer s = some (s, -EINVAL)) ∧
    (∀ (buf key : List Char) (func : String → State → Option (State × Int)) (rc : Int)
        (i : Nat),
      strstr buf key = some i → i + key.length < buf.length →
      (buf.getD (i + key.length) NUL) ∈ DAZUKOFS_ALLOWED_GROUPCHARS →
      process_command buf key func rc s
        = (func (String.mk ((buf.drop (i + key.length)).takeWhile
              (fun c => decide (c ∈ DAZUKOFS_ALLOWED_GROUPCHARS)))) s).map
            (fun r => (0,
              buf.set (i + key.length + ((buf.drop (i + key.length)).takeWhile
                (fun c => decide (is_valid_char c ≠ 0))).length) (Char.ofNat 32),
              r.2, r.1))) := by
  refine ⟨ctrl_write_rejects alloc_add alloc_track beyond buffer s, ?_⟩
  intro buf key func rc i hk hp hc
  rw [process_command_spec hk hp, if_neg ((is_valid_char_ne_zero _).mpr (Or.inl hc))]

theorem C19_ctrl_write_without_name_witness :
    dazukofs_ctrl_write true true true [] "add=!bar".toList init = some (init, -EINVAL) :=
  (C19_ctrl_write_without_name true true [] "add=!bar".toList init).1 (by decide)

/-- C19, counterexample.  The write `add=foo!bar` has a character outside the
allowed set in its name; it returns 11, its length, and adds the group
`foo`. -/
theorem C19_counterexample :
    is_valid_char (Char.ofNat 33) = 0 ∧
    "add=foo!bar".toList.getD 7 NUL = Char.ofNat 33 ∧
    (dazukofs_ctrl_write true true true [] "add=foo!bar".toList init).map
      (fun r => (r.2, registry_view r.1)) = some (11, [("foo", 0, 0)]) := by
  decide

/-- C20 (amended).  A control write of 32 characters or more is not refused
for its length: `dazukofs_ctrl_write` copies its first 31 characters and
handles them as it handles a write of exactly these 31 characters, with the
same effect on the state and the same negative return value, except that on
success it returns the full length of the write (as an `int`). -/
theorem C20_long_write_is_truncated (copy_ok alloc_add alloc_track : Bool)
    (beyond buffer : List Char) (s : State) (h : 32 ≤ buffer.length) :
    dazukofs_ctrl_write copy_ok alloc_add alloc_track beyond buffer s
      = (dazukofs_ctrl_write copy_ok alloc_add alloc_track beyond (buffer.take 31) s).map
          (fun r => (r.1, if 0 ≤ r.2 then int_wrap (buffer.length : Int) else r.2)) :=
  ctrl_write_long copy_ok alloc_add alloc_track beyond buffer s h

theorem C20_long_write_is_truncated_witness :
    dazukofs_ctrl_write true true true [] long_write init
      = (dazukofs_ctrl_write true true true [] (long_write.take 31) init).map
          (fun r => (r.1, if 0 ≤ r.2 then int_wrap (long_write.length : Int) else r.2)) :=
  C20_long_write_is_truncated true true true [] long_write init (by decide)

/-- C20, counterexample.  The write of `add=foo` followed by 25 blanks is 32
characters long; it returns 32 and adds the group `foo`. -/
theorem C20_counterexample :
    long_write.length = 32 ∧
    (dazukofs_ctrl_write true true true [] long_write init).map
      (fun r => (r.2, registry_view r.1)) = some (32, [("foo", 0, 0)]) := by
  decide
/-- C21.  In every reachable state `dazukofs_get_groups` terminates.  It
returns -ENOMEM only when an allocation failed; otherwise it returns 0 and a
buffer that holds the listing followed by NUL bytes only: the lines `id:name`
with their newline of exactly the non-deprecated groups, in list order (the
empty string when there is none; a deprecated group adds nothing).  The length
of the listing is the sum of `name_length + 3` over these groups, and read as a
C string the buffer is the listing (names hold no NUL). -/
theorem C21_get_groups_listing (s : State) (hr : Reachable s) (kzalloc_ok : Nat → Bool) :
    (((∃ a : Nat, kzalloc_ok a = false) ∧
        dazukofs_get_groups kzalloc_ok s = some (none, -ENOMEM)) ∨
      ∃ k : Nat, 0 < k ∧
        dazukofs_get_groups kzalloc_ok s
          = some (some (groups_listing s.group_list ++ List.replicate k NUL), 0)) ∧
    ((∀ n, kzalloc_ok n = true) →
      ∃ k : Nat, 0 < k ∧
        dazukofs_get_groups kzalloc_ok s
          = some (some (groups_listing s.group_list ++ List.replicate k NUL), 0)) ∧
    (groups_listing s.group_list).length = listing_size s.group_list ∧
    groups_listing s.group_list = groups_listing (nondep s.group_list) ∧
    (nondep s.group_list = [] → groups_listing s.group_list = []) ∧
    ((∀ g ∈ nondep s.group_list, NUL ∉ g.name.toList) → ∀ k : Nat, 0 < k →
      cstr (groups_listing s.group_list ++ List.replicate k NUL)
        = groups_listing s.group_list) := by
  have hid : ∀ g ∈ nondep s.group_list, g.group_id < 10 := by
    intro g hg
    have h := (reachable_idinv hr).2 g.group_id (List.mem_map.mpr ⟨g, hg, rfl⟩)
    simp only [GROUP_COUNT] at h
    omega
  refine ⟨get_groups_total kzalloc_ok s hid, get_groups_all_ok kzalloc_ok s hid,
    groups_listing_length s.group_list hid, ?_, ?_, ?_⟩
  · simp [groups_listing, nondep]
  · intro h
    simp only [nondep] at h
    simp [groups_listing, h]
  · intro h k hk
    exact cstr_append_nul _ k hk (groups_listing_no_nul s.group_list h)

theorem C21_get_groups_listing_witness :
    ∃ k : Nat, 0 < k ∧
      dazukofs_get_groups (fun _ => true) two_groups
        = some (some ("0:av\n1:dlp\n".toList ++ List.replicate k NUL), 0) := by
  have h := (C21_get_groups_listing two_groups
    ⟨[Op.add_group true "av" 0, Op.add_group true "dlp" 0], rfl⟩ (fun _ => true)).2.1
    (fun _ => rfl)
  have hl : groups_listing two_groups.group_list = "0:av\n1:dlp\n".toList := by decide
  rw [hl] at h
  exact h

/-- C22.  Let the first read on an open file of the control device take the
listing `buf` (`dazukofs_get_groups` returns it), and let L be its length as a
C string.  That read and every later read on the file, in whatever state the
engine then is, with buffer length n at the position pos returns exactly
min(n, L - pos) bytes, the bytes of the listing from offset pos on, and
advances the position by that number; it returns 0 when pos is at least L, and
with a buffer that is not empty only then.  So successive reads from position 0
deliver the listing in order, and when a read with a buffer that is not empty
returns 0, the bytes read before it are the whole listing taken at the first
read. -/
theorem C22_ctrl_read_snapshot (kzalloc_ok : Nat → Bool) (s0 : State) (buf : List Char)
    (hget : dazukofs_get_groups kzalloc_ok s0 = some (some buf, 0)) :
    (∀ n pos : Nat,
      dazukofs_ctrl_read kzalloc_ok true n pos dazukofs_ctrl_open s0
        = some ({ private_data := some buf }, ((min n ((cstr buf).length - pos) : Nat) : Int),
            ((cstr buf).drop pos).take n, pos + min n ((cstr buf).length - pos))) ∧
    (∀ (n pos : Nat) (s : State),
      dazukofs_ctrl_read kzalloc_ok true n pos { private_data := some buf } s
        = some ({ private_data := some buf }, ((min n ((cstr buf).length - pos) : Nat) : Int),
            ((cstr buf).drop pos).take n, pos + min n ((cstr buf).length - pos))) ∧
    (∀ n pos : Nat, (((cstr buf).drop pos).take n).length = min n ((cstr buf).length - pos)) ∧
    (∀ (n pos : Nat) (s : State), (cstr buf).length ≤ pos →
      dazukofs_ctrl_read kzalloc_ok true n pos { private_data := some buf } s
        = some ({ private_data := some buf }, 0, [], pos)) ∧
    (∀ n pos : Nat, 0 < n → pos < (cstr buf).length → 0 < min n ((cstr buf).length - pos)) ∧
    (∀ (reads : List (Nat × State)) (n0 : Nat),
      ctrl_reads kzalloc_ok ((n0, s0) :: reads) 0 dazukofs_ctrl_open
        = some ((cstr buf).take (n0 + (reads.map Prod.fst).sum),
                min (n0 + (reads.map Prod.fst).sum) (cstr buf).length,
                { private_data := some buf })) ∧
    (∀ (reads : List (Nat × State)) (n0 n : Nat) (s : State) (out bytes : List Char)
        (p p2 : Nat) (f f2 : ctrl_file), 0 < n →
      ctrl_reads kzalloc_ok ((n0, s0) :: reads) 0 dazukofs_ctrl_open = some (out, p, f) →
      dazukofs_ctrl_read kzalloc_ok true n p f s = some (f2, 0, bytes, p2) →
      out = cstr buf) := by
  have hseq : ∀ (reads : List (Nat × State)) (n0 : Nat),
      ctrl_reads kzalloc_ok ((n0, s0) :: reads) 0 dazukofs_ctrl_open
        = some ((cstr buf).take (n0 + (reads.map Prod.fst).sum),
                min (n0 + (reads.map Prod.fst).sum) (cstr buf).length,
                { private_data := some buf }) := by
    intro reads n0
    have h := ctrl_reads_snapshot kzalloc_ok buf ((n0, s0) :: reads) 0 (Nat.zero_le _)
    have hfirst : ctrl_reads kzalloc_ok ((n0, s0) :: reads) 0 dazukofs_ctrl_open
        = ctrl_reads kzalloc_ok ((n0, s0) :: reads) 0 { private_data := some buf } := by
      unfold ctrl_reads
      rw [ctrl_read_first kzalloc_ok n0 0 buf s0 hget]
    rw [hfirst, h]
    simp
  refine ⟨?_, ?_, ?_, ?_, ?_, hseq, ?_⟩
  · intro n pos
    rw [ctrl_read_first kzalloc_ok n pos buf s0 hget, ctrl_read_snapshot]
  · intro n pos s
    exact ctrl_read_snapshot kzalloc_ok n pos buf s
  · intro n pos
    rw [List.length_take, List.length_drop]
  · intro n pos s hp
    rw [ctrl_read_snapshot]
    have h0 : (cstr buf).length - pos = 0 := by omega
    rw [h0, List.drop_of_length_le hp]
    simp
  · intro n pos hn hp
    omega
  · intro reads n0 n s out bytes p p2 f f2 hn hreads hread
    rw [hseq reads n0] at hreads
    simp only [Option.some.injEq, Prod.mk.injEq] at hreads
    obtain ⟨ho, hp, hf⟩ := hreads
    rw [← hf, ctrl_read_snapshot] at hread
    simp only [Option.some.injEq, Prod.mk.injEq, true_and] at hread
    have h0 : min n ((cstr buf).length - p) = 0 := by
      have := hread.2.1
      exact_mod_cast this
    rw [← ho]
    apply List.take_of_length_le
    omega

theorem C22_ctrl_read_snapshot_witness :
    (ctrl_reads (fun _ => true) [(4, two_groups), (100, one_group), (5, init)] 0
        dazukofs_ctrl_open).map (fun r => (r.1, r.2.1))
      = some ("0:av\n1:dlp\n".toList, 11) := by
  obtain ⟨k, hk, hget⟩ := get_groups_all_ok (fun _ => true) two_groups (by decide)
    (fun _ => rfl)
  have h := (C22_ctrl_read_snapshot (fun _ => true) two_groups _ hget).2.2.2.2.2.1
    [(100, one_group), (5, init)] 4
  have hl : groups_listing two_groups.group_list = "0:av\n1:dlp\n".toList := by decide
  rw [h, cstr_append_nul _ k hk (by rw [hl]; decide), hl]
  rfl
/-- C23 (amended).  For every read on a group device at the file position 0
(a position that is not positive) with a buffer shorter than 43 bytes,
`dazukofs_group_read` returns -EINVAL and claims no event: nothing is copied
and the state is unchanged.  At a positive file position, where a successful
read leaves the file, the position is tested first: the read returns 0 for
every buffer length, also a short one, and claims no event either. -/
theorem C23_short_read (env : OpenEnv) (copy_ok : Bool) (cur gid length : Nat) (pos : Int)
    (s : State) :
    (pos ≤ 0 → length < 43 →
      dazukofs_group_read env copy_ok cur gid length pos s
        = (s, ReadResult.ret (-EINVAL) [], pos)) ∧
    (0 < pos →
      dazukofs_group_read env copy_ok cur gid length pos s = (s, ReadResult.ret 0 [], pos)) :=
  ⟨(group_read_rejects env copy_ok cur gid length pos s).2,
   (group_read_rejects env copy_ok cur gid length pos s).1⟩

theorem C23_short_read_witness :
    dazukofs_group_read env_ok true 300 0 42 0 one_group_pending
      = (one_group_pending, ReadResult.ret (-EINVAL) [], 0) :=
  (C23_short_read env_ok true 300 0 42 0 one_group_pending).1 (by decide) (by decide)

/-- C23 (as stated) fails: a policy process reads event 1 with a buffer of 43
bytes (the file position becomes 18) and reads again on the same file with a
buffer of 10 bytes; the second read returns 0, not -EINVAL. -/
theorem C23_counterexample :
    (dazukofs_group_read env_ok true 300 0 43 0 one_group_pending).2
      = (ReadResult.ret 18 "id=1\nfd=3\npid=100\n".toList, 18) ∧
    (dazukofs_group_read env_ok true 300 0 10 18
        (dazukofs_group_read env_ok true 300 0 43 0 one_group_pending).1).2
      = (ReadResult.ret 0 [], 18) := by
  decide

/-- C24 (the code departs from it).  One group; after `2^31 - 1` resolved
accesses the process with pid 1234567 opens a file and gets the event id
`2^64 - 2^31`; a policy process reads the event with a buffer of 43 bytes and
the descriptor 12.  The record has 42 characters.  The read succeeds with the
return value 42, and the 42 bytes it copies are the first 41 characters of the
record followed by a NUL: the record is cut and its last newline is missing. -/
theorem C24_record_of_42_is_cut :
    event_record 18446744071562067968 12 1234567
      = "id=18446744071562067968\nfd=12\npid=1234567\n".toList ∧
    (event_record 18446744071562067968 12 1234567).length = 42 ∧
    (dazukofs_group_read env_fd12 true 300 0 43 0 wrapped_pending).2
      = (ReadResult.ret 42 ("id=18446744071562067968\nfd=12\npid=1234567".toList ++ [NUL]), 42) := by
  refine ⟨by decide, by decide, ?_⟩
  rw [group_read_claimed (by decide) (by decide)
    (wrapped_pending_event env_fd12 300 (by decide) (by decide))]
  decide
/-- C25 (amended).  Only the first 18 bytes of a write reach
`dazukofs_group_write`.  For every event id E of at most 11 decimal digits
(E below 10^11) and every digit R, the write of the text of
`"id=%lu\nr=%d\n"` for E and R calls `dazukofs_return_event` with the id E
and ALLOW when R is 0, DENY when R is 1 to 9; it returns the number of bytes
taken (the length of the text, at most 18) when that call returns 0, -EINTR for
-ERESTARTSYS, and the error of the call otherwise.  A write in whose first 18
bytes the key `id=` does not occur, or the key `r=` does not occur behind the
number that follows `id=`, returns -EINVAL without returning any event: the
state is unchanged. -/
theorem C25_group_write_verdict (gid : Nat) (s : State) :
    (∀ E r : Nat, E < 100000000000 → r < 10 →
      dazukofs_group_write true gid (verdict_text E r) s
        = (if (dazukofs_return_event gid E
                (if r = 0 then dazukofs_response_t.ALLOW else dazukofs_response_t.DENY) s).2 = 0
           then
             ((dazukofs_return_event gid E
                (if r = 0 then dazukofs_response_t.ALLOW else dazukofs_response_t.DENY) s).1,
              ((min (verdict_text E r).length 18 : Nat) : Int))
           else if (dazukofs_return_event gid E
                (if r = 0 then dazukofs_response_t.ALLOW else dazukofs_response_t.DENY) s).2
                = -ERESTARTSYS then
             ((dazukofs_return_event gid E
                (if r = 0 then dazukofs_response_t.ALLOW else dazukofs_response_t.DENY) s).1,
              -EINTR)
           else dazukofs_return_event gid E
                (if r = 0 then dazukofs_response_t.ALLOW else dazukofs_response_t.DENY) s)) ∧
    (∀ buffer : List Char, strstr (verdict_tmp buffer) "id=".toList = none →
      dazukofs_group_write true gid buffer s = (s, -EINVAL)) ∧
    (∀ (buffer : List Char) (i : Nat), strstr (verdict_tmp buffer) "id=".toList = some i →
      strstr ((verdict_tmp buffer).drop
        (i + 3 + (simple_strtoul ((verdict_tmp buffer).drop (i + 3))).2)) "r=".toList = none →
      dazukofs_group_write true gid buffer s = (s, -EINVAL)) :=
  ⟨fun E r hE hr => group_write_verdict gid E r s hE hr,
   fun buffer => (group_write_rejects gid buffer s).1,
   fun buffer => (group_write_rejects gid buffer s).2⟩

theorem C25_group_write_verdict_witness :
    verdict_text 1 0 = "id=1\nr=0\n".toList ∧
    (dazukofs_group_write true 0 (verdict_text 1 0)
        (dazukofs_get_event env_ok 300 0 one_group_pending).1).2 = 9 ∧
    (dazukofs_check_access_resume 0
        (dazukofs_group_write true 0 (verdict_text 1 0)
          (dazukofs_get_event env_ok 300 0 one_group_pending).1).1).map Prod.snd = some 0 ∧
    dazukofs_group_write true 0 "r=0\n".toList one_group_pending
      = (one_group_pending, -EINVAL) := by
  have h := C25_group_write_verdict 0 (dazukofs_get_event env_ok 300 0 one_group_pending).1
  have h2 := C25_group_write_verdict 0 one_group_pending
  refine ⟨by decide, ?_, ?_, h2.2.1 _ (by decide)⟩
  · rw [h.1 1 0 (by decide) (by decide)]; decide
  · rw [h.1 1 0 (by decide) (by decide)]; decide

/-- C25 (as stated) fails: the event with the id `2^64 - 2^31` is claimed in
group 0 and the policy process writes the verdict `id=18446744071562067968`,
newline, `r=0`, newline.  Only `id=184467440715620` reaches `tmp`, no `r=` is
found, and the write returns -EINVAL without a call of
`dazukofs_return_event`. -/
theorem C25_counterexample :
    (dazukofs_get_event env_ok 300 0 wrapped_pending).2
      = GetResult.ok 18446744071562067968 3 1234567 ∧
    verdict_text 18446744071562067968 0 = "id=18446744071562067968\nr=0\n".toList ∧
    verdict_tmp (verdict_text 18446744071562067968 0) = "id=184467440715620".toList ++ [NUL] ∧
    dazukofs_group_write true 0 (verdict_text 18446744071562067968 0)
        (dazukofs_get_event env_ok 300 0 wrapped_pending).1
      = ((dazukofs_get_event env_ok 300 0 wrapped_pending).1, -EINVAL) :=
  ⟨wrapped_pending_event env_ok 300 (by decide) (by decide), by decide, by decide,
   group_write_long_id 0 _⟩
/-- C26 (amended).  When a policy process that claimed an event closes its
group device without writing a verdict, nothing is put back on the todo list:
`dazukofs_group_release` only ends the tracking of the handle.  Unless the
close is that of the last registered handle of a tracking group (which removes
the group), the todo list and the working list of the group, the other groups,
the events and the waiters are as before the close: the claimed container stays
on the working list, a read after the close returns what it would have returned
before it, the blocked `dazukofs_check_access` can go on exactly when it could
before, and `dazukofs_return_event` answers a verdict as before the close. -/
theorem C26_close_keeps_claim (gid : Nat) (private_data : Bool) (s : State)
    (pre post : List dazukofs_group) (grp : dazukofs_group)
    (hf : list_find (is_group gid) s.group_list = some (pre, grp, post))
    (hkeep : private_data = false ∨ grp.tracking = 0 ∨ grp.track_count - 1 ≠ 0) :
    (∃ g2 : dazukofs_group,
      dazukofs_group_release gid private_data s = { s with group_list := pre ++ g2 :: post } ∧
      g2.todo_list = grp.todo_list ∧ g2.working_list = grp.working_list) ∧
    queues_view (dazukofs_group_release gid private_data s) = queues_view s ∧
    (∀ (env : OpenEnv) (cur : Nat),
      (dazukofs_get_event env cur gid (dazukofs_group_release gid private_data s)).2
        = (dazukofs_get_event env cur gid s).2) ∧
    (∀ e : Nat,
      (dazukofs_check_access_resume e (dazukofs_group_release gid private_data s)).map Prod.snd
        = (dazukofs_check_access_resume e s).map Prod.snd) ∧
    (∀ (id : Nat) (r : dazukofs_response_t),
      (dazukofs_return_event gid id r (dazukofs_group_release gid private_data s)).2
        = (dazukofs_return_event gid id r s).2) := by
  obtain ⟨g2, h, ht, hw, hd, hi, _⟩ := group_release_keeps private_data hf hkeep
  have hf2 : list_find (is_group gid) (dazukofs_group_release gid private_data s).group_list
      = some (pre, g2, post) := by
    rw [h]; exact find_group_replace hf hd hi
  have he : (dazukofs_group_release gid private_data s).events = s.events := by rw [h]
  refine ⟨⟨g2, h, ht, hw⟩, ?_, ?_, ?_, ?_⟩
  · rw [h]
    simp only [queues_view]
    rw [(list_find_some hf).1]
    simp [ht, hw]
  · intro env cur
    exact get_event_result_of_todo hf hf2 ht he
  · intro e
    rw [h]
    exact resume_result_of_events e s _
  · intro id r
    exact return_event_result_of_working hf hf2 hw he

theorem C26_close_keeps_claim_witness :
    queues_view (dazukofs_group_release 0 true tracked_claim) = [([], [{ event := 0, fd := 3 }])] ∧
    (dazukofs_get_event env_ok 301 0 (dazukofs_group_release 0 true tracked_claim)).2
      = GetResult.blocked ∧
    (dazukofs_check_access_resume 0 (dazukofs_group_release 0 true tracked_claim)).map Prod.snd
      = none := by
  have h := C26_close_keeps_claim 0 true tracked_claim [] []
    { name := "av", group_id := 0, todo_list := [], working_list := [{ event := 0, fd := 3 }],
      use_count := 2, tracking := 1, track_count := 2, deprecated := 0 }
    (by decide) (Or.inr (Or.inr (by decide)))
  exact ⟨h.2.1.trans (by decide), (h.2.2.1 env_ok 301).trans (by decide),
    (h.2.2.2.1 0).trans (by decide)⟩

/-- C26 (as stated) fails: a policy process opens the device of the only group,
reads event 1 and closes the device without a verdict.  The container is still
on the working list and the todo list is empty, a read by another process
sleeps instead of returning event 1, and the blocked `dazukofs_check_access`
cannot go on. -/
theorem C26_counterexample :
    (dazukofs_get_event env_ok 300 0 (dazukofs_group_open 0 one_group_pending).1).2
      = GetResult.ok 1 3 100 ∧
    queues_view closed_with_claim = [([], [{ event := 0, fd := 3 }])] ∧
    (dazukofs_get_event env_ok 301 0 closed_with_claim).2 = GetResult.blocked ∧
    closed_with_claim.waiters = [0] ∧
    (dazukofs_check_access_resume 0 closed_with_claim).isSome = false := by
  decide
/-- C27.  In every state, `mask_proc` followed by `check_recursion` in the
same process returns 0 (recursion), leaves the recursion mask as it was before
`mask_proc` (exactly the new entry is unlinked), clears the `within_list` flag
of that entry and touches no other entry.  If the process had no entry before
(and the mask holds no dangling pointer), a second `check_recursion` returns 1
and changes nothing.  The access check that the open inside `open_file`
triggers therefore returns 0 without fan-out (the state is unchanged but for
the mask), and the mask after `open_file` is the mask before it, for every
environment: no descriptor, open not reaching `dazukofs_check_access`, open
reaching it, open failing or succeeding. -/
theorem C27_mask_round_trip (cur : Nat) (s : State) :
    (check_recursion cur (mask_proc cur s).1).2 = 0 ∧
    (check_recursion cur (mask_proc cur s).1).1.proc_list = s.proc_list ∧
    (proc_at (check_recursion cur (mask_proc cur s).1).1 (mask_proc cur s).2).within_list = 0 ∧
    (∀ b, b ≠ (mask_proc cur s).2 →
      proc_at (check_recursion cur (mask_proc cur s).1).1 b = proc_at s b) ∧
    (¬ masked cur s → (∀ b ∈ s.proc_list, b < s.procs.length) →
      check_recursion cur (check_recursion cur (mask_proc cur s).1).1
        = ((check_recursion cur (mask_proc cur s).1).1, 1)) ∧
    (∀ (evt_ok : Bool) (ec_fail : Option Nat) (dentry : Nat),
      (dazukofs_check_access evt_ok ec_fail cur dentry (mask_proc cur s).1).2
        = Outcome.returned 0 ∧
      same_but_mask s
        (dazukofs_check_access evt_ok ec_fail cur dentry (mask_proc cur s).1).1) ∧
    (∀ (env : OpenEnv) (i : Nat) (ec : dazukofs_event_container),
      (open_file env cur i ec s).1.proc_list = s.proc_list) := by
  have ha : (mask_proc cur s).2 = s.procs.length := rfl
  refine ⟨?_, ?_, ?_, ?_, ?_, ?_, ?_⟩
  · rw [check_recursion_after_mask]
  · rw [check_recursion_after_mask]
  · rw [proc_at_after_mask, ha, if_pos rfl]
  · intro b hb
    rw [ha] at hb
    rw [proc_at_after_mask, if_neg hb]
  · intro hm hwf
    exact check_recursion_twice cur s hm hwf
  · intro evt_ok ec_fail dentry
    rw [nested_check_access]
    exact ⟨rfl, same_but_mask_trans (mask_proc_frame cur s) (precheck_frame _ _ _)⟩
  · intro env i ec
    exact open_file_proc_list env cur i ec s

theorem C27_mask_round_trip_witness :
    check_recursion 5 (check_recursion 5 (mask_proc 5 one_group).1).1
      = ((check_recursion 5 (mask_proc 5 one_group).1).1, 1) :=
  (C27_mask_round_trip 5 one_group).2.2.2.2.1 (by
    rintro ⟨a, ha, hc⟩
    simp only [one_group, init, List.mem_singleton] at ha
    subst ha
    revert hc
    decide) (by decide)
/-- C28 (amended).  A `dazukofs_add_group` of a name that no registered
(non-deprecated) group holds always returns, whatever its result, and leaves
no deprecated group with `use_count` 0 linked: the list afterwards is the old
one without those groups, followed by the new group if one was made.  (When the
name is already registered the scan stops at its holder, and deprecated groups
behind it stay linked.)  In particular, from a reachable state where the name
is free, the registry has room and no group of that name has a holder, after
add(NAME), del(NAME), add(NAME) with successful allocations exactly one group
named NAME is linked, the new one. -/
theorem C28_add_group_reaps (s : State) (hr : Reachable s) (name : String)
    (hname : ∀ g ∈ nondep s.group_list, g.name ≠ name) :
    (∀ (alloc_ok : Bool) (track : Int),
      ∃ s2 r id, dazukofs_add_group alloc_ok name track s = some (s2, r) ∧
        (s2.group_list = s.group_list.filter (fun g => !reapable g) ∨
         s2.group_list
           = s.group_list.filter (fun g => !reapable g) ++ [new_group name id track]) ∧
        ∀ g ∈ s2.group_list, ¬ (g.deprecated ≠ 0 ∧ g.use_count = 0)) ∧
    (∀ track track2 : Int,
      ((nondep s.group_list).length : Int) < GROUP_COUNT →
      (∀ g ∈ s.group_list, g.name = name → g.use_count = 0) →
      ∃ s1 s3 id, dazukofs_add_group true name track s = some (s1, 0) ∧
        dazukofs_add_group true name track2 (dazukofs_remove_group name s1).1 = some (s3, 0) ∧
        s3.group_list.filter (fun g => decide (g.name = name)) = [new_group name id track2] ∧
        ∀ g ∈ s3.group_list, ¬ (g.deprecated ≠ 0 ∧ g.use_count = 0)) := by
  have hk : ∀ g : dazukofs_group, reapable g = false →
      ¬ (g.deprecated ≠ 0 ∧ g.use_count = 0) := by
    intro g h hc
    simp [reapable, hc.1, hc.2] at h
  constructor
  · intro alloc_ok track
    obtain ⟨s2, r, id, h1, h2, h3⟩ := add_group_reaps alloc_ok name track s hname
    exact ⟨s2, r, id, h1, h2, fun g hg => hk g (h3 g hg)⟩
  · intro track track2 hroom hhold
    obtain ⟨s1, s3, id, h1, h2, h3, h4⟩ := add_remove_add hr name track track2 hname hroom hhold
    exact ⟨s1, s3, id, h1, h2, h3, fun g hg => hk g (h4 g hg)⟩

theorem C28_add_group_reaps_witness :
    (∀ g ∈ nondep removed_behind.group_list, g.name ≠ "dlp") ∧
    ∃ s2 r id, dazukofs_add_group true "dlp" 0 removed_behind = some (s2, r) ∧
      (s2.group_list = removed_behind.group_list.filter (fun g => !reapable g) ∨
       s2.group_list
         = removed_behind.group_list.filter (fun g => !reapable g) ++ [new_group "dlp" id 0]) ∧
      ∀ g ∈ s2.group_list, ¬ (g.deprecated ≠ 0 ∧ g.use_count = 0) :=
  ⟨by decide,
   (C28_add_group_reaps removed_behind
      ⟨[Op.add_group true "av" 0, Op.add_group true "dlp" 0, Op.remove_group "dlp"], rfl⟩
      "dlp" (by decide)).1 true 0⟩

/-- C28 (as stated) fails: after "av" and "dlp" are added and "dlp" is removed,
an `add` of "av" stops its scan at the group "av" and returns 0, and the
deprecated group "dlp" with `use_count` 0 is still linked. -/
theorem C28_counterexample :
    (dazukofs_add_group true "av" 0 removed_behind).map (fun p => (linked_view p.1, p.2))
      = some ([("av", 0, 0), ("dlp", 1, 0)], 0) ∧
    linked_view (run init add_held_name) = [("av", 0, 0), ("dlp", 1, 0)] ∧
    ∃ g ∈ (run init add_held_name).group_list, g.deprecated ≠ 0 ∧ g.use_count = 0 := by
  decide

/-- C29 (the code departs from it).  The open of a tracking group's device
increments `use_count` and is told to undo it at release (`open_tracking`
returns 1); when the group is removed in between,
`dazukofs_group_release_tracking` finds no non-deprecated group of that id and
decrements nothing: the removed group stays linked with `use_count` 1 after its
only handle was closed, and a later `add` cannot reap it. -/
theorem C29_release_after_removal_leaks :
    (dazukofs_group_open_tracking 0 (run init [Op.add_group true "av" 1])).2 = 1 ∧
    linked_view (run init [Op.add_group true "av" 1, Op.open_tracking 0]) = [("av", 0, 1)] ∧
    linked_view (run init [Op.add_group true "av" 1, Op.open_tracking 0,
      Op.remove_group "av"]) = [("av", 1, 1)] ∧
    linked_view (run init close_after_removal) = [("av", 1, 1)] ∧
    linked_view (run init (close_after_removal ++ [Op.add_group true "dlp" 0]))
      = [("av", 1, 1), ("dlp", 0, 0)] := by
  decide
/-- C30 (the code departs from it).  The tracking group "av" with one
registered handle and the group "dlp"; `group_count` is 2.  Process 100 opens
a file: the first part of `dazukofs_check_access` allocates the event and two
containers.  Before the fan-out the handle on "av" is closed:
`dazukofs_group_release_tracking` removes the group and `group_count` becomes
1, which is the number of non-deprecated groups.  The fan-out then visits one
group and reads `ec_array[0]` only: two containers were allocated, one is
linked, and `assigned` is 1. -/
theorem C30_release_between_allocate_and_assign :
    tracked_and_plain.group_count = 2 ∧
    (check_access_allocate true none 100 7 tracked_and_plain).2
      = AllocResult.ready 0 [zero_container, zero_container] ∧
    released_before_assign.group_count = 1 ∧
    (nondep released_before_assign.group_list).length = 1 ∧
    assign_reads 0 released_before_assign.group_list = [0] ∧
    (check_access_assign 0 [zero_container, zero_container] released_before_assign).2
      = Outcome.waiting 0 ∧
    refs 0 (check_access_assign 0 [zero_container, zero_container]
      released_before_assign).1.group_list = 1 ∧
    event_assigned (check_access_assign 0 [zero_container, zero_container]
      released_before_assign).1 0 = 1 := by
  decide

end Dazukofs
